import Mathlib

/-!
# Verification of the rethinkdb store access protocol (unittest/mock_store.cc)

The development embeds `mock_store_t` of `src/unittest/mock_store.cc`.

* `std::map` is an association list kept in strictly ascending key order
  (`std_map`); `find`, `operator[]` assignment and `lower_bound` are the list
  versions of the tree operations.
* A member function is a state transformer over a `frame`: the store object
  (`self`), the admission token passed by pointer, the interruptor and the
  out-parameter.  It ends by returning, by raising `interrupted_exc_t`, or by a
  failed `guarantee` (`crashed`).
* `rng_` is the list of the raw numbers the generator will produce; the
  interruptor is the number of blocking points that still pass before the
  signal is pulsed, or `none` when it is never pulsed.  Quantifying over both
  covers every run.
* The debug build is embedded (`DEBUG_ONLY` parameters present).  The
  `rassert(region_is_superset(get_region(), ...))` lines state preconditions
  that hold for every mock store, whose region is `region_t::universe()`
  (line 60); they are not failure points of the embedding.  The fifo enforcer
  and `order_sink_` only order concurrent callers and do not touch the table.
-/

namespace std_map

variable {K V : Type}

/-- Strictly ascending keys: the representation invariant of `std::map`. -/
def ordered [LinearOrder K] (m : List (K × V)) : Prop :=
  m.Pairwise (fun a b => a.1 < b.1)

/-- The member `find`: the mapped value of the entry with key `k`, if any. -/
def find [LinearOrder K] : List (K × V) → K → Option V
  | [], _ => none
  | (k', v) :: m, k => if k' = k then some v else find m k

/-- The statement `m[k] = v`: insert or overwrite, keeping key order. -/
def assign [LinearOrder K] : List (K × V) → K → V → List (K × V)
  | [], k, v => [(k, v)]
  | (k', v') :: m, k, v =>
    if k < k' then (k, v) :: (k', v') :: m
    else if k = k' then (k, v) :: m
    else (k', v') :: assign m k v

/-- The member `lower_bound`: the entries from the first key not below `k` on. -/
def lower_bound [LinearOrder K] (m : List (K × V)) (k : K) : List (K × V) :=
  m.dropWhile (fun e => decide (e.1 < k))

end std_map

/-- Timestamps `repli_timestamp_t` are unsigned counters compared by `<`. -/
abbrev repli_timestamp_t := Nat

/-- A `state_timestamp_t` wraps the same counter. -/
structure state_timestamp_t where
  num : Nat
deriving DecidableEq, Repr

/-- Conversion `state_timestamp_t::to_repli_timestamp`. -/
def state_timestamp_t.to_repli_timestamp (t : state_timestamp_t) : repli_timestamp_t :=
  t.num

/-- A `transition_timestamp_t` names the step from `before` to the next state. -/
structure transition_timestamp_t where
  before : state_timestamp_t
deriving DecidableEq, Repr

/-- Modelled from the spec: `transition_timestamp_t::timestamp_after` is declared
outside the sources; the recency of a write is the state timestamp that follows
`before`. -/
def transition_timestamp_t.timestamp_after (t : transition_timestamp_t) : state_timestamp_t :=
  ⟨t.before.num + 1⟩

/-- A `counted_t<T>` is a shared pointer: empty or holding a value. -/
abbrev counted_t (α : Type) := Option α

/-- The member `counted_t::has`. -/
def counted_t.has {α : Type} (p : counted_t α) : Bool := p.isSome

/-- The metainfo blobs `binary_blob_t` are opaque byte strings. -/
abbrev binary_blob_t := List Nat

/-- Modelled from the spec: `key_range_t` is declared outside the sources; a key
range is closed on the left and open or unbounded (`none`) on the right. -/
structure key_range_t (K : Type) where
  left : K
  right : Option K
deriving DecidableEq, Repr

/-- Modelled from the spec: `hash_region_t<key_range_t>` is declared outside the
sources; a region is a hash sub-range `[beg, end)` times a key sub-range. -/
structure hash_region_t (K : Type) where
  beg : Nat
  end_ : Nat
  inner : key_range_t K
deriving DecidableEq, Repr

/-- Modelled from the spec: `key_range_t::contains_key`, membership of a key in
the half-open range. -/
def key_range_t.contains_key {K : Type} [LinearOrder K] (r : key_range_t K) (k : K) : Bool :=
  decide (r.left ≤ k) &&
    (match r.right with
     | none => true
     | some x => decide (k < x))

/-- Membership of a point (hash value, key) in a region. -/
def region_contains_point {K : Type} [LinearOrder K] (r : hash_region_t K) (p : Nat × K) : Bool :=
  decide (r.beg ≤ p.1) && decide (p.1 < r.end_) && r.inner.contains_key p.2

/-- Modelled from the spec: `region_contains_key`, the key lies in the region by
key range and by the hash of the key (`hasher` is `hash_region_hasher`). -/
def region_contains_key {K : Type} [LinearOrder K] (hasher : K → Nat)
    (r : hash_region_t K) (k : K) : Bool :=
  region_contains_point r (hasher k, k)

/-- Modelled from the spec: `region_map_t<V>` is declared outside the sources; it
is a list of regions, each tagged with a value. -/
structure region_map_t (K V : Type) where
  regions_and_values : List (hash_region_t K × V)
deriving DecidableEq, Repr

section regions

variable {K V : Type}

/-- The smaller of two right bounds, `none` being unbounded. -/
def right_bound_min [LinearOrder K] : Option K → Option K → Option K
  | none, y => y
  | some x, none => some x
  | some x, some y => some (min x y)

/-- The larger of two right bounds, `none` being unbounded. -/
def right_bound_max [LinearOrder K] : Option K → Option K → Option K
  | none, _ => none
  | some _, none => none
  | some x, some y => some (max x y)

/-- Modelled from the spec: `key_range_t::is_empty`, no key lies in the range. -/
def key_range_t.is_empty [LinearOrder K] (r : key_range_t K) : Bool :=
  match r.right with
  | none => false
  | some x => decide (x ≤ r.left)

/-- Modelled from the spec: `region_intersection` of two key ranges. -/
def key_range_t.intersection [LinearOrder K] (a b : key_range_t K) : key_range_t K :=
  ⟨max a.left b.left, right_bound_min a.right b.right⟩

/-- Modelled from the spec: `region_is_empty`, no point lies in the region. -/
def region_is_empty [LinearOrder K] (r : hash_region_t K) : Bool :=
  decide (r.end_ ≤ r.beg) || r.inner.is_empty

/-- Modelled from the spec: `region_intersection` of two regions. -/
def region_intersection [LinearOrder K] (a b : hash_region_t K) : hash_region_t K :=
  ⟨max a.beg b.beg, min a.end_ b.end_, a.inner.intersection b.inner⟩

/-- Modelled from the spec: the key range `j` without the key range `s`: what
lies left of `s` and what lies right of it, empty pieces dropped. -/
def key_range_t.subtract [LinearOrder K] (j s : key_range_t K) : List (key_range_t K) :=
  (⟨j.left, right_bound_min j.right (some s.left)⟩ ::
    (match s.right with
     | none => []
     | some x => [⟨max j.left x, j.right⟩])).filter (fun r => !r.is_empty)

/-- Modelled from the spec: the region `j` without the region `s`: the hash
band of `j` below `s`, the hash band of `j` above `s`, and in the common hash
band the keys of `j` outside `s`; empty pieces are dropped. -/
def region_subtract [LinearOrder K] (j s : hash_region_t K) : List (hash_region_t K) :=
  ((⟨j.beg, min j.end_ s.beg, j.inner⟩ : hash_region_t K) ::
    ⟨max j.beg s.end_, j.end_, j.inner⟩ ::
    (j.inner.subtract s.inner).map
      (fun i => (⟨max j.beg s.beg, min j.end_ s.end_, i⟩ : hash_region_t K))).filter
    (fun r => !region_is_empty r)

/-- Modelled from the spec: `region_subtract_many`, the minuend without every
subtrahend, as a list of regions. -/
def region_subtract_many [LinearOrder K] (minuend : hash_region_t K)
    (subtrahends : List (hash_region_t K)) : List (hash_region_t K) :=
  subtrahends.foldl (fun buf s => buf.flatMap (fun j => region_subtract j s)) [minuend]

/-- The smallest key `store_key_t::min()` bounds the universe of keys. -/
def key_range_t.universe [LinearOrder K] [OrderBot K] : key_range_t K := ⟨⊥, none⟩

/-- The number of hash values, `HASH_REGION_HASH_SIZE`. -/
def HASH_REGION_HASH_SIZE : Nat := 2 ^ 63

/-- Modelled from the spec: `region_t::universe()`, every hash value and key. -/
def hash_region_t.universe [LinearOrder K] [OrderBot K] : hash_region_t K :=
  ⟨0, HASH_REGION_HASH_SIZE, key_range_t.universe⟩

/-- Modelled from the spec: the default region `hash_region_t()`, which is empty. -/
def hash_region_t.empty [LinearOrder K] [OrderBot K] : hash_region_t K :=
  ⟨0, 0, ⟨⊥, some ⊥⟩⟩

/-- The bounding rectangle of two regions. -/
def region_bounding [LinearOrder K] (a b : hash_region_t K) : hash_region_t K :=
  ⟨min a.beg b.beg, max a.end_ b.end_,
    ⟨min a.inner.left b.inner.left, right_bound_max a.inner.right b.inner.right⟩⟩

namespace region_map_t

/-- Modelled from the spec: `region_map_t::get_domain`, the join of the regions of
the map; the regions of a region map tile a rectangle, which is their bounding
rectangle. -/
def get_domain [LinearOrder K] [OrderBot K] (m : region_map_t K V) : hash_region_t K :=
  match m.regions_and_values with
  | [] => hash_region_t.empty
  | p :: rest => rest.foldl (fun acc q => region_bounding acc q.1) p.1

/-- Modelled from the spec: `region_map_t::mask`, the sub-map masked to `region`:
every region is cut down to `region` and dropped when nothing is left. -/
def mask [LinearOrder K] (m : region_map_t K V) (region : hash_region_t K) : region_map_t K V :=
  ⟨m.regions_and_values.filterMap (fun p =>
    if region_is_empty (region_intersection p.1 region) then none
    else some (region_intersection p.1 region, p.2))⟩

/-- Modelled from the spec: `region_map_t::update`, which overwrites exactly the
domain of `new_values` and leaves the domain outside it untouched: the old
regions are cut down to what lies outside the new regions, and the new pairs are
added. -/
def update [LinearOrder K] (m new_values : region_map_t K V) : region_map_t K V :=
  ⟨m.regions_and_values.flatMap (fun p =>
      (region_subtract_many p.1 (new_values.regions_and_values.map Prod.fst)).map
        (fun r => (r, p.2))) ++
    new_values.regions_and_values⟩

/-- The value of the map at a point: the tag of the region that holds the point. -/
def lookup [LinearOrder K] (m : region_map_t K V) (p : Nat × K) : Option V :=
  (m.regions_and_values.find? (fun e => region_contains_point e.1 p)).map Prod.snd

/-- Membership of a point in the domain of the map. -/
def in_domain [LinearOrder K] (m : region_map_t K V) (p : Nat × K) : Bool :=
  m.regions_and_values.any (fun e => region_contains_point e.1 p)

end region_map_t

end regions

/-- Modelled from the spec: `ql::datum_t` is declared outside the sources; the
alternatives of a datum that the store and its helpers meet. -/
inductive datum_t where
  | R_NULL : datum_t
  | R_BOOL : Bool → datum_t
  | R_STR : String → datum_t
  | R_ARRAY : List datum_t → datum_t
  | R_OBJECT : List (String × datum_t) → datum_t

/-- Modelled from the spec: `datum_t::get(key)`, the field of an object; it fails
on a missing field and on a datum that is not an object. -/
def datum_t.get (d : datum_t) (key : String) : Option datum_t :=
  match d with
  | datum_t.R_OBJECT m => std_map.find m key
  | _ => none

/-- Modelled from the spec: `datum_t::as_str`, the string of a string datum; it
fails on any other datum. -/
def datum_t.as_str (d : datum_t) : Option String :=
  match d with
  | datum_t.R_STR s => some s
  | _ => none

/-- A point read names one key. -/
structure point_read_t (K : Type) where
  key : K

/-- The variant `read_t::read`: a point read or another kind of read. -/
inductive read_t (K : Type) where
  | point_read : point_read_t K → read_t K
  | other_read : read_t K

/-- The answer to a point read. -/
structure point_read_response_t where
  data : counted_t datum_t

/-- The variant `read_response_t::response`. -/
inductive read_response_variant_t where
  | point_read_response : point_read_response_t → read_response_variant_t
  | other_response : read_response_variant_t

/-- The out-parameter of `read`. -/
structure read_response_t where
  n_shards : Nat
  response : read_response_variant_t

/-- A point write: key, datum and the overwrite flag. -/
structure point_write_t (K : Type) where
  key : K
  data : counted_t datum_t
  overwrite : Bool

/-- The variant `write_t::write`: a point write or another kind of write. -/
inductive write_t (K : Type) where
  | point_write : point_write_t K → write_t K
  | other_write : write_t K

/-- The result of a point write. -/
inductive point_write_result_t where
  | STORED : point_write_result_t
  | DUPLICATE : point_write_result_t
deriving DecidableEq, Repr

/-- The answer to a point write; `result` is unset in a fresh response. -/
structure point_write_response_t where
  result : Option point_write_result_t
deriving DecidableEq, Repr

/-- The variant `write_response_t::response`. -/
inductive write_response_variant_t where
  | point_write_response : point_write_response_t → write_response_variant_t
  | other_response : write_response_variant_t
deriving DecidableEq, Repr

/-- The out-parameter of `write`. -/
structure write_response_t where
  n_shards : Nat
  response : write_response_variant_t
deriving DecidableEq, Repr

/-- A backfill atom: key, value snapshot and recency. -/
structure backfill_atom_t (K : Type) where
  key : K
  value : counted_t datum_t
  recency : repli_timestamp_t

/-- The variant `backfill_chunk_t::val`: key-value pairs or another kind of chunk. -/
inductive backfill_chunk_t (K : Type) where
  | key_value_pairs : List (backfill_atom_t K) → backfill_chunk_t K
  | other_chunk : backfill_chunk_t K

/-- The debug parameter `metainfo_checker_t`: a domain and the callback check. -/
structure metainfo_checker_t (K : Type) where
  get_domain : hash_region_t K
  check_metainfo : region_map_t K binary_blob_t → Bool

/-- The callback `send_backfill_callback_t`; what `send_chunk` receives is
recorded in the frame. -/
structure send_backfill_callback_t (K : Type) where
  should_backfill : region_map_t K binary_blob_t → Bool

namespace unittest

/-- How a call ends: it returns, it raises `interrupted_exc_t`, or a `guarantee`
fails and the process is aborted. -/
inductive exit_t (α : Type) where
  | returned : α → exit_t α
  | interrupted_exc_t : exit_t α
  | crashed : exit_t α
deriving DecidableEq, Repr

/-- A computation over the mutable state `σ`. -/
def coro_t (σ α : Type) : Type := σ → exit_t α × σ

/-- What follows a step: the rest runs after a return; an exception or a crash
skips it. -/
def coro_t.bind_step {σ α β : Type} (g : α → coro_t σ β) : exit_t α × σ → exit_t β × σ
  | (exit_t.returned a, s') => g a s'
  | (exit_t.interrupted_exc_t, s') => (exit_t.interrupted_exc_t, s')
  | (exit_t.crashed, s') => (exit_t.crashed, s')

/-- Sequencing of two computations. -/
def coro_t.bind {σ α β : Type} (m : coro_t σ α) (g : α → coro_t σ β) : coro_t σ β :=
  fun s => coro_t.bind_step g (m s)

instance coro_t.instMonad {σ : Type} : Monad (coro_t σ) where
  pure a := fun s => (exit_t.returned a, s)
  bind := coro_t.bind

/-- The `object_buffer_t` of an admission token: `has` tells whether the token is
still held. -/
structure object_buffer_t where
  has : Bool
deriving DecidableEq, Repr

/-- The member `object_buffer_t::reset`: the token is released. -/
def object_buffer_t.reset (_b : object_buffer_t) : object_buffer_t := ⟨false⟩

/-- The state of `mock_store_t`: the table, the metainfo and the generator. -/
structure mock_store_t (K V : Type) where
  table_ : List (K × (repli_timestamp_t × counted_t V))
  metainfo_ : region_map_t K binary_blob_t
  rng_ : List Nat

/-- What a member function call can read and change. -/
structure frame (K V ρ : Type) where
  self : mock_store_t K V
  token : object_buffer_t
  interruptor : Option Nat
  out : ρ

section primitives

variable {K V ρ : Type}

/-- The call `rng_.randint(n)`: the next raw number, reduced below `n`. -/
def randint (n : Nat) : coro_t (frame K V ρ) Nat :=
  fun f =>
    match f.self.rng_ with
    | [] => (exit_t.returned 0, f)
    | x :: rest => (exit_t.returned (x % n), { f with self := { f.self with rng_ := rest } })

/-- A blocking point that takes the interruptor: it raises `interrupted_exc_t`
when the signal is pulsed there; a pulsed signal stays pulsed. -/
def blocking_point : coro_t (frame K V ρ) Unit :=
  fun f =>
    match f.interruptor with
    | none => (exit_t.returned (), f)
    | some 0 => (exit_t.interrupted_exc_t, f)
    | some (n + 1) => (exit_t.returned (), { f with interruptor := some n })

/-- The call `wait_interruptible(token->get(), interruptor)`. -/
def wait_interruptible : coro_t (frame K V ρ) Unit := blocking_point

/-- The call `nap(ms, interruptor)`. -/
def nap (_ms : Nat) : coro_t (frame K V ρ) Unit := blocking_point

/-- The recurring statement `if (rng_.randint(2) == 0) nap(rng_.randint(10), interruptor);`. -/
def maybe_nap : coro_t (frame K V ρ) Unit := do
  let c ← randint 2
  if c = 0 then
    let ms ← randint 10
    nap ms
  else
    pure ()

/-- The generator after `maybe_nap`: one number drawn, and a second one when the
first chose to nap. -/
def nap_rng (r : List Nat) : List Nat :=
  if r.headD 0 % 2 = 0 then r.tail.tail else r.tail

/-- The call `guarantee(cond)`. -/
def guarantee (cond : Bool) : coro_t (frame K V ρ) Unit :=
  fun f => if cond then (exit_t.returned (), f) else (exit_t.crashed, f)

/-- The destructor of a `destruction_sentinel_t`: it runs when the scope is left by
return or by exception, and resets a token that is still held; an aborted
process runs no destructor. -/
def destruction_sentinel_exit {α : Type} :
    exit_t α × frame K V ρ → exit_t α × frame K V ρ
  | (exit_t.returned a, f') =>
    (exit_t.returned a, { f' with token := if f'.token.has then f'.token.reset else f'.token })
  | (exit_t.interrupted_exc_t, f') =>
    (exit_t.interrupted_exc_t,
      { f' with token := if f'.token.has then f'.token.reset else f'.token })
  | (exit_t.crashed, f') => (exit_t.crashed, f')

/-- The scope of a `destruction_sentinel_t destroyer(token)`. -/
def with_destruction_sentinel {α : Type} (body : coro_t (frame K V ρ) α) :
    coro_t (frame K V ρ) α :=
  fun f => destruction_sentinel_exit (body f)

/-- Assignment through the out-parameter. -/
def set_out (g : ρ → ρ) : coro_t (frame K V ρ) Unit :=
  fun f => (exit_t.returned (), { f with out := g f.out })

/-- A change of the store object. -/
def modify_self (g : mock_store_t K V → mock_store_t K V) : coro_t (frame K V ρ) Unit :=
  fun f => (exit_t.returned (), { f with self := g f.self })

/-- A read of the store object. -/
def get_self : coro_t (frame K V ρ) (mock_store_t K V) :=
  fun f => (exit_t.returned f.self, f)

end primitives

section members

variable {K : Type}

/-- The statement `token->main_read_token.reset()`. -/
def reset_token {ρ : Type} : coro_t (frame K datum_t ρ) Unit :=
  fun f => (exit_t.returned (), { f with token := f.token.reset })

/-- The callback call `send_backfill_cb->send_chunk(chunk, interruptor)`: a
blocking point, after which the chunk has been handed over. -/
def send_chunk (chunk : backfill_chunk_t K) :
    coro_t (frame K datum_t (List (backfill_chunk_t K))) Unit := do
  blocking_point
  set_out (fun sent => sent ++ [chunk])

/-- The member `mock_store_t::do_get_metainfo` (lines 76-92). -/
def mock_store_t.do_get_metainfo [LinearOrder K] [OrderBot K] :
    coro_t (frame K datum_t (region_map_t K binary_blob_t)) Unit :=
  with_destruction_sentinel (do
    wait_interruptible
    maybe_nap
    let self ← get_self
    let res := self.metainfo_.mask hash_region_t.universe
    set_out (fun _ => res))

/-- The member `mock_store_t::set_metainfo` (lines 94-111). -/
def mock_store_t.set_metainfo [LinearOrder K] (new_metainfo : region_map_t K binary_blob_t) :
    coro_t (frame K datum_t Unit) Unit :=
  with_destruction_sentinel (do
    wait_interruptible
    maybe_nap
    modify_self (fun self => { self with metainfo_ := self.metainfo_.update new_metainfo }))

/-- The token-guarded block of `mock_store_t::read` (lines 125-153). -/
def mock_store_t.read_block [LinearOrder K] (metainfo_checker : metainfo_checker_t K)
    (read : read_t K) : coro_t (frame K datum_t read_response_t) Unit :=
  with_destruction_sentinel (do
    wait_interruptible
    let self ← get_self
    guarantee (metainfo_checker.check_metainfo
      (self.metainfo_.mask metainfo_checker.get_domain))
    maybe_nap
    match read with
    | read_t.point_read point_read =>
      set_out (fun _ =>
        ⟨1, read_response_variant_t.point_read_response ⟨none⟩⟩)
      let self ← get_self
      match std_map.find self.table_ point_read.key with
      | none =>
        set_out (fun r =>
          { r with response :=
              (read_response_variant_t.point_read_response ⟨some datum_t.R_NULL⟩) })
      | some it =>
        set_out (fun r =>
          { r with response := read_response_variant_t.point_read_response ⟨it.2⟩ })
    | read_t.other_read => guarantee false)

/-- The member `mock_store_t::read` (lines 115-157). -/
def mock_store_t.read [LinearOrder K] (metainfo_checker : metainfo_checker_t K)
    (read : read_t K) : coro_t (frame K datum_t read_response_t) Unit := do
  mock_store_t.read_block metainfo_checker read
  maybe_nap

/-- The token-guarded block of `mock_store_t::write` (lines 173-210). -/
def mock_store_t.write_block [LinearOrder K] (metainfo_checker : metainfo_checker_t K)
    (new_metainfo : region_map_t K binary_blob_t) (write : write_t K)
    (timestamp : transition_timestamp_t) : coro_t (frame K datum_t write_response_t) Unit :=
  with_destruction_sentinel (do
    wait_interruptible
    let self ← get_self
    guarantee (metainfo_checker.check_metainfo
      (self.metainfo_.mask metainfo_checker.get_domain))
    maybe_nap
    match write with
    | write_t.point_write point_write =>
      set_out (fun _ =>
        ⟨1, write_response_variant_t.point_write_response ⟨none⟩⟩)
      guarantee point_write.data.has
      let self ← get_self
      let had_value := (std_map.find self.table_ point_write.key).isSome
      if point_write.overwrite || !had_value then
        modify_self (fun self =>
          { self with table_ := (std_map.assign self.table_ point_write.key
              (timestamp.timestamp_after.to_repli_timestamp, point_write.data)) })
      else
        pure ()
      set_out (fun r =>
        { r with response := (write_response_variant_t.point_write_response
            ⟨some (if had_value then point_write_result_t.DUPLICATE
                   else point_write_result_t.STORED)⟩) })
      modify_self (fun self => { self with metainfo_ := self.metainfo_.update new_metainfo })
    | write_t.other_write => guarantee false)

/-- The member `mock_store_t::write` (lines 159-214). -/
def mock_store_t.write [LinearOrder K] (metainfo_checker : metainfo_checker_t K)
    (new_metainfo : region_map_t K binary_blob_t) (write : write_t K)
    (timestamp : transition_timestamp_t) : coro_t (frame K datum_t write_response_t) Unit := do
  mock_store_t.write_block metainfo_checker new_metainfo write timestamp
  maybe_nap

/-- The body of the inner loop of `send_backfill` for one entry of the snapshot
(lines 256-270). -/
def send_backfill_entry [LinearOrder K] (hasher : K → Nat) (region : hash_region_t K)
    (start_timestamp : repli_timestamp_t) (it : K × (repli_timestamp_t × counted_t datum_t)) :
    coro_t (frame K datum_t (List (backfill_chunk_t K))) Unit := do
  if region_contains_key hasher region it.1 then
    if start_timestamp < it.2.1 then
      send_chunk (backfill_chunk_t.key_value_pairs [⟨it.1, it.2.2, it.2.1⟩])
    else
      pure ()
    maybe_nap
  else
    pure ()

/-- A `for` loop over a list: the body runs for each element in turn. -/
def for_each {σ α : Type} (body : α → coro_t σ Unit) : List α → coro_t σ Unit
  | [] => pure ()
  | x :: rest => do
    body x
    for_each body rest

/-- The entries the inner loop of `send_backfill` visits (lines 253-255): from
`lower_bound(region.inner.left)` on, while the key range of the region holds the
key. -/
def send_backfill_range [LinearOrder K] (region : hash_region_t K)
    (snapshot : List (K × (repli_timestamp_t × counted_t datum_t))) :
    List (K × (repli_timestamp_t × counted_t datum_t)) :=
  (std_map.lower_bound snapshot region.inner.left).takeWhile
    (fun it => region.inner.contains_key it.1)

/-- The member `mock_store_t::send_backfill` (lines 216-278); the registration of
the progress constituent has no effect on the store. -/
def mock_store_t.send_backfill [LinearOrder K] [OrderBot K] (hasher : K → Nat)
    (start_point : region_map_t K state_timestamp_t)
    (send_backfill_cb : send_backfill_callback_t K) :
    coro_t (frame K datum_t (List (backfill_chunk_t K))) Bool :=
  with_destruction_sentinel (do
    wait_interruptible
    let self ← get_self
    let masked_metainfo := self.metainfo_.mask start_point.get_domain
    if send_backfill_cb.should_backfill masked_metainfo then
      let snapshot := self.table_
      maybe_nap
      reset_token
      maybe_nap
      for_each (fun r_it =>
        for_each (send_backfill_entry hasher r_it.1 r_it.2.to_repli_timestamp)
          (send_backfill_range r_it.1 snapshot))
        start_point.regions_and_values
      pure true
    else
      pure false)

/-- The member `mock_store_t::receive_backfill` (lines 280-304). -/
def mock_store_t.receive_backfill [LinearOrder K] (chunk : backfill_chunk_t K) :
    coro_t (frame K datum_t Unit) Unit :=
  with_destruction_sentinel (do
    match chunk with
    | backfill_chunk_t.key_value_pairs backfill_atoms =>
      match backfill_atoms with
      | [atom] =>
        maybe_nap
        modify_self (fun self =>
          { self with table_ := std_map.assign self.table_ atom.key (atom.recency, atom.value) })
        maybe_nap
      | _ => guarantee false
    | backfill_chunk_t.other_chunk => guarantee false)

end members

section helpers

variable {K : Type}

/-- The helper `mock_overwrite` (lines 8-18): an overwriting point write of the
object with the fields `id` and `value`; `store_key_t` builds a key from a
string. -/
def mock_overwrite (store_key_t : String → K) (key value : String) : write_t K :=
  let m : List (String × datum_t) := []
  let m := std_map.assign m "id" (datum_t.R_STR key)
  let m := std_map.assign m "value" (datum_t.R_STR value)
  write_t.point_write ⟨store_key_t key, some (datum_t.R_OBJECT m), true⟩

/-- The helper `mock_read` (lines 20-24). -/
def mock_read (store_key_t : String → K) (key : String) : read_t K :=
  read_t.point_read ⟨store_key_t key⟩

/-- The helper `mock_parse_read_response` (lines 26-36); `none` when a
`guarantee` fails or the datum has no string field `value`. -/
def mock_parse_read_response (rr : read_response_t) : Option String :=
  match rr.response with
  | read_response_variant_t.other_response => none
  | read_response_variant_t.point_read_response prr =>
    match prr.data with
    | none => none
    | some datum_t.R_NULL => some ""
    | some d => (d.get "value").bind datum_t.as_str

/-- The helper `mock_lookup` (lines 38-56): a read with a fresh token, the
trivial metainfo checker over the region of the store and a signal that is
never pulsed, followed by `mock_parse_read_response`. -/
def mock_lookup [LinearOrder K] [OrderBot K] (store_key_t : String → K)
    (store : mock_store_t K datum_t) (key : String) : Option String :=
  let checker : metainfo_checker_t K := ⟨hash_region_t.universe, fun _ => true⟩
  let token : object_buffer_t := ⟨true⟩
  let rr : read_response_t := ⟨0, read_response_variant_t.other_response⟩
  match mock_store_t.read checker (mock_read store_key_t key) ⟨store, token, none, rr⟩ with
  | (exit_t.returned _, f) => mock_parse_read_response f.out
  | _ => none

/-- The member `mock_store_t::values` (lines 335-342). -/
def mock_store_t.values [LinearOrder K] (store_key_t : String → K)
    (self : mock_store_t K datum_t) (key : String) : Option String :=
  match std_map.find self.table_ (store_key_t key) with
  | none => some ""
  | some it =>
    match it.2 with
    | none => none
    | some d => (d.get "value").bind datum_t.as_str

/-- The oldest timestamp, `repli_timestamp_t::distant_past`. -/
def repli_timestamp_distant_past : repli_timestamp_t := 0

/-- The member `mock_store_t::timestamps` (lines 344-350). -/
def mock_store_t.timestamps [LinearOrder K] (store_key_t : String → K)
    (self : mock_store_t K datum_t) (key : String) : repli_timestamp_t :=
  match std_map.find self.table_ (store_key_t key) with
  | none => repli_timestamp_distant_past
  | some it => it.1

/-- The atoms of the chunks handed to `send_chunk`, in the order sent. -/
def sent_atoms (chunks : List (backfill_chunk_t K)) : List (backfill_atom_t K) :=
  chunks.flatMap (fun c =>
    match c with
    | backfill_chunk_t.key_value_pairs backfill_atoms => backfill_atoms
    | backfill_chunk_t.other_chunk => [])

/-- The destination applies the chunks in the order received: one call of
`receive_backfill` for each, with a fresh write token and the given
interruptor. -/
def receive_chunks [LinearOrder K] (interruptor : Option Nat) :
    mock_store_t K datum_t → List (backfill_chunk_t K) → mock_store_t K datum_t
  | store, [] => store
  | store, chunk :: rest =>
    receive_chunks interruptor
      (mock_store_t.receive_backfill chunk ⟨store, ⟨true⟩, interruptor, ()⟩).2.self rest

end helpers

section sent

variable {K : Type}

/-- The chunks the inner loop of `send_backfill` sends for one entry of the
snapshot when it is not interrupted. -/
def entry_chunks [LinearOrder K] (hasher : K → Nat) (region : hash_region_t K)
    (start_timestamp : repli_timestamp_t) (it : K × (repli_timestamp_t × counted_t datum_t)) :
    List (backfill_chunk_t K) :=
  if region_contains_key hasher region it.1 && decide (start_timestamp < it.2.1) then
    [backfill_chunk_t.key_value_pairs [⟨it.1, it.2.2, it.2.1⟩]]
  else []

/-- The chunks the two loops of `send_backfill` send, in order, when they are not
interrupted. -/
def backfill_chunks [LinearOrder K] (hasher : K → Nat)
    (start_point : region_map_t K state_timestamp_t)
    (snapshot : List (K × (repli_timestamp_t × counted_t datum_t))) :
    List (backfill_chunk_t K) :=
  start_point.regions_and_values.flatMap (fun r_it =>
    (send_backfill_range r_it.1 snapshot).flatMap
      (entry_chunks hasher r_it.1 r_it.2.to_repli_timestamp))

/-- The regions of a region map are disjoint: no point lies in two of them. -/
def disjoint_regions [LinearOrder K] {V : Type} (m : region_map_t K V) : Prop :=
  m.regions_and_values.Pairwise (fun a b =>
    ∀ p, ¬ (region_contains_point a.1 p = true ∧ region_contains_point b.1 p = true))

end sent

section assertions

variable {K V ρ : Type}

/-- The assertion that holds of the way a step ended: `Q` after a return, `E`
after `interrupted_exc_t`, `C` after a crash. -/
def exit_post {σ α : Type} (Q : α → σ → Prop) (E C : σ → Prop) : exit_t α × σ → Prop
  | (exit_t.returned a, s') => Q a s'
  | (exit_t.interrupted_exc_t, s') => E s'
  | (exit_t.crashed, s') => C s'

/-- A triple: from every state that satisfies `P`, the computation ends in a
state that satisfies the assertion of its exit. -/
def hoare {σ α : Type} (P : σ → Prop) (m : coro_t σ α) (Q : α → σ → Prop)
    (E C : σ → Prop) : Prop :=
  ∀ s, P s → exit_post Q E C (m s)

/-- The table and the metainfo of the store are `T` and `M`. -/
def data_is (T : List (K × (repli_timestamp_t × counted_t V)))
    (M : region_map_t K binary_blob_t) (f : frame K V ρ) : Prop :=
  f.self.table_ = T ∧ f.self.metainfo_ = M

end assertions

end unittest

namespace unittest

/-- The constructor `mock_store_t::mock_store_t(universe_metainfo)` (lines 59-61):
the table is empty and the metainfo tags the region of the store, the universe,
with `universe_metainfo`; `seed` is what the generator will produce. -/
def mock_store_t.create {K : Type} [LinearOrder K] [OrderBot K]
    (universe_metainfo : binary_blob_t) (seed : List Nat) : mock_store_t K datum_t :=
  ⟨[], ⟨[(hash_region_t.universe, universe_metainfo)]⟩, seed⟩

end unittest

namespace unittest

section among_writers

variable {K : Type}

/-- The recurring statement `if (rng_.randint(2) == 0) nap(rng_.randint(10), interruptor);`
with the blocking call `nap` as a parameter. -/
def maybe_nap_at {V ρ : Type} (nap : Nat → coro_t (frame K V ρ) Unit) :
    coro_t (frame K V ρ) Unit := do
  let c ← randint 2
  if c = 0 then
    let ms ← randint 10
    nap ms
  else
    pure ()

/-- The body of the inner loop of `send_backfill` for one entry of the snapshot
(lines 256-270), with the blocking calls `nap` and `send_chunk` as parameters. -/
def send_backfill_entry_at {ρ : Type} [LinearOrder K]
    (nap : Nat → coro_t (frame K datum_t ρ) Unit)
    (send_chunk : backfill_chunk_t K → coro_t (frame K datum_t ρ) Unit)
    (hasher : K → Nat) (region : hash_region_t K)
    (start_timestamp : repli_timestamp_t) (it : K × (repli_timestamp_t × counted_t datum_t)) :
    coro_t (frame K datum_t ρ) Unit := do
  if region_contains_key hasher region it.1 then
    if start_timestamp < it.2.1 then
      send_chunk (backfill_chunk_t.key_value_pairs [⟨it.1, it.2.2, it.2.1⟩])
    else
      pure ()
    maybe_nap_at nap
  else
    pure ()

/-- The member `mock_store_t::send_backfill` (lines 216-278) with its blocking calls
(the token wait of line 231, the naps of lines 241-247 and 267-269 and the
`send_chunk` of line 265) as parameters. -/
def mock_store_t.send_backfill_at {ρ : Type} [LinearOrder K] [OrderBot K]
    (wait_interruptible : coro_t (frame K datum_t ρ) Unit)
    (nap : Nat → coro_t (frame K datum_t ρ) Unit)
    (send_chunk : backfill_chunk_t K → coro_t (frame K datum_t ρ) Unit)
    (hasher : K → Nat)
    (start_point : region_map_t K state_timestamp_t)
    (send_backfill_cb : send_backfill_callback_t K) :
    coro_t (frame K datum_t ρ) Bool :=
  with_destruction_sentinel (do
    wait_interruptible
    let self ← get_self
    let masked_metainfo := self.metainfo_.mask start_point.get_domain
    if send_backfill_cb.should_backfill masked_metainfo then
      let snapshot := self.table_
      maybe_nap_at nap
      reset_token
      maybe_nap_at nap
      for_each (fun r_it =>
        for_each (send_backfill_entry_at nap send_chunk hasher r_it.1
            r_it.2.to_repli_timestamp)
          (send_backfill_range r_it.1 snapshot))
        start_point.regions_and_values
      pure true
    else
      pure false)

/-- Modelled from the spec: the store is shared by coroutines that run while this
one is blocked. What they do is a schedule: one change of the store object (its
table, its metainfo, its generator) for each blocking point, in order. At a
blocking point among writers the next change of the schedule is applied to the
store, and then the coroutine wakes up as at `blocking_point`. -/
def blocking_point_among_writers {V ρ : Type} :
    coro_t (frame K V (ρ × List (mock_store_t K V → mock_store_t K V))) Unit :=
  fun f =>
    match f.out.2 with
    | [] => blocking_point f
    | g :: rest => blocking_point { f with self := g f.self, out := (f.out.1, rest) }

/-- The call `nap(ms, interruptor)` among writers. -/
def nap_among_writers {V ρ : Type} (_ms : Nat) :
    coro_t (frame K V (ρ × List (mock_store_t K V → mock_store_t K V))) Unit :=
  blocking_point_among_writers

/-- The callback call `send_backfill_cb->send_chunk(chunk, interruptor)` among
writers: a blocking point, after which the chunk has been handed over. -/
def send_chunk_among_writers (chunk : backfill_chunk_t K) :
    coro_t (frame K datum_t
      (List (backfill_chunk_t K) × List (mock_store_t K datum_t → mock_store_t K datum_t)))
      Unit := do
  blocking_point_among_writers
  set_out (fun o => (o.1 ++ [chunk], o.2))

/-- The store object when the first blocking point among writers is over. -/
def store_after_wait {V ρ : Type}
    (f : frame K V (ρ × List (mock_store_t K V → mock_store_t K V))) : mock_store_t K V :=
  match f.out.2 with
  | [] => f.self
  | g :: _ => g f.self

/-- What a run among writers keeps true: the chunks handed over so far, and that
a run that started with a quiet interruptor still has one. -/
def sent_so_far (q : Prop) (X : List (backfill_chunk_t K))
    (s : frame K datum_t
      (List (backfill_chunk_t K) × List (mock_store_t K datum_t → mock_store_t K datum_t))) :
    Prop :=
  s.out.1 = X ∧ (q → s.interruptor = none)

/-- How an interrupted run among writers ends: the interruptor was not quiet, and
the chunks handed over are the first chunks of `total`. -/
def sent_start_of (q : Prop) (total : List (backfill_chunk_t K))
    (s : frame K datum_t
      (List (backfill_chunk_t K) × List (mock_store_t K datum_t → mock_store_t K datum_t))) :
    Prop :=
  ¬ q ∧ s.out.1 <+: total

end among_writers

end unittest

namespace std_map

variable {K V : Type}

/-- The member `insert`: the entry is added unless its key is present; a position
hint only guides the search. -/
def insert [LinearOrder K] (m : List (K × V)) (k : K) (v : V) : List (K × V) :=
  if (find m k).isSome then m else assign m k v

end std_map

namespace ql

/-- Modelled from the spec: `archive_result_t` is declared outside the sources; the
outcome of a deserialization. -/
inductive archive_result_t where
  | SUCCESS : archive_result_t
  | SOCK_ERROR : archive_result_t
  | SOCK_EOF : archive_result_t
  | RANGE_ERROR : archive_result_t
deriving DecidableEq, Repr

/-- Modelled from the spec: `bad(res)` holds of every result but SUCCESS. -/
def bad (res : archive_result_t) : Bool :=
  decide (res ≠ archive_result_t.SUCCESS)

/-- The rest of the input of a `read_stream_t`. -/
abbrev read_stream_t := List Nat

/-- Modelled from the spec: the archive primitives of a type are declared outside
the sources. A `write_message_t` only grows, so `serialize` is given by the bytes
it appends; `deserialize(s, &x)` takes the stream and the object it writes to and
gives the result, the object and the stream afterwards. -/
structure archive_t (α : Type) where
  serialize : α → List Nat
  deserialize : read_stream_t → α → archive_result_t × α × read_stream_t

/-- The round trip of an archive primitive on the values `valid`, read into an
object that holds `fresh`: the bytes written are read back, and nothing of what
follows them is consumed. -/
def archive_t.round_trips {α : Type} (A : archive_t α) (valid : α → Prop) (fresh : α) : Prop :=
  ∀ x rest, valid x →
    A.deserialize (A.serialize x ++ rest) fresh = (archive_result_t.SUCCESS, x, rest)

/-- An entry `rget_item_t` of a stream (lines 35-46). -/
structure rget_item_t (S D : Type) where
  key : S
  sindex_key : counted_t D
  data : counted_t D

/-- The type `stream_t` (line 50). -/
abbrev stream_t (S D : Type) := List (rget_item_t S D)

/-- The type `datums_t` (line 32). -/
abbrev datums_t (D : Type) := List (counted_t D)

/-- The archive primitives `shards.hpp` calls: `serialize<W>` and `deserialize<W>`
of `bool`, of a datum pointer, of `double`, of `stream_t` and of `datums_t`, and
`serialize_varint_uint64` with `deserialize_varint_uint64`. -/
structure archives_t (S D double : Type) where
  bool_ : archive_t Bool
  datum : archive_t (counted_t D)
  varint_uint64 : archive_t Nat
  double_ : archive_t double
  stream : archive_t (stream_t S D)
  datums : archive_t (datums_t D)

section grouped

variable {S D double : Type}

/-- The overload `serialize_grouped(wm, const counted_t<const datum_t> &d)` (lines
92-99). -/
def serialize_grouped_datum (A : archives_t S D double) (d : counted_t D) : List Nat :=
  A.bool_.serialize d.has ++ (if d.has then A.datum.serialize d else [])

/-- The overload `serialize_grouped(wm, uint64_t sz)` (lines 100-103). -/
def serialize_grouped_uint64 (A : archives_t S D double) (sz : Nat) : List Nat :=
  A.varint_uint64.serialize sz

/-- The overload `serialize_grouped(wm, double d)` (lines 104-107). -/
def serialize_grouped_double (A : archives_t S D double) (d : double) : List Nat :=
  A.double_.serialize d

/-- The overload `serialize_grouped(wm, const std::pair<double, uint64_t> &p)` (lines
108-113). -/
def serialize_grouped_pair (A : archives_t S D double) (p : double × Nat) : List Nat :=
  A.double_.serialize p.1 ++ A.varint_uint64.serialize p.2

/-- The overload `serialize_grouped(wm, const stream_t &sz)` (lines 114-117). -/
def serialize_grouped_stream (A : archives_t S D double) (sz : stream_t S D) : List Nat :=
  A.stream.serialize sz

/-- The overload `serialize_grouped(wm, const datums_t &ds)` (lines 118-121). -/
def serialize_grouped_datums (A : archives_t S D double) (ds : datums_t D) : List Nat :=
  A.datums.serialize ds

/-- The overload `deserialize_grouped(s, counted_t<const datum_t> *d)` (lines
123-135); the local `has` is written by the first read. -/
def deserialize_grouped_datum (A : archives_t S D double) (s : read_stream_t)
    (d : counted_t D) : archive_result_t × counted_t D × read_stream_t :=
  let has := A.bool_.deserialize s false
  if bad has.1 then (has.1, d, has.2.2)
  else if has.2.1 then A.datum.deserialize has.2.2 d
  else (archive_result_t.SUCCESS, none, has.2.2)

/-- The overload `deserialize_grouped(s, uint64_t *sz)` (lines 136-139). -/
def deserialize_grouped_uint64 (A : archives_t S D double) (s : read_stream_t) (sz : Nat) :
    archive_result_t × Nat × read_stream_t :=
  A.varint_uint64.deserialize s sz

/-- The overload `deserialize_grouped(s, double *d)` (lines 140-143). -/
def deserialize_grouped_double (A : archives_t S D double) (s : read_stream_t) (d : double) :
    archive_result_t × double × read_stream_t :=
  A.double_.deserialize s d

/-- The overload `deserialize_grouped(s, std::pair<double, uint64_t> *p)` (lines
144-150). -/
def deserialize_grouped_pair (A : archives_t S D double) (s : read_stream_t)
    (p : double × Nat) : archive_result_t × (double × Nat) × read_stream_t :=
  let first := A.double_.deserialize s p.1
  if bad first.1 then (first.1, (first.2.1, p.2), first.2.2)
  else
    let second := A.varint_uint64.deserialize first.2.2 p.2
    (second.1, (first.2.1, second.2.1), second.2.2)

/-- The overload `deserialize_grouped(s, stream_t *sz)` (lines 151-154). -/
def deserialize_grouped_stream (A : archives_t S D double) (s : read_stream_t)
    (sz : stream_t S D) : archive_result_t × stream_t S D × read_stream_t :=
  A.stream.deserialize s sz

/-- The overload `deserialize_grouped(s, datums_t *ds)` (lines 155-158). -/
def deserialize_grouped_datums (A : archives_t S D double) (s : read_stream_t)
    (ds : datums_t D) : archive_result_t × datums_t D × read_stream_t :=
  A.datums.deserialize s ds

/-- The class `grouped_t<T>` (lines 161-218): a `std::map` from group keys to values
of type `T`. -/
structure grouped_t (D T : Type) where
  m : List (counted_t D × T)

/-- The member `grouped_t::rdb_serialize` (lines 165-172); `grouped` is the overload
of `serialize_grouped` for `T`. -/
def grouped_t.rdb_serialize {T : Type} (A : archives_t S D double) (grouped : T → List Nat)
    (self : grouped_t D T) : List Nat :=
  A.varint_uint64.serialize self.m.length ++
    self.m.flatMap (fun it => serialize_grouped_datum A it.1 ++ grouped it.2)

/-- The loop of `rdb_deserialize` (lines 183-190), with `sz - i` rounds to go; `el`
is constructed anew in each round, its value being `T()`. -/
def grouped_t.rdb_deserialize_loop {T : Type} [LinearOrder (counted_t D)]
    (A : archives_t S D double)
    (grouped : read_stream_t → T → archive_result_t × T × read_stream_t) (T0 : T) :
    Nat → read_stream_t → List (counted_t D × T) →
      archive_result_t × List (counted_t D × T) × read_stream_t
  | 0, s, m => (archive_result_t.SUCCESS, m, s)
  | n + 1, s, m =>
    let first := deserialize_grouped_datum A s none
    if bad first.1 then (first.1, m, first.2.2)
    else
      let second := grouped first.2.2 T0
      if bad second.1 then (second.1, m, second.2.2)
      else
        grouped_t.rdb_deserialize_loop A grouped T0 n second.2.2
          (std_map.insert m first.2.1 second.2.1)

/-- The member `grouped_t::rdb_deserialize` (lines 173-193): `none` when the
`guarantee` that the map is empty fails; `size_max` is
`std::numeric_limits<size_t>::max()`. -/
def grouped_t.rdb_deserialize {T : Type} [LinearOrder (counted_t D)]
    (A : archives_t S D double)
    (grouped : read_stream_t → T → archive_result_t × T × read_stream_t) (T0 : T)
    (size_max : Nat) (s : read_stream_t) (self : grouped_t D T) :
    Option (archive_result_t × grouped_t D T × read_stream_t) :=
  if self.m.isEmpty then
    let sz := A.varint_uint64.deserialize s 0
    if bad sz.1 then some (sz.1, self, sz.2.2)
    else if sz.2.1 > size_max then some (archive_result_t.RANGE_ERROR, self, sz.2.2)
    else
      let res := grouped_t.rdb_deserialize_loop A grouped T0 sz.2.1 sz.2.2 self.m
      some (res.1, ⟨res.2.1⟩, res.2.2)
  else none

/-- The member `grouped_t::insert` (lines 203-206). -/
def grouped_t.insert {T : Type} [LinearOrder (counted_t D)] (self : grouped_t D T)
    (val : counted_t D × T) : grouped_t D T :=
  ⟨std_map.insert self.m val.1 val.2⟩

/-- The member `grouped_t::operator[]` (line 214) under an assignment
`g[k] = v`. -/
def grouped_t.assign {T : Type} [LinearOrder (counted_t D)] (self : grouped_t D T)
    (k : counted_t D) (v : T) : grouped_t D T :=
  ⟨std_map.assign self.m k v⟩

/-- The entries of a map are put in one at a time, in the order of the list, each
by `insert` (`false`) or through `operator[]` (`true`). -/
def grouped_t.build {T : Type} [LinearOrder (counted_t D)]
    (entries : List (Bool × counted_t D × T)) : grouped_t D T :=
  entries.foldl
    (fun g e => if e.1 then g.assign e.2.1 e.2.2 else g.insert (e.2.1, e.2.2)) ⟨[]⟩

/-- The archive primitives round-trip: each on the values it can hold, read into
an object as `rdb_deserialize` provides it. -/
def archives_t.round_trip (A : archives_t S D double) : Prop :=
  (∀ old, A.bool_.round_trips (fun _ => True) old) ∧
  A.datum.round_trips (fun d => d.has = true) none ∧
  (∀ old, A.varint_uint64.round_trips (fun n => n < 2 ^ 64) old) ∧
  (∀ old, A.double_.round_trips (fun _ => True) old) ∧
  A.stream.round_trips (fun _ => True) [] ∧
  A.datums.round_trips (fun _ => True) []

end grouped

/-- An archive primitive for the examples: a value is written as the one cell that
encodes it. -/
def cell_archive {α : Type} (encode : α → Nat) (decode : Nat → Option α) : archive_t α :=
  ⟨fun x => [encode x],
    fun s old =>
      match s with
      | [] => (archive_result_t.SOCK_EOF, old, [])
      | n :: rest =>
        match decode n with
        | some x => (archive_result_t.SUCCESS, x, rest)
        | none => (archive_result_t.RANGE_ERROR, old, rest)⟩

/-- The archive primitives of the examples, with numbers for store keys, datums and
doubles. -/
def cell_archives : archives_t Nat Nat Nat :=
  ⟨cell_archive Encodable.encode Encodable.decode,
    cell_archive Encodable.encode Encodable.decode,
    cell_archive Encodable.encode Encodable.decode,
    cell_archive Encodable.encode Encodable.decode,
    cell_archive
      (fun sz => Encodable.encode (sz.map (fun it => (it.key, it.sindex_key, it.data))))
      (fun n => (Encodable.decode n : Option (List (Nat × Option Nat × Option Nat))).map
        (fun l => l.map (fun t => ⟨t.1, t.2.1, t.2.2⟩))),
    cell_archive Encodable.encode Encodable.decode⟩

end ql

namespace containers

/-- Where a `T *` points: nowhere, to a live object, or to storage that holds no
object of type `T`. -/
inductive pointer_t (α : Type) where
  | nullptr : pointer_t α
  | object : α → pointer_t α
  | storage : pointer_t α

/-- The test `p != nullptr`. -/
def pointer_t.is_null {α : Type} : pointer_t α → Bool
  | pointer_t.nullptr => true
  | _ => false

/-- How an access ends: with a value, with a failed `guarantee` (the process is
aborted), or with a read of storage that holds no object (undefined). -/
inductive access_t (α : Type) where
  | value : α → access_t α
  | guarantee_failed : access_t α
  | undefined : access_t α

/-- The dereference `*p`. -/
def pointer_t.deref {α : Type} : pointer_t α → access_t α
  | pointer_t.object x => access_t.value x
  | _ => access_t.undefined

namespace union_details

variable {C : Type}

/-- The union `wrap_t<First, Rest...>` (lines 25-59) over the alternatives `Args`,
`El T` being the objects of type `T`: the object it holds is `first`, or is held
by `rest`. -/
inductive wrap_t (El : C → Type) : List C → Type where
  | first {First : C} {Rest : List C} (x : El First) : wrap_t El (First :: Rest)
  | rest {First : C} {Rest : List C} (r : wrap_t El Rest) : wrap_t El (First :: Rest)

/-- The constant `type_index_t<I, T, Args...>::value` (lines 62-72): `-1` when `T`
is not among `Args`, else `I` plus the position of the first `T`. -/
def type_index_t [DecidableEq C] (I : Int) (T : C) : List C → Int
  | [] => -1
  | First :: Rest => if T = First then I else type_index_t (I + 1) T Rest

/-- The constant `all_different_t<Args...>::value` (lines 95-105). -/
def all_different_t [DecidableEq C] : List C → Bool
  | [] => true
  | First :: Rest =>
    if type_index_t 0 First Rest = -1 then all_different_t Rest else false

/-- The function `get_t<T, Args...>::get` (lines 108-123): the address of the first
member of type `T`. -/
def get_t [DecidableEq C] {El : C → Type} (T : C) :
    (Args : List C) → wrap_t El Args → pointer_t (El T)
  | _, @wrap_t.first _ _ First _ x =>
    if h : T = First then pointer_t.object (h ▸ x) else pointer_t.storage
  | _, @wrap_t.rest _ _ First Rest r =>
    if T = First then pointer_t.storage else get_t T Rest r

/-- The position of the member that holds the object. -/
def wrap_t.active {El : C → Type} : {Args : List C} → wrap_t El Args → Nat
  | _, wrap_t.first _ => 0
  | _, wrap_t.rest r => r.active + 1

/-- The object held, with its type. -/
def wrap_t.held {El : C → Type} : {Args : List C} → wrap_t El Args → (T : C) × El T
  | _, @wrap_t.first _ _ First _ x => ⟨First, x⟩
  | _, wrap_t.rest r => r.held

end union_details

/-- The class `union_t<Args...>` (lines 168-303): the tag and the storage. -/
structure union_t {C : Type} (El : C → Type) (Args : List C) where
  tag_ : Int
  u_ : union_details.wrap_t El Args

section members

variable {C : Type} [DecidableEq C] {El : C → Type} {Args : List C}

/-- The invariant of line 300, `0 <= tag_ < sizeof...(Args)`, with what the tag
stands for: the position of the member that holds the object. -/
def union_t.well_formed (u : union_t El Args) : Prop :=
  u.tag_ = (u.u_.active : Int)

/-- The member `union_t::try_get<T>` (lines 278-288). -/
def union_t.try_get (T : C) (u : union_t El Args) : pointer_t (El T) :=
  if u.tag_ = union_details.type_index_t 0 T Args then
    union_details.get_t T Args u.u_
  else
    pointer_t.nullptr

/-- The member `union_t::do_get<T>` (lines 290-298): `none` when the `guarantee`
fails. -/
def union_t.do_get (T : C) (u : union_t El Args) : Option (pointer_t (El T)) :=
  let ret := u.try_get T
  if ret.is_null then none else some ret

/-- The function `get<T>(union_t<Args...> &u)` (lines 305-308). -/
def get (T : C) (u : union_t El Args) : access_t (El T) :=
  match u.do_get T with
  | none => access_t.guarantee_failed
  | some p => p.deref

end members

end containers

namespace containers

/-- What follows an access: the rest runs on its value; a failed `guarantee` or an
undefined read ends the call. -/
def access_t.bind {α β : Type} (a : access_t α) (f : α → access_t β) : access_t β :=
  match a with
  | access_t.value x => f x
  | access_t.guarantee_failed => access_t.guarantee_failed
  | access_t.undefined => access_t.undefined

/-- The right-hand side of an assignment `*this = other`: a reference to `*this`
itself, or to another object. -/
inductive reference_t (α : Type) where
  | to_this : reference_t α
  | to_other : α → reference_t α

namespace union_details

variable {C : Type} [DecidableEq C]

/-- The constant `type_constructible_index_t<I, T, Args...>::value` (lines 78-92),
`constructible First` being `std::is_constructible<First, T>::value`: `-1` when no
alternative can be constructed from `T`, `-2` when several can, else `I` plus the
position of the one that can. -/
def type_constructible_index_t (constructible : C → Bool) (I : Int) : List C → Int
  | [] => -1
  | First :: Rest =>
    if constructible First then
      if type_constructible_index_t constructible (I + 1) Rest = -1 then I else -2
    else type_constructible_index_t constructible (I + 1) Rest

/-- The member `type_constructible_index_t<I, T, Args...>::type` (lines 73-92) where
it names an alternative: the `First` of the `type_constructible_constant_t<I, First>`
that is inherited from. -/
def type_constructible_type_t (constructible : C → Bool) (I : Int) : List C → Option C
  | [] => none
  | First :: Rest =>
    if constructible First then
      if type_constructible_index_t constructible (I + 1) Rest = -1 then some First else none
    else type_constructible_type_t constructible (I + 1) Rest

/-- The placement `new (get_t<T, Args...>::get(u)) T(x)`: the storage with the object
`x` in its first member of type `T`; there is none when no member has type `T`. -/
def emplace_t {El : C → Type} (T : C) (x : El T) : (Args : List C) → Option (wrap_t El Args)
  | [] => none
  | First :: Rest =>
    if h : T = First then some (wrap_t.first (h ▸ x))
    else (emplace_t T x Rest).map wrap_t.rest

/-- The function `destroy<T, Args...>` (lines 125-134): the destructor runs on the
member of type `T`, which must hold an object. -/
def destroy {El : C → Type} {Args : List C} (T : C) (u : wrap_t El Args) : access_t Unit :=
  match get_t T Args u with
  | pointer_t.object _ => access_t.value ()
  | _ => access_t.undefined

/-- The function `visit<V, T, Args...>` (lines 136-139): the visitor is called on the
member of type `T` by reference; it gives the member and its own state
afterwards. -/
def visit {El : C → Type} {Args : List C} {σ : Type}
    (visitor : (T : C) → El T → σ → El T × σ) (T : C) (u : wrap_t El Args) (s : σ) :
    access_t (wrap_t El Args × σ) :=
  match get_t T Args u with
  | pointer_t.object p =>
    match emplace_t T (visitor T p s).1 Args with
    | some u' => access_t.value (u', (visitor T p s).2)
    | none => access_t.undefined
  | _ => access_t.undefined

/-- The function `visit_const<V, T, Args...>` (lines 141-145): the visitor is called
on the member of type `T` by reference to const. -/
def visit_const {El : C → Type} {Args : List C} {σ : Type}
    (visitor : (T : C) → El T → σ → σ) (T : C) (u : wrap_t El Args) (s : σ) : access_t σ :=
  match get_t T Args u with
  | pointer_t.object p => access_t.value (visitor T p s)
  | _ => access_t.undefined

/-- The function `copy<T, Args...>` (lines 147-155), `copy_constructor T` being the
copy constructor of `T`: the storage of `dest` and of `source` afterwards; `dest`
holds no object before, and `source` is read through a pointer to const. -/
def copy {El : C → Type} {Args : List C} (copy_constructor : (T : C) → El T → El T)
    (T : C) (source : wrap_t El Args) : access_t (wrap_t El Args × wrap_t El Args) :=
  match get_t T Args source with
  | pointer_t.object p =>
    match emplace_t T (copy_constructor T p) Args with
    | some dest => access_t.value (dest, source)
    | none => access_t.undefined
  | _ => access_t.undefined

/-- The function `move<T, Args...>` (lines 157-163), `move_constructor T x` being the
object the move constructor of `T` builds from `x` and the object it leaves in
`x`: the storage of `dest` and of `source` afterwards. -/
def move {El : C → Type} {Args : List C} (move_constructor : (T : C) → El T → El T × El T)
    (T : C) (source : wrap_t El Args) : access_t (wrap_t El Args × wrap_t El Args) :=
  match get_t T Args source with
  | pointer_t.object p =>
    match emplace_t T (move_constructor T p).1 Args,
        emplace_t T (move_constructor T p).2 Args with
    | some dest, some source' => access_t.value (dest, source')
    | _, _ => access_t.undefined
  | _ => access_t.undefined

end union_details

section constructors

variable {C : Type} [DecidableEq C] {El : C → Type} {Args : List C}

/-- The entry `arr[tag_]` of a table `{ &f<Args, Args...>... }` (lines 227, 234, 257,
266, 274): the alternative at position `tag_`; an index out of the table is
undefined. -/
def union_t.alternative (u : union_t El Args) : Option C :=
  if 0 ≤ u.tag_ then Args.get? u.tag_.toNat else none

/-- The constructor `union_t()` (lines 178-180), `default_constructor T` being the
default constructor of `T`. -/
def union_t.construct_default {First : C} {Rest : List C}
    (default_constructor : (T : C) → El T) : union_t El (First :: Rest) :=
  ⟨0, union_details.wrap_t.first (default_constructor First)⟩

/-- The constructor `union_t(T &&x)` (lines 190-201), `convert R x` being the object
`R(std::forward<T>(x))`: there is no such constructor (`none`) unless
`type_constructible_index_t<0, T &&, Args...>::value >= 0`. -/
def union_t.construct {X : Type} (constructible : C → Bool) (convert : (R : C) → X → El R)
    (x : X) : Option (union_t El Args) :=
  if 0 ≤ union_details.type_constructible_index_t constructible 0 Args then
    match union_details.type_constructible_type_t constructible 0 Args with
    | some real_type_t =>
      (union_details.emplace_t real_type_t (convert real_type_t x) Args).map
        (fun u_ => ⟨union_details.type_constructible_index_t constructible 0 Args, u_⟩)
    | none => none
  else none

/-- The member `union_t::destroy_self` (lines 255-259). -/
def union_t.destroy_self (u : union_t El Args) : access_t Unit :=
  match u.alternative with
  | some T => union_details.destroy T u.u_
  | none => access_t.undefined

/-- The member `union_t::init_copy_from` (lines 261-267) on an object whose tag has
been set and whose storage holds no object: the object and the copyee
afterwards. -/
def union_t.init_copy_from (copy_constructor : (T : C) → El T → El T) (tag_ : Int)
    (copyee : union_t El Args) : access_t (union_t El Args × union_t El Args) :=
  match copyee.alternative with
  | some T =>
    (union_details.copy copy_constructor T copyee.u_).bind
      (fun r => access_t.value (⟨tag_, r.1⟩, ⟨copyee.tag_, r.2⟩))
  | none => access_t.undefined

/-- The member `union_t::init_move_from` (lines 269-275): the object and the movee
afterwards. -/
def union_t.init_move_from (move_constructor : (T : C) → El T → El T × El T) (tag_ : Int)
    (movee : union_t El Args) : access_t (union_t El Args × union_t El Args) :=
  match movee.alternative with
  | some T =>
    (union_details.move move_constructor T movee.u_).bind
      (fun r => access_t.value (⟨tag_, r.1⟩, ⟨movee.tag_, r.2⟩))
  | none => access_t.undefined

/-- The constructor `union_t(const union_t &copyee)` (lines 182-184): the new object
and the copyee afterwards. -/
def union_t.construct_copy (copy_constructor : (T : C) → El T → El T)
    (copyee : union_t El Args) : access_t (union_t El Args × union_t El Args) :=
  union_t.init_copy_from copy_constructor copyee.tag_ copyee

/-- The constructor `union_t(union_t &&movee)` (lines 186-188): the new object and the
movee afterwards. -/
def union_t.construct_move (move_constructor : (T : C) → El T → El T × El T)
    (movee : union_t El Args) : access_t (union_t El Args × union_t El Args) :=
  union_t.init_move_from move_constructor movee.tag_ movee

/-- The operator `operator=(const union_t &other)` (lines 203-212): `*this` and
`other` afterwards. -/
def union_t.assign_copy (copy_constructor : (T : C) → El T → El T) (self : union_t El Args)
    (other : reference_t (union_t El Args)) : access_t (union_t El Args × union_t El Args) :=
  match other with
  | reference_t.to_this => access_t.value (self, self)
  | reference_t.to_other other =>
    self.destroy_self.bind (fun _ => union_t.init_copy_from copy_constructor other.tag_ other)

/-- The operator `operator=(union_t &&other)` (lines 213-222): `*this` and `other`
afterwards. -/
def union_t.assign_move (move_constructor : (T : C) → El T → El T × El T)
    (self : union_t El Args) (other : reference_t (union_t El Args)) :
    access_t (union_t El Args × union_t El Args) :=
  match other with
  | reference_t.to_this => access_t.value (self, self)
  | reference_t.to_other other =>
    self.destroy_self.bind (fun _ => union_t.init_move_from move_constructor other.tag_ other)

/-- The member `union_t::visit` (lines 224-229): the object and the visitor's state
afterwards. -/
def union_t.visit {σ : Type} (visitor : (T : C) → El T → σ → El T × σ)
    (u : union_t El Args) (s : σ) : access_t (union_t El Args × σ) :=
  match u.alternative with
  | some T =>
    (union_details.visit visitor T u.u_ s).bind
      (fun r => access_t.value (⟨u.tag_, r.1⟩, r.2))
  | none => access_t.undefined

/-- The member `union_t::visit` of a const object (lines 231-236). -/
def union_t.visit_const {σ : Type} (visitor : (T : C) → El T → σ → σ)
    (u : union_t El Args) (s : σ) : access_t σ :=
  match u.alternative with
  | some T => union_details.visit_const visitor T u.u_ s
  | none => access_t.undefined

/-- The function `get<T>(union_t<Args...> *u)` (lines 320-323). -/
def get_pointer (T : C) (u : union_t El Args) : pointer_t (El T) :=
  u.try_get T

end constructors

end containers

namespace ql

section accumulators

variable {D Row T : Type}

/-- Modelled from the spec: the terminals Count and Sum of §4.2, whose accumulators
are defined outside the sources: `zero` is the value `T()` a group starts from,
`add` the `+=` of `T`, and `of_row` what a row adds to the partial result of its
group. -/
structure terminal_t (Row T : Type) where
  zero : T
  add : T → T → T
  of_row : Row → T

/-- Modelled from the spec: the terminal Count; a count is a `uint64_t` and every row
adds one. -/
def count_terminal (Row : Type) : terminal_t Row Nat :=
  ⟨0, fun a b => (a + b) % 2 ^ 64, fun _ => 1⟩

/-- Modelled from the spec: the terminal Sum over `double`, with the addition of
`double` as a parameter; every row adds its number. -/
def sum_terminal {double : Type} (zero : double) (add : double → double → double)
    (number : Row → double) : terminal_t Row double :=
  ⟨zero, add, number⟩

/-- Modelled from the spec: `consume(row, ...)` of a shard accumulator for Count or
Sum: the partial result of the row's group, started from `T()` when the group is
new, grows by what the row adds. -/
def accumulator_t.consume [LinearOrder (counted_t D)] (t : terminal_t Row T)
    (group : Row → counted_t D) (acc : grouped_t D T) (row : Row) : grouped_t D T :=
  acc.assign (group row)
    (t.add ((std_map.find acc.m (group row)).getD t.zero) (t.of_row row))

/-- Modelled from the spec: the result `finish()` returns after the rows of a shard
were consumed in order by a new accumulator. -/
def accumulator_t.finish [LinearOrder (counted_t D)] (t : terminal_t Row T)
    (group : Row → counted_t D) (rows : List Row) : grouped_t D T :=
  rows.foldl (accumulator_t.consume t group) ⟨[]⟩

/-- Modelled from the spec: one per-shard result merged into the result of
`unshard`: "sum the per-key counts", "sum the per-key sums". -/
def accumulator_t.unshard_impl [LinearOrder (counted_t D)] (t : terminal_t Row T)
    (acc : grouped_t D T) (result : grouped_t D T) : grouped_t D T :=
  result.m.foldl
    (fun acc kv => acc.assign kv.1 (t.add ((std_map.find acc.m kv.1).getD t.zero) kv.2)) acc

/-- Modelled from the spec: `unshard(lastKeySeen, resultsFromAllShards)` for Count and
Sum: the per-shard results are merged in shard order into a new result; an empty
result merges as identity. -/
def accumulator_t.unshard [LinearOrder (counted_t D)] (t : terminal_t Row T)
    (results : List (grouped_t D T)) : grouped_t D T :=
  results.foldl (accumulator_t.unshard_impl t) ⟨[]⟩

/-- The laws of the addition of a terminal under which partial results can be
merged: it is associative and commutative, and adding to `T()` what a row adds
gives just that. -/
def terminal_t.mergeable (t : terminal_t Row T) : Prop :=
  (∀ a b c, t.add (t.add a b) c = t.add a (t.add b c)) ∧
  (∀ a b, t.add a b = t.add b a) ∧
  (∀ row, t.add t.zero (t.of_row row) = t.of_row row)

/-- The value of group `k` after the contributions `l` were added in order to a
group that may already hold a value. -/
def terminal_t.added (t : terminal_t Row T) (o : Option T) (l : List T) : Option T :=
  l.foldl (fun o x => some (t.add (o.getD t.zero) x)) o

/-- Modelled from the spec: part of the addition of the terminal Sum, see
`double_add`. The number of low bits that a natural number of more than 53 bits
loses when it is held in 53 bits: the least `e` with `a / 2 ^ e < 2 ^ 53` (the
first argument bounds the search and is `a` itself). -/
def double_shift : Nat → Nat → Nat
  | 0, _ => 0
  | fuel + 1, a => if a < 2 ^ 53 then 0 else double_shift fuel (a / 2) + 1

/-- Modelled from the spec: part of the addition of the terminal Sum, see
`double_add`. The doubles that hold an integer are written as that integer.
`double_round n` is the double nearest to the integer `n` (IEEE 754 binary64,
round to nearest, ties to even): an integer of at most 53 bits is a double, and a
longer one keeps its 53 leading bits, rounded on the bits it loses. Overflow,
which starts beyond 1023 bits, is left out. -/
def double_round (n : Int) : Int :=
  let a := n.natAbs
  if a < 2 ^ 53 then n
  else
    let e := double_shift a a
    let q := a / 2 ^ e
    let r := a % 2 ^ e
    let half := 2 ^ (e - 1)
    let significand := if half < r ∨ (r = half ∧ q % 2 = 1) then q + 1 else q
    n.sign * ((significand * 2 ^ e : Nat) : Int)

/-- Modelled from the spec: the `+=` of the terminal Sum, whose partial results are
`grouped_t<double>` (`result_t`, shards.hpp line 232) and whose accumulator is
defined outside the sources: the addition of `double`, on the doubles that hold
an integer, is the sum rounded to the nearest double. -/
def double_add (a b : Int) : Int := double_round (a + b)

end accumulators

end ql

namespace ql

/-- The class `optimizer_t` (lines 52-63): the best row seen and its value. -/
structure optimizer_t (D : Type) where
  row : counted_t D
  val : counted_t D

/-- Modelled from the spec: `optimizer_t::swap_if_other_better` is defined outside
the sources: it "replaces state only if another tracker's value strictly beats
the current one per comparator"; `beats val1 val2` tells whether `val1` beats
`val2`, and the result is the tracker and `other` afterwards. -/
def optimizer_t.swap_if_other_better {D : Type} (self other : optimizer_t D)
    (beats : counted_t D → counted_t D → Bool) : optimizer_t D × optimizer_t D :=
  if beats other.val self.val then (other, self) else (self, other)

/-- Trackers merged pairwise into the first, in the order seen. -/
def optimizer_t.merge {D : Type} (beats : counted_t D → counted_t D → Bool)
    (first : optimizer_t D) (others : List (optimizer_t D)) : optimizer_t D :=
  others.foldl (fun best other => (best.swap_if_other_better other beats).1) first

/-- The exception types `base_exc_t::type_t` that `env.cc` raises. -/
inductive base_exc_t where
  | GENERIC : base_exc_t
deriving DecidableEq, Repr

/-- What a call raises: the exception of `rfail_toplevel(type, message)`, or an
exception `e` that a function defined outside the sources raised. -/
inductive exc_t (ε : Type) where
  | toplevel : base_exc_t → String → exc_t ε
  | from_callee : ε → exc_t ε

/-- The message `Query` (of `ql2.proto`) as far as `env.cc` reads it: the query term
and the global optargs, a list of `Query::AssocPair`. -/
structure Query (Term : Type) where
  query : Term
  global_optargs : List (String × Term)

/-- The functions `env.cc` calls that are defined outside the sources:
`preprocess_term`; `r::fun(r::expr(val))` with the backtrace of `val` propagated;
the construction of a `func_term_t`, `eval_to_func` and the wrapping into a
`wire_func_t`; and the term `r::db("test")` with the backtrace of the query
term. -/
structure minidriver_t (Term wire_func_t ε : Type) where
  preprocess_term : Term → Except ε Term
  fun_expr : Term → Term
  eval_to_func : Term → Except ε wire_func_t
  db_test : Term → Term

section optargs

variable {Term wire_func_t ε : Type}

/-- The function `construct_optarg_wire_func` (lines 41-50). -/
def construct_optarg_wire_func (r : minidriver_t Term wire_func_t ε) (val : Term) :
    Except (exc_t ε) wire_func_t :=
  match r.eval_to_func (r.fun_expr val) with
  | Except.error e => Except.error (exc_t.from_callee e)
  | Except.ok func => Except.ok func

/-- The loop of `global_optargs` (lines 60-70) from entry `i` on. -/
def global_optargs_loop (r : minidriver_t Term wire_func_t ε) :
    List (String × Term) → List (String × wire_func_t) →
      Except (exc_t ε) (List (String × wire_func_t))
  | [], optargs => Except.ok optargs
  | ap :: rest, optargs =>
    match construct_optarg_wire_func r ap.2 with
    | Except.error e => Except.error e
    | Except.ok f =>
      if (std_map.find optargs ap.1).isSome then
        Except.error (exc_t.toplevel base_exc_t.GENERIC ("Duplicate global optarg: " ++ ap.1))
      else global_optargs_loop r rest (std_map.insert optargs ap.1 f)

/-- The function `global_optargs` (lines 52-81). -/
def global_optargs (r : minidriver_t Term wire_func_t ε) (q : Query Term) :
    Except (exc_t ε) (List (String × wire_func_t)) :=
  match r.preprocess_term q.query with
  | Except.error e => Except.error (exc_t.from_callee e)
  | Except.ok t =>
    match global_optargs_loop r q.global_optargs [] with
    | Except.error e => Except.error e
    | Except.ok optargs =>
      if (std_map.find optargs "db").isSome then Except.ok optargs
      else
        match construct_optarg_wire_func r (r.db_test t) with
        | Except.error e => Except.error e
        | Except.ok f => Except.ok (std_map.assign optargs "db" f)

end optargs

end ql

namespace json_shim

/-- The enumeration `Datum::DatumType` of `ql2.proto`. -/
inductive DatumType where
  | R_NULL : DatumType
  | R_BOOL : DatumType
  | R_NUM : DatumType
  | R_STR : DatumType
  | R_ARRAY : DatumType
  | R_OBJECT : DatumType
  | R_JSON : DatumType
deriving DecidableEq, Repr

/-- The message `Datum` as far as `write_json_pb` reads it: its type and its
string. -/
structure Datum where
  type : DatumType
  r_str : String
deriving DecidableEq, Repr

/-- The message `Frame` of a backtrace: a position or the name of an optional
argument. -/
inductive Frame where
  | POS : Int → Frame
  | OPT : String → Frame
deriving DecidableEq, Repr

/-- The message `Response` as far as `write_json_pb` reads it; a backtrace and a
profile may be absent. -/
structure Response where
  type : Int
  token : Int
  response : List Datum
  backtrace : Option (List Frame)
  profile : Option Datum

/-- The values of the library cJSON that `write_json_pb` builds. -/
inductive cJSON where
  | Number : Int → cJSON
  | String : String → cJSON
  | Array : List cJSON → cJSON

/-- The item `write_json_pb` adds to the array for a frame (lines 263-271). -/
def frame_item : Frame → cJSON
  | Frame.POS pos => cJSON.Number pos
  | Frame.OPT opt => cJSON.String opt

/-- The loop over the data of the response (lines 243-254), at index `i`, with the
output so far; `PrintUnformatted` is the printer of cJSON, which is defined
outside the sources; `none` when `unreachable()` is reached. -/
def write_response (PrintUnformatted : cJSON → String) :
    List Datum → Nat → String → Option String
  | [], _, s => some s
  | d :: rest, i, s =>
    let s := s ++ (if i = 0 then "" else ",")
    if d.type = DatumType.R_JSON then
      write_response PrintUnformatted rest (i + 1) (s ++ d.r_str)
    else if d.type = DatumType.R_STR then
      write_response PrintUnformatted rest (i + 1)
        (s ++ PrintUnformatted (cJSON.String d.r_str))
    else none

/-- The function `write_json_pb` (lines 241-285): the token returned and the output
string afterwards; `none` when `unreachable()` is reached or the `guarantee` of
line 279 fails. `%d` and `PRIi64` print a number in decimal. -/
def write_json_pb (PrintUnformatted : cJSON → String) (r : Response) (s : String) :
    Option (Int × String) :=
  let s := s ++ ("\x7b\"t\":" ++ toString r.type ++ ",\"k\":" ++ toString r.token ++ ",\"r\":[")
  match write_response PrintUnformatted r.response 0 s with
  | none => none
  | some s =>
    let s := s ++ "]"
    let s :=
      match r.backtrace with
      | some bt => s ++ ",\"b\":" ++ PrintUnformatted (cJSON.Array (bt.map frame_item))
      | none => s
    match r.profile with
    | some d =>
      if d.type = DatumType.R_JSON then some (r.token, s ++ ",\"p\":" ++ d.r_str ++ "\x7d")
      else none
    | none => some (r.token, s ++ "\x7d")

/-- What `write_json_pb` writes for a datum of the response: the string of an
`R_JSON` datum as it is, and an `R_STR` datum printed as a JSON string. -/
def datum_text (PrintUnformatted : cJSON → String) (d : Datum) : String :=
  if d.type = DatumType.R_JSON then d.r_str else PrintUnformatted (cJSON.String d.r_str)

end json_shim

namespace containers

/-- The invariant of a `union_t` (line 300 and what the tag stands for): the tag is a
position of the type list, and the pointer form of `get` is non-null for the
alternative at that position and for no other type. -/
def union_t.one_active {C : Type} [DecidableEq C] {El : C → Type} {Args : List C}
    (u : union_t El Args) : Prop :=
  0 ≤ u.tag_ ∧ u.tag_ < (Args.length : Int) ∧
    ∀ T, (get_pointer T u).is_null = false ↔ Args.get? u.tag_.toNat = some T

end containers

namespace ql

/-! ## `env_t::maybe_yield` (`rdb_protocol/env.cc`)

The counter `evals_since_yield` and the constant `EVALS_BEFORE_YIELD` are declared in
`env.hpp`; the constant and the width `w` of the counter's unsigned type are
parameters here. `coro_t::yield()` gives the processor to other coroutines and
returns; the embedding records whether the call yielded. -/

/-- The part of `env_t` that `maybe_yield` uses. -/
structure env_t where
  evals_since_yield : Nat
  deriving DecidableEq, Repr

/-- Both constructors of `env_t` initialise `evals_since_yield(0)`. -/
def env_t.create : env_t := ⟨0⟩

/-- Embeds `env_t::maybe_yield`: `if (++evals_since_yield > EVALS_BEFORE_YIELD)
\x7b evals_since_yield = 0; coro_t::yield(); \x7d`. The first component says whether
the call yielded. -/
def env_t.maybe_yield (EVALS_BEFORE_YIELD w : Nat) (self : env_t) : Bool × env_t :=
  let incremented : env_t := ⟨(self.evals_since_yield + 1) % 2 ^ w⟩
  if incremented.evals_since_yield > EVALS_BEFORE_YIELD then
    (true, { incremented with evals_since_yield := 0 })
  else
    (false, incremented)

/-- The environment after `n` calls of `maybe_yield`. -/
def env_t.after_calls (EVALS_BEFORE_YIELD w : Nat) : Nat → env_t → env_t
  | 0, self => self
  | n + 1, self =>
    (env_t.maybe_yield EVALS_BEFORE_YIELD w (env_t.after_calls EVALS_BEFORE_YIELD w n self)).2

/-- Whether the `n`-th call of `maybe_yield` on `self` yields, calls counted from 1
(there is no call number 0). -/
def env_t.nth_call_yields (EVALS_BEFORE_YIELD w : Nat) (self : env_t) : Nat → Bool
  | 0 => false
  | n + 1 =>
    (env_t.maybe_yield EVALS_BEFORE_YIELD w (env_t.after_calls EVALS_BEFORE_YIELD w n self)).1

end ql

namespace unittest

section reset

variable {K : Type}

/-- The statements `write_token_pair_t token_pair; new_write_token_pair(&token_pair);`
(lines 315-316): the token of the call is a fresh write token, which is held. -/
def new_write_token_pair {ρ : Type} : coro_t (frame K datum_t ρ) Unit :=
  fun f => (exit_t.returned (), { f with token := ⟨true⟩ })

/-- The loop of `reset_data` (lines 325-332) on the entries from the iterator `it`
on: while the key range of the subregion holds the key of `it`, the iterator
moves on and the entry it left is erased when the subregion holds its key;
`std::map::erase` leaves the other entries and iterators as they are. The result
is what the loop leaves of these entries. -/
def reset_data_loop [LinearOrder K] (hasher : K → Nat) (subregion : hash_region_t K) :
    List (K × (repli_timestamp_t × counted_t datum_t)) →
      List (K × (repli_timestamp_t × counted_t datum_t))
  | [] => []
  | jt :: it =>
    if subregion.inner.contains_key jt.1 then
      if region_contains_key hasher subregion jt.1 then
        reset_data_loop hasher subregion it
      else
        jt :: reset_data_loop hasher subregion it
    else
      jt :: it

/-- The member `mock_store_t::reset_data` (lines 309-333). The entries before
`table_.lower_bound(subregion.inner.left)` are those with a key below the bound;
the loop runs on the entries from there on. The two `rassert`s compare the
subregion with the region of the store and change nothing. -/
def mock_store_t.reset_data [LinearOrder K] (hasher : K → Nat)
    (subregion : hash_region_t K) : coro_t (frame K datum_t Unit) Unit := do
  new_write_token_pair
  with_destruction_sentinel (do
    wait_interruptible
    modify_self (fun self =>
      { self with table_ :=
          (self.table_.takeWhile (fun e => decide (e.1 < subregion.inner.left)) ++
            reset_data_loop hasher subregion
              (std_map.lower_bound self.table_ subregion.inner.left)) }))

end reset

end unittest

namespace ql

section grouped_reads

variable {S D double : Type}

/-- The reads of the loop of `rdb_deserialize` (lines 183-190), in the order in
which the loop performs them: for each call of `deserialize_grouped` its result
and the stream it leaves. -/
def grouped_t.rdb_deserialize_loop_reads {T : Type} (A : archives_t S D double)
    (grouped : read_stream_t → T → archive_result_t × T × read_stream_t) (T0 : T) :
    Nat → read_stream_t → List (archive_result_t × read_stream_t)
  | 0, _ => []
  | n + 1, s =>
    let first := deserialize_grouped_datum A s none
    if bad first.1 then [(first.1, first.2.2)]
    else
      let second := grouped first.2.2 T0
      if bad second.1 then [(first.1, first.2.2), (second.1, second.2.2)]
      else
        (first.1, first.2.2) :: (second.1, second.2.2) ::
          grouped_t.rdb_deserialize_loop_reads A grouped T0 n second.2.2

/-- The reads of `rdb_deserialize` (lines 176-190) on an empty map, in the order in
which it performs them: the read of the size prefix, then the reads of the
loop, each with its result and the stream it leaves. -/
def grouped_t.rdb_deserialize_reads {T : Type} (A : archives_t S D double)
    (grouped : read_stream_t → T → archive_result_t × T × read_stream_t) (T0 : T)
    (size_max : Nat) (s : read_stream_t) : List (archive_result_t × read_stream_t) :=
  let sz := A.varint_uint64.deserialize s 0
  if bad sz.1 then [(sz.1, sz.2.2)]
  else if sz.2.1 > size_max then [(sz.1, sz.2.2)]
  else (sz.1, sz.2.2) :: grouped_t.rdb_deserialize_loop_reads A grouped T0 sz.2.1 sz.2.2

/-- The stream after a sequence of reads that started on `s`: the stream the last
read left. -/
def stream_after (reads : List (archive_result_t × read_stream_t)) (s : read_stream_t) :
    read_stream_t :=
  match reads.getLast? with
  | none => s
  | some last => last.2

end grouped_reads

end ql

namespace ql

section optimizer

variable {S D double : Type}

/-- The default constructor `optimizer_t()` is defined outside the sources; the
members `row` and `val` are default-constructed `counted_t`, which hold no
object. -/
def optimizer_t.create : optimizer_t D := ⟨none, none⟩

/-- The overload `serialize_grouped(wm, const optimizer_t &o)` (lines 65-73); `none`
when `r_sanity_check(o.val.has())` fails. -/
def serialize_grouped_optimizer (A : archives_t S D double) (o : optimizer_t D) :
    Option (List Nat) :=
  if o.row.has then
    if o.val.has then
      some (A.bool_.serialize o.row.has ++ A.datum.serialize o.row ++ A.datum.serialize o.val)
    else none
  else some (A.bool_.serialize o.row.has)

/-- The overload `deserialize_grouped(s, optimizer_t *o)` (lines 74-87); the local
`has` is written by the first read. -/
def deserialize_grouped_optimizer (A : archives_t S D double) (s : read_stream_t)
    (o : optimizer_t D) : archive_result_t × optimizer_t D × read_stream_t :=
  let has := A.bool_.deserialize s false
  if bad has.1 then (has.1, o, has.2.2)
  else if has.2.1 then
    let row := A.datum.deserialize has.2.2 o.row
    if bad row.1 then (row.1, { o with row := row.2.1 }, row.2.2)
    else
      let val := A.datum.deserialize row.2.2 o.val
      if bad val.1 then (val.1, ⟨row.2.1, val.2.1⟩, val.2.2)
      else (archive_result_t.SUCCESS, ⟨row.2.1, val.2.1⟩, val.2.2)
  else (archive_result_t.SUCCESS, o, has.2.2)

end optimizer

end ql

namespace json_shim

/-! ## The parse side of the shim (`protob/json_shim.cc`, lines 14-239)

`parse_json_pb` reads more of an item of cJSON than `write_json_pb` builds, and more
of the messages of `ql2.proto`; what it reads is embedded in the namespace
`json_shim.parse`. -/

namespace parse

/-- Modelled from the spec: the library cJSON is defined outside the sources. An
item as `cJSON_Parse` builds it, by its `type`, with the fields that are set for
the type: `valuedouble` of a number, `valuestring` of a string, and the children
of an array or an object. The name `string` of a child stands with the child: the
members of an object have one, the elements of an array have none. -/
inductive cJSON (double : Type) where
  | cJSON_False : cJSON double
  | cJSON_True : cJSON double
  | cJSON_NULL : cJSON double
  | cJSON_Number (valuedouble : double) : cJSON double
  | cJSON_String (valuestring : String) : cJSON double
  | cJSON_Array (child : List (cJSON double)) : cJSON double
  | cJSON_Object (child : List (String × cJSON double)) : cJSON double

/-- The exception class `exc_t` (lines 14-21). -/
structure exc_t where
  str : String
deriving DecidableEq, Repr

/-- The constructor `exc_t(cJSON *)`. -/
def exc_t.create : exc_t := ⟨"PLACEHOLDER"⟩

/-- How a call ends: it returns, it raises `exc_t`, or its behaviour is undefined
(a null pointer is read as a string). -/
inductive result_t (α : Type) where
  | returned : α → result_t α
  | raised : exc_t → result_t α
  | undefined : result_t α

/-- What follows a call: the rest runs after a return. -/
def result_t.bind {α β : Type} (r : result_t α) (g : α → result_t β) : result_t β :=
  match r with
  | result_t.returned a => g a
  | result_t.raised e => result_t.raised e
  | result_t.undefined => result_t.undefined

section items

variable {double : Type}

/-- Modelled from the spec: `cJSON_strcasecmp`, 0 when the strings are equal up to
the case of letters. -/
def cJSON_strcasecmp (s1 s2 : String) : Nat :=
  if s1.data.map Char.toLower = s2.data.map Char.toLower then 0 else 1

/-- Modelled from the spec: `cJSON_GetObjectItem`, the first child whose name
compares equal to `string`, or `NULL` (`none`); an item that is no object has no
child with a name. -/
def cJSON_GetObjectItem (object : cJSON double) (string : String) : Option (cJSON double) :=
  match object with
  | cJSON.cJSON_Object child =>
    (child.find? (fun c => cJSON_strcasecmp c.1 string = 0)).map Prod.snd
  | _ => none

/-- Modelled from the spec: the children that `cJSON_GetArraySize` counts and
`cJSON_GetArrayItem` gives, in order, each with its name `string`. -/
def cJSON.child_items : cJSON double → List (Option String × cJSON double)
  | cJSON.cJSON_Array child => child.map (fun c => (none, c))
  | cJSON.cJSON_Object child => child.map (fun c => (some c.1, c.2))
  | _ => []

mutual
/-- The number of items of an item and below it. -/
def cJSON.size : cJSON double → Nat
  | cJSON.cJSON_Array child => 1 + size_elements child
  | cJSON.cJSON_Object child => 1 + size_members child
  | _ => 1
/-- The number of items of the elements of an array and below them. -/
def size_elements : List (cJSON double) → Nat
  | [] => 0
  | c :: rest => c.size + size_elements rest
/-- The number of items of the members of an object and below them. -/
def size_members : List (String × cJSON double) → Nat
  | [] => 0
  | c :: rest => c.2.size + size_members rest
end

/-- The number of items of the children of a list and below them. -/
def size_items : List (Option String × cJSON double) → Nat
  | [] => 0
  | c :: rest => c.2.size + size_items rest

end items

/-- The enumeration `Query::QueryType` of `ql2.proto`, by its values. -/
abbrev QueryType := Int

/-- The enumeration `Term::TermType` of `ql2.proto`, by its values. -/
abbrev TermType := Int

/-- The message `Datum` of `ql2.proto`: optional fields and repeated fields. -/
inductive Datum (double : Type) where
  | mk (type : Option DatumType) (r_bool : Option Bool) (r_num : Option double)
      (r_str : Option String) (r_array : List (Datum double))
      (r_object : List (String × Datum double)) : Datum double

/-- The message `Term` of `ql2.proto`; an entry of `optargs` is a `Term::AssocPair`
with its key and value. -/
inductive Term (double : Type) where
  | mk (type : Option TermType) (datum : Option (Datum double)) (args : List (Term double))
      (optargs : List (String × Term double)) : Term double

/-- The message `Query` of `ql2.proto`; an entry of `global_optargs` is a
`Query::AssocPair` with its key and value. -/
structure Query (double : Type) where
  type : Option QueryType
  query : Option (Term double)
  token : Option Int
  accepts_r_json : Option Bool
  global_optargs : List (String × Term double)

section messages

variable {double : Type}

/-- A message `Datum` with no field set. -/
def Datum.Clear : Datum double := Datum.mk none none none none [] []

def Datum.set_type (d : Datum double) (value : DatumType) : Datum double :=
  match d with
  | Datum.mk _ b n s a o => Datum.mk (some value) b n s a o

def Datum.set_r_bool (d : Datum double) (value : Bool) : Datum double :=
  match d with
  | Datum.mk t _ n s a o => Datum.mk t (some value) n s a o

def Datum.set_r_num (d : Datum double) (value : double) : Datum double :=
  match d with
  | Datum.mk t b _ s a o => Datum.mk t b (some value) s a o

def Datum.set_r_str (d : Datum double) (value : String) : Datum double :=
  match d with
  | Datum.mk t b n _ a o => Datum.mk t b n (some value) a o

/-- The element `add_r_array()` gives, after it has been filled. -/
def Datum.add_r_array (d : Datum double) (el : Datum double) : Datum double :=
  match d with
  | Datum.mk t b n s a o => Datum.mk t b n s (a ++ [el]) o

/-- The pair `add_r_object()` gives, after it has been filled. -/
def Datum.add_r_object (d : Datum double) (ap : String × Datum double) : Datum double :=
  match d with
  | Datum.mk t b n s a o => Datum.mk t b n s a (o ++ [ap])

/-- A message `Term` with no field set. -/
def Term.Clear : Term double := Term.mk none none [] []

def Term.set_type (t : Term double) (value : TermType) : Term double :=
  match t with
  | Term.mk _ d a o => Term.mk (some value) d a o

/-- The datum `mutable_datum()` gives: the datum of the term, or a new one. -/
def Term.mutable_datum (t : Term double) : Datum double :=
  match t with
  | Term.mk _ d _ _ => d.getD Datum.Clear

/-- The datum of `mutable_datum()` after it has been filled. -/
def Term.set_datum (t : Term double) (value : Datum double) : Term double :=
  match t with
  | Term.mk ty _ a o => Term.mk ty (some value) a o

/-- The element `add_args()` gives, after it has been filled. -/
def Term.add_args (t : Term double) (el : Term double) : Term double :=
  match t with
  | Term.mk ty d a o => Term.mk ty d (a ++ [el]) o

/-- The pair `add_optargs()` gives, after it has been filled. -/
def Term.add_optargs (t : Term double) (ap : String × Term double) : Term double :=
  match t with
  | Term.mk ty d a o => Term.mk ty d a (o ++ [ap])

/-- The member `Query::Clear`: no field is set. -/
def Query.Clear : Query double := ⟨none, none, none, none, []⟩

end messages

/-- The conversions `static_cast<T>(field->valuedouble)` to the number types the
shim extracts, and `static_cast<double>(t)` from them; `double` and its
conversions are those of the compiler. -/
structure static_cast_t (double : Type) where
  QueryType : double → QueryType
  TermType : double → TermType
  int64_t : double → Int
  double_ : Int → double

section extractors

variable {double : Type} [DecidableEq double]

/-- The extractor of an enumeration or fundamental type `T` (lines 104-114);
`static_cast_T` is the conversion to `T`. -/
def extractor_number (static_cast : static_cast_t double) (static_cast_T : double → Int)
    (field : cJSON double) : result_t Int :=
  match field with
  | cJSON.cJSON_Number valuedouble =>
    let t := static_cast_T valuedouble
    if static_cast.double_ t ≠ valuedouble then result_t.raised exc_t.create
    else result_t.returned t
  | _ => result_t.raised exc_t.create

/-- The check at the head of the third variant of `DEFINE_TRANSFER` (lines 57-59):
`if (arr->type != cJSON_Object) check_type(arr, cJSON_Array)`. -/
def check_array (arr : cJSON double) : result_t Unit :=
  match arr with
  | cJSON.cJSON_Object _ => result_t.returned ()
  | cJSON.cJSON_Array _ => result_t.returned ()
  | _ => result_t.raised exc_t.create

mutual
/-- The extractor of `Datum` (lines 150-191); every `type` of an item has its
case. -/
def extractor_Datum : cJSON double → Datum double → Datum double
  | cJSON.cJSON_False, d => (d.set_type DatumType.R_BOOL).set_r_bool false
  | cJSON.cJSON_True, d => (d.set_type DatumType.R_BOOL).set_r_bool true
  | cJSON.cJSON_NULL, d => d.set_type DatumType.R_NULL
  | cJSON.cJSON_Number valuedouble, d => (d.set_type DatumType.R_NUM).set_r_num valuedouble
  | cJSON.cJSON_String valuestring, d => (d.set_type DatumType.R_STR).set_r_str valuestring
  | cJSON.cJSON_Array child, d => extractor_Datum_array child (d.set_type DatumType.R_ARRAY)
  | cJSON.cJSON_Object child, d => extractor_Datum_object child (d.set_type DatumType.R_OBJECT)
/-- The loop of the case `cJSON_Array` (lines 173-176) from item `i` on. -/
def extractor_Datum_array : List (cJSON double) → Datum double → Datum double
  | [], d => d
  | item :: rest, d =>
    extractor_Datum_array rest (d.add_r_array (extractor_Datum item Datum.Clear))
/-- The loop of the case `cJSON_Object` (lines 181-186) from item `i` on. -/
def extractor_Datum_object : List (String × cJSON double) → Datum double → Datum double
  | [], d => d
  | item :: rest, d =>
    extractor_Datum_object rest
      (d.add_r_object (item.1, extractor_Datum item.2 Datum.Clear))
end

/-- The function `transfer_type` for a `Term` (the first variant of
`DEFINE_TRANSFER(type, "t")`, lines 32-40). -/
def transfer_type_Term (static_cast : static_cast_t double) (json : cJSON double)
    (dest : Term double) : result_t (Term double) :=
  match cJSON_GetObjectItem json "t" with
  | none => result_t.returned dest
  | some item =>
    (extractor_number static_cast static_cast.TermType item).bind
      (fun tmp => result_t.returned (dest.set_type tmp))

/-- The function `transfer_datum` for a `Term` (the second variant of
`DEFINE_TRANSFER(datum, "d")`, lines 45-50). -/
def transfer_datum (json : cJSON double) (dest : Term double) : Term double :=
  match cJSON_GetObjectItem json "d" with
  | none => dest
  | some item => dest.set_datum (extractor_Datum item dest.mutable_datum)

end extractors

end parse

end json_shim
namespace json_shim

namespace parse

section term_extractor

variable {double : Type} [DecidableEq double]

mutual
/-- The extractor of `Term` (lines 140-148). -/
def extractor_Term (static_cast : static_cast_t double) (json : cJSON double)
    (t : Term double) : result_t (Term double) :=
  (transfer_type_Term static_cast json t).bind (fun t =>
    (transfer_args static_cast json (transfer_datum json t)).bind (fun t =>
      transfer_optargs static_cast json t))
termination_by 4 * json.size + 1
decreasing_by
  all_goals simp_wf
/-- The function `transfer_args` for a `Term` (the third variant of
`DEFINE_TRANSFER(args, "s")`, lines 55-68). -/
def transfer_args (static_cast : static_cast_t double) (json : cJSON double)
    (dest : Term double) : result_t (Term double) :=
  match _h : cJSON_GetObjectItem json "s" with
  | none => result_t.returned dest
  | some arr =>
    (check_array arr).bind (fun _ => transfer_args_loop static_cast arr.child_items dest)
termination_by 4 * json.size
decreasing_by
  simp_wf
  have hitems : size_items arr.child_items < arr.size := by
    cases arr with
    | cJSON_Array child =>
      have hsum : ∀ l : List (cJSON double),
          size_items (l.map (fun c => ((none : Option String), c))) = size_elements l := by
        intro l
        induction l with
        | nil => simp [size_items, size_elements]
        | cons c rest ih => simp [size_items, size_elements, ih]
      simp only [cJSON.child_items, cJSON.size, hsum child]
      omega
    | cJSON_Object child =>
      have hsum : ∀ l : List (String × cJSON double),
          size_items (l.map (fun c => (some c.1, c.2))) = size_members l := by
        intro l
        induction l with
        | nil => simp [size_items, size_members]
        | cons c rest ih => simp [size_items, size_members, ih]
      simp only [cJSON.child_items, cJSON.size, hsum child]
      omega
    | _ => simp [cJSON.child_items, cJSON.size, size_items]
  have hget : arr.size < json.size := by
    cases json with
    | cJSON_Object child =>
      simp only [cJSON_GetObjectItem, Option.map_eq_some'] at _h
      obtain ⟨c, hc, rfl⟩ := _h
      have hmem : ∀ (l : List (String × cJSON double)), c ∈ l → c.2.size ≤ size_members l := by
        intro l
        induction l with
        | nil => intro hc'; cases hc'
        | cons x rest ih =>
          intro hc'
          rcases List.mem_cons.mp hc' with hx | hx
          · subst hx
            simp only [size_members]
            omega
          · have := ih hx
            simp only [size_members]
            omega
      have := hmem child (List.mem_of_find?_eq_some hc)
      simp only [cJSON.size]
      omega
    | _ => simp [cJSON_GetObjectItem] at _h
  omega
/-- The loop of `transfer_args` (lines 61-67) from item `i` on: the extractor of
`Term` fills the element that `add_args()` gives. -/
def transfer_args_loop (static_cast : static_cast_t double) :
    List (Option String × cJSON double) → Term double → result_t (Term double)
  | [], dest => result_t.returned dest
  | item :: rest, dest =>
    (extractor_Term static_cast item.2 Term.Clear).bind (fun el =>
      transfer_args_loop static_cast rest (dest.add_args el))
termination_by items => 4 * size_items items + 3
decreasing_by
  all_goals simp_wf
  all_goals
    have hpos : 1 ≤ item.2.size := by
      cases item.2 <;> simp only [cJSON.size] <;> omega
    simp only [size_items]
    omega
/-- The function `transfer_optargs` for a `Term` (the third variant of
`DEFINE_TRANSFER(optargs, "o")`, lines 55-68). -/
def transfer_optargs (static_cast : static_cast_t double) (json : cJSON double)
    (dest : Term double) : result_t (Term double) :=
  match _h : cJSON_GetObjectItem json "o" with
  | none => result_t.returned dest
  | some arr =>
    (check_array arr).bind (fun _ => transfer_optargs_loop static_cast arr.child_items dest)
termination_by 4 * json.size
decreasing_by
  simp_wf
  have hitems : size_items arr.child_items < arr.size := by
    cases arr with
    | cJSON_Array child =>
      have hsum : ∀ l : List (cJSON double),
          size_items (l.map (fun c => ((none : Option String), c))) = size_elements l := by
        intro l
        induction l with
        | nil => simp [size_items, size_elements]
        | cons c rest ih => simp [size_items, size_elements, ih]
      simp only [cJSON.child_items, cJSON.size, hsum child]
      omega
    | cJSON_Object child =>
      have hsum : ∀ l : List (String × cJSON double),
          size_items (l.map (fun c => (some c.1, c.2))) = size_members l := by
        intro l
        induction l with
        | nil => simp [size_items, size_members]
        | cons c rest ih => simp [size_items, size_members, ih]
      simp only [cJSON.child_items, cJSON.size, hsum child]
      omega
    | _ => simp [cJSON.child_items, cJSON.size, size_items]
  have hget : arr.size < json.size := by
    cases json with
    | cJSON_Object child =>
      simp only [cJSON_GetObjectItem, Option.map_eq_some'] at _h
      obtain ⟨c, hc, rfl⟩ := _h
      have hmem : ∀ (l : List (String × cJSON double)), c ∈ l → c.2.size ≤ size_members l := by
        intro l
        induction l with
        | nil => intro hc'; cases hc'
        | cons x rest ih =>
          intro hc'
          rcases List.mem_cons.mp hc' with hx | hx
          · subst hx
            simp only [size_members]
            omega
          · have := ih hx
            simp only [size_members]
            omega
      have := hmem child (List.mem_of_find?_eq_some hc)
      simp only [cJSON.size]
      omega
    | _ => simp [cJSON_GetObjectItem] at _h
  omega
/-- The loop of `transfer_optargs` (lines 61-67) from item `i` on: the extractor
of `Term::AssocPair` fills the pair that `add_optargs()` gives. -/
def transfer_optargs_loop (static_cast : static_cast_t double) :
    List (Option String × cJSON double) → Term double → result_t (Term double)
  | [], dest => result_t.returned dest
  | item :: rest, dest =>
    (extractor_Term_AssocPair static_cast item).bind (fun el =>
      transfer_optargs_loop static_cast rest (dest.add_optargs el))
termination_by items => 4 * size_items items + 3
decreasing_by
  all_goals simp_wf
  all_goals
    have hpos : 1 ≤ item.2.size := by
      cases item.2 <;> simp only [cJSON.size] <;> omega
    simp only [size_items]
    omega
/-- The extractor of `Term::AssocPair` (lines 201-207), on an item `json` with its
name `json->string`: `ap->set_key(json->string)` reads the name as a string,
which is undefined when the item has none. -/
def extractor_Term_AssocPair (static_cast : static_cast_t double)
    (json : Option String × cJSON double) : result_t (String × Term double) :=
  match json.1 with
  | none => result_t.undefined
  | some key =>
    (extractor_Term static_cast json.2 Term.Clear).bind (fun val =>
      result_t.returned (key, val))
termination_by 4 * json.2.size + 2
decreasing_by
  all_goals simp_wf
end

end term_extractor

section query_extractor

variable {double : Type} [DecidableEq double]

/-- The extractor of `Query::AssocPair` (lines 193-199), on an item `json` with its
name `json->string`. -/
def extractor_Query_AssocPair (static_cast : static_cast_t double)
    (json : Option String × cJSON double) : result_t (String × Term double) :=
  match json.1 with
  | none => result_t.undefined
  | some key =>
    (extractor_Term static_cast json.2 Term.Clear).bind (fun val =>
      result_t.returned (key, val))

/-- The function `transfer_type` for a `Query` (the first variant of
`DEFINE_TRANSFER(type, "t")`, lines 32-40). -/
def transfer_type_Query (static_cast : static_cast_t double) (json : cJSON double)
    (dest : Query double) : result_t (Query double) :=
  match cJSON_GetObjectItem json "t" with
  | none => result_t.returned dest
  | some item =>
    (extractor_number static_cast static_cast.QueryType item).bind
      (fun tmp => result_t.returned { dest with type := some tmp })

/-- The function `transfer_query` for a `Query` (the second variant of
`DEFINE_TRANSFER(query, "q")`, lines 45-50); `mutable_query()` gives the term of
the query, or a new one. -/
def transfer_query (static_cast : static_cast_t double) (json : cJSON double)
    (dest : Query double) : result_t (Query double) :=
  match cJSON_GetObjectItem json "q" with
  | none => result_t.returned dest
  | some item =>
    (extractor_Term static_cast item (dest.query.getD Term.Clear)).bind
      (fun t => result_t.returned { dest with query := some t })

/-- The function `transfer_token` for a `Query` (the first variant of
`DEFINE_TRANSFER(token, "k")`, lines 32-40). -/
def transfer_token (static_cast : static_cast_t double) (json : cJSON double)
    (dest : Query double) : result_t (Query double) :=
  match cJSON_GetObjectItem json "k" with
  | none => result_t.returned dest
  | some item =>
    (extractor_number static_cast static_cast.int64_t item).bind
      (fun tmp => result_t.returned { dest with token := some tmp })

/-- The loop of `transfer_global_optargs` (lines 61-67) from item `i` on: the
extractor of `Query::AssocPair` fills the pair that `add_global_optargs()`
gives. -/
def transfer_global_optargs_loop (static_cast : static_cast_t double) :
    List (Option String × cJSON double) → Query double → result_t (Query double)
  | [], dest => result_t.returned dest
  | item :: rest, dest =>
    (extractor_Query_AssocPair static_cast item).bind (fun el =>
      transfer_global_optargs_loop static_cast rest
        { dest with global_optargs := dest.global_optargs ++ [el] })

/-- The function `transfer_global_optargs` for a `Query` (the third variant of
`DEFINE_TRANSFER(global_optargs, "g")`, lines 55-68). -/
def transfer_global_optargs (static_cast : static_cast_t double) (json : cJSON double)
    (dest : Query double) : result_t (Query double) :=
  match cJSON_GetObjectItem json "g" with
  | none => result_t.returned dest
  | some arr =>
    (check_array arr).bind (fun _ =>
      transfer_global_optargs_loop static_cast arr.child_items dest)

/-- The extractor of `Query` (lines 217-226). -/
def extractor_Query (static_cast : static_cast_t double) (json : cJSON double)
    (q : Query double) : result_t (Query double) :=
  (transfer_type_Query static_cast json q).bind (fun q =>
    (transfer_query static_cast json q).bind (fun q =>
      (transfer_token static_cast json q).bind (fun q =>
        transfer_global_optargs static_cast json { q with accepts_r_json := some true })))

/-- The function `parse_json_pb` (lines 228-239): what it returns and the query
afterwards. `cJSON_Parse` is the parser of cJSON, which is defined outside the
sources and gives `NULL` (`none`) for a text that is not JSON. The function is
declared `throw ()`: an `exc_t` that an extractor raises does not reach the
caller as an exception but ends in `std::unexpected()`. -/
def parse_json_pb (cJSON_Parse : String → Option (cJSON double))
    (static_cast : static_cast_t double) (_q : Query double) (str : String) :
    result_t (Bool × Query double) :=
  let q : Query double := Query.Clear
  match cJSON_Parse str with
  | none => result_t.returned (false, q)
  | some json =>
    (extractor_Query static_cast json q).bind (fun q => result_t.returned (true, q))

end query_extractor

section fits

variable {double : Type}

/-- The item is a number that the number type holds exactly: the conversion to
the type and back gives the value of the item. -/
def number_fits (static_cast : static_cast_t double) (static_cast_T : double → Int)
    (item : cJSON double) : Prop :=
  ∃ valuedouble, item = cJSON.cJSON_Number valuedouble ∧
    static_cast.double_ (static_cast_T valuedouble) = valuedouble

/-- The item is an array or an object. -/
def is_list (arr : cJSON double) : Prop :=
  (∃ child, arr = cJSON.cJSON_Array child) ∨ (∃ child, arr = cJSON.cJSON_Object child)

/-- The fields that the extractor of `Term` reads in an item and below it have
the JSON types and values it accepts: a `t` is a number that `TermType` holds
exactly; an `s` is an array or an object, and so is an `o`; each of their elements
is such an item, and each element of `o` has a name. -/
inductive Term_fits (static_cast : static_cast_t double) : cJSON double → Prop where
  | intro (json : cJSON double) :
    (∀ item, cJSON_GetObjectItem json "t" = some item →
      number_fits static_cast static_cast.TermType item) →
    (∀ arr, cJSON_GetObjectItem json "s" = some arr → is_list arr) →
    (∀ arr, cJSON_GetObjectItem json "s" = some arr →
      ∀ el ∈ arr.child_items, Term_fits static_cast el.2) →
    (∀ arr, cJSON_GetObjectItem json "o" = some arr → is_list arr) →
    (∀ arr, cJSON_GetObjectItem json "o" = some arr →
      ∀ el ∈ arr.child_items, el.1.isSome = true) →
    (∀ arr, cJSON_GetObjectItem json "o" = some arr →
      ∀ el ∈ arr.child_items, Term_fits static_cast el.2) →
    Term_fits static_cast json

/-- The fields that the extractor of `Query` reads in an item and below it have
the JSON types and values it accepts: a `t` is a number that `QueryType` holds
exactly and a `k` one that `int64_t` holds exactly; a `g` is an array or an
object, each element of which has a name; and the `q` and the elements of `g` are
items that the extractor of `Term` accepts. -/
def Query_fits (static_cast : static_cast_t double) (json : cJSON double) : Prop :=
  (∀ item, cJSON_GetObjectItem json "t" = some item →
    number_fits static_cast static_cast.QueryType item) ∧
  (∀ item, cJSON_GetObjectItem json "q" = some item → Term_fits static_cast item) ∧
  (∀ item, cJSON_GetObjectItem json "k" = some item →
    number_fits static_cast static_cast.int64_t item) ∧
  (∀ arr, cJSON_GetObjectItem json "g" = some arr →
    is_list arr ∧ ∀ el ∈ arr.child_items, el.1.isSome = true ∧ Term_fits static_cast el.2)

/-- Every optarg that the extractor of `Term` reads in an item and below it has a
name: it is a member of an object. -/
inductive Term_named : cJSON double → Prop where
  | intro (json : cJSON double) :
    (∀ arr, cJSON_GetObjectItem json "s" = some arr →
      ∀ el ∈ arr.child_items, Term_named el.2) →
    (∀ arr, cJSON_GetObjectItem json "o" = some arr →
      ∀ el ∈ arr.child_items, el.1.isSome = true) →
    (∀ arr, cJSON_GetObjectItem json "o" = some arr →
      ∀ el ∈ arr.child_items, Term_named el.2) →
    Term_named json

/-- Every optarg that the extractor of `Query` reads in an item and below it has
a name. -/
def Query_named (json : cJSON double) : Prop :=
  (∀ item, cJSON_GetObjectItem json "q" = some item → Term_named item) ∧
  (∀ arr, cJSON_GetObjectItem json "g" = some arr →
    ∀ el ∈ arr.child_items, el.1.isSome = true ∧ Term_named el.2)

end fits

end parse

end json_shim
namespace json_shim

namespace parse

/-- The conversions of the examples: `double` holds rational numbers, the
conversion to an integer type drops the fraction, as `static_cast` does, and
the conversion back holds every integer exactly. -/
def fraction_cast : static_cast_t ℚ :=
  ⟨fun d => Int.tdiv d.num d.den, fun d => Int.tdiv d.num d.den,
    fun d => Int.tdiv d.num d.den, fun t => (t : ℚ)⟩

/-- The parser of the examples: it knows one text, for which it gives the item
`json`; any other text is not JSON to it. -/
def parse_text (text : String) (json : cJSON ℚ) (str : String) : Option (cJSON ℚ) :=
  if str = text then some json else none

end parse

end json_shim

/-! ## The `std::map` operations -/

namespace std_map

variable {K V : Type} [LinearOrder K]

theorem find_assign_same (m : List (K × V)) (k : K) (v : V) :
    find (assign m k v) k = some v := by
  induction m with
  | nil => simp [assign, find]
  | cons e m ih =>
    obtain ⟨k', v'⟩ := e
    unfold assign
    split_ifs with h1 h2
    · simp [find]
    · simp [find]
    · have h3 : ¬ k' = k := fun h => h2 h.symm
      simp [find, h3, ih]

theorem find_assign_other (m : List (K × V)) (k k' : K) (v : V) (h : k' ≠ k) :
    find (assign m k v) k' = find m k' := by
  induction m with
  | nil => simp [assign, find, h.symm]
  | cons e m ih =>
    obtain ⟨k0, v0⟩ := e
    unfold assign
    split_ifs with h1 h2
    · simp [find, h.symm]
    · subst h2
      simp [find, h.symm]
    · by_cases h3 : k0 = k'
      · simp [find, h3]
      · simp [find, h3, ih]

theorem mem_of_find {m : List (K × V)} {k : K} {v : V} (h : find m k = some v) :
    (k, v) ∈ m := by
  induction m with
  | nil => simp [find] at h
  | cons e m ih =>
    obtain ⟨k0, v0⟩ := e
    unfold find at h
    split_ifs at h with h1
    · cases h
      subst h1
      exact List.mem_cons_self _ _
    · exact List.mem_cons_of_mem _ (ih h)

theorem find_of_mem {m : List (K × V)} (hm : ordered m) {k : K} {v : V} (h : (k, v) ∈ m) :
    find m k = some v := by
  induction m with
  | nil => simp at h
  | cons e m ih =>
    obtain ⟨k0, v0⟩ := e
    unfold ordered at hm
    rw [List.pairwise_cons] at hm
    rcases List.mem_cons.mp h with h1 | h1
    · cases h1
      simp [find]
    · have hlt : k0 < k := hm.1 (k, v) h1
      simp [find, ne_of_lt hlt, ih hm.2 h1]

theorem ordered_assign {m : List (K × V)} (hm : ordered m) (k : K) (v : V) :
    ordered (assign m k v) := by
  induction m with
  | nil => simp [assign, ordered]
  | cons e m ih =>
    obtain ⟨k0, v0⟩ := e
    unfold ordered at hm ih ⊢
    rw [List.pairwise_cons] at hm
    unfold assign
    split_ifs with h1 h2
    · rw [List.pairwise_cons]
      refine ⟨?_, List.pairwise_cons.mpr hm⟩
      intro a ha
      rcases List.mem_cons.mp ha with h3 | h3
      · subst h3
        exact h1
      · exact lt_trans h1 (hm.1 a h3)
    · subst h2
      exact List.pairwise_cons.mpr hm
    · rw [List.pairwise_cons]
      refine ⟨?_, ih hm.2⟩
      intro a ha
      have hk : k0 < k := lt_of_le_of_ne (not_lt.mp h1) (fun h => h2 h.symm)
      have key : ∀ (l : List (K × V)), (∀ b ∈ l, k0 < b.1) → ∀ b ∈ assign l k v, k0 < b.1 := by
        intro l
        induction l with
        | nil =>
          intro _ b hb
          simp [assign] at hb
          subst hb
          exact hk
        | cons c l ihl =>
          intro hl b hb
          obtain ⟨kc, vc⟩ := c
          unfold assign at hb
          split_ifs at hb with h4 h5
          · rcases List.mem_cons.mp hb with h6 | h6
            · subst h6
              exact hk
            · exact hl b h6
          · rcases List.mem_cons.mp hb with h6 | h6
            · subst h6
              exact hk
            · exact hl b (List.mem_cons_of_mem _ h6)
          · rcases List.mem_cons.mp hb with h6 | h6
            · subst h6
              exact hl (kc, vc) (List.mem_cons_self _ _)
            · exact ihl (fun b hb => hl b (List.mem_cons_of_mem _ hb)) b h6
      exact key m hm.1 a ha

theorem mem_lower_bound {m : List (K × V)} (hm : ordered m) (k : K) (e : K × V) :
    e ∈ lower_bound m k ↔ e ∈ m ∧ k ≤ e.1 := by
  unfold lower_bound
  induction m with
  | nil => simp
  | cons x m ih =>
    unfold ordered at hm ih
    rw [List.pairwise_cons] at hm
    rw [List.dropWhile_cons]
    split_ifs with h
    · have h' : x.1 < k := of_decide_eq_true h
      rw [ih hm.2]
      constructor
      · rintro ⟨h1, h2⟩
        exact ⟨List.mem_cons_of_mem _ h1, h2⟩
      · rintro ⟨h1, h2⟩
        rcases List.mem_cons.mp h1 with h3 | h3
        · subst h3
          exact absurd h' (not_lt.mpr h2)
        · exact ⟨h3, h2⟩
    · have h' : k ≤ x.1 := by
        rw [decide_eq_true_eq] at h
        exact not_lt.mp h
      constructor
      · intro h1
        refine ⟨h1, ?_⟩
        rcases List.mem_cons.mp h1 with h3 | h3
        · subst h3
          exact h'
        · exact le_trans h' (le_of_lt (hm.1 e h3))
      · exact fun h1 => h1.1

theorem ordered_of_sublist {l m : List (K × V)} (h : l.Sublist m) (hm : ordered m) :
    ordered l :=
  List.Pairwise.sublist h hm

theorem nodup_keys_of_ordered {m : List (K × V)} (hm : ordered m) :
    (m.map Prod.fst).Nodup := by
  unfold ordered at hm
  rw [List.Nodup, List.pairwise_map]
  exact List.Pairwise.imp (fun h => ne_of_lt h) hm

end std_map

/-! ## Regions and region maps -/

section region_lemmas

variable {K V : Type} [LinearOrder K]

theorem contains_key_iff (r : key_range_t K) (k : K) :
    r.contains_key k = true ↔ r.left ≤ k ∧ ∀ x, r.right = some x → k < x := by
  unfold key_range_t.contains_key
  cases hr : r.right with
  | none => simp
  | some x => simp

theorem not_contains_of_is_empty (r : key_range_t K) (k : K) (h : r.is_empty = true) :
    r.contains_key k = false := by
  unfold key_range_t.is_empty at h
  cases hr : r.right with
  | none => simp [hr] at h
  | some x =>
    simp only [hr, decide_eq_true_eq] at h
    rw [Bool.eq_false_iff]
    intro hc
    rw [contains_key_iff] at hc
    exact absurd (lt_of_le_of_lt hc.1 (hc.2 x hr)) (not_lt.mpr h)

theorem key_range_subtract_contains (j s : key_range_t K) (k : K) :
    (∃ r ∈ j.subtract s, r.contains_key k = true) ↔
      (j.contains_key k = true ∧ s.contains_key k = false) := by
  have hfilter : ∀ (l : List (key_range_t K)),
      (∃ r ∈ l.filter (fun r => !r.is_empty), r.contains_key k = true) ↔
        ∃ r ∈ l, r.contains_key k = true := by
    intro l
    constructor
    · rintro ⟨r, hr, hk⟩
      exact ⟨r, (List.mem_filter.mp hr).1, hk⟩
    · rintro ⟨r, hr, hk⟩
      refine ⟨r, List.mem_filter.mpr ⟨hr, ?_⟩, hk⟩
      cases he : r.is_empty with
      | false => rfl
      | true => rw [not_contains_of_is_empty r k he] at hk; cases hk
  unfold key_range_t.subtract
  rw [hfilter]
  rw [Bool.eq_false_iff, Ne, contains_key_iff, contains_key_iff]
  obtain ⟨jl, jr⟩ := j
  obtain ⟨sl, sr⟩ := s
  cases sr with
  | none =>
    cases jr with
    | none =>
      simp [contains_key_iff, right_bound_min]
    | some y =>
      simp [contains_key_iff, right_bound_min]
      tauto
  | some x =>
    cases jr with
    | none =>
      simp [contains_key_iff, right_bound_min]
      rw [imp_iff_not_or, not_le]
      tauto
    | some y =>
      simp [contains_key_iff, right_bound_min]
      rw [imp_iff_not_or, not_le]
      tauto

theorem region_contains_point_iff (r : hash_region_t K) (p : Nat × K) :
    region_contains_point r p = true ↔
      r.beg ≤ p.1 ∧ p.1 < r.end_ ∧ r.inner.contains_key p.2 = true := by
  unfold region_contains_point
  simp [and_assoc]

theorem not_region_contains_of_is_empty (r : hash_region_t K) (p : Nat × K)
    (h : region_is_empty r = true) : region_contains_point r p = false := by
  rw [Bool.eq_false_iff]
  intro hc
  rw [region_contains_point_iff] at hc
  unfold region_is_empty at h
  rcases Bool.or_eq_true_iff.mp h with h1 | h1
  · have := of_decide_eq_true h1
    omega
  · rw [not_contains_of_is_empty r.inner p.2 h1] at hc
    exact absurd hc.2.2 (by simp)

theorem region_subtract_contains (j s : hash_region_t K) (p : Nat × K) :
    (∃ r ∈ region_subtract j s, region_contains_point r p = true) ↔
      (region_contains_point j p = true ∧ region_contains_point s p = false) := by
  have hfilter : ∀ (l : List (hash_region_t K)),
      (∃ r ∈ l.filter (fun r => !region_is_empty r), region_contains_point r p = true) ↔
        ∃ r ∈ l, region_contains_point r p = true := by
    intro l
    constructor
    · rintro ⟨r, hr, hk⟩
      exact ⟨r, (List.mem_filter.mp hr).1, hk⟩
    · rintro ⟨r, hr, hk⟩
      refine ⟨r, List.mem_filter.mpr ⟨hr, ?_⟩, hk⟩
      cases he : region_is_empty r with
      | false => rfl
      | true => rw [not_region_contains_of_is_empty r p he] at hk; cases hk
  have hk := key_range_subtract_contains j.inner s.inner p.2
  unfold region_subtract
  rw [hfilter]
  simp only [List.mem_cons, List.mem_map, exists_eq_or_imp, region_contains_point_iff,
    Bool.eq_false_iff, Ne]
  constructor
  · rintro (h | h | ⟨r, ⟨i, hi, rfl⟩, h⟩)
    · refine ⟨⟨h.1, by omega, h.2.2⟩, ?_⟩
      rintro ⟨h1, h2, h3⟩
      omega
    · refine ⟨⟨by omega, h.2.1, h.2.2⟩, ?_⟩
      rintro ⟨h1, h2, h3⟩
      omega
    · simp only at h
      have h4 := (hk.mp ⟨i, hi, h.2.2⟩)
      refine ⟨⟨by omega, by omega, h4.1⟩, ?_⟩
      rintro ⟨h1, h2, h3⟩
      rw [h4.2] at h3
      cases h3
  · rintro ⟨⟨h1, h2, h3⟩, h4⟩
    by_cases h5 : s.beg ≤ p.1
    · by_cases h6 : p.1 < s.end_
      · right
        right
        have h7 : s.inner.contains_key p.2 = false := by
          rw [Bool.eq_false_iff]
          exact fun h => h4 ⟨h5, h6, h⟩
        obtain ⟨i, hi, hc⟩ := hk.mpr ⟨h3, h7⟩
        exact ⟨_, ⟨i, hi, rfl⟩, by simp only; omega, by simp only; omega, hc⟩
      · right
        left
        exact ⟨by omega, h2, h3⟩
    · left
      exact ⟨h1, by omega, h3⟩

theorem region_subtract_many_contains (j : hash_region_t K) (ss : List (hash_region_t K))
    (p : Nat × K) :
    (∃ r ∈ region_subtract_many j ss, region_contains_point r p = true) ↔
      (region_contains_point j p = true ∧ ∀ s ∈ ss, region_contains_point s p = false) := by
  unfold region_subtract_many
  have key : ∀ (ss buf : List (hash_region_t K)),
      (∃ r ∈ ss.foldl (fun buf s => buf.flatMap (fun j => region_subtract j s)) buf,
          region_contains_point r p = true) ↔
        ((∃ b ∈ buf, region_contains_point b p = true) ∧
          ∀ s ∈ ss, region_contains_point s p = false) := by
    intro ss
    induction ss with
    | nil => intro buf; simp
    | cons s ss ih =>
      intro buf
      rw [List.foldl_cons, ih]
      simp only [List.mem_flatMap, List.mem_cons, forall_eq_or_imp]
      constructor
      · rintro ⟨⟨r, ⟨b, hb, hr⟩, hc⟩, hss⟩
        have := (region_subtract_contains b s p).mp ⟨r, hr, hc⟩
        exact ⟨⟨b, hb, this.1⟩, this.2, hss⟩
      · rintro ⟨⟨b, hb, hc⟩, hs, hss⟩
        obtain ⟨r, hr, hrc⟩ := (region_subtract_contains b s p).mpr ⟨hc, hs⟩
        exact ⟨⟨r, ⟨b, hb, hr⟩, hrc⟩, hss⟩
  rw [key]
  simp

theorem find_tagged_pieces (l : List (hash_region_t K)) (v : V) (p : Nat × K) :
    ((l.map (fun r => (r, v))).find? (fun e => region_contains_point e.1 p)).map Prod.snd =
      if l.any (fun r => region_contains_point r p) then some v else none := by
  induction l with
  | nil => simp
  | cons r l ih =>
    by_cases h : region_contains_point r p = true
    · simp [List.find?_cons, h]
    · have h' : region_contains_point r p = false := by simpa using h
      simp only [List.map_cons, List.find?_cons, List.any_cons, h', Bool.false_or]
      exact ih

theorem in_domain_iff (m : region_map_t K V) (p : Nat × K) :
    m.in_domain p = true ↔ ∃ e ∈ m.regions_and_values, region_contains_point e.1 p = true := by
  unfold region_map_t.in_domain
  simp

theorem lookup_eq_none_of_not_in_domain (m : region_map_t K V) (p : Nat × K)
    (h : m.in_domain p = false) : m.lookup p = none := by
  unfold region_map_t.lookup
  rw [Option.map_eq_none', List.find?_eq_none]
  intro e he hc
  have : m.in_domain p = true := (in_domain_iff m p).mpr ⟨e, he, hc⟩
  rw [h] at this
  cases this

/-- The value of an updated region map at a point: that of the new map on its
domain, the old one elsewhere. -/
theorem lookup_update (m n : region_map_t K V) (p : Nat × K) :
    (m.update n).lookup p = if n.in_domain p then n.lookup p else m.lookup p := by
  unfold region_map_t.update region_map_t.lookup
  simp only [List.find?_append, Option.map_or']
  have hpieces : ∀ (l : List (hash_region_t K × V)),
      ((l.flatMap (fun q =>
          (region_subtract_many q.1 (n.regions_and_values.map Prod.fst)).map
            (fun r => (r, q.2)))).find? (fun e => region_contains_point e.1 p)).map Prod.snd =
        if n.in_domain p then none
        else (l.find? (fun e => region_contains_point e.1 p)).map Prod.snd := by
    intro l
    induction l with
    | nil => simp
    | cons q l ih =>
      rw [List.flatMap_cons, List.find?_append, Option.map_or', find_tagged_pieces, ih]
      have hq := region_subtract_many_contains q.1 (n.regions_and_values.map Prod.fst) p
      by_cases hn : n.in_domain p = true
      · have hno : (region_subtract_many q.1 (n.regions_and_values.map Prod.fst)).any
            (fun r => region_contains_point r p) = false := by
          rw [Bool.eq_false_iff]
          intro hany
          rw [List.any_eq_true] at hany
          obtain ⟨e, he, hc⟩ := (in_domain_iff n p).mp hn
          have := (hq.mp hany).2 e.1 (List.mem_map_of_mem _ he)
          rw [hc] at this
          cases this
        simp [hn, hno]
      · have hn' : n.in_domain p = false := by simpa using hn
        have hall : ∀ s ∈ n.regions_and_values.map Prod.fst, region_contains_point s p = false := by
          intro s hs
          obtain ⟨e, he, rfl⟩ := List.mem_map.mp hs
          rw [Bool.eq_false_iff]
          intro hc
          exact hn ((in_domain_iff n p).mpr ⟨e, he, hc⟩)
        cases hc : region_contains_point q.1 p with
        | true =>
          have hany : (region_subtract_many q.1 (n.regions_and_values.map Prod.fst)).any
              (fun r => region_contains_point r p) = true := by
            rw [List.any_eq_true]
            exact hq.mpr ⟨hc, hall⟩
          simp [hn', hany, List.find?_cons, hc]
        | false =>
          have hno : (region_subtract_many q.1 (n.regions_and_values.map Prod.fst)).any
              (fun r => region_contains_point r p) = false := by
            rw [Bool.eq_false_iff]
            intro hany
            rw [List.any_eq_true] at hany
            have := (hq.mp hany).1
            rw [hc] at this
            cases this
          simp [hn', hno, List.find?_cons, hc]
  rw [hpieces]
  by_cases hn : n.in_domain p = true
  · simp [hn]
  · have hn' : n.in_domain p = false := by simpa using hn
    have := lookup_eq_none_of_not_in_domain n p hn'
    unfold region_map_t.lookup at this
    simp [hn', this]

end region_lemmas

/-! ## Runs that are not interrupted -/

namespace unittest

section stepping

variable {K V ρ : Type}

theorem coro_bind_apply {σ α β : Type} (m : coro_t σ α) (g : α → coro_t σ β) (s : σ) :
    (m >>= g) s = coro_t.bind m g s := rfl

theorem coro_pure_apply {σ α : Type} (a : α) (s : σ) :
    (pure a : coro_t σ α) s = (exit_t.returned a, s) := rfl

theorem coro_ite_apply {σ α : Type} (c : Prop) [Decidable c] (m1 m2 : coro_t σ α) (s : σ) :
    (if c then m1 else m2) s = if c then m1 s else m2 s := by
  split <;> rfl

theorem randint_apply (n : Nat) (f : frame K V ρ) :
    randint n f = (exit_t.returned (f.self.rng_.headD 0 % n),
      { f with self := { f.self with rng_ := f.self.rng_.tail } }) := by
  unfold randint
  cases h : f.self.rng_ with
  | nil =>
    obtain ⟨⟨t, m, r⟩, tk, i, o⟩ := f
    simp at h
    simp [h]
  | cons x rest => simp

theorem blocking_point_quiet (f : frame K V ρ) (h : f.interruptor = none) :
    blocking_point f = (exit_t.returned (), f) := by
  unfold blocking_point
  rw [h]

theorem maybe_nap_quiet (f : frame K V ρ) (h : f.interruptor = none) :
    maybe_nap f = (exit_t.returned (),
      { f with self := { f.self with rng_ := nap_rng f.self.rng_ } }) := by
  unfold maybe_nap nap_rng
  simp only [coro_bind_apply, coro_t.bind, coro_t.bind_step, randint_apply]
  split_ifs with hc
  · simp only [coro_bind_apply, coro_t.bind, coro_t.bind_step, randint_apply, nap]
    exact blocking_point_quiet _ h
  · rfl

theorem sentinel_token (b : object_buffer_t) :
    (if b.has = true then b.reset else b) = ⟨false⟩ := by
  obtain ⟨h⟩ := b
  cases h <;> simp [object_buffer_t.reset]

/-- A point write that is not interrupted, whose metainfo check passes and whose
datum is present: the state in which it returns. -/
theorem write_point_quiet [LinearOrder K] (chk : metainfo_checker_t K)
    (nm : region_map_t K binary_blob_t) (pw : point_write_t K) (ts : transition_timestamp_t)
    (f : frame K datum_t write_response_t)
    (hq : f.interruptor = none)
    (hc : chk.check_metainfo (f.self.metainfo_.mask chk.get_domain) = true)
    (hd : pw.data.has = true) :
    mock_store_t.write chk nm (write_t.point_write pw) ts f =
      (exit_t.returned (),
        { self :=
            { table_ :=
                if pw.overwrite || !(std_map.find f.self.table_ pw.key).isSome then
                  std_map.assign f.self.table_ pw.key
                    (ts.timestamp_after.to_repli_timestamp, pw.data)
                else f.self.table_
              metainfo_ := f.self.metainfo_.update nm
              rng_ := nap_rng (nap_rng f.self.rng_) }
          token := ⟨false⟩
          interruptor := none
          out := ⟨1, write_response_variant_t.point_write_response
            ⟨some (if (std_map.find f.self.table_ pw.key).isSome
              then point_write_result_t.DUPLICATE else point_write_result_t.STORED)⟩⟩ }) := by
  unfold mock_store_t.write mock_store_t.write_block
  simp only [coro_bind_apply, coro_t.bind, coro_t.bind_step, with_destruction_sentinel,
    destruction_sentinel_exit, wait_interruptible,
    blocking_point_quiet, maybe_nap_quiet, get_self, guarantee, set_out, modify_self, hq, hc, hd,
    coro_pure_apply, sentinel_token, coro_ite_apply, if_true]
  by_cases h : (pw.overwrite || !(std_map.find f.self.table_ pw.key).isSome) = true
  · simp only [if_pos h, sentinel_token, maybe_nap_quiet]
  · simp only [if_neg h, sentinel_token, maybe_nap_quiet]

/-- A point read that is not interrupted and whose metainfo check passes: the
state in which it returns. -/
theorem read_point_quiet [LinearOrder K] (chk : metainfo_checker_t K)
    (pr : point_read_t K) (f : frame K datum_t read_response_t)
    (hq : f.interruptor = none)
    (hc : chk.check_metainfo (f.self.metainfo_.mask chk.get_domain) = true) :
    mock_store_t.read chk (read_t.point_read pr) f =
      (exit_t.returned (),
        { self := { f.self with rng_ := nap_rng (nap_rng f.self.rng_) }
          token := ⟨false⟩
          interruptor := none
          out := ⟨1, read_response_variant_t.point_read_response
            ⟨match std_map.find f.self.table_ pr.key with
              | none => some datum_t.R_NULL
              | some it => it.2⟩⟩ }) := by
  unfold mock_store_t.read mock_store_t.read_block
  simp only [coro_bind_apply, coro_t.bind, coro_t.bind_step, with_destruction_sentinel,
    destruction_sentinel_exit, wait_interruptible,
    blocking_point_quiet, maybe_nap_quiet, get_self, guarantee, set_out, modify_self, hq, hc,
    coro_pure_apply, sentinel_token, coro_ite_apply, if_true]
  cases h : std_map.find f.self.table_ pr.key with
  | none => simp only [set_out, sentinel_token, maybe_nap_quiet]
  | some it => simp only [set_out, sentinel_token, maybe_nap_quiet]

/-- A `receive_backfill` of a chunk with one atom that is not interrupted: the
state in which it returns. -/
theorem receive_backfill_quiet {K : Type} [LinearOrder K] (atom : backfill_atom_t K)
    (f : frame K datum_t Unit) (hq : f.interruptor = none) :
    mock_store_t.receive_backfill (backfill_chunk_t.key_value_pairs [atom]) f =
      (exit_t.returned (),
        { self :=
            { table_ := std_map.assign f.self.table_ atom.key (atom.recency, atom.value)
              metainfo_ := f.self.metainfo_
              rng_ := nap_rng (nap_rng f.self.rng_) }
          token := ⟨false⟩
          interruptor := none
          out := f.out }) := by
  unfold mock_store_t.receive_backfill
  simp only [coro_bind_apply, coro_t.bind, coro_t.bind_step, with_destruction_sentinel,
    destruction_sentinel_exit, maybe_nap_quiet,
    modify_self, hq, sentinel_token]

/-- A `set_metainfo` that is not interrupted: the state in which it returns. -/
theorem set_metainfo_quiet {K : Type} [LinearOrder K] (nm : region_map_t K binary_blob_t)
    (f : frame K datum_t Unit) (hq : f.interruptor = none) :
    mock_store_t.set_metainfo nm f =
      (exit_t.returned (),
        { self :=
            { table_ := f.self.table_
              metainfo_ := f.self.metainfo_.update nm
              rng_ := nap_rng f.self.rng_ }
          token := ⟨false⟩
          interruptor := none
          out := f.out }) := by
  unfold mock_store_t.set_metainfo
  simp only [coro_bind_apply, coro_t.bind, coro_t.bind_step, with_destruction_sentinel,
    destruction_sentinel_exit, wait_interruptible, blocking_point_quiet, maybe_nap_quiet,
    modify_self, hq, sentinel_token]

end stepping

section stepping_backfill

variable {K : Type}

theorem send_chunk_quiet (chunk : backfill_chunk_t K)
    (f : frame K datum_t (List (backfill_chunk_t K))) (hq : f.interruptor = none) :
    send_chunk chunk f = (exit_t.returned (), { f with out := f.out ++ [chunk] }) := by
  unfold send_chunk
  simp only [coro_bind_apply, coro_t.bind, coro_t.bind_step, blocking_point_quiet, hq, set_out]

theorem send_backfill_entry_quiet [LinearOrder K] (hasher : K → Nat) (region : hash_region_t K)
    (ts : repli_timestamp_t) (it : K × (repli_timestamp_t × counted_t datum_t))
    (f : frame K datum_t (List (backfill_chunk_t K))) (hq : f.interruptor = none) :
    ∃ r, send_backfill_entry hasher region ts it f =
      (exit_t.returned (),
        { f with self := { f.self with rng_ := r },
                 out := f.out ++ entry_chunks hasher region ts it }) := by
  unfold send_backfill_entry entry_chunks
  by_cases hc : region_contains_key hasher region it.1 = true
  · by_cases ht : ts < it.2.1
    · refine ⟨nap_rng f.self.rng_, ?_⟩
      simp only [hc, ht, if_true, coro_bind_apply, coro_t.bind, coro_t.bind_step,
        send_chunk_quiet _ f hq, maybe_nap_quiet, hq, Bool.true_and, decide_True]
    · refine ⟨nap_rng f.self.rng_, ?_⟩
      simp only [hc, ht, if_true, if_false, coro_bind_apply, coro_t.bind, coro_t.bind_step,
        coro_pure_apply, maybe_nap_quiet, hq, Bool.true_and, decide_False,
        Bool.false_eq_true, List.append_nil]
  · refine ⟨f.self.rng_, ?_⟩
    have hc' : region_contains_key hasher region it.1 = false := by simpa using hc
    simp only [hc', Bool.false_eq_true, if_false, coro_pure_apply, Bool.false_and,
      List.append_nil]

theorem for_each_quiet {α β : Type} (body : α → coro_t (frame K datum_t (List β)) Unit)
    (g : α → List β)
    (hbody : ∀ x (f : frame K datum_t (List β)), f.interruptor = none →
      ∃ r, body x f = (exit_t.returned (),
        { f with self := { f.self with rng_ := r }, out := f.out ++ g x }))
    (l : List α) (f : frame K datum_t (List β)) (hq : f.interruptor = none) :
    ∃ r, for_each body l f = (exit_t.returned (),
      { f with self := { f.self with rng_ := r }, out := f.out ++ l.flatMap g }) := by
  induction l generalizing f with
  | nil =>
    refine ⟨f.self.rng_, ?_⟩
    simp [for_each, coro_pure_apply]
  | cons x rest ih =>
    obtain ⟨r1, h1⟩ := hbody x f hq
    obtain ⟨r2, h2⟩ := ih
      ({ f with self := { f.self with rng_ := r1 }, out := f.out ++ g x }) hq
    refine ⟨r2, ?_⟩
    unfold for_each
    simp only [coro_bind_apply, coro_t.bind, h1, coro_t.bind_step, h2, List.flatMap_cons,
      List.append_assoc]

/-- A `send_backfill` that is not interrupted and whose callback accepts: it
returns `true` after handing over `backfill_chunks` of the table. -/
theorem send_backfill_quiet [LinearOrder K] [OrderBot K] (hasher : K → Nat)
    (start_point : region_map_t K state_timestamp_t) (cb : send_backfill_callback_t K)
    (f : frame K datum_t (List (backfill_chunk_t K))) (hq : f.interruptor = none)
    (hacc : cb.should_backfill (f.self.metainfo_.mask start_point.get_domain) = true) :
    ∃ r, mock_store_t.send_backfill hasher start_point cb f =
      (exit_t.returned true,
        { self := { f.self with rng_ := r }
          token := ⟨false⟩
          interruptor := none
          out := f.out ++ backfill_chunks hasher start_point f.self.table_ }) := by
  obtain ⟨r, hr⟩ := for_each_quiet
    (fun (r_it : hash_region_t K × state_timestamp_t) =>
      for_each (send_backfill_entry hasher r_it.1 r_it.2.to_repli_timestamp)
        (send_backfill_range r_it.1 f.self.table_))
    (fun r_it => (send_backfill_range r_it.1 f.self.table_).flatMap
      (entry_chunks hasher r_it.1 r_it.2.to_repli_timestamp))
    (fun r_it g hg => for_each_quiet _ _
      (fun it g' hg' => send_backfill_entry_quiet hasher r_it.1 _ it g' hg') _ g hg)
    start_point.regions_and_values
    ({ self := { f.self with rng_ := nap_rng (nap_rng f.self.rng_) }
       token := ⟨false⟩
       interruptor := none
       out := f.out } : frame K datum_t (List (backfill_chunk_t K))) rfl
  refine ⟨r, ?_⟩
  unfold mock_store_t.send_backfill
  simp only [coro_bind_apply, coro_t.bind, coro_t.bind_step, with_destruction_sentinel,
    wait_interruptible, blocking_point_quiet, maybe_nap_quiet, get_self, hq, hacc, if_true,
    reset_token, object_buffer_t.reset, coro_ite_apply]
  rw [hr]
  simp only [coro_t.bind_step, coro_pure_apply, destruction_sentinel_exit, sentinel_token,
    backfill_chunks]
  rfl

end stepping_backfill

end unittest

/-! ## Triples: how a call may end, interrupted or not -/

namespace unittest

section logic

variable {K V ρ : Type}

theorem hoare_bind {σ α β : Type} {P : σ → Prop} {m : coro_t σ α} {Q : α → σ → Prop}
    {E C : σ → Prop} {g : α → coro_t σ β} {R : β → σ → Prop}
    (h1 : hoare P m Q E C) (h2 : ∀ a, hoare (Q a) (g a) R E C) :
    hoare P (m >>= g) R E C := by
  intro s hs
  have h := h1 s hs
  show exit_post R E C (coro_t.bind_step g (m s))
  rcases hm : m s with ⟨e, s'⟩
  rw [hm] at h
  cases e with
  | returned a => exact h2 a s' h
  | interrupted_exc_t => exact h
  | crashed => exact h

theorem hoare_weaken {σ α : Type} {P P' : σ → Prop} {m : coro_t σ α} {Q Q' : α → σ → Prop}
    {E E' C C' : σ → Prop} (h : hoare P m Q E C) (hP : ∀ s, P' s → P s)
    (hQ : ∀ a s, Q a s → Q' a s) (hE : ∀ s, E s → E' s) (hC : ∀ s, C s → C' s) :
    hoare P' m Q' E' C' := by
  intro s hs
  have h0 := h s (hP s hs)
  rcases hm : m s with ⟨e, s'⟩
  rw [hm] at h0
  cases e with
  | returned a => exact hQ a s' h0
  | interrupted_exc_t => exact hE s' h0
  | crashed => exact hC s' h0

theorem hoare_assume {σ α : Type} {P : σ → Prop} {φ : Prop} {m : coro_t σ α}
    {Q : α → σ → Prop} {E C : σ → Prop} (h : φ → hoare P m Q E C) :
    hoare (fun s => P s ∧ φ) m Q E C :=
  fun s hs => h hs.2 s hs.1

theorem hoare_pure {σ α : Type} {P : σ → Prop} {a : α} {Q : α → σ → Prop} {E C : σ → Prop}
    (h : ∀ s, P s → Q a s) : hoare P (pure a : coro_t σ α) Q E C :=
  fun s hs => h s hs

theorem hoare_ite {σ α : Type} {P : σ → Prop} {c : Prop} [Decidable c] {m1 m2 : coro_t σ α}
    {Q : α → σ → Prop} {E C : σ → Prop}
    (h1 : c → hoare P m1 Q E C) (h2 : ¬ c → hoare P m2 Q E C) :
    hoare P (if c then m1 else m2) Q E C := by
  split_ifs with hc
  · exact h1 hc
  · exact h2 hc

theorem hoare_get_self {P : frame K V ρ → Prop} {Q : mock_store_t K V → frame K V ρ → Prop}
    {E C : frame K V ρ → Prop} (h : ∀ s, P s → Q s.self s) : hoare P get_self Q E C :=
  fun s hs => h s hs

theorem hoare_set_out {P : frame K V ρ → Prop} {g : ρ → ρ} {Q : Unit → frame K V ρ → Prop}
    {E C : frame K V ρ → Prop} (h : ∀ s, P s → Q () { s with out := g s.out }) :
    hoare P (set_out g) Q E C :=
  fun s hs => h s hs

theorem hoare_modify_self {P : frame K V ρ → Prop} {g : mock_store_t K V → mock_store_t K V}
    {Q : Unit → frame K V ρ → Prop} {E C : frame K V ρ → Prop}
    (h : ∀ s, P s → Q () { s with self := g s.self }) :
    hoare P (modify_self g) Q E C :=
  fun s hs => h s hs

theorem hoare_guarantee {P : frame K V ρ → Prop} {c : Bool} {Q : Unit → frame K V ρ → Prop}
    {E C : frame K V ρ → Prop} (hQ : ∀ s, P s → c = true → Q () s)
    (hC : ∀ s, P s → c = false → C s) : hoare P (guarantee c) Q E C := by
  intro s hs
  unfold guarantee
  cases c with
  | true => exact hQ s hs rfl
  | false => exact hC s hs rfl

theorem hoare_blocking_point {P : frame K V ρ → Prop} {Q : Unit → frame K V ρ → Prop}
    {E C : frame K V ρ → Prop} (hQ : ∀ s i, P s → Q () { s with interruptor := i })
    (hE : ∀ s, P s → E s) : hoare P blocking_point Q E C := by
  intro s hs
  unfold blocking_point
  obtain ⟨st, tk, i, o⟩ := s
  cases i with
  | none => exact hQ _ none hs
  | some n =>
    cases n with
    | zero => exact hE _ hs
    | succ n => exact hQ _ (some n) hs

theorem hoare_randint {P : frame K V ρ → Prop} {n : Nat} {Q : Nat → frame K V ρ → Prop}
    {E C : frame K V ρ → Prop}
    (hQ : ∀ s r x, P s → Q x { s with self := { s.self with rng_ := r } }) :
    hoare P (randint n) Q E C := by
  intro s hs
  rw [randint_apply]
  exact hQ s _ _ hs

theorem hoare_maybe_nap {P : frame K V ρ → Prop} {Q : Unit → frame K V ρ → Prop}
    {E C : frame K V ρ → Prop}
    (hQ : ∀ s r i, P s → Q () { s with self := { s.self with rng_ := r }, interruptor := i })
    (hE : ∀ s r, P s → E { s with self := { s.self with rng_ := r } }) :
    hoare P maybe_nap Q E C := by
  unfold maybe_nap
  refine hoare_bind (Q := fun _ s => ∃ s0 r, P s0 ∧ s = { s0 with self := { s0.self with rng_ := r } })
    (hoare_randint (fun s r _ hs => ⟨s, r, hs, rfl⟩)) (fun c => ?_)
  refine hoare_ite (fun _ => ?_) (fun _ => ?_)
  · refine hoare_bind
      (Q := fun _ s => ∃ s0 r, P s0 ∧ s = { s0 with self := { s0.self with rng_ := r } })
      (hoare_randint ?_) (fun ms => ?_)
    · rintro s r _ ⟨s0, r0, h0, rfl⟩
      exact ⟨s0, r, h0, rfl⟩
    · refine hoare_blocking_point ?_ ?_
      · rintro s i ⟨s0, r0, h0, rfl⟩
        exact hQ s0 r0 i h0
      · rintro s ⟨s0, r0, h0, rfl⟩
        exact hE s0 r0 h0
  · refine hoare_pure ?_
    rintro s ⟨s0, r0, h0, rfl⟩
    exact hQ s0 r0 s0.interruptor h0

theorem hoare_sentinel {α : Type} {P : frame K V ρ → Prop} {body : coro_t (frame K V ρ) α}
    {Q S : α → frame K V ρ → Prop} {E F C : frame K V ρ → Prop}
    (h : hoare P body S F C)
    (hQ : ∀ a s, S a s → Q a { s with token := ⟨false⟩ })
    (hE : ∀ s, F s → E { s with token := ⟨false⟩ }) :
    hoare P (with_destruction_sentinel body) Q E C := by
  intro s hs
  have h0 := h s hs
  unfold with_destruction_sentinel
  rcases hm : body s with ⟨e, s'⟩
  rw [hm] at h0
  cases e with
  | returned a =>
    simp only [destruction_sentinel_exit, sentinel_token]
    exact hQ a s' h0
  | interrupted_exc_t =>
    simp only [destruction_sentinel_exit, sentinel_token]
    exact hE s' h0
  | crashed => exact h0

theorem hoare_for_each {σ α : Type} {I : σ → Prop} {E C : σ → Prop} {body : α → coro_t σ Unit}
    (l : List α) (h : ∀ x ∈ l, hoare I (body x) (fun _ => I) E C) :
    hoare I (for_each body l) (fun _ => I) E C := by
  induction l with
  | nil => exact hoare_pure (fun _ hs => hs)
  | cons x rest ih =>
    unfold for_each
    exact hoare_bind (h x (List.mem_cons_self _ _))
      (fun _ => ih (fun y hy => h y (List.mem_cons_of_mem _ hy)))

theorem exit_post_of_hoare {σ α : Type} {P : σ → Prop} {m : coro_t σ α} {Q : α → σ → Prop}
    {E C : σ → Prop} (h : hoare P m Q E C) (s : σ) (hs : P s) :
    (∀ a, (m s).1 = exit_t.returned a → Q a (m s).2) ∧
    ((m s).1 = exit_t.interrupted_exc_t → E (m s).2) ∧
    ((m s).1 = exit_t.crashed → C (m s).2) := by
  have h0 := h s hs
  rcases hm : m s with ⟨e, s'⟩
  rw [hm] at h0
  cases e with
  | returned a =>
    refine ⟨?_, ?_, ?_⟩
    · intro b hb
      cases hb
      exact h0
    · intro hb
      cases hb
    · intro hb
      cases hb
  | interrupted_exc_t =>
    refine ⟨?_, ?_, ?_⟩
    · intro b hb
      cases hb
    · intro _
      exact h0
    · intro hb
      cases hb
  | crashed =>
    refine ⟨?_, ?_, ?_⟩
    · intro b hb
      cases hb
    · intro hb
      cases hb
    · intro _
      exact h0

theorem hoare_any {σ α : Type} {P : σ → Prop} {m : coro_t σ α} {Q : α → σ → Prop}
    {E C : σ → Prop} (h : hoare P m Q E C) {R : σ → Prop}
    (hQ : ∀ a s, Q a s → R s) (hE : ∀ s, E s → R s) (hC : ∀ s, C s → R s)
    (s : σ) (hs : P s) : R (m s).2 := by
  have h0 := h s hs
  rcases hm : m s with ⟨e, s'⟩
  rw [hm] at h0
  cases e with
  | returned a => exact hQ a s' h0
  | interrupted_exc_t => exact hE s' h0
  | crashed => exact hC s' h0

end logic

section triples

variable {K : Type}

/-- The table a point write leaves behind. -/
theorem write_block_triple [LinearOrder K] (chk : metainfo_checker_t K)
    (nm : region_map_t K binary_blob_t) (w : write_t K) (ts : transition_timestamp_t)
    (T : List (K × (repli_timestamp_t × counted_t datum_t))) (M : region_map_t K binary_blob_t) :
    hoare (data_is T M) (mock_store_t.write_block chk nm w ts)
      (fun _ s => ∃ pw, w = write_t.point_write pw ∧
        data_is
          (if pw.overwrite || !(std_map.find T pw.key).isSome then
            std_map.assign T pw.key (ts.timestamp_after.to_repli_timestamp, pw.data)
          else T) (M.update nm) s)
      (data_is T M) (data_is T M) := by
  unfold mock_store_t.write_block
  refine hoare_sentinel (S := fun _ s => ∃ pw, w = write_t.point_write pw ∧
        data_is
          (if pw.overwrite || !(std_map.find T pw.key).isSome then
            std_map.assign T pw.key (ts.timestamp_after.to_repli_timestamp, pw.data)
          else T) (M.update nm) s) (F := data_is T M) ?_ (fun _ s h => h) (fun s h => h)
  refine hoare_bind (Q := fun _ => data_is T M)
    (hoare_blocking_point (fun s i h => h) (fun s h => h)) (fun _ => ?_)
  refine hoare_bind (Q := fun _ => data_is T M) (hoare_get_self (fun s h => h)) (fun self => ?_)
  refine hoare_bind (Q := fun _ => data_is T M)
    (hoare_guarantee (fun s h _ => h) (fun s h _ => h)) (fun _ => ?_)
  refine hoare_bind (Q := fun _ => data_is T M)
    (hoare_maybe_nap (fun s r i h => h) (fun s r h => h)) (fun _ => ?_)
  cases w with
  | other_write => exact hoare_guarantee (fun s _ h => by cases h) (fun s h _ => h)
  | point_write pw =>
    show hoare _ (_ >>= _) _ _ _
    refine hoare_bind (Q := fun _ => data_is T M) (hoare_set_out (fun s h => h)) (fun _ => ?_)
    refine hoare_bind (Q := fun _ => data_is T M)
      (hoare_guarantee (fun s h _ => h) (fun s h _ => h)) (fun _ => ?_)
    refine hoare_bind (Q := fun a s => data_is T M s ∧ a.table_ = T)
      (hoare_get_self (fun s h => ⟨h, h.1⟩)) (fun self => ?_)
    refine hoare_assume (fun hself => ?_)
    show hoare _ (if _ then _ else _) _ _ _
    rw [hself]
    refine hoare_ite (fun hc => ?_) (fun hc => ?_)
    · refine hoare_bind
        (Q := fun _ => data_is
          (std_map.assign T pw.key (ts.timestamp_after.to_repli_timestamp, pw.data)) M)
        (hoare_modify_self ?_) (fun _ => ?_)
      · rintro s ⟨h1, h2⟩
        exact ⟨by show std_map.assign s.self.table_ _ _ = _; rw [h1], h2⟩
      · refine hoare_bind
          (Q := fun _ => data_is
            (std_map.assign T pw.key (ts.timestamp_after.to_repli_timestamp, pw.data)) M)
          (hoare_set_out (fun s h => h)) (fun _ => ?_)
        refine hoare_modify_self ?_
        rintro s ⟨h1, h2⟩
        refine ⟨pw, rfl, ?_, ?_⟩
        · show s.self.table_ = _
          rw [h1, if_pos hc]
        · show s.self.metainfo_.update nm = _
          rw [h2]
    · refine hoare_bind (Q := fun _ => data_is T M) (hoare_pure (fun s h => h)) (fun _ => ?_)
      refine hoare_bind (Q := fun _ => data_is T M) (hoare_set_out (fun s h => h)) (fun _ => ?_)
      refine hoare_modify_self ?_
      rintro s ⟨h1, h2⟩
      refine ⟨pw, rfl, ?_, ?_⟩
      · show s.self.table_ = _
        rw [h1, if_neg hc]
      · show s.self.metainfo_.update nm = _
        rw [h2]

/-- The whole `write`: interrupted before the change, the data are as before;
interrupted at the last nap, the change has been made. -/
theorem write_triple [LinearOrder K] (chk : metainfo_checker_t K)
    (nm : region_map_t K binary_blob_t) (w : write_t K) (ts : transition_timestamp_t)
    (T : List (K × (repli_timestamp_t × counted_t datum_t))) (M : region_map_t K binary_blob_t) :
    hoare (data_is T M) (mock_store_t.write chk nm w ts)
      (fun _ s => ∃ pw, w = write_t.point_write pw ∧
        data_is
          (if pw.overwrite || !(std_map.find T pw.key).isSome then
            std_map.assign T pw.key (ts.timestamp_after.to_repli_timestamp, pw.data)
          else T) (M.update nm) s)
      (fun s => data_is T M s ∨ ∃ pw, w = write_t.point_write pw ∧
        data_is
          (if pw.overwrite || !(std_map.find T pw.key).isSome then
            std_map.assign T pw.key (ts.timestamp_after.to_repli_timestamp, pw.data)
          else T) (M.update nm) s)
      (data_is T M) := by
  unfold mock_store_t.write
  refine hoare_bind
    (hoare_weaken (write_block_triple chk nm w ts T M) (fun s h => h) (fun _ s h => h)
      (fun s h => Or.inl h) (fun s h => h)) (fun _ => ?_)
  exact hoare_maybe_nap (fun s r i h => h) (fun s r h => Or.inr h)

theorem read_triple [LinearOrder K] (chk : metainfo_checker_t K) (r : read_t K)
    (T : List (K × (repli_timestamp_t × counted_t datum_t))) (M : region_map_t K binary_blob_t) :
    hoare (data_is T M) (mock_store_t.read chk r)
      (fun _ => data_is T M) (data_is T M) (data_is T M) := by
  unfold mock_store_t.read mock_store_t.read_block
  refine hoare_bind (Q := fun _ => data_is T M) ?_
    (fun _ => hoare_maybe_nap (fun s r i h => h) (fun s r h => h))
  refine hoare_sentinel (S := fun _ => data_is T M) (F := data_is T M) ?_
    (fun _ s h => h) (fun s h => h)
  refine hoare_bind (Q := fun _ => data_is T M)
    (hoare_blocking_point (fun s i h => h) (fun s h => h)) (fun _ => ?_)
  refine hoare_bind (Q := fun _ => data_is T M) (hoare_get_self (fun s h => h)) (fun self => ?_)
  refine hoare_bind (Q := fun _ => data_is T M)
    (hoare_guarantee (fun s h _ => h) (fun s h _ => h)) (fun _ => ?_)
  refine hoare_bind (Q := fun _ => data_is T M)
    (hoare_maybe_nap (fun s r i h => h) (fun s r h => h)) (fun _ => ?_)
  cases r with
  | other_read => exact hoare_guarantee (fun s h _ => h) (fun s h _ => h)
  | point_read pr =>
    show hoare _ (_ >>= _) _ _ _
    refine hoare_bind (Q := fun _ => data_is T M) (hoare_set_out (fun s h => h)) (fun _ => ?_)
    refine hoare_bind (Q := fun _ => data_is T M) (hoare_get_self (fun s h => h)) (fun self => ?_)
    cases std_map.find self.table_ pr.key with
    | none => exact hoare_set_out (fun s h => h)
    | some it => exact hoare_set_out (fun s h => h)

theorem set_metainfo_triple [LinearOrder K] (nm : region_map_t K binary_blob_t)
    (T : List (K × (repli_timestamp_t × counted_t datum_t))) (M : region_map_t K binary_blob_t) :
    hoare (data_is T M) (mock_store_t.set_metainfo nm)
      (fun _ => data_is T (M.update nm)) (data_is T M) (data_is T M) := by
  unfold mock_store_t.set_metainfo
  refine hoare_sentinel (S := fun _ => data_is T (M.update nm)) (F := data_is T M) ?_
    (fun _ s h => h) (fun s h => h)
  refine hoare_bind (Q := fun _ => data_is T M)
    (hoare_blocking_point (fun s i h => h) (fun s h => h)) (fun _ => ?_)
  refine hoare_bind (Q := fun _ => data_is T M)
    (hoare_maybe_nap (fun s r i h => h) (fun s r h => h)) (fun _ => ?_)
  refine hoare_modify_self ?_
  rintro s ⟨h1, h2⟩
  exact ⟨h1, by show s.self.metainfo_.update nm = _; rw [h2]⟩

theorem receive_backfill_triple [LinearOrder K] (chunk : backfill_chunk_t K)
    (T : List (K × (repli_timestamp_t × counted_t datum_t))) (M : region_map_t K binary_blob_t) :
    hoare (data_is T M) (mock_store_t.receive_backfill chunk)
      (fun _ s => ∃ atom, chunk = backfill_chunk_t.key_value_pairs [atom] ∧
        data_is (std_map.assign T atom.key (atom.recency, atom.value)) M s)
      (fun s => data_is T M s ∨ ∃ atom, chunk = backfill_chunk_t.key_value_pairs [atom] ∧
        data_is (std_map.assign T atom.key (atom.recency, atom.value)) M s)
      (data_is T M) := by
  unfold mock_store_t.receive_backfill
  refine hoare_sentinel
    (S := fun _ s => ∃ atom, chunk = backfill_chunk_t.key_value_pairs [atom] ∧
        data_is (std_map.assign T atom.key (atom.recency, atom.value)) M s)
    (F := fun s => data_is T M s ∨ ∃ atom, chunk = backfill_chunk_t.key_value_pairs [atom] ∧
        data_is (std_map.assign T atom.key (atom.recency, atom.value)) M s) ?_
    (fun _ s h => h) (fun s h => h)
  cases chunk with
  | other_chunk => exact hoare_guarantee (fun s _ h => by cases h) (fun s h _ => h)
  | key_value_pairs atoms =>
    match atoms with
    | [] => exact hoare_guarantee (fun s _ h => by cases h) (fun s h _ => h)
    | _ :: _ :: _ => exact hoare_guarantee (fun s _ h => by cases h) (fun s h _ => h)
    | [atom] =>
      show hoare _ (_ >>= _) _ _ _
      refine hoare_bind (Q := fun _ => data_is T M)
        (hoare_maybe_nap (fun s r i h => h) (fun s r h => Or.inl h)) (fun _ => ?_)
      refine hoare_bind
        (Q := fun _ => data_is (std_map.assign T atom.key (atom.recency, atom.value)) M)
        (hoare_modify_self ?_) (fun _ => ?_)
      · rintro s ⟨h1, h2⟩
        exact ⟨by show std_map.assign s.self.table_ _ _ = _; rw [h1], h2⟩
      · exact hoare_maybe_nap (fun s r i h => ⟨atom, rfl, h⟩) (fun s r h => Or.inr ⟨atom, rfl, h⟩)

/-- The token after a sentinel scope that did not crash. -/
theorem sentinel_releases {V ρ α : Type} (body : coro_t (frame K V ρ) α) :
    hoare (fun _ => True) (with_destruction_sentinel body)
      (fun _ s => s.token.has = false) (fun s => s.token.has = false) (fun _ => True) := by
  refine hoare_sentinel (S := fun _ _ => True) (F := fun _ => True) ?_
    (fun _ _ _ => rfl) (fun _ _ => rfl)
  intro s _
  rcases body s with ⟨e, s'⟩
  cases e <;> exact trivial

/-- After a sentinel scope followed by the trailing nap, the token is released. -/
theorem released_after_block {K V ρ : Type} (block : coro_t (frame K V ρ) Unit)
    (h : hoare (fun _ => True) block
      (fun _ s => s.token.has = false) (fun s => s.token.has = false) (fun _ => True)) :
    hoare (fun _ => True) (block >>= fun _ => maybe_nap)
      (fun _ s => s.token.has = false) (fun s => s.token.has = false) (fun _ => True) :=
  hoare_bind h (fun _ => hoare_maybe_nap (fun _ _ _ h => h) (fun _ _ h => h))

end triples

section responses

variable {K : Type} [LinearOrder K]

/-- The response of a `write` that returns. -/
theorem write_response_triple (chk : metainfo_checker_t K)
    (nm : region_map_t K binary_blob_t) (w : write_t K) (ts : transition_timestamp_t)
    (T : List (K × (repli_timestamp_t × counted_t datum_t))) :
    hoare (fun s => s.self.table_ = T) (mock_store_t.write chk nm w ts)
      (fun _ s => ∃ pw, w = write_t.point_write pw ∧ pw.data.has = true ∧
        s.out = ⟨1, write_response_variant_t.point_write_response
          ⟨some (if (std_map.find T pw.key).isSome then point_write_result_t.DUPLICATE
            else point_write_result_t.STORED)⟩⟩)
      (fun _ => True) (fun _ => True) := by
  unfold mock_store_t.write mock_store_t.write_block
  refine hoare_bind
    (Q := fun _ s => ∃ pw, w = write_t.point_write pw ∧ pw.data.has = true ∧
        s.out = ⟨1, write_response_variant_t.point_write_response
          ⟨some (if (std_map.find T pw.key).isSome then point_write_result_t.DUPLICATE
            else point_write_result_t.STORED)⟩⟩) ?_
    (fun _ => hoare_maybe_nap (fun s r i h => h) (fun _ _ _ => trivial))
  refine hoare_sentinel
    (S := fun _ s => ∃ pw, w = write_t.point_write pw ∧ pw.data.has = true ∧
        s.out = ⟨1, write_response_variant_t.point_write_response
          ⟨some (if (std_map.find T pw.key).isSome then point_write_result_t.DUPLICATE
            else point_write_result_t.STORED)⟩⟩) (F := fun _ => True) ?_
    (fun _ s h => h) (fun _ _ => trivial)
  refine hoare_bind (Q := fun _ s => s.self.table_ = T)
    (hoare_blocking_point (fun s i h => h) (fun _ _ => trivial)) (fun _ => ?_)
  refine hoare_bind (Q := fun _ s => s.self.table_ = T) (hoare_get_self (fun s h => h))
    (fun self => ?_)
  refine hoare_bind (Q := fun _ s => s.self.table_ = T)
    (hoare_guarantee (fun s h _ => h) (fun _ _ _ => trivial)) (fun _ => ?_)
  refine hoare_bind (Q := fun _ s => s.self.table_ = T)
    (hoare_maybe_nap (fun s r i h => h) (fun _ _ _ => trivial)) (fun _ => ?_)
  cases w with
  | other_write => exact hoare_guarantee (fun s _ h => by cases h) (fun _ _ _ => trivial)
  | point_write pw =>
    show hoare _ (_ >>= _) _ _ _
    refine hoare_bind (Q := fun _ s => s.self.table_ = T ∧ s.out.n_shards = 1)
      (hoare_set_out (fun s h => ⟨h, rfl⟩)) (fun _ => ?_)
    refine hoare_bind
      (Q := fun _ s => (s.self.table_ = T ∧ s.out.n_shards = 1) ∧ pw.data.has = true)
      (hoare_guarantee (fun s h hc => ⟨h, hc⟩) (fun _ _ _ => trivial)) (fun _ => ?_)
    refine hoare_assume (fun hd => ?_)
    refine hoare_bind (Q := fun a s => s.out.n_shards = 1 ∧ a.table_ = T)
      (hoare_get_self (fun s h => ⟨h.2, h.1⟩)) (fun self => ?_)
    refine hoare_assume (fun hself => ?_)
    show hoare _ (if _ then _ else _) _ _ _
    rw [hself]
    refine hoare_ite (fun hc => ?_) (fun hc => ?_)
    · refine hoare_bind (Q := fun _ s => s.out.n_shards = 1)
        (hoare_modify_self (fun s h => h)) (fun _ => ?_)
      refine hoare_bind
        (Q := fun _ s => s.out = ⟨1, write_response_variant_t.point_write_response
          ⟨some (if (std_map.find T pw.key).isSome then point_write_result_t.DUPLICATE
            else point_write_result_t.STORED)⟩⟩)
        (hoare_set_out ?_) (fun _ => ?_)
      · intro s h
        show write_response_t.mk s.out.n_shards _ = _
        rw [h]
      · exact hoare_modify_self (fun s h => ⟨pw, rfl, hd, h⟩)
    · refine hoare_bind (Q := fun _ s => s.out.n_shards = 1)
        (hoare_pure (fun s h => h)) (fun _ => ?_)
      refine hoare_bind
        (Q := fun _ s => s.out = ⟨1, write_response_variant_t.point_write_response
          ⟨some (if (std_map.find T pw.key).isSome then point_write_result_t.DUPLICATE
            else point_write_result_t.STORED)⟩⟩)
        (hoare_set_out ?_) (fun _ => ?_)
      · intro s h
        show write_response_t.mk s.out.n_shards _ = _
        rw [h]
      · exact hoare_modify_self (fun s h => ⟨pw, rfl, hd, h⟩)

/-- The response of a `read` that returns. -/
theorem read_response_triple (chk : metainfo_checker_t K) (r : read_t K)
    (T : List (K × (repli_timestamp_t × counted_t datum_t))) :
    hoare (fun s => s.self.table_ = T) (mock_store_t.read chk r)
      (fun _ s => ∃ pr, r = read_t.point_read pr ∧
        s.out = ⟨1, read_response_variant_t.point_read_response
          ⟨match std_map.find T pr.key with
            | none => some datum_t.R_NULL
            | some it => it.2⟩⟩)
      (fun _ => True) (fun _ => True) := by
  unfold mock_store_t.read mock_store_t.read_block
  refine hoare_bind
    (Q := fun _ s => ∃ pr, r = read_t.point_read pr ∧
        s.out = ⟨1, read_response_variant_t.point_read_response
          ⟨match std_map.find T pr.key with
            | none => some datum_t.R_NULL
            | some it => it.2⟩⟩) ?_
    (fun _ => hoare_maybe_nap (fun s r i h => h) (fun _ _ _ => trivial))
  refine hoare_sentinel
    (S := fun _ s => ∃ pr, r = read_t.point_read pr ∧
        s.out = ⟨1, read_response_variant_t.point_read_response
          ⟨match std_map.find T pr.key with
            | none => some datum_t.R_NULL
            | some it => it.2⟩⟩) (F := fun _ => True) ?_
    (fun _ s h => h) (fun _ _ => trivial)
  refine hoare_bind (Q := fun _ s => s.self.table_ = T)
    (hoare_blocking_point (fun s i h => h) (fun _ _ => trivial)) (fun _ => ?_)
  refine hoare_bind (Q := fun _ s => s.self.table_ = T) (hoare_get_self (fun s h => h))
    (fun self => ?_)
  refine hoare_bind (Q := fun _ s => s.self.table_ = T)
    (hoare_guarantee (fun s h _ => h) (fun _ _ _ => trivial)) (fun _ => ?_)
  refine hoare_bind (Q := fun _ s => s.self.table_ = T)
    (hoare_maybe_nap (fun s r i h => h) (fun _ _ _ => trivial)) (fun _ => ?_)
  cases r with
  | other_read => exact hoare_guarantee (fun s _ h => by cases h) (fun _ _ _ => trivial)
  | point_read pr =>
    show hoare _ (_ >>= _) _ _ _
    refine hoare_bind (Q := fun _ s => s.self.table_ = T ∧ s.out.n_shards = 1)
      (hoare_set_out (fun s h => ⟨h, rfl⟩)) (fun _ => ?_)
    refine hoare_bind (Q := fun a s => s.out.n_shards = 1 ∧ a.table_ = T)
      (hoare_get_self (fun s h => ⟨h.2, h.1⟩)) (fun self => ?_)
    refine hoare_assume (fun hself => ?_)
    rw [hself]
    cases hfind : std_map.find T pr.key with
    | none =>
      refine hoare_set_out ?_
      intro s h
      refine ⟨pr, rfl, ?_⟩
      show read_response_t.mk s.out.n_shards _ = _
      rw [h, hfind]
    | some it =>
      refine hoare_set_out ?_
      intro s h
      refine ⟨pr, rfl, ?_⟩
      show read_response_t.mk s.out.n_shards _ = _
      rw [h, hfind]

end responses

end unittest

/-! ## What `send_backfill` sends and what the destination holds afterwards -/

namespace unittest

section backfill_lemmas

variable {K : Type} [LinearOrder K]

theorem send_backfill_range_sublist (region : hash_region_t K)
    (T : List (K × (repli_timestamp_t × counted_t datum_t))) :
    (send_backfill_range region T).Sublist T :=
  List.Sublist.trans (List.takeWhile_sublist _) (List.dropWhile_sublist _)

theorem mem_takeWhile_contains (r : key_range_t K)
    (l : List (K × (repli_timestamp_t × counted_t datum_t))) (hl : std_map.ordered l)
    (hleft : ∀ e ∈ l, r.left ≤ e.1) (e : K × (repli_timestamp_t × counted_t datum_t)) :
    e ∈ l.takeWhile (fun it => r.contains_key it.1) ↔ e ∈ l ∧ r.contains_key e.1 = true := by
  induction l with
  | nil => simp
  | cons x l ih =>
    unfold std_map.ordered at hl ih
    rw [List.pairwise_cons] at hl
    rw [List.takeWhile_cons]
    split_ifs with h
    · rw [List.mem_cons, ih hl.2 (fun e he => hleft e (List.mem_cons_of_mem _ he)),
        List.mem_cons]
      constructor
      · rintro (h1 | ⟨h1, h2⟩)
        · subst h1
          exact ⟨Or.inl rfl, h⟩
        · exact ⟨Or.inr h1, h2⟩
      · rintro ⟨h1 | h1, h2⟩
        · exact Or.inl h1
        · exact Or.inr ⟨h1, h2⟩
    · constructor
      · intro h1
        cases h1
      · rintro ⟨h1, h2⟩
        exfalso
        rcases List.mem_cons.mp h1 with h3 | h3
        · subst h3
          exact h h2
        · apply h
          rw [contains_key_iff] at h2 ⊢
          refine ⟨hleft x (List.mem_cons_self _ _), fun y hy => ?_⟩
          exact lt_trans (hl.1 e h3) (h2.2 y hy)

theorem mem_send_backfill_range (region : hash_region_t K)
    (T : List (K × (repli_timestamp_t × counted_t datum_t))) (hT : std_map.ordered T)
    (e : K × (repli_timestamp_t × counted_t datum_t)) :
    e ∈ send_backfill_range region T ↔ e ∈ T ∧ region.inner.contains_key e.1 = true := by
  unfold send_backfill_range
  rw [mem_takeWhile_contains region.inner (std_map.lower_bound T region.inner.left)
    (std_map.ordered_of_sublist (List.dropWhile_sublist _) hT)
    (fun e he => ((std_map.mem_lower_bound hT _ e).mp he).2)]
  rw [std_map.mem_lower_bound hT]
  constructor
  · rintro ⟨⟨h1, _⟩, h3⟩
    exact ⟨h1, h3⟩
  · rintro ⟨h1, h3⟩
    exact ⟨⟨h1, ((contains_key_iff _ _).mp h3).1⟩, h3⟩

/-- The atoms sent for one region: the entries of the range that the region
holds and that are newer than the start timestamp. -/
theorem sent_atoms_backfill_chunks (hasher : K → Nat)
    (start_point : region_map_t K state_timestamp_t)
    (T : List (K × (repli_timestamp_t × counted_t datum_t))) :
    sent_atoms (backfill_chunks hasher start_point T) =
      start_point.regions_and_values.flatMap (fun e =>
        ((send_backfill_range e.1 T).filter (fun it =>
          region_contains_key hasher e.1 it.1 && decide (e.2.to_repli_timestamp < it.2.1))).map
          (fun it => (⟨it.1, it.2.2, it.2.1⟩ : backfill_atom_t K))) := by
  unfold sent_atoms backfill_chunks
  rw [List.flatMap_assoc]
  congr 1
  funext e
  rw [List.flatMap_assoc]
  induction send_backfill_range e.1 T with
  | nil => rfl
  | cons it l ih =>
    rw [List.flatMap_cons, ih, List.filter_cons]
    unfold entry_chunks
    split_ifs with h
    · simp
    · simp

theorem mem_sent_atoms_backfill_chunks (hasher : K → Nat)
    (start_point : region_map_t K state_timestamp_t)
    (T : List (K × (repli_timestamp_t × counted_t datum_t))) (hT : std_map.ordered T)
    (a : backfill_atom_t K) :
    a ∈ sent_atoms (backfill_chunks hasher start_point T) ↔
      ∃ e ∈ start_point.regions_and_values,
        std_map.find T a.key = some (a.recency, a.value) ∧
        region_contains_key hasher e.1 a.key = true ∧
        e.2.to_repli_timestamp < a.recency := by
  rw [sent_atoms_backfill_chunks]
  simp only [List.mem_flatMap, List.mem_map, List.mem_filter, Bool.and_eq_true,
    decide_eq_true_eq, mem_send_backfill_range _ T hT]
  constructor
  · rintro ⟨e, he, it, ⟨⟨h1, _⟩, h3, h4⟩, rfl⟩
    exact ⟨e, he, std_map.find_of_mem hT h1, h3, h4⟩
  · rintro ⟨e, he, h1, h2, h3⟩
    refine ⟨e, he, (a.key, (a.recency, a.value)), ⟨⟨std_map.mem_of_find h1, ?_⟩, h2, h3⟩, rfl⟩
    exact ((region_contains_point_iff _ _).mp h2).2.2

theorem nodup_keys_sent_atoms_backfill_chunks (hasher : K → Nat)
    (start_point : region_map_t K state_timestamp_t)
    (T : List (K × (repli_timestamp_t × counted_t datum_t))) (hT : std_map.ordered T)
    (hd : disjoint_regions start_point) :
    ((sent_atoms (backfill_chunks hasher start_point T)).map backfill_atom_t.key).Nodup := by
  rw [sent_atoms_backfill_chunks, List.map_flatMap, List.nodup_flatMap]
  constructor
  · intro e _
    rw [List.map_map]
    have hsub : (((send_backfill_range e.1 T).filter (fun it =>
        region_contains_key hasher e.1 it.1 &&
          decide (e.2.to_repli_timestamp < it.2.1))).map Prod.fst).Sublist (T.map Prod.fst) :=
      List.Sublist.map _
        (List.Sublist.trans (List.filter_sublist _) (send_backfill_range_sublist e.1 T))
    exact List.Nodup.sublist hsub (std_map.nodup_keys_of_ordered hT)
  · unfold disjoint_regions at hd
    refine List.Pairwise.imp ?_ hd
    intro e1 e2 h
    show List.Disjoint _ _
    rw [List.disjoint_left]
    intro k hk1 hk2
    simp only [List.mem_map, List.mem_filter, Bool.and_eq_true] at hk1 hk2
    obtain ⟨_, ⟨it1, ⟨_, h1, _⟩, rfl⟩, rfl⟩ := hk1
    obtain ⟨_, ⟨it2, ⟨_, h2, _⟩, rfl⟩, hk⟩ := hk2
    simp only at hk
    rw [hk] at h2
    exact h (hasher it1.1, it1.1) ⟨h1, h2⟩

theorem receive_chunks_table (chunks : List (backfill_chunk_t K))
    (hc : ∀ c ∈ chunks, ∃ a, c = backfill_chunk_t.key_value_pairs [a])
    (B : mock_store_t K datum_t) :
    (receive_chunks none B chunks).table_ =
      (sent_atoms chunks).foldl (fun T a => std_map.assign T a.key (a.recency, a.value))
        B.table_ := by
  induction chunks generalizing B with
  | nil => rfl
  | cons c rest ih =>
    obtain ⟨a, rfl⟩ := hc c (List.mem_cons_self _ _)
    unfold receive_chunks
    rw [receive_backfill_quiet a _ rfl, ih (fun c hc' => hc c (List.mem_cons_of_mem _ hc'))]
    simp [sent_atoms]

theorem find_foldl_assign_other (L : List (backfill_atom_t K))
    (T : List (K × (repli_timestamp_t × counted_t datum_t))) (k : K)
    (h : ∀ a ∈ L, a.key ≠ k) :
    std_map.find (L.foldl (fun T a => std_map.assign T a.key (a.recency, a.value)) T) k =
      std_map.find T k := by
  induction L generalizing T with
  | nil => rfl
  | cons a L ih =>
    rw [List.foldl_cons, ih _ (fun b hb => h b (List.mem_cons_of_mem _ hb))]
    exact std_map.find_assign_other _ _ _ _ (Ne.symm (h a (List.mem_cons_self _ _)))

theorem find_foldl_assign (L : List (backfill_atom_t K))
    (T : List (K × (repli_timestamp_t × counted_t datum_t))) (k : K)
    (e : repli_timestamp_t × counted_t datum_t)
    (hall : ∀ a ∈ L, a.key = k → (a.recency, a.value) = e)
    (hex : ∃ a ∈ L, a.key = k) :
    std_map.find (L.foldl (fun T a => std_map.assign T a.key (a.recency, a.value)) T) k =
      some e := by
  induction L generalizing T with
  | nil =>
    obtain ⟨a, ha, _⟩ := hex
    cases ha
  | cons a L ih =>
    rw [List.foldl_cons]
    by_cases hL : ∃ b ∈ L, b.key = k
    · exact ih _ (fun b hb => hall b (List.mem_cons_of_mem _ hb)) hL
    · have hno : ∀ b ∈ L, b.key ≠ k := fun b hb hk => hL ⟨b, hb, hk⟩
      rw [find_foldl_assign_other L _ k hno]
      obtain ⟨b, hb, hk⟩ := hex
      rcases List.mem_cons.mp hb with h1 | h1
      · subst h1
        rw [← hk, std_map.find_assign_same, ← hall b (List.mem_cons_self _ _) hk]
      · exact absurd hk (hno b h1)

end backfill_lemmas

end unittest

/-! ## Point writes (C1, C2, C3) -/

namespace unittest

/-- C1: when key `k` is present in the table, a point write of `k` with
`overwrite = false` returns (when it is not interrupted, its metainfo check
passes and its datum is present), every such write that returns reports
DUPLICATE, and the entry stored for `k` (its recency and its value), indeed the
whole table, is left unchanged however the call ends. -/
theorem write_no_overwrite_duplicate {K : Type} [LinearOrder K] (chk : metainfo_checker_t K)
    (nm : region_map_t K binary_blob_t) (k : K) (d : counted_t datum_t)
    (ts : transition_timestamp_t) (f : frame K datum_t write_response_t)
    (e : repli_timestamp_t × counted_t datum_t)
    (hk : std_map.find f.self.table_ k = some e) :
    (f.interruptor = none →
      chk.check_metainfo (f.self.metainfo_.mask chk.get_domain) = true → d.has = true →
      (mock_store_t.write chk nm (write_t.point_write ⟨k, d, false⟩) ts f).1 =
        exit_t.returned ()) ∧
    ((mock_store_t.write chk nm (write_t.point_write ⟨k, d, false⟩) ts f).1 =
        exit_t.returned () →
      (mock_store_t.write chk nm (write_t.point_write ⟨k, d, false⟩) ts f).2.out.response =
        write_response_variant_t.point_write_response
          ⟨some point_write_result_t.DUPLICATE⟩) ∧
    std_map.find
      (mock_store_t.write chk nm (write_t.point_write ⟨k, d, false⟩) ts f).2.self.table_ k =
        some e ∧
    (mock_store_t.write chk nm (write_t.point_write ⟨k, d, false⟩) ts f).2.self.table_ =
      f.self.table_ := by
  have htable : (mock_store_t.write chk nm (write_t.point_write ⟨k, d, false⟩) ts
      f).2.self.table_ = f.self.table_ := by
    refine hoare_any (write_triple chk nm _ ts f.self.table_ f.self.metainfo_)
      (R := fun s => s.self.table_ = f.self.table_) ?_ ?_ ?_ f ⟨rfl, rfl⟩
    · rintro _ s ⟨pw, hpw, h, _⟩
      cases hpw
      simpa [hk] using h
    · rintro s (h | ⟨pw, hpw, h, _⟩)
      · exact h.1
      · cases hpw
        simpa [hk] using h
    · exact fun s h => h.1
  refine ⟨?_, ?_, by rw [htable, hk], htable⟩
  · intro hq hc hd
    rw [write_point_quiet chk nm ⟨k, d, false⟩ ts f hq hc hd]
  · intro hret
    obtain ⟨pw, hpw, _, hout⟩ :=
      (exit_post_of_hoare (write_response_triple chk nm _ ts f.self.table_) f rfl).1 () hret
    cases hpw
    rw [hout]
    simp [hk]

/-- Witness of C1 on a store that holds key 2. -/
theorem write_no_overwrite_duplicate_witness :
    (mock_store_t.write (⟨⟨0, 8, ⟨0, none⟩⟩, fun _ => true⟩ : metainfo_checker_t Nat) ⟨[]⟩
        (write_t.point_write ⟨2, some (datum_t.R_STR "new"), false⟩) ⟨⟨7⟩⟩
        ⟨⟨[(2, (5, some (datum_t.R_STR "old")))], ⟨[]⟩, [0, 3]⟩, ⟨true⟩, none,
          ⟨0, write_response_variant_t.other_response⟩⟩).2.out.response =
      write_response_variant_t.point_write_response ⟨some point_write_result_t.DUPLICATE⟩ ∧
    (mock_store_t.write (⟨⟨0, 8, ⟨0, none⟩⟩, fun _ => true⟩ : metainfo_checker_t Nat) ⟨[]⟩
        (write_t.point_write ⟨2, some (datum_t.R_STR "new"), false⟩) ⟨⟨7⟩⟩
        ⟨⟨[(2, (5, some (datum_t.R_STR "old")))], ⟨[]⟩, [0, 3]⟩, ⟨true⟩, none,
          ⟨0, write_response_variant_t.other_response⟩⟩).2.self.table_ =
      [(2, (5, some (datum_t.R_STR "old")))] :=
  ⟨(write_no_overwrite_duplicate (⟨⟨0, 8, ⟨0, none⟩⟩, fun _ => true⟩ : metainfo_checker_t Nat)
      ⟨[]⟩ 2 (some (datum_t.R_STR "new")) ⟨⟨7⟩⟩
      ⟨⟨[(2, (5, some (datum_t.R_STR "old")))], ⟨[]⟩, [0, 3]⟩, ⟨true⟩, none,
        ⟨0, write_response_variant_t.other_response⟩⟩
      (5, some (datum_t.R_STR "old")) rfl).2.1 rfl,
   (write_no_overwrite_duplicate (⟨⟨0, 8, ⟨0, none⟩⟩, fun _ => true⟩ : metainfo_checker_t Nat)
      ⟨[]⟩ 2 (some (datum_t.R_STR "new")) ⟨⟨7⟩⟩
      ⟨⟨[(2, (5, some (datum_t.R_STR "old")))], ⟨[]⟩, [0, 3]⟩, ⟨true⟩, none,
        ⟨0, write_response_variant_t.other_response⟩⟩
      (5, some (datum_t.R_STR "old")) rfl).2.2.2⟩

/-- C2, as stated, fails: on a store that holds key 2, the write of key 2 with
`overwrite = true` returns, and its result is not STORED (it is DUPLICATE). -/
theorem write_overwrite_not_stored :
    std_map.find ([(2, (5, some (datum_t.R_STR "old")))] :
      List (Nat × (repli_timestamp_t × counted_t datum_t))) 2 =
        some (5, some (datum_t.R_STR "old")) ∧
    (mock_store_t.write (⟨⟨0, 8, ⟨0, none⟩⟩, fun _ => true⟩ : metainfo_checker_t Nat) ⟨[]⟩
        (write_t.point_write ⟨2, some (datum_t.R_STR "new"), true⟩) ⟨⟨7⟩⟩
        ⟨⟨[(2, (5, some (datum_t.R_STR "old")))], ⟨[]⟩, [0, 3]⟩, ⟨true⟩, none,
          ⟨0, write_response_variant_t.other_response⟩⟩).1 = exit_t.returned () ∧
    (mock_store_t.write (⟨⟨0, 8, ⟨0, none⟩⟩, fun _ => true⟩ : metainfo_checker_t Nat) ⟨[]⟩
        (write_t.point_write ⟨2, some (datum_t.R_STR "new"), true⟩) ⟨⟨7⟩⟩
        ⟨⟨[(2, (5, some (datum_t.R_STR "old")))], ⟨[]⟩, [0, 3]⟩, ⟨true⟩, none,
          ⟨0, write_response_variant_t.other_response⟩⟩).2.out.response ≠
      write_response_variant_t.point_write_response ⟨some point_write_result_t.STORED⟩ := by
  refine ⟨rfl, rfl, ?_⟩
  decide

/-- C2, amended: when key `k` is present in the table, a point write of `k` with
`overwrite = true` returns (when it is not interrupted, its metainfo check passes
and its datum is present), and every such write that returns reports DUPLICATE
and has replaced the entry of `k` by the written datum with the recency of the
write. -/
theorem write_overwrite_duplicate {K : Type} [LinearOrder K] (chk : metainfo_checker_t K)
    (nm : region_map_t K binary_blob_t) (k : K) (d : counted_t datum_t)
    (ts : transition_timestamp_t) (f : frame K datum_t write_response_t)
    (e : repli_timestamp_t × counted_t datum_t)
    (hk : std_map.find f.self.table_ k = some e) :
    (f.interruptor = none →
      chk.check_metainfo (f.self.metainfo_.mask chk.get_domain) = true → d.has = true →
      (mock_store_t.write chk nm (write_t.point_write ⟨k, d, true⟩) ts f).1 =
        exit_t.returned ()) ∧
    ((mock_store_t.write chk nm (write_t.point_write ⟨k, d, true⟩) ts f).1 =
        exit_t.returned () →
      (mock_store_t.write chk nm (write_t.point_write ⟨k, d, true⟩) ts f).2.out.response =
        write_response_variant_t.point_write_response
          ⟨some point_write_result_t.DUPLICATE⟩ ∧
      std_map.find
        (mock_store_t.write chk nm (write_t.point_write ⟨k, d, true⟩) ts f).2.self.table_ k =
          some (ts.before.num + 1, d)) := by
  constructor
  · intro hq hc hd
    rw [write_point_quiet chk nm ⟨k, d, true⟩ ts f hq hc hd]
  · intro hret
    obtain ⟨pw, hpw, _, hout⟩ :=
      (exit_post_of_hoare (write_response_triple chk nm _ ts f.self.table_) f rfl).1 () hret
    obtain ⟨pw', hpw', hdata, _⟩ :=
      (exit_post_of_hoare (write_triple chk nm _ ts f.self.table_ f.self.metainfo_) f
        ⟨rfl, rfl⟩).1 () hret
    cases hpw
    cases hpw'
    rw [hout, hdata]
    simp [hk, std_map.find_assign_same, transition_timestamp_t.timestamp_after,
      state_timestamp_t.to_repli_timestamp]

/-- Witness of the amended C2 on a store that holds key 2. -/
theorem write_overwrite_duplicate_witness :
    (mock_store_t.write (⟨⟨0, 8, ⟨0, none⟩⟩, fun _ => true⟩ : metainfo_checker_t Nat) ⟨[]⟩
        (write_t.point_write ⟨2, some (datum_t.R_STR "new"), true⟩) ⟨⟨7⟩⟩
        ⟨⟨[(2, (5, some (datum_t.R_STR "old")))], ⟨[]⟩, [0, 3]⟩, ⟨true⟩, none,
          ⟨0, write_response_variant_t.other_response⟩⟩).2.out.response =
      write_response_variant_t.point_write_response ⟨some point_write_result_t.DUPLICATE⟩ ∧
    std_map.find
      (mock_store_t.write (⟨⟨0, 8, ⟨0, none⟩⟩, fun _ => true⟩ : metainfo_checker_t Nat) ⟨[]⟩
        (write_t.point_write ⟨2, some (datum_t.R_STR "new"), true⟩) ⟨⟨7⟩⟩
        ⟨⟨[(2, (5, some (datum_t.R_STR "old")))], ⟨[]⟩, [0, 3]⟩, ⟨true⟩, none,
          ⟨0, write_response_variant_t.other_response⟩⟩).2.self.table_ 2 =
      some (8, some (datum_t.R_STR "new")) :=
  (write_overwrite_duplicate (⟨⟨0, 8, ⟨0, none⟩⟩, fun _ => true⟩ : metainfo_checker_t Nat)
    ⟨[]⟩ 2 (some (datum_t.R_STR "new")) ⟨⟨7⟩⟩
    ⟨⟨[(2, (5, some (datum_t.R_STR "old")))], ⟨[]⟩, [0, 3]⟩, ⟨true⟩, none,
      ⟨0, write_response_variant_t.other_response⟩⟩
    (5, some (datum_t.R_STR "old")) rfl).2 rfl

/-- C3: a point write, with either overwrite setting, returns when it is not
interrupted, its metainfo check passes and its datum is present; every point
write that returns reports DUPLICATE if the key was present in the table before
the write and STORED if it was absent; an overwriting write that returns has
stored the written datum, so its result is DUPLICATE exactly when an existing
entry was replaced. -/
theorem write_result_tells_presence {K : Type} [LinearOrder K] (chk : metainfo_checker_t K)
    (nm : region_map_t K binary_blob_t) (pw : point_write_t K)
    (ts : transition_timestamp_t) (f : frame K datum_t write_response_t) :
    (f.interruptor = none →
      chk.check_metainfo (f.self.metainfo_.mask chk.get_domain) = true →
      pw.data.has = true →
      (mock_store_t.write chk nm (write_t.point_write pw) ts f).1 = exit_t.returned ()) ∧
    ((mock_store_t.write chk nm (write_t.point_write pw) ts f).1 = exit_t.returned () →
      ((∃ e, std_map.find f.self.table_ pw.key = some e) →
        (mock_store_t.write chk nm (write_t.point_write pw) ts f).2.out.response =
          write_response_variant_t.point_write_response
            ⟨some point_write_result_t.DUPLICATE⟩) ∧
      (std_map.find f.self.table_ pw.key = none →
        (mock_store_t.write chk nm (write_t.point_write pw) ts f).2.out.response =
          write_response_variant_t.point_write_response
            ⟨some point_write_result_t.STORED⟩) ∧
      (pw.overwrite = true →
        std_map.find
          (mock_store_t.write chk nm (write_t.point_write pw) ts f).2.self.table_ pw.key =
            some (ts.before.num + 1, pw.data) ∧
        ((mock_store_t.write chk nm (write_t.point_write pw) ts f).2.out.response =
            write_response_variant_t.point_write_response
              ⟨some point_write_result_t.DUPLICATE⟩ ↔
          ∃ e, std_map.find f.self.table_ pw.key = some e))) := by
  constructor
  · intro hq hc hd
    rw [write_point_quiet chk nm pw ts f hq hc hd]
  · intro hret
    obtain ⟨pw1, hpw1, _, hout⟩ :=
      (exit_post_of_hoare (write_response_triple chk nm _ ts f.self.table_) f rfl).1 () hret
    obtain ⟨pw2, hpw2, hdata, _⟩ :=
      (exit_post_of_hoare (write_triple chk nm _ ts f.self.table_ f.self.metainfo_) f
        ⟨rfl, rfl⟩).1 () hret
    cases hpw1
    cases hpw2
    rw [hout, hdata]
    refine ⟨?_, ?_, ?_⟩
    · rintro ⟨e, he⟩
      simp [he]
    · intro hn
      simp [hn]
    · intro ho
      constructor
      · simp [ho, std_map.find_assign_same, transition_timestamp_t.timestamp_after,
          state_timestamp_t.to_repli_timestamp]
      · cases hf : std_map.find f.self.table_ pw.key with
        | none => simp
        | some e => simp

/-- Witness of C3: a write of the absent key 3 returns STORED. -/
theorem write_result_tells_presence_witness :
    (mock_store_t.write (⟨⟨0, 8, ⟨0, none⟩⟩, fun _ => true⟩ : metainfo_checker_t Nat) ⟨[]⟩
        (write_t.point_write ⟨3, some (datum_t.R_STR "new"), false⟩) ⟨⟨7⟩⟩
        ⟨⟨[(2, (5, some (datum_t.R_STR "old")))], ⟨[]⟩, [0, 3]⟩, ⟨true⟩, none,
          ⟨0, write_response_variant_t.other_response⟩⟩).2.out.response =
      write_response_variant_t.point_write_response ⟨some point_write_result_t.STORED⟩ :=
  ((write_result_tells_presence (⟨⟨0, 8, ⟨0, none⟩⟩, fun _ => true⟩ : metainfo_checker_t Nat)
    ⟨[]⟩ ⟨3, some (datum_t.R_STR "new"), false⟩ ⟨⟨7⟩⟩
    ⟨⟨[(2, (5, some (datum_t.R_STR "old")))], ⟨[]⟩, [0, 3]⟩, ⟨true⟩, none,
      ⟨0, write_response_variant_t.other_response⟩⟩).2 rfl).2.1 rfl

end unittest

/-! ## Backfill (C4, C5, C6) -/

namespace unittest

/-- C4: when `should_backfill` accepts, the regions of `start_point` are disjoint and
the run is not interrupted, `send_backfill` returns `true` having sent, one atom
to a chunk, exactly the atoms `(k, v, t)` such that the table maps `k` to
`(t, v)`, `k` lies in a region of `start_point` and the start timestamp of that
region is strictly older than `t`; no two atoms are sent for one key, so each such
atom is sent exactly once, and no atom is sent for a key whose recency is equal
to or older than the start timestamp of its region. -/
theorem send_backfill_sends_exactly {K : Type} [LinearOrder K] [OrderBot K] (hasher : K → Nat)
    (start_point : region_map_t K state_timestamp_t) (cb : send_backfill_callback_t K)
    (f : frame K datum_t (List (backfill_chunk_t K)))
    (hq : f.interruptor = none)
    (hacc : cb.should_backfill (f.self.metainfo_.mask start_point.get_domain) = true)
    (hT : std_map.ordered f.self.table_)
    (hd : disjoint_regions start_point)
    (hout : f.out = []) :
    (mock_store_t.send_backfill hasher start_point cb f).1 = exit_t.returned true ∧
    (∀ c ∈ (mock_store_t.send_backfill hasher start_point cb f).2.out,
      ∃ a, c = backfill_chunk_t.key_value_pairs [a]) ∧
    (∀ a : backfill_atom_t K,
      a ∈ sent_atoms (mock_store_t.send_backfill hasher start_point cb f).2.out ↔
        ∃ e ∈ start_point.regions_and_values,
          std_map.find f.self.table_ a.key = some (a.recency, a.value) ∧
          region_contains_key hasher e.1 a.key = true ∧
          e.2.to_repli_timestamp < a.recency) ∧
    ((sent_atoms (mock_store_t.send_backfill hasher start_point cb f).2.out).map
      backfill_atom_t.key).Nodup ∧
    (sent_atoms (mock_store_t.send_backfill hasher start_point cb f).2.out).Nodup ∧
    (∀ a ∈ sent_atoms (mock_store_t.send_backfill hasher start_point cb f).2.out,
      ∀ e ∈ start_point.regions_and_values,
        region_contains_key hasher e.1 a.key = true → e.2.to_repli_timestamp < a.recency) := by
  obtain ⟨r, hr⟩ := send_backfill_quiet hasher start_point cb f hq hacc
  rw [hr]
  simp only [hout, List.nil_append]
  have hmem := mem_sent_atoms_backfill_chunks hasher start_point f.self.table_ hT
  have hnd := nodup_keys_sent_atoms_backfill_chunks hasher start_point f.self.table_ hT hd
  refine ⟨trivial, ?_, hmem, hnd, List.Nodup.of_map _ hnd, ?_⟩
  · intro c hc
    unfold backfill_chunks at hc
    simp only [List.mem_flatMap] at hc
    obtain ⟨e, _, it, _, hc⟩ := hc
    unfold entry_chunks at hc
    split_ifs at hc
    · exact ⟨_, List.mem_singleton.mp hc⟩
    · cases hc
  · intro a ha e he hce
    obtain ⟨e0, he0, _, hc0, ht0⟩ := (hmem a).mp ha
    by_cases heq : e0 = e
    · rw [← heq]
      exact ht0
    · exfalso
      have hsym : Symmetric (fun (a b : hash_region_t K × state_timestamp_t) =>
          ∀ p, ¬ (region_contains_point a.1 p = true ∧ region_contains_point b.1 p = true)) :=
        fun a b h p hp => h p ⟨hp.2, hp.1⟩
      exact List.Pairwise.forall hsym hd he0 he heq (hasher a.key, a.key) ⟨hc0, hce⟩

/-- Witness of C4: the source holds keys 1, 2, 4 and 7; the destination believes
timestamp 4 for keys below 3 and timestamp 9 for keys from 3 to 6. -/
theorem send_backfill_sends_exactly_witness :
    (mock_store_t.send_backfill (fun k => k % 8)
        (⟨[(⟨0, 8, ⟨0, some 3⟩⟩, ⟨4⟩), (⟨0, 8, ⟨3, some 7⟩⟩, ⟨9⟩)]⟩ :
          region_map_t Nat state_timestamp_t)
        ⟨fun _ => true⟩
        ⟨⟨[(1, (5, some (datum_t.R_STR "a"))), (2, (3, some (datum_t.R_STR "b"))),
            (4, (9, none)), (7, (10, none))], ⟨[]⟩, [0, 3, 1]⟩, ⟨true⟩, none, []⟩).1 =
      exit_t.returned true ∧
    ((sent_atoms (mock_store_t.send_backfill (fun k => k % 8)
        (⟨[(⟨0, 8, ⟨0, some 3⟩⟩, ⟨4⟩), (⟨0, 8, ⟨3, some 7⟩⟩, ⟨9⟩)]⟩ :
          region_map_t Nat state_timestamp_t)
        ⟨fun _ => true⟩
        ⟨⟨[(1, (5, some (datum_t.R_STR "a"))), (2, (3, some (datum_t.R_STR "b"))),
            (4, (9, none)), (7, (10, none))], ⟨[]⟩, [0, 3, 1]⟩, ⟨true⟩, none, []⟩).2.out).map
      backfill_atom_t.key).Nodup :=
  ⟨(send_backfill_sends_exactly (fun k => k % 8)
      (⟨[(⟨0, 8, ⟨0, some 3⟩⟩, ⟨4⟩), (⟨0, 8, ⟨3, some 7⟩⟩, ⟨9⟩)]⟩ :
        region_map_t Nat state_timestamp_t)
      ⟨fun _ => true⟩
      ⟨⟨[(1, (5, some (datum_t.R_STR "a"))), (2, (3, some (datum_t.R_STR "b"))),
          (4, (9, none)), (7, (10, none))], ⟨[]⟩, [0, 3, 1]⟩, ⟨true⟩, none, []⟩
      rfl rfl (by simp [std_map.ordered])
      (by
        simp [disjoint_regions, region_contains_point, key_range_t.contains_key]
        intro a b _ h1 _ h2
        exact absurd h1 (Nat.not_lt.mpr h2))
      rfl).1,
   (send_backfill_sends_exactly (fun k => k % 8)
      (⟨[(⟨0, 8, ⟨0, some 3⟩⟩, ⟨4⟩), (⟨0, 8, ⟨3, some 7⟩⟩, ⟨9⟩)]⟩ :
        region_map_t Nat state_timestamp_t)
      ⟨fun _ => true⟩
      ⟨⟨[(1, (5, some (datum_t.R_STR "a"))), (2, (3, some (datum_t.R_STR "b"))),
          (4, (9, none)), (7, (10, none))], ⟨[]⟩, [0, 3, 1]⟩, ⟨true⟩, none, []⟩
      rfl rfl (by simp [std_map.ordered])
      (by
        simp [disjoint_regions, region_contains_point, key_range_t.contains_key]
        intro a b _ h1 _ h2
        exact absurd h1 (Nat.not_lt.mpr h2))
      rfl).2.2.2.1⟩

/-- C5: after the destination has applied with `receive_backfill`, in the order sent,
every chunk that the source's `send_backfill` sent for `start_point`, the
destination's entry for every key `k` that was sent equals the source's entry
(the same recency and the same value); a point read of `k` on the destination
returns when it is not interrupted and its metainfo check passes, and every such
read that returns yields the value the source holds for `k`. -/
theorem backfill_transfers_entries {K : Type} [LinearOrder K] [OrderBot K] (hasher : K → Nat)
    (start_point : region_map_t K state_timestamp_t) (cb : send_backfill_callback_t K)
    (f : frame K datum_t (List (backfill_chunk_t K))) (B : mock_store_t K datum_t)
    (hq : f.interruptor = none)
    (hacc : cb.should_backfill (f.self.metainfo_.mask start_point.get_domain) = true)
    (hT : std_map.ordered f.self.table_)
    (hout : f.out = []) :
    (mock_store_t.send_backfill hasher start_point cb f).1 = exit_t.returned true ∧
    ∀ a ∈ sent_atoms (mock_store_t.send_backfill hasher start_point cb f).2.out,
      std_map.find f.self.table_ a.key = some (a.recency, a.value) ∧
      std_map.find
        (receive_chunks none B
          (mock_store_t.send_backfill hasher start_point cb f).2.out).table_ a.key =
        std_map.find f.self.table_ a.key ∧
      ∀ (chk : metainfo_checker_t K) (g : frame K datum_t read_response_t),
        g.self = receive_chunks none B
          (mock_store_t.send_backfill hasher start_point cb f).2.out →
        (g.interruptor = none →
          chk.check_metainfo (g.self.metainfo_.mask chk.get_domain) = true →
          (mock_store_t.read chk (read_t.point_read ⟨a.key⟩) g).1 = exit_t.returned ()) ∧
        ((mock_store_t.read chk (read_t.point_read ⟨a.key⟩) g).1 = exit_t.returned () →
          (mock_store_t.read chk (read_t.point_read ⟨a.key⟩) g).2.out.response =
            read_response_variant_t.point_read_response ⟨a.value⟩) := by
  obtain ⟨r, hr⟩ := send_backfill_quiet hasher start_point cb f hq hacc
  rw [hr]
  simp only [hout, List.nil_append]
  refine ⟨trivial, ?_⟩
  intro a ha
  have hmem := mem_sent_atoms_backfill_chunks hasher start_point f.self.table_ hT
  have hA : std_map.find f.self.table_ a.key = some (a.recency, a.value) :=
    ((hmem a).mp ha).choose_spec.2.1
  have hchunks : ∀ c ∈ backfill_chunks hasher start_point f.self.table_,
      ∃ a, c = backfill_chunk_t.key_value_pairs [a] := by
    intro c hc
    unfold backfill_chunks at hc
    simp only [List.mem_flatMap] at hc
    obtain ⟨e, _, it, _, hc⟩ := hc
    unfold entry_chunks at hc
    split_ifs at hc
    · exact ⟨_, List.mem_singleton.mp hc⟩
    · cases hc
  have hB : std_map.find
      (receive_chunks none B (backfill_chunks hasher start_point f.self.table_)).table_ a.key =
        some (a.recency, a.value) := by
    rw [receive_chunks_table _ hchunks]
    refine find_foldl_assign _ _ _ _ ?_ ⟨a, ha, rfl⟩
    intro b hb hk
    have hb' : std_map.find f.self.table_ b.key = some (b.recency, b.value) :=
      ((hmem b).mp hb).choose_spec.2.1
    rw [hk, hA] at hb'
    exact (Option.some.inj hb').symm
  refine ⟨hA, by rw [hB, hA], ?_⟩
  intro chk g hg
  constructor
  · intro hgq hgc
    rw [read_point_quiet chk ⟨a.key⟩ g hgq hgc]
  · intro hret
    obtain ⟨pr, hpr, hout'⟩ :=
      (exit_post_of_hoare (read_response_triple chk _ g.self.table_) g rfl).1 () hret
    cases hpr
    rw [hout', hg]
    simp only [hB]

/-- Witness of C5: the source holds key 1 with recency 5; the destination, which
holds an entry of recency 2 for key 1, is believed to be at timestamp 3. After
the backfill the destination holds the source's entry. -/
theorem backfill_transfers_entries_witness :
    std_map.find
      (receive_chunks none
        (⟨[(1, (2, some (datum_t.R_STR "stale")))], ⟨[]⟩, [1]⟩ : mock_store_t Nat datum_t)
        (mock_store_t.send_backfill (fun k => k % 8)
          (⟨[(⟨0, 8, ⟨0, none⟩⟩, ⟨3⟩)]⟩ : region_map_t Nat state_timestamp_t)
          ⟨fun _ => true⟩
          ⟨⟨[(1, (5, some (datum_t.R_STR "a")))], ⟨[]⟩, [0, 3, 1]⟩, ⟨true⟩, none,
            []⟩).2.out).table_ 1 =
      std_map.find ([(1, (5, some (datum_t.R_STR "a")))] :
        List (Nat × (repli_timestamp_t × counted_t datum_t))) 1 :=
  ((backfill_transfers_entries (fun k => k % 8)
      (⟨[(⟨0, 8, ⟨0, none⟩⟩, ⟨3⟩)]⟩ : region_map_t Nat state_timestamp_t)
      ⟨fun _ => true⟩
      ⟨⟨[(1, (5, some (datum_t.R_STR "a")))], ⟨[]⟩, [0, 3, 1]⟩, ⟨true⟩, none, []⟩
      (⟨[(1, (2, some (datum_t.R_STR "stale")))], ⟨[]⟩, [1]⟩ : mock_store_t Nat datum_t)
      rfl rfl (by simp [std_map.ordered]) rfl).2
    ⟨1, some (datum_t.R_STR "a"), 5⟩ (List.Mem.head _)).2.1

/-- C6: `receive_backfill` applies its atom unconditionally: for every destination
state and every atom `(k, v, t)`, the call returns when it is not interrupted,
and every call that returns leaves the table mapping `k` to `(t, v)`, whatever
entry the destination held for `k` before; no timestamp is compared. -/
theorem receive_backfill_unconditional {K : Type} [LinearOrder K] (atom : backfill_atom_t K)
    (f : frame K datum_t Unit) :
    (f.interruptor = none →
      (mock_store_t.receive_backfill (backfill_chunk_t.key_value_pairs [atom]) f).1 =
        exit_t.returned ()) ∧
    ((mock_store_t.receive_backfill (backfill_chunk_t.key_value_pairs [atom]) f).1 =
        exit_t.returned () →
      std_map.find
        (mock_store_t.receive_backfill (backfill_chunk_t.key_value_pairs [atom])
          f).2.self.table_ atom.key = some (atom.recency, atom.value)) := by
  constructor
  · intro hq
    rw [receive_backfill_quiet atom f hq]
  · intro hret
    obtain ⟨atom', hc, hdata, _⟩ :=
      (exit_post_of_hoare
        (receive_backfill_triple (backfill_chunk_t.key_value_pairs [atom]) f.self.table_
          f.self.metainfo_) f ⟨rfl, rfl⟩).1 () hret
    cases hc
    rw [hdata]
    exact std_map.find_assign_same _ _ _

/-- Witness of C6: the destination holds key 2 with recency 9 and receives an atom
for key 2 with the older recency 4; the atom replaces the entry. -/
theorem receive_backfill_unconditional_witness :
    std_map.find
      (mock_store_t.receive_backfill
        (backfill_chunk_t.key_value_pairs [(⟨2, some (datum_t.R_STR "v"), 4⟩ : backfill_atom_t Nat)])
        ⟨⟨[(2, (9, some (datum_t.R_STR "newer")))], ⟨[]⟩, [1, 0]⟩, ⟨true⟩, none, ()⟩).2.self.table_
      2 = some (4, some (datum_t.R_STR "v")) :=
  (receive_backfill_unconditional (⟨2, some (datum_t.R_STR "v"), 4⟩ : backfill_atom_t Nat)
    ⟨⟨[(2, (9, some (datum_t.R_STR "newer")))], ⟨[]⟩, [1, 0]⟩, ⟨true⟩, none, ()⟩).2 rfl

end unittest

/-! ## Reading back a write (C7) -/

namespace unittest

/-- C7: for every store state, key `k` and datum `d`, a point write of `k` with data
`d` and `overwrite = true` returns when it is not interrupted and its metainfo
check passes; after such a write has returned, a point read of `k` returns when it
is not interrupted and its check passes, and every such read that returns yields
`d`; and after the write that `mock_overwrite key value` builds has returned,
`mock_lookup` of `key` and `values(key)` both return `value`. -/
theorem read_after_overwrite {K : Type} [LinearOrder K] [OrderBot K]
    (chk chk' : metainfo_checker_t K)
    (nm : region_map_t K binary_blob_t) (k : K) (d : datum_t)
    (ts : transition_timestamp_t) (f : frame K datum_t write_response_t)
    (g : frame K datum_t read_response_t)
    (hret : (mock_store_t.write chk nm (write_t.point_write ⟨k, some d, true⟩) ts f).1 =
      exit_t.returned ())
    (hg : g.self =
      (mock_store_t.write chk nm (write_t.point_write ⟨k, some d, true⟩) ts f).2.self) :
    (g.interruptor = none →
      chk'.check_metainfo (g.self.metainfo_.mask chk'.get_domain) = true →
      (mock_store_t.read chk' (read_t.point_read ⟨k⟩) g).1 = exit_t.returned ()) ∧
    ((mock_store_t.read chk' (read_t.point_read ⟨k⟩) g).1 = exit_t.returned () →
      (mock_store_t.read chk' (read_t.point_read ⟨k⟩) g).2.out.response =
        read_response_variant_t.point_read_response ⟨some d⟩) ∧
    (∀ (f' : frame K datum_t write_response_t),
      f'.interruptor = none →
      chk.check_metainfo (f'.self.metainfo_.mask chk.get_domain) = true →
      (mock_store_t.write chk nm (write_t.point_write ⟨k, some d, true⟩) ts f').1 =
        exit_t.returned ()) ∧
    (∀ (store_key_t : String → K) (key value : String)
        (f' : frame K datum_t write_response_t),
      (mock_store_t.write chk nm (mock_overwrite store_key_t key value) ts f').1 =
        exit_t.returned () →
      mock_lookup store_key_t
        (mock_store_t.write chk nm (mock_overwrite store_key_t key value) ts f').2.self key =
          some value ∧
      mock_store_t.values store_key_t
        (mock_store_t.write chk nm (mock_overwrite store_key_t key value) ts f').2.self key =
          some value) := by
  have hfind : ∀ (k : K) (d : datum_t) (f : frame K datum_t write_response_t),
      (mock_store_t.write chk nm (write_t.point_write ⟨k, some d, true⟩) ts f).1 =
        exit_t.returned () →
      std_map.find
        (mock_store_t.write chk nm (write_t.point_write ⟨k, some d, true⟩) ts f).2.self.table_ k =
          some (ts.timestamp_after.to_repli_timestamp, some d) := by
    intro k d f hret
    obtain ⟨pw, hpw, hdata, _⟩ :=
      (exit_post_of_hoare (write_triple chk nm _ ts f.self.table_ f.self.metainfo_) f
        ⟨rfl, rfl⟩).1 () hret
    cases hpw
    rw [hdata]
    simp [std_map.find_assign_same]
  refine ⟨?_, ?_, ?_, ?_⟩
  · intro hq' hc'
    rw [read_point_quiet chk' ⟨k⟩ g hq' hc']
  · intro hr
    obtain ⟨pr, hpr, hout⟩ :=
      (exit_post_of_hoare (read_response_triple chk' _ g.self.table_) g rfl).1 () hr
    cases hpr
    rw [hout, hg]
    simp only [hfind k d f hret]
  · intro f' hq hc
    rw [write_point_quiet chk nm ⟨k, some d, true⟩ ts f' hq hc rfl]
  · intro store_key_t key value f' hret'
    have hw := hfind (store_key_t key)
      (datum_t.R_OBJECT (std_map.assign
        (std_map.assign [] "id" (datum_t.R_STR key)) "value" (datum_t.R_STR value))) f' hret'
    unfold mock_lookup mock_store_t.values mock_overwrite mock_read
    unfold mock_overwrite at hret'
    simp only [] at hret' ⊢
    rw [read_point_quiet _ _ _ rfl rfl]
    simp only [hw]
    simp [std_map.find_assign_same, mock_parse_read_response, datum_t.get, datum_t.as_str]

/-- Witness of C7: the write built by `mock_overwrite "a" "x"` on an empty store,
then `mock_lookup` of `"a"`. -/
theorem read_after_overwrite_witness :
    mock_lookup (fun s => s.length)
      (mock_store_t.write (⟨⟨0, 8, ⟨0, none⟩⟩, fun _ => true⟩ : metainfo_checker_t Nat) ⟨[]⟩
        (mock_overwrite (fun s => s.length) "a" "x") ⟨⟨7⟩⟩
        ⟨⟨[], ⟨[]⟩, []⟩, ⟨true⟩, none, ⟨0, write_response_variant_t.other_response⟩⟩).2.self "a" =
      some "x" :=
  ((read_after_overwrite (⟨⟨0, 8, ⟨0, none⟩⟩, fun _ => true⟩ : metainfo_checker_t Nat)
    ⟨⟨0, 8, ⟨0, none⟩⟩, fun _ => true⟩ ⟨[]⟩ 1 datum_t.R_NULL ⟨⟨7⟩⟩
    ⟨⟨[], ⟨[]⟩, []⟩, ⟨true⟩, none, ⟨0, write_response_variant_t.other_response⟩⟩
    ⟨(mock_store_t.write (⟨⟨0, 8, ⟨0, none⟩⟩, fun _ => true⟩ : metainfo_checker_t Nat) ⟨[]⟩
        (write_t.point_write ⟨1, some datum_t.R_NULL, true⟩) ⟨⟨7⟩⟩
        ⟨⟨[], ⟨[]⟩, []⟩, ⟨true⟩, none, ⟨0, write_response_variant_t.other_response⟩⟩).2.self,
      ⟨true⟩, none, ⟨0, read_response_variant_t.other_response⟩⟩
    rfl rfl).2.2.2 (fun s => s.length) "a" "x"
    ⟨⟨[], ⟨[]⟩, []⟩, ⟨true⟩, none, ⟨0, write_response_variant_t.other_response⟩⟩ rfl).1

end unittest

/-! ## Cancellation (C8), release of the token (C9), `set_metainfo` (C10) -/

namespace unittest

/-- C8, as stated, fails: a write that is cancelled at its last nap (line 212), after
the token-guarded block has run, raises `interrupted_exc_t` although the table has
been changed: key 2 had recency 5 and has recency 8 afterwards. -/
theorem write_interrupted_after_change :
    (mock_store_t.write (⟨⟨0, 8, ⟨0, none⟩⟩, fun _ => true⟩ : metainfo_checker_t Nat) ⟨[]⟩
        (write_t.point_write ⟨2, some (datum_t.R_STR "new"), true⟩) ⟨⟨7⟩⟩
        ⟨⟨[(2, (5, some (datum_t.R_STR "old")))], ⟨[]⟩, [1, 0, 5]⟩, ⟨true⟩, some 1,
          ⟨0, write_response_variant_t.other_response⟩⟩).1 = exit_t.interrupted_exc_t ∧
    (mock_store_t.write (⟨⟨0, 8, ⟨0, none⟩⟩, fun _ => true⟩ : metainfo_checker_t Nat) ⟨[]⟩
        (write_t.point_write ⟨2, some (datum_t.R_STR "new"), true⟩) ⟨⟨7⟩⟩
        ⟨⟨[(2, (5, some (datum_t.R_STR "old")))], ⟨[]⟩, [1, 0, 5]⟩, ⟨true⟩, some 1,
          ⟨0, write_response_variant_t.other_response⟩⟩).2.self.table_ =
      [(2, (8, some (datum_t.R_STR "new")))] ∧
    ([(2, (8, some (datum_t.R_STR "new")))] : List (Nat × (repli_timestamp_t × counted_t datum_t))) ≠
      [(2, (5, some (datum_t.R_STR "old")))] := by
  refine ⟨rfl, rfl, ?_⟩
  intro h
  simp at h

/-- C8, amended: a `read` or a `set_metainfo` that raises `interrupted_exc_t` leaves
the table and the metainfo as they were before the call; a `write` or a
`receive_backfill` that raises `interrupted_exc_t` leaves them either as they
were before the call or, cancelled at the last nap, as the completed operation
leaves them; a `write` cancelled inside its token-guarded block leaves them as
they were. -/
theorem interrupted_leaves_data_or_completes {K : Type} [LinearOrder K] :
    (∀ (chk : metainfo_checker_t K) (r : read_t K) (f : frame K datum_t read_response_t),
      (mock_store_t.read chk r f).1 = exit_t.interrupted_exc_t →
        (mock_store_t.read chk r f).2.self.table_ = f.self.table_ ∧
        (mock_store_t.read chk r f).2.self.metainfo_ = f.self.metainfo_) ∧
    (∀ (nm : region_map_t K binary_blob_t) (f : frame K datum_t Unit),
      (mock_store_t.set_metainfo nm f).1 = exit_t.interrupted_exc_t →
        (mock_store_t.set_metainfo nm f).2.self.table_ = f.self.table_ ∧
        (mock_store_t.set_metainfo nm f).2.self.metainfo_ = f.self.metainfo_) ∧
    (∀ (chk : metainfo_checker_t K) (nm : region_map_t K binary_blob_t) (w : write_t K)
        (ts : transition_timestamp_t) (f : frame K datum_t write_response_t),
      (mock_store_t.write chk nm w ts f).1 = exit_t.interrupted_exc_t →
        ((mock_store_t.write chk nm w ts f).2.self.table_ = f.self.table_ ∧
          (mock_store_t.write chk nm w ts f).2.self.metainfo_ = f.self.metainfo_) ∨
        ∃ pw, w = write_t.point_write pw ∧
          (mock_store_t.write chk nm w ts f).2.self.table_ =
            (if pw.overwrite || !(std_map.find f.self.table_ pw.key).isSome then
              std_map.assign f.self.table_ pw.key
                (ts.timestamp_after.to_repli_timestamp, pw.data)
            else f.self.table_) ∧
          (mock_store_t.write chk nm w ts f).2.self.metainfo_ = f.self.metainfo_.update nm) ∧
    (∀ (chk : metainfo_checker_t K) (nm : region_map_t K binary_blob_t) (w : write_t K)
        (ts : transition_timestamp_t) (f : frame K datum_t write_response_t),
      (mock_store_t.write_block chk nm w ts f).1 = exit_t.interrupted_exc_t →
        (mock_store_t.write chk nm w ts f).1 = exit_t.interrupted_exc_t ∧
        (mock_store_t.write chk nm w ts f).2.self.table_ = f.self.table_ ∧
        (mock_store_t.write chk nm w ts f).2.self.metainfo_ = f.self.metainfo_) ∧
    (∀ (chunk : backfill_chunk_t K) (f : frame K datum_t Unit),
      (mock_store_t.receive_backfill chunk f).1 = exit_t.interrupted_exc_t →
        ((mock_store_t.receive_backfill chunk f).2.self.table_ = f.self.table_ ∧
          (mock_store_t.receive_backfill chunk f).2.self.metainfo_ = f.self.metainfo_) ∨
        ∃ atom, chunk = backfill_chunk_t.key_value_pairs [atom] ∧
          (mock_store_t.receive_backfill chunk f).2.self.table_ =
            std_map.assign f.self.table_ atom.key (atom.recency, atom.value) ∧
          (mock_store_t.receive_backfill chunk f).2.self.metainfo_ = f.self.metainfo_) := by
  refine ⟨?_, ?_, ?_, ?_, ?_⟩
  · intro chk r f h
    exact (exit_post_of_hoare (read_triple chk r f.self.table_ f.self.metainfo_) f
      ⟨rfl, rfl⟩).2.1 h
  · intro nm f h
    exact (exit_post_of_hoare (set_metainfo_triple nm f.self.table_ f.self.metainfo_) f
      ⟨rfl, rfl⟩).2.1 h
  · intro chk nm w ts f h
    exact (exit_post_of_hoare (write_triple chk nm w ts f.self.table_ f.self.metainfo_) f
      ⟨rfl, rfl⟩).2.1 h
  · intro chk nm w ts f h
    have hb := (exit_post_of_hoare
      (write_block_triple chk nm w ts f.self.table_ f.self.metainfo_) f ⟨rfl, rfl⟩).2.1 h
    have hw : mock_store_t.write chk nm w ts f = mock_store_t.write_block chk nm w ts f := by
      unfold mock_store_t.write
      rw [coro_bind_apply]
      unfold coro_t.bind
      rcases hm : mock_store_t.write_block chk nm w ts f with ⟨e, s'⟩
      rw [hm] at h
      cases h
      rfl
    rw [hw]
    exact ⟨h, hb⟩
  · intro chunk f h
    exact (exit_post_of_hoare (receive_backfill_triple chunk f.self.table_ f.self.metainfo_) f
      ⟨rfl, rfl⟩).2.1 h

/-- Witness of the amended C8: a `set_metainfo` cancelled at its token wait. -/
theorem interrupted_leaves_data_or_completes_witness :
    (mock_store_t.set_metainfo (⟨[(⟨0, 4, ⟨0, none⟩⟩, [1])]⟩ : region_map_t Nat binary_blob_t)
        ⟨⟨[(2, (5, some (datum_t.R_STR "old")))], ⟨[(⟨0, 8, ⟨0, none⟩⟩, [0])]⟩, [0, 3]⟩,
          ⟨true⟩, some 0, ()⟩).2.self.table_ = [(2, (5, some (datum_t.R_STR "old")))] ∧
    (mock_store_t.set_metainfo (⟨[(⟨0, 4, ⟨0, none⟩⟩, [1])]⟩ : region_map_t Nat binary_blob_t)
        ⟨⟨[(2, (5, some (datum_t.R_STR "old")))], ⟨[(⟨0, 8, ⟨0, none⟩⟩, [0])]⟩, [0, 3]⟩,
          ⟨true⟩, some 0, ()⟩).2.self.metainfo_ = ⟨[(⟨0, 8, ⟨0, none⟩⟩, [0])]⟩ :=
  (interrupted_leaves_data_or_completes (K := Nat)).2.1
    ⟨[(⟨0, 4, ⟨0, none⟩⟩, [1])]⟩
    ⟨⟨[(2, (5, some (datum_t.R_STR "old")))], ⟨[(⟨0, 8, ⟨0, none⟩⟩, [0])]⟩, [0, 3]⟩,
      ⟨true⟩, some 0, ()⟩ rfl

/-- C9: on every exit path, normal or interrupted, of `do_get_metainfo`,
`set_metainfo`, `read`, `write`, `send_backfill` and `receive_backfill`, the
admission token passed to the operation has been released when the operation
returns or raises. -/
theorem token_released_on_exit {K : Type} [LinearOrder K] [OrderBot K] :
    (∀ (f : frame K datum_t (region_map_t K binary_blob_t)),
      (mock_store_t.do_get_metainfo f).1 ≠ exit_t.crashed →
        (mock_store_t.do_get_metainfo f).2.token.has = false) ∧
    (∀ (nm : region_map_t K binary_blob_t) (f : frame K datum_t Unit),
      (mock_store_t.set_metainfo nm f).1 ≠ exit_t.crashed →
        (mock_store_t.set_metainfo nm f).2.token.has = false) ∧
    (∀ (chk : metainfo_checker_t K) (r : read_t K) (f : frame K datum_t read_response_t),
      (mock_store_t.read chk r f).1 ≠ exit_t.crashed →
        (mock_store_t.read chk r f).2.token.has = false) ∧
    (∀ (chk : metainfo_checker_t K) (nm : region_map_t K binary_blob_t) (w : write_t K)
        (ts : transition_timestamp_t) (f : frame K datum_t write_response_t),
      (mock_store_t.write chk nm w ts f).1 ≠ exit_t.crashed →
        (mock_store_t.write chk nm w ts f).2.token.has = false) ∧
    (∀ (hasher : K → Nat) (start_point : region_map_t K state_timestamp_t)
        (cb : send_backfill_callback_t K) (f : frame K datum_t (List (backfill_chunk_t K))),
      (mock_store_t.send_backfill hasher start_point cb f).1 ≠ exit_t.crashed →
        (mock_store_t.send_backfill hasher start_point cb f).2.token.has = false) ∧
    (∀ (chunk : backfill_chunk_t K) (f : frame K datum_t Unit),
      (mock_store_t.receive_backfill chunk f).1 ≠ exit_t.crashed →
        (mock_store_t.receive_backfill chunk f).2.token.has = false) := by
  have key : ∀ {ρ α : Type} (m : coro_t (frame K datum_t ρ) α),
      hoare (fun _ => True) m
        (fun _ s => s.token.has = false) (fun s => s.token.has = false) (fun _ => True) →
      ∀ f, (m f).1 ≠ exit_t.crashed → (m f).2.token.has = false := by
    intro ρ α m h f hne
    have h0 := exit_post_of_hoare h f trivial
    rcases hm : (m f).1 with a | _ | _
    · exact h0.1 a hm
    · exact h0.2.1 hm
    · exact absurd hm hne
  refine ⟨?_, ?_, ?_, ?_, ?_, ?_⟩
  · exact key _ (sentinel_releases _)
  · intro nm
    exact key _ (sentinel_releases _)
  · intro chk r
    exact key _ (released_after_block _ (sentinel_releases _))
  · intro chk nm w ts
    exact key _ (released_after_block _ (sentinel_releases _))
  · intro hasher start_point cb
    exact key _ (sentinel_releases _)
  · intro chunk
    exact key _ (sentinel_releases _)

/-- Witness of C9: a `write` cancelled at its token wait has released the token. -/
theorem token_released_on_exit_witness :
    (mock_store_t.write (⟨⟨0, 8, ⟨0, none⟩⟩, fun _ => true⟩ : metainfo_checker_t Nat) ⟨[]⟩
        (write_t.point_write ⟨2, some (datum_t.R_STR "new"), true⟩) ⟨⟨7⟩⟩
        ⟨⟨[(2, (5, some (datum_t.R_STR "old")))], ⟨[]⟩, [1, 0, 5]⟩, ⟨true⟩, some 0,
          ⟨0, write_response_variant_t.other_response⟩⟩).2.token.has = false :=
  (token_released_on_exit (K := Nat)).2.2.2.1
    ⟨⟨0, 8, ⟨0, none⟩⟩, fun _ => true⟩ ⟨[]⟩
    (write_t.point_write ⟨2, some (datum_t.R_STR "new"), true⟩) ⟨⟨7⟩⟩
    ⟨⟨[(2, (5, some (datum_t.R_STR "old")))], ⟨[]⟩, [1, 0, 5]⟩, ⟨true⟩, some 0,
      ⟨0, write_response_variant_t.other_response⟩⟩ (by decide)

/-- C10: `set_metainfo` returns when it is not interrupted; every call that returns
has made the metainfo of the store equal to the new metainfo on every point of
the domain of the new metainfo and has left it unchanged on every point outside
that domain; the table is not changed, however the call ends. -/
theorem set_metainfo_overwrites_domain {K : Type} [LinearOrder K]
    (nm : region_map_t K binary_blob_t) (f : frame K datum_t Unit) :
    (f.interruptor = none → (mock_store_t.set_metainfo nm f).1 = exit_t.returned ()) ∧
    ((mock_store_t.set_metainfo nm f).1 = exit_t.returned () →
      (∀ p, nm.in_domain p = true →
        (mock_store_t.set_metainfo nm f).2.self.metainfo_.lookup p = nm.lookup p) ∧
      (∀ p, nm.in_domain p = false →
        (mock_store_t.set_metainfo nm f).2.self.metainfo_.lookup p =
          f.self.metainfo_.lookup p)) ∧
    (mock_store_t.set_metainfo nm f).2.self.table_ = f.self.table_ := by
  refine ⟨?_, ?_, ?_⟩
  · intro hq
    rw [set_metainfo_quiet nm f hq]
  · intro hret
    have hdata := (exit_post_of_hoare
      (set_metainfo_triple nm f.self.table_ f.self.metainfo_) f ⟨rfl, rfl⟩).1 () hret
    rw [hdata.2]
    constructor
    · intro p hp
      rw [lookup_update, if_pos hp]
    · intro p hp
      rw [lookup_update, hp]
      rfl
  · exact hoare_any (set_metainfo_triple nm f.self.table_ f.self.metainfo_)
      (R := fun s => s.self.table_ = f.self.table_)
      (fun _ s h => h.1) (fun s h => h.1) (fun s h => h.1) f ⟨rfl, rfl⟩

/-- Witness of C10: the store's metainfo tags hash values 0 to 7 with blob `[0]`;
`set_metainfo` with blob `[1]` on hash values 0 to 3 changes the point (1, 5) and
keeps the point (6, 5). -/
theorem set_metainfo_overwrites_domain_witness :
    (mock_store_t.set_metainfo (⟨[(⟨0, 4, ⟨0, none⟩⟩, [1])]⟩ : region_map_t Nat binary_blob_t)
        ⟨⟨[(2, (5, some (datum_t.R_STR "old")))], ⟨[(⟨0, 8, ⟨0, none⟩⟩, [0])]⟩, [0, 3]⟩,
          ⟨true⟩, none, ()⟩).2.self.metainfo_.lookup (1, 5) = some [1] ∧
    (mock_store_t.set_metainfo (⟨[(⟨0, 4, ⟨0, none⟩⟩, [1])]⟩ : region_map_t Nat binary_blob_t)
        ⟨⟨[(2, (5, some (datum_t.R_STR "old")))], ⟨[(⟨0, 8, ⟨0, none⟩⟩, [0])]⟩, [0, 3]⟩,
          ⟨true⟩, none, ()⟩).2.self.metainfo_.lookup (6, 5) = some [0] :=
  ⟨((set_metainfo_overwrites_domain
      (⟨[(⟨0, 4, ⟨0, none⟩⟩, [1])]⟩ : region_map_t Nat binary_blob_t)
      ⟨⟨[(2, (5, some (datum_t.R_STR "old")))], ⟨[(⟨0, 8, ⟨0, none⟩⟩, [0])]⟩, [0, 3]⟩,
        ⟨true⟩, none, ()⟩).2.1 rfl).1 (1, 5) (by decide),
   ((set_metainfo_overwrites_domain
      (⟨[(⟨0, 4, ⟨0, none⟩⟩, [1])]⟩ : region_map_t Nat binary_blob_t)
      ⟨⟨[(2, (5, some (datum_t.R_STR "old")))], ⟨[(⟨0, 8, ⟨0, none⟩⟩, [0])]⟩, [0, 3]⟩,
        ⟨true⟩, none, ()⟩).2.1 rfl).2 (6, 5) (by decide)⟩

end unittest

/-! ## Masking a region map -/

section mask_lemmas

variable {K V : Type} [LinearOrder K]

theorem key_range_intersection_contains (a b : key_range_t K) (k : K) :
    (a.intersection b).contains_key k = true ↔
      (a.contains_key k = true ∧ b.contains_key k = true) := by
  rw [contains_key_iff, contains_key_iff, contains_key_iff]
  obtain ⟨al, ar⟩ := a
  obtain ⟨bl, br⟩ := b
  cases ar with
  | none =>
    cases br with
    | none => simp [key_range_t.intersection, right_bound_min]
    | some y => simp [key_range_t.intersection, right_bound_min, and_assoc]
  | some x =>
    cases br with
    | none =>
      simp [key_range_t.intersection, right_bound_min]
      tauto
    | some y =>
      simp [key_range_t.intersection, right_bound_min]
      tauto

theorem region_intersection_contains (a b : hash_region_t K) (p : Nat × K) :
    region_contains_point (region_intersection a b) p = true ↔
      (region_contains_point a p = true ∧ region_contains_point b p = true) := by
  rw [region_contains_point_iff, region_contains_point_iff, region_contains_point_iff]
  unfold region_intersection
  simp only [key_range_intersection_contains]
  constructor
  · rintro ⟨h1, h2, h3, h4⟩
    exact ⟨⟨by omega, by omega, h3⟩, by omega, by omega, h4⟩
  · rintro ⟨⟨h1, h2, h3⟩, h4, h5, h6⟩
    exact ⟨by omega, by omega, h3, h6⟩

/-- The value of a masked region map at a point: that of the map inside the mask,
none outside. -/
theorem lookup_mask (m : region_map_t K V) (r : hash_region_t K) (p : Nat × K) :
    (m.mask r).lookup p = if region_contains_point r p then m.lookup p else none := by
  unfold region_map_t.mask region_map_t.lookup
  simp only
  induction m.regions_and_values with
  | nil => simp
  | cons e l ih =>
    rw [List.filterMap_cons]
    by_cases hr : region_contains_point r p = true
    · simp only [hr, if_true] at ih ⊢
      by_cases he : region_contains_point e.1 p = true
      · have hi : region_contains_point (region_intersection e.1 r) p = true :=
          (region_intersection_contains _ _ _).mpr ⟨he, hr⟩
        have hne : region_is_empty (region_intersection e.1 r) = false := by
          cases hem : region_is_empty (region_intersection e.1 r) with
          | false => rfl
          | true =>
            rw [not_region_contains_of_is_empty _ p hem] at hi
            cases hi
        simp [hne, List.find?_cons, hi, he]
      · have he' : region_contains_point e.1 p = false := by simpa using he
        have hi : region_contains_point (region_intersection e.1 r) p = false := by
          rw [Bool.eq_false_iff]
          intro h
          exact he ((region_intersection_contains _ _ _).mp h).1
        cases hem : region_is_empty (region_intersection e.1 r) with
        | true => simpa [hem, List.find?_cons, he'] using ih
        | false => simpa [hem, List.find?_cons, he', hi] using ih
    · have hr' : region_contains_point r p = false := by simpa using hr
      simp only [hr', Bool.false_eq_true, if_false] at ih ⊢
      have hi : region_contains_point (region_intersection e.1 r) p = false := by
        rw [Bool.eq_false_iff]
        intro h
        exact hr ((region_intersection_contains _ _ _).mp h).2
      cases hem : region_is_empty (region_intersection e.1 r) with
      | true => simpa [hem] using ih
      | false => simpa [hem, List.find?_cons, hi] using ih

theorem in_domain_mask (m : region_map_t K V) (r : hash_region_t K) (p : Nat × K) :
    (m.mask r).in_domain p = (m.in_domain p && region_contains_point r p) := by
  rw [Bool.eq_iff_iff, Bool.and_eq_true, in_domain_iff, in_domain_iff]
  unfold region_map_t.mask
  simp only [List.mem_filterMap]
  constructor
  · rintro ⟨e, ⟨e0, he0, hsome⟩, hc⟩
    split_ifs at hsome with hem
    cases hsome
    have := (region_intersection_contains _ _ _).mp hc
    exact ⟨⟨e0, he0, this.1⟩, this.2⟩
  · rintro ⟨⟨e0, he0, hc⟩, hr⟩
    have hi : region_contains_point (region_intersection e0.1 r) p = true :=
      (region_intersection_contains _ _ _).mpr ⟨hc, hr⟩
    have hne : region_is_empty (region_intersection e0.1 r) = false := by
      cases hem : region_is_empty (region_intersection e0.1 r) with
      | false => rfl
      | true =>
        rw [not_region_contains_of_is_empty _ p hem] at hi
        cases hi
    exact ⟨(region_intersection e0.1 r, e0.2), ⟨e0, he0, by simp [hne]⟩, hi⟩

theorem in_domain_update (m n : region_map_t K V) (p : Nat × K) :
    (m.update n).in_domain p = (m.in_domain p || n.in_domain p) := by
  rw [Bool.eq_iff_iff, Bool.or_eq_true, in_domain_iff, in_domain_iff, in_domain_iff]
  unfold region_map_t.update
  simp only [List.mem_append, List.mem_flatMap, List.mem_map]
  constructor
  · rintro ⟨e, (⟨q, hq, r, hr, rfl⟩ | he), hc⟩
    · exact Or.inl ⟨q, hq,
        ((region_subtract_many_contains q.1 _ p).mp ⟨r, hr, hc⟩).1⟩
    · exact Or.inr ⟨e, he, hc⟩
  · rintro (⟨q, hq, hc⟩ | ⟨e, he, hc⟩)
    · by_cases hn : ∃ e ∈ n.regions_and_values, region_contains_point e.1 p = true
      · obtain ⟨e, he, hc'⟩ := hn
        exact ⟨e, Or.inr he, hc'⟩
      · have hall : ∀ s ∈ n.regions_and_values.map Prod.fst,
            region_contains_point s p = false := by
          intro s hs
          obtain ⟨e, he, rfl⟩ := List.mem_map.mp hs
          rw [Bool.eq_false_iff]
          exact fun h => hn ⟨e, he, h⟩
        obtain ⟨r, hr, hrc⟩ := (region_subtract_many_contains q.1 _ p).mpr ⟨hc, hall⟩
        exact ⟨(r, q.2), Or.inl ⟨q, hq, r, hr, rfl⟩, hrc⟩
    · exact ⟨e, Or.inr he, hc⟩

end mask_lemmas

/-! ## Reading the metainfo (C11) and checking it (C12, C13) -/

namespace unittest

theorem hoare_false {σ α : Type} {m : coro_t σ α} {Q : α → σ → Prop} {E C : σ → Prop} :
    hoare (fun _ => False) m Q E C :=
  fun _ h => h.elim

theorem do_get_metainfo_quiet {K : Type} [LinearOrder K] [OrderBot K]
    (f : frame K datum_t (region_map_t K binary_blob_t)) (hq : f.interruptor = none) :
    mock_store_t.do_get_metainfo f =
      (exit_t.returned (),
        { self := { f.self with rng_ := nap_rng f.self.rng_ }
          token := ⟨false⟩
          interruptor := none
          out := f.self.metainfo_.mask hash_region_t.universe }) := by
  unfold mock_store_t.do_get_metainfo
  simp only [coro_bind_apply, coro_t.bind, coro_t.bind_step, with_destruction_sentinel,
    destruction_sentinel_exit, wait_interruptible, blocking_point_quiet, maybe_nap_quiet,
    get_self, set_out, hq, sentinel_token]

theorem do_get_metainfo_triple {K : Type} [LinearOrder K] [OrderBot K]
    (T : List (K × (repli_timestamp_t × counted_t datum_t))) (M : region_map_t K binary_blob_t) :
    hoare (data_is T M) (mock_store_t.do_get_metainfo (K := K))
      (fun _ s => data_is T M s ∧ s.out = M.mask hash_region_t.universe)
      (data_is T M) (data_is T M) := by
  unfold mock_store_t.do_get_metainfo
  refine hoare_sentinel
    (S := fun _ s => data_is T M s ∧ s.out = M.mask hash_region_t.universe)
    (F := data_is T M) ?_ (fun _ s h => h) (fun s h => h)
  refine hoare_bind (Q := fun _ => data_is T M)
    (hoare_blocking_point (fun s i h => h) (fun s h => h)) (fun _ => ?_)
  refine hoare_bind (Q := fun _ => data_is T M)
    (hoare_maybe_nap (fun s r i h => h) (fun s r h => h)) (fun _ => ?_)
  refine hoare_bind (Q := fun a s => data_is T M s ∧ a.metainfo_ = M)
    (hoare_get_self (fun s h => ⟨h, h.2⟩)) (fun self => ?_)
  refine hoare_assume (fun hself => ?_)
  refine hoare_set_out ?_
  intro s h
  exact ⟨h, by show self.metainfo_.mask _ = _; rw [hself]⟩

/-- C11: `do_get_metainfo` returns when it is not interrupted, and every call that
returns hands back the metainfo of the store masked to the region of the store
(the universe): the returned map agrees with the metainfo of the store on every
point of that region and has no point outside it; when the metainfo of the store
covers the region, as it does from the constructor on, the domain of the
returned map is that region. The table and the metainfo are not changed. -/
theorem do_get_metainfo_masks {K : Type} [LinearOrder K] [OrderBot K]
    (f : frame K datum_t (region_map_t K binary_blob_t)) :
    (f.interruptor = none → (mock_store_t.do_get_metainfo f).1 = exit_t.returned ()) ∧
    ((mock_store_t.do_get_metainfo f).1 = exit_t.returned () →
      (mock_store_t.do_get_metainfo f).2.out =
        f.self.metainfo_.mask hash_region_t.universe ∧
      (∀ p, region_contains_point (hash_region_t.universe (K := K)) p = true →
        (mock_store_t.do_get_metainfo f).2.out.lookup p = f.self.metainfo_.lookup p) ∧
      (∀ p, region_contains_point (hash_region_t.universe (K := K)) p = false →
        (mock_store_t.do_get_metainfo f).2.out.in_domain p = false ∧
        (mock_store_t.do_get_metainfo f).2.out.lookup p = none) ∧
      ((∀ p, region_contains_point (hash_region_t.universe (K := K)) p = true →
          f.self.metainfo_.in_domain p = true) →
        ∀ p, (mock_store_t.do_get_metainfo f).2.out.in_domain p =
          region_contains_point (hash_region_t.universe (K := K)) p)) ∧
    ((mock_store_t.do_get_metainfo f).2.self.table_ = f.self.table_ ∧
      (mock_store_t.do_get_metainfo f).2.self.metainfo_ = f.self.metainfo_) ∧
    (∀ (universe_metainfo : binary_blob_t) (seed : List Nat) (p : Nat × K),
      region_contains_point (hash_region_t.universe (K := K)) p = true →
      (mock_store_t.create (K := K) universe_metainfo seed).metainfo_.in_domain p = true) ∧
    (∀ (m n : region_map_t K binary_blob_t) (p : Nat × K),
      m.in_domain p = true → (m.update n).in_domain p = true) := by
  refine ⟨?_, ?_, ?_, ?_, ?_⟩
  · intro hq
    rw [do_get_metainfo_quiet f hq]
  · intro hret
    have hout := ((exit_post_of_hoare
      (do_get_metainfo_triple f.self.table_ f.self.metainfo_) f ⟨rfl, rfl⟩).1 () hret).2
    rw [hout]
    refine ⟨rfl, ?_, ?_, ?_⟩
    · intro p hp
      rw [lookup_mask, if_pos hp]
    · intro p hp
      constructor
      · rw [in_domain_mask, hp, Bool.and_false]
      · rw [lookup_mask, hp]
        rfl
    · intro hcover p
      rw [in_domain_mask]
      cases hp : region_contains_point (hash_region_t.universe (K := K)) p with
      | false => rw [Bool.and_false]
      | true => rw [hcover p hp, Bool.and_true]
  · exact hoare_any (do_get_metainfo_triple f.self.table_ f.self.metainfo_)
      (R := fun s => s.self.table_ = f.self.table_ ∧ s.self.metainfo_ = f.self.metainfo_)
      (fun _ s h => h.1) (fun s h => h) (fun s h => h) f ⟨rfl, rfl⟩
  · intro b seed p hp
    rw [in_domain_iff]
    exact ⟨(hash_region_t.universe, b), List.mem_singleton.mpr rfl, hp⟩
  · intro m n p hp
    rw [in_domain_update, hp, Bool.true_or]

/-- Witness of C11: a fresh store answers with its metainfo at the point (1, 5). -/
theorem do_get_metainfo_masks_witness :
    (mock_store_t.do_get_metainfo
      (⟨mock_store_t.create [7] [0, 3], ⟨true⟩, none, ⟨[]⟩⟩ :
        frame Nat datum_t (region_map_t Nat binary_blob_t))).2.out.lookup (1, 5) =
      (mock_store_t.create (K := Nat) [7] [0, 3]).metainfo_.lookup (1, 5) :=
  ((do_get_metainfo_masks
    (⟨mock_store_t.create [7] [0, 3], ⟨true⟩, none, ⟨[]⟩⟩ :
      frame Nat datum_t (region_map_t Nat binary_blob_t))).2.1 rfl).2.1 (1, 5) (by decide)

end unittest

namespace unittest

section check_triples

variable {K : Type} [LinearOrder K]

theorem read_check_fails_triple (chk : metainfo_checker_t K) (r : read_t K)
    (T : List (K × (repli_timestamp_t × counted_t datum_t))) (M : region_map_t K binary_blob_t)
    (o : read_response_t)
    (hfail : chk.check_metainfo (M.mask chk.get_domain) = false) :
    hoare (fun s => data_is T M s ∧ s.out = o) (mock_store_t.read chk r)
      (fun _ _ => False) (fun s => data_is T M s ∧ s.out = o)
      (fun s => data_is T M s ∧ s.out = o) := by
  unfold mock_store_t.read mock_store_t.read_block
  refine hoare_bind (Q := fun _ _ => False) ?_ (fun _ => hoare_false)
  refine hoare_sentinel (S := fun _ _ => False) (F := fun s => data_is T M s ∧ s.out = o) ?_
    (fun _ _ h => h) (fun s h => h)
  refine hoare_bind (Q := fun _ s => data_is T M s ∧ s.out = o)
    (hoare_blocking_point (fun s i h => h) (fun s h => h)) (fun _ => ?_)
  refine hoare_bind (Q := fun a s => (data_is T M s ∧ s.out = o) ∧ a.metainfo_ = M)
    (hoare_get_self (fun s h => ⟨h, h.1.2⟩)) (fun self => ?_)
  refine hoare_assume (fun hself => ?_)
  refine hoare_bind (Q := fun _ _ => False) (hoare_guarantee ?_ (fun s h _ => h))
    (fun _ => hoare_false)
  intro s _ hc
  rw [hself, hfail] at hc
  cases hc

theorem write_check_fails_triple (chk : metainfo_checker_t K)
    (nm : region_map_t K binary_blob_t) (w : write_t K) (ts : transition_timestamp_t)
    (T : List (K × (repli_timestamp_t × counted_t datum_t))) (M : region_map_t K binary_blob_t)
    (o : write_response_t)
    (hfail : chk.check_metainfo (M.mask chk.get_domain) = false) :
    hoare (fun s => data_is T M s ∧ s.out = o) (mock_store_t.write chk nm w ts)
      (fun _ _ => False) (fun s => data_is T M s ∧ s.out = o)
      (fun s => data_is T M s ∧ s.out = o) := by
  unfold mock_store_t.write mock_store_t.write_block
  refine hoare_bind (Q := fun _ _ => False) ?_ (fun _ => hoare_false)
  refine hoare_sentinel (S := fun _ _ => False) (F := fun s => data_is T M s ∧ s.out = o) ?_
    (fun _ _ h => h) (fun s h => h)
  refine hoare_bind (Q := fun _ s => data_is T M s ∧ s.out = o)
    (hoare_blocking_point (fun s i h => h) (fun s h => h)) (fun _ => ?_)
  refine hoare_bind (Q := fun a s => (data_is T M s ∧ s.out = o) ∧ a.metainfo_ = M)
    (hoare_get_self (fun s h => ⟨h, h.1.2⟩)) (fun self => ?_)
  refine hoare_assume (fun hself => ?_)
  refine hoare_bind (Q := fun _ _ => False) (hoare_guarantee ?_ (fun s h _ => h))
    (fun _ => hoare_false)
  intro s _ hc
  rw [hself, hfail] at hc
  cases hc

theorem read_check_fails_quiet (chk : metainfo_checker_t K) (r : read_t K)
    (f : frame K datum_t read_response_t) (hq : f.interruptor = none)
    (hfail : chk.check_metainfo (f.self.metainfo_.mask chk.get_domain) = false) :
    (mock_store_t.read chk r f).1 = exit_t.crashed := by
  unfold mock_store_t.read mock_store_t.read_block
  simp only [coro_bind_apply, coro_t.bind, coro_t.bind_step, with_destruction_sentinel,
    destruction_sentinel_exit, wait_interruptible, blocking_point_quiet, get_self, guarantee,
    hq, hfail, Bool.false_eq_true, if_false]

theorem write_check_fails_quiet (chk : metainfo_checker_t K)
    (nm : region_map_t K binary_blob_t) (w : write_t K) (ts : transition_timestamp_t)
    (f : frame K datum_t write_response_t) (hq : f.interruptor = none)
    (hfail : chk.check_metainfo (f.self.metainfo_.mask chk.get_domain) = false) :
    (mock_store_t.write chk nm w ts f).1 = exit_t.crashed := by
  unfold mock_store_t.write mock_store_t.write_block
  simp only [coro_bind_apply, coro_t.bind, coro_t.bind_step, with_destruction_sentinel,
    destruction_sentinel_exit, wait_interruptible, blocking_point_quiet, get_self, guarantee,
    hq, hfail, Bool.false_eq_true, if_false]

end check_triples

/-- C12: in `read` and in `write` the metainfo checker is applied, to the metainfo of
the store masked to the domain of the checker, before the table is looked up or
changed. When the check fails the call is aborted: it does not return (it
aborts when it is not interrupted at the token wait), the response has not
been written, and the table and the metainfo are exactly as they were. -/
theorem metainfo_check_guards {K : Type} [LinearOrder K] (chk : metainfo_checker_t K) :
    (∀ (r : read_t K) (f : frame K datum_t read_response_t),
      chk.check_metainfo (f.self.metainfo_.mask chk.get_domain) = false →
      (mock_store_t.read chk r f).1 ≠ exit_t.returned () ∧
      (f.interruptor = none → (mock_store_t.read chk r f).1 = exit_t.crashed) ∧
      (mock_store_t.read chk r f).2.out = f.out ∧
      (mock_store_t.read chk r f).2.self.table_ = f.self.table_ ∧
      (mock_store_t.read chk r f).2.self.metainfo_ = f.self.metainfo_) ∧
    (∀ (nm : region_map_t K binary_blob_t) (w : write_t K) (ts : transition_timestamp_t)
        (f : frame K datum_t write_response_t),
      chk.check_metainfo (f.self.metainfo_.mask chk.get_domain) = false →
      (mock_store_t.write chk nm w ts f).1 ≠ exit_t.returned () ∧
      (f.interruptor = none → (mock_store_t.write chk nm w ts f).1 = exit_t.crashed) ∧
      (mock_store_t.write chk nm w ts f).2.out = f.out ∧
      (mock_store_t.write chk nm w ts f).2.self.table_ = f.self.table_ ∧
      (mock_store_t.write chk nm w ts f).2.self.metainfo_ = f.self.metainfo_) := by
  constructor
  · intro r f hfail
    have ht := read_check_fails_triple chk r f.self.table_ f.self.metainfo_ f.out hfail
    have hall := hoare_any ht
      (R := fun s => s.out = f.out ∧ s.self.table_ = f.self.table_ ∧
        s.self.metainfo_ = f.self.metainfo_)
      (fun _ _ h => h.elim) (fun s h => ⟨h.2, h.1.1, h.1.2⟩) (fun s h => ⟨h.2, h.1.1, h.1.2⟩)
      f ⟨⟨rfl, rfl⟩, rfl⟩
    refine ⟨?_, fun hq => read_check_fails_quiet chk r f hq hfail, hall⟩
    intro hret
    exact (exit_post_of_hoare ht f ⟨⟨rfl, rfl⟩, rfl⟩).1 () hret
  · intro nm w ts f hfail
    have ht := write_check_fails_triple chk nm w ts f.self.table_ f.self.metainfo_ f.out hfail
    have hall := hoare_any ht
      (R := fun s => s.out = f.out ∧ s.self.table_ = f.self.table_ ∧
        s.self.metainfo_ = f.self.metainfo_)
      (fun _ _ h => h.elim) (fun s h => ⟨h.2, h.1.1, h.1.2⟩) (fun s h => ⟨h.2, h.1.1, h.1.2⟩)
      f ⟨⟨rfl, rfl⟩, rfl⟩
    refine ⟨?_, fun hq => write_check_fails_quiet chk nm w ts f hq hfail, hall⟩
    intro hret
    exact (exit_post_of_hoare ht f ⟨⟨rfl, rfl⟩, rfl⟩).1 () hret

/-- Witness of C12: the checker rejects every metainfo; the overwriting write of key
2 is aborted and the table keeps the old entry. -/
theorem metainfo_check_guards_witness :
    (mock_store_t.write (⟨⟨0, 8, ⟨0, none⟩⟩, fun _ => false⟩ : metainfo_checker_t Nat) ⟨[]⟩
        (write_t.point_write ⟨2, some (datum_t.R_STR "new"), true⟩) ⟨⟨7⟩⟩
        ⟨⟨[(2, (5, some (datum_t.R_STR "old")))], ⟨[]⟩, [0, 3]⟩, ⟨true⟩, none,
          ⟨0, write_response_variant_t.other_response⟩⟩).1 = exit_t.crashed ∧
    (mock_store_t.write (⟨⟨0, 8, ⟨0, none⟩⟩, fun _ => false⟩ : metainfo_checker_t Nat) ⟨[]⟩
        (write_t.point_write ⟨2, some (datum_t.R_STR "new"), true⟩) ⟨⟨7⟩⟩
        ⟨⟨[(2, (5, some (datum_t.R_STR "old")))], ⟨[]⟩, [0, 3]⟩, ⟨true⟩, none,
          ⟨0, write_response_variant_t.other_response⟩⟩).2.self.table_ =
      [(2, (5, some (datum_t.R_STR "old")))] :=
  ⟨((metainfo_check_guards
      (⟨⟨0, 8, ⟨0, none⟩⟩, fun _ => false⟩ : metainfo_checker_t Nat)).2 ⟨[]⟩
      (write_t.point_write ⟨2, some (datum_t.R_STR "new"), true⟩) ⟨⟨7⟩⟩
      ⟨⟨[(2, (5, some (datum_t.R_STR "old")))], ⟨[]⟩, [0, 3]⟩, ⟨true⟩, none,
        ⟨0, write_response_variant_t.other_response⟩⟩ rfl).2.1 rfl,
   ((metainfo_check_guards
      (⟨⟨0, 8, ⟨0, none⟩⟩, fun _ => false⟩ : metainfo_checker_t Nat)).2 ⟨[]⟩
      (write_t.point_write ⟨2, some (datum_t.R_STR "new"), true⟩) ⟨⟨7⟩⟩
      ⟨⟨[(2, (5, some (datum_t.R_STR "old")))], ⟨[]⟩, [0, 3]⟩, ⟨true⟩, none,
        ⟨0, write_response_variant_t.other_response⟩⟩ rfl).2.2.2.1⟩

/-- C13: after a `write` that returns, the metainfo of the store is the previous
metainfo updated with `new_metainfo`: equal to `new_metainfo` on every point
of its domain and unchanged on every point outside it; this holds also when the
write stored nothing, as for a write of a present key with `overwrite = false`,
which reports DUPLICATE and leaves the table as it was. -/
theorem write_updates_metainfo {K : Type} [LinearOrder K] (chk : metainfo_checker_t K)
    (nm : region_map_t K binary_blob_t) (w : write_t K) (ts : transition_timestamp_t)
    (f : frame K datum_t write_response_t)
    (hret : (mock_store_t.write chk nm w ts f).1 = exit_t.returned ()) :
    (mock_store_t.write chk nm w ts f).2.self.metainfo_ = f.self.metainfo_.update nm ∧
    (∀ p, nm.in_domain p = true →
      (mock_store_t.write chk nm w ts f).2.self.metainfo_.lookup p = nm.lookup p) ∧
    (∀ p, nm.in_domain p = false →
      (mock_store_t.write chk nm w ts f).2.self.metainfo_.lookup p =
        f.self.metainfo_.lookup p) ∧
    (∀ pw, w = write_t.point_write pw → pw.overwrite = false →
      (∃ e, std_map.find f.self.table_ pw.key = some e) →
      (mock_store_t.write chk nm w ts f).2.out.response =
        write_response_variant_t.point_write_response
          ⟨some point_write_result_t.DUPLICATE⟩ ∧
      (mock_store_t.write chk nm w ts f).2.self.table_ = f.self.table_ ∧
      (mock_store_t.write chk nm w ts f).2.self.metainfo_ = f.self.metainfo_.update nm) := by
  obtain ⟨pw, hpw, hdata⟩ :=
    (exit_post_of_hoare (write_triple chk nm w ts f.self.table_ f.self.metainfo_) f
      ⟨rfl, rfl⟩).1 () hret
  obtain ⟨pw', hpw', _, hout⟩ :=
    (exit_post_of_hoare (write_response_triple chk nm w ts f.self.table_) f rfl).1 () hret
  refine ⟨hdata.2, ?_, ?_, ?_⟩
  · intro p hp
    rw [hdata.2, lookup_update, if_pos hp]
  · intro p hp
    rw [hdata.2, lookup_update, hp]
    rfl
  · rintro pw0 hw ho ⟨e, he⟩
    subst hw
    cases hpw
    cases hpw'
    refine ⟨?_, ?_, hdata.2⟩
    · rw [hout]
      simp [he]
    · rw [hdata.1]
      simp [ho, he]

/-- Witness of C13: the store's metainfo tags hash values 0 to 7 with blob `[0]`; a
write of the present key 2 with `overwrite = false` and a new metainfo that tags
hash values 0 to 3 with `[1]` changes the metainfo at the point (1, 5). -/
theorem write_updates_metainfo_witness :
    (mock_store_t.write (⟨⟨0, 8, ⟨0, none⟩⟩, fun _ => true⟩ : metainfo_checker_t Nat)
        ⟨[(⟨0, 4, ⟨0, none⟩⟩, [1])]⟩
        (write_t.point_write ⟨2, some (datum_t.R_STR "new"), false⟩) ⟨⟨7⟩⟩
        ⟨⟨[(2, (5, some (datum_t.R_STR "old")))], ⟨[(⟨0, 8, ⟨0, none⟩⟩, [0])]⟩, [0, 3]⟩,
          ⟨true⟩, none, ⟨0, write_response_variant_t.other_response⟩⟩).2.self.metainfo_.lookup
      (1, 5) = some [1] :=
  (write_updates_metainfo (⟨⟨0, 8, ⟨0, none⟩⟩, fun _ => true⟩ : metainfo_checker_t Nat)
    ⟨[(⟨0, 4, ⟨0, none⟩⟩, [1])]⟩
    (write_t.point_write ⟨2, some (datum_t.R_STR "new"), false⟩) ⟨⟨7⟩⟩
    ⟨⟨[(2, (5, some (datum_t.R_STR "old")))], ⟨[(⟨0, 8, ⟨0, none⟩⟩, [0])]⟩, [0, 3]⟩,
      ⟨true⟩, none, ⟨0, write_response_variant_t.other_response⟩⟩
    (congrArg Prod.fst
      (write_point_quiet (⟨⟨0, 8, ⟨0, none⟩⟩, fun _ => true⟩ : metainfo_checker_t Nat)
        ⟨[(⟨0, 4, ⟨0, none⟩⟩, [1])]⟩ ⟨2, some (datum_t.R_STR "new"), false⟩ ⟨⟨7⟩⟩
        ⟨⟨[(2, (5, some (datum_t.R_STR "old")))], ⟨[(⟨0, 8, ⟨0, none⟩⟩, [0])]⟩, [0, 3]⟩,
          ⟨true⟩, none, ⟨0, write_response_variant_t.other_response⟩⟩
        rfl rfl rfl))).2.1 (1, 5) (by decide)

end unittest

/-! ## The chunks `receive_backfill` accepts (C14) and the order of atoms (C15) -/

namespace std_map

variable {K V : Type} [LinearOrder K]

/-- Two maps with the same mapped value at every key are the same map. -/
theorem ordered_ext {m1 m2 : List (K × V)} (h1 : ordered m1) (h2 : ordered m2)
    (h : ∀ k, find m1 k = find m2 k) : m1 = m2 := by
  have nd1 : m1.Nodup := List.Nodup.of_map _ (nodup_keys_of_ordered h1)
  have nd2 : m2.Nodup := List.Nodup.of_map _ (nodup_keys_of_ordered h2)
  have hperm : m1.Perm m2 := by
    rw [List.perm_ext_iff_of_nodup nd1 nd2]
    rintro ⟨k, v⟩
    constructor
    · intro hm
      exact mem_of_find ((h k) ▸ find_of_mem h1 hm)
    · intro hm
      exact mem_of_find ((h k).symm ▸ find_of_mem h2 hm)
  haveI : IsAntisymm (K × V) (fun a b => a.1 < b.1) :=
    ⟨fun a b hab hba => absurd hab (lt_asymm hba)⟩
  exact List.eq_of_perm_of_sorted hperm h1 h2

end std_map

namespace unittest

section atoms

variable {K : Type} [LinearOrder K]

/-- A chunk that does not hold exactly one atom fails the `guarantee` of line 289:
the call aborts at once and nothing has changed. -/
theorem receive_backfill_not_single (atoms : List (backfill_atom_t K))
    (h : atoms.length ≠ 1) (f : frame K datum_t Unit) :
    mock_store_t.receive_backfill (backfill_chunk_t.key_value_pairs atoms) f =
      (exit_t.crashed, f) := by
  match atoms, h with
  | [], _ => rfl
  | [_], h => exact absurd rfl h
  | _ :: _ :: _, _ => rfl

theorem backfill_chunks_single (hasher : K → Nat)
    (start_point : region_map_t K state_timestamp_t)
    (T : List (K × (repli_timestamp_t × counted_t datum_t))) :
    ∀ c ∈ backfill_chunks hasher start_point T,
      ∃ a, c = backfill_chunk_t.key_value_pairs [a] := by
  intro c hc
  unfold backfill_chunks at hc
  simp only [List.mem_flatMap] at hc
  obtain ⟨e, _, it, _, hmem⟩ := hc
  unfold entry_chunks at hmem
  split_ifs at hmem
  · rw [List.mem_singleton] at hmem
    exact ⟨_, hmem⟩
  · cases hmem

theorem ordered_foldl_assign (L : List (backfill_atom_t K))
    (T : List (K × (repli_timestamp_t × counted_t datum_t))) (hT : std_map.ordered T) :
    std_map.ordered
      (L.foldl (fun T a => std_map.assign T a.key (a.recency, a.value)) T) := by
  induction L generalizing T with
  | nil => exact hT
  | cons a L ih => exact ih _ (std_map.ordered_assign hT _ _)

theorem mem_sent_atoms_perm {κ : Type} {c1 c2 : List (backfill_chunk_t κ)} (h : c1.Perm c2)
    (a : backfill_atom_t κ) : a ∈ sent_atoms c1 ↔ a ∈ sent_atoms c2 := by
  unfold sent_atoms
  simp only [List.mem_flatMap]
  constructor
  · rintro ⟨c, hc, ha⟩
    exact ⟨c, h.mem_iff.mp hc, ha⟩
  · rintro ⟨c, hc, ha⟩
    exact ⟨c, h.mem_iff.mpr hc, ha⟩

/-- Atoms that agree whenever they share a key can be applied in any order. -/
theorem foldl_assign_perm (L1 L2 : List (backfill_atom_t K))
    (hmem : ∀ a, a ∈ L1 ↔ a ∈ L2)
    (hagree : ∀ a ∈ L1, ∀ b ∈ L1, a.key = b.key → (a.recency, a.value) = (b.recency, b.value))
    (T : List (K × (repli_timestamp_t × counted_t datum_t))) (hT : std_map.ordered T) :
    L1.foldl (fun T a => std_map.assign T a.key (a.recency, a.value)) T =
      L2.foldl (fun T a => std_map.assign T a.key (a.recency, a.value)) T := by
  refine std_map.ordered_ext (ordered_foldl_assign L1 T hT) (ordered_foldl_assign L2 T hT) ?_
  intro k
  by_cases hk : ∃ a ∈ L1, a.key = k
  · obtain ⟨a, ha, hak⟩ := hk
    rw [find_foldl_assign L1 T k (a.recency, a.value)
        (fun b hb hbk => hagree b hb a ha (hbk.trans hak.symm)) ⟨a, ha, hak⟩,
      find_foldl_assign L2 T k (a.recency, a.value)
        (fun b hb hbk => hagree b ((hmem b).mpr hb) a ha (hbk.trans hak.symm))
        ⟨a, (hmem a).mp ha, hak⟩]
  · rw [find_foldl_assign_other L1 T k (fun a ha hak => hk ⟨a, ha, hak⟩),
      find_foldl_assign_other L2 T k (fun a ha hak => hk ⟨a, (hmem a).mpr ha, hak⟩)]

end atoms

/-- C14, as stated, fails: a chunk that holds two atoms is not accepted. The call
aborts at the `guarantee` of line 289 and neither atom is applied: the table is
still empty. -/
theorem receive_backfill_rejects_two_atoms :
    (mock_store_t.receive_backfill
      (backfill_chunk_t.key_value_pairs
        [(⟨1, some (datum_t.R_STR "a"), 4⟩ : backfill_atom_t Nat),
         ⟨2, some (datum_t.R_STR "b"), 5⟩])
      ⟨⟨[], ⟨[]⟩, [1, 1]⟩, ⟨true⟩, none, ()⟩).1 = exit_t.crashed ∧
    (mock_store_t.receive_backfill
      (backfill_chunk_t.key_value_pairs
        [(⟨1, some (datum_t.R_STR "a"), 4⟩ : backfill_atom_t Nat),
         ⟨2, some (datum_t.R_STR "b"), 5⟩])
      ⟨⟨[], ⟨[]⟩, [1, 1]⟩, ⟨true⟩, none, ()⟩).2.self.table_ = [] :=
  ⟨rfl, rfl⟩

/-- C14, amended: `receive_backfill` accepts a chunk that holds exactly one atom and
applies that atom: the call returns when it is not interrupted, and every call
that returns leaves the table with the atom assigned. A chunk that holds no atom
or more than one fails the `guarantee` of line 289: the call aborts and the
store is unchanged. Every chunk `send_backfill` sends holds exactly one atom. -/
theorem receive_backfill_one_atom {K : Type} [LinearOrder K]
    (atoms : List (backfill_atom_t K)) (f : frame K datum_t Unit) :
    (∀ atom, atoms = [atom] →
      (f.interruptor = none →
        (mock_store_t.receive_backfill (backfill_chunk_t.key_value_pairs atoms) f).1 =
          exit_t.returned ()) ∧
      ((mock_store_t.receive_backfill (backfill_chunk_t.key_value_pairs atoms) f).1 =
          exit_t.returned () →
        (mock_store_t.receive_backfill (backfill_chunk_t.key_value_pairs atoms)
          f).2.self.table_ =
            std_map.assign f.self.table_ atom.key (atom.recency, atom.value))) ∧
    (atoms.length ≠ 1 →
      mock_store_t.receive_backfill (backfill_chunk_t.key_value_pairs atoms) f =
        (exit_t.crashed, f)) ∧
    (∀ (hasher : K → Nat) (start_point : region_map_t K state_timestamp_t)
        (snapshot : List (K × (repli_timestamp_t × counted_t datum_t))),
      ∀ c ∈ backfill_chunks hasher start_point snapshot,
        ∃ a, c = backfill_chunk_t.key_value_pairs [a]) := by
  refine ⟨?_, fun h => receive_backfill_not_single atoms h f,
    fun hasher sp T => backfill_chunks_single hasher sp T⟩
  rintro atom rfl
  constructor
  · intro hq
    rw [receive_backfill_quiet atom f hq]
  · intro hret
    obtain ⟨atom', hc, hdata, _⟩ :=
      (exit_post_of_hoare
        (receive_backfill_triple (backfill_chunk_t.key_value_pairs [atom]) f.self.table_
          f.self.metainfo_) f ⟨rfl, rfl⟩).1 () hret
    cases hc
    exact hdata

/-- Witness of C14, amended: a chunk with no atom aborts the call and leaves the
frame as it was. -/
theorem receive_backfill_one_atom_witness :
    mock_store_t.receive_backfill
      (backfill_chunk_t.key_value_pairs ([] : List (backfill_atom_t Nat)))
      ⟨⟨[(2, (9, some (datum_t.R_STR "kept")))], ⟨[]⟩, [1, 0]⟩, ⟨true⟩, none, ()⟩ =
    (exit_t.crashed,
      ⟨⟨[(2, (9, some (datum_t.R_STR "kept")))], ⟨[]⟩, [1, 0]⟩, ⟨true⟩, none, ()⟩) :=
  (receive_backfill_one_atom ([] : List (backfill_atom_t Nat))
    ⟨⟨[(2, (9, some (datum_t.R_STR "kept")))], ⟨[]⟩, [1, 0]⟩, ⟨true⟩, none, ()⟩).2.1
    (by decide)

/-- C15: applying atoms does not depend on their order. Two atoms with different
keys commute: received in either order by a destination, they leave the same
table. And the chunks sent by one complete `send_backfill` run, received in any
permuted order, leave the same table as received in the order sent. -/
theorem receive_backfill_order_independent {K : Type} [LinearOrder K] [OrderBot K]
    (B : mock_store_t K datum_t) (hB : std_map.ordered B.table_) :
    (∀ a b : backfill_atom_t K, a.key ≠ b.key →
      (receive_chunks none B
        [backfill_chunk_t.key_value_pairs [a], backfill_chunk_t.key_value_pairs [b]]).table_ =
      (receive_chunks none B
        [backfill_chunk_t.key_value_pairs [b], backfill_chunk_t.key_value_pairs [a]]).table_) ∧
    (∀ (hasher : K → Nat) (start_point : region_map_t K state_timestamp_t)
        (cb : send_backfill_callback_t K) (f : frame K datum_t (List (backfill_chunk_t K))),
      f.interruptor = none → f.out = [] → std_map.ordered f.self.table_ →
      cb.should_backfill (f.self.metainfo_.mask start_point.get_domain) = true →
      (mock_store_t.send_backfill hasher start_point cb f).1 = exit_t.returned true ∧
      ∀ chunks, chunks.Perm (mock_store_t.send_backfill hasher start_point cb f).2.out →
        (receive_chunks none B chunks).table_ =
          (receive_chunks none B
            (mock_store_t.send_backfill hasher start_point cb f).2.out).table_) := by
  constructor
  · intro a b hab
    rw [receive_chunks_table _ (by simp) B, receive_chunks_table _ (by simp) B]
    refine foldl_assign_perm _ _ ?_ ?_ B.table_ hB
    · intro c
      simp [sent_atoms, or_comm]
    · intro x hx y hy hxy
      simp only [sent_atoms, List.flatMap_cons, List.flatMap_nil, List.append_nil,
        List.singleton_append, List.mem_cons, List.mem_singleton, List.not_mem_nil,
        or_false] at hx hy
      rcases hx with rfl | rfl <;> rcases hy with rfl | rfl
      · rfl
      · exact absurd hxy hab
      · exact absurd hxy.symm hab
      · rfl
  · intro hasher start_point cb f hq hout hT hacc
    obtain ⟨r, hr⟩ := send_backfill_quiet hasher start_point cb f hq hacc
    rw [hr]
    refine ⟨rfl, ?_⟩
    intro chunks hperm
    simp only [hout, List.nil_append] at hperm ⊢
    have hsingle := backfill_chunks_single hasher start_point f.self.table_
    rw [receive_chunks_table _ (fun c hc => hsingle c (hperm.mem_iff.mp hc)) B,
      receive_chunks_table _ hsingle B]
    refine foldl_assign_perm _ _ (mem_sent_atoms_perm hperm) ?_ B.table_ hB
    intro x hx y hy hxy
    have hx' := (mem_sent_atoms_backfill_chunks hasher start_point f.self.table_ hT x).mp
      ((mem_sent_atoms_perm hperm x).mp hx)
    have hy' := (mem_sent_atoms_backfill_chunks hasher start_point f.self.table_ hT y).mp
      ((mem_sent_atoms_perm hperm y).mp hy)
    obtain ⟨_, _, h1, _⟩ := hx'
    obtain ⟨_, _, h2, _⟩ := hy'
    rw [hxy, h2] at h1
    exact (Option.some.inj h1).symm

/-- Witness of C15: the destination holds key 2; the atoms for keys 1 and 3 are
received in both orders and leave the same table. -/
theorem receive_backfill_order_independent_witness :
    (receive_chunks none
      (⟨[(2, (9, some (datum_t.R_STR "b")))], ⟨[]⟩, [1, 0, 1]⟩ : mock_store_t Nat datum_t)
      [backfill_chunk_t.key_value_pairs [⟨1, some (datum_t.R_STR "a"), 4⟩],
       backfill_chunk_t.key_value_pairs [⟨3, some (datum_t.R_STR "c"), 5⟩]]).table_ =
    (receive_chunks none
      (⟨[(2, (9, some (datum_t.R_STR "b")))], ⟨[]⟩, [1, 0, 1]⟩ : mock_store_t Nat datum_t)
      [backfill_chunk_t.key_value_pairs [⟨3, some (datum_t.R_STR "c"), 5⟩],
       backfill_chunk_t.key_value_pairs [⟨1, some (datum_t.R_STR "a"), 4⟩]]).table_ :=
  (receive_backfill_order_independent
    (⟨[(2, (9, some (datum_t.R_STR "b")))], ⟨[]⟩, [1, 0, 1]⟩ : mock_store_t Nat datum_t)
    (by simp [std_map.ordered])).1
    ⟨1, some (datum_t.R_STR "a"), 4⟩ ⟨3, some (datum_t.R_STR "c"), 5⟩ (by decide)

end unittest

/-! ## `send_backfill` among writers (C16) -/

namespace unittest

section snapshot

variable {K : Type}

theorem send_backfill_at_alone [LinearOrder K] [OrderBot K] (hasher : K → Nat)
    (start_point : region_map_t K state_timestamp_t) (cb : send_backfill_callback_t K) :
    mock_store_t.send_backfill_at wait_interruptible nap send_chunk hasher start_point cb =
      mock_store_t.send_backfill hasher start_point cb := rfl

theorem hoare_for_each_indexed {σ α : Type} {I : List α → σ → Prop} {E C : σ → Prop}
    {b : α → coro_t σ Unit} (l : List α)
    (h : ∀ done x rest, l = done ++ x :: rest →
      hoare (I done) (b x) (fun _ => I (done ++ [x])) E C) :
    hoare (I []) (for_each b l) (fun _ => I l) E C := by
  have key : ∀ rest done, l = done ++ rest →
      hoare (I done) (for_each b rest) (fun _ => I l) E C := by
    intro rest
    induction rest with
    | nil =>
      intro done hl
      rw [List.append_nil] at hl
      subst hl
      exact hoare_pure (fun _ hs => hs)
    | cons x rest ih =>
      intro done hl
      unfold for_each
      refine hoare_bind (h done x rest hl) (fun _ => ih (done ++ [x]) ?_)
      rw [hl, List.append_assoc, List.singleton_append]
  exact key l [] rfl

theorem among_blocking_point (q : Prop) (X : List (backfill_chunk_t K)) :
    hoare (sent_so_far q X) blocking_point_among_writers (fun _ => sent_so_far q X)
      (fun s => ¬ q ∧ s.out.1 = X) (fun _ => False) := by
  rintro ⟨st, tk, i, o1, o2⟩ ⟨h1, h2⟩
  cases o2 with
  | nil =>
    cases i with
    | none => exact ⟨h1, h2⟩
    | some n =>
      have hq : ¬ q := fun hq => by cases h2 hq
      cases n with
      | zero => exact ⟨hq, h1⟩
      | succ n => exact ⟨h1, fun h => absurd h hq⟩
  | cons g rest =>
    cases i with
    | none => exact ⟨h1, h2⟩
    | some n =>
      have hq : ¬ q := fun hq => by cases h2 hq
      cases n with
      | zero => exact ⟨hq, h1⟩
      | succ n => exact ⟨h1, fun h => absurd h hq⟩

theorem among_maybe_nap (q : Prop) (X : List (backfill_chunk_t K)) :
    hoare (sent_so_far q X) (maybe_nap_at nap_among_writers) (fun _ => sent_so_far q X)
      (fun s => ¬ q ∧ s.out.1 = X) (fun _ => False) := by
  unfold maybe_nap_at
  refine hoare_bind (Q := fun _ => sent_so_far q X) (hoare_randint (fun s r _ hs => hs))
    (fun c => ?_)
  refine hoare_ite (fun _ => ?_) (fun _ => hoare_pure (fun _ hs => hs))
  exact hoare_bind (Q := fun _ => sent_so_far q X) (hoare_randint (fun s r _ hs => hs))
    (fun _ => among_blocking_point q X)

theorem among_send_chunk (q : Prop) (X : List (backfill_chunk_t K))
    (chunk : backfill_chunk_t K) :
    hoare (sent_so_far q X) (send_chunk_among_writers chunk)
      (fun _ => sent_so_far q (X ++ [chunk]))
      (fun s => ¬ q ∧ s.out.1 = X) (fun _ => False) := by
  unfold send_chunk_among_writers
  refine hoare_bind (among_blocking_point q X) (fun _ => hoare_set_out ?_)
  rintro s ⟨h1, h2⟩
  exact ⟨by show s.out.1 ++ [chunk] = _; rw [h1], h2⟩

theorem among_send_backfill_entry [LinearOrder K] (q : Prop)
    (X total : List (backfill_chunk_t K)) (hasher : K → Nat) (region : hash_region_t K)
    (start_timestamp : repli_timestamp_t) (it : K × (repli_timestamp_t × counted_t datum_t))
    (hpre : X ++ entry_chunks hasher region start_timestamp it <+: total) :
    hoare (sent_so_far q X)
      (send_backfill_entry_at nap_among_writers send_chunk_among_writers hasher region
        start_timestamp it)
      (fun _ => sent_so_far q (X ++ entry_chunks hasher region start_timestamp it))
      (sent_start_of q total) (fun _ => False) := by
  have hX : X <+: total := (List.prefix_append _ _).trans hpre
  unfold send_backfill_entry_at
  refine hoare_ite (fun hin => ?_) (fun hout => ?_)
  · have hnap : hoare
        (sent_so_far q (X ++ entry_chunks hasher region start_timestamp it))
        (maybe_nap_at nap_among_writers)
        (fun _ => sent_so_far q (X ++ entry_chunks hasher region start_timestamp it))
        (sent_start_of q total) (fun _ => False) :=
      hoare_weaken (among_maybe_nap q _) (fun _ h => h) (fun _ _ h => h)
        (fun s h => ⟨h.1, h.2 ▸ hpre⟩) (fun _ h => h)
    show hoare _
      (if start_timestamp < it.2.1 then
        send_chunk_among_writers
          (backfill_chunk_t.key_value_pairs [⟨it.1, it.2.2, it.2.1⟩]) >>=
            fun _ => maybe_nap_at nap_among_writers
      else pure () >>= fun _ => maybe_nap_at nap_among_writers) _ _ _
    refine hoare_ite (fun hlt => ?_) (fun hge => ?_)
    · have hec : entry_chunks hasher region start_timestamp it =
          [backfill_chunk_t.key_value_pairs [⟨it.1, it.2.2, it.2.1⟩]] := by
        simp [entry_chunks, hin, hlt]
      rw [hec] at hnap ⊢
      exact hoare_bind
        (hoare_weaken (among_send_chunk q X _) (fun _ h => h) (fun _ _ h => h)
          (fun s h => ⟨h.1, h.2 ▸ hX⟩) (fun _ h => h))
        (fun _ => hnap)
    · have hec : entry_chunks hasher region start_timestamp it = [] := by
        simp [entry_chunks, hge]
      rw [hec, List.append_nil] at hnap ⊢
      exact hoare_bind (Q := fun _ => sent_so_far q X) (hoare_pure (fun _ h => h))
        (fun _ => hnap)
  · have hec : entry_chunks hasher region start_timestamp it = [] := by
      simp [entry_chunks, hout]
    rw [hec, List.append_nil]
    exact hoare_pure (fun _ h => h)

theorem among_send_backfill_region [LinearOrder K] (q : Prop)
    (X total : List (backfill_chunk_t K)) (hasher : K → Nat) (region : hash_region_t K)
    (start_timestamp : repli_timestamp_t)
    (l : List (K × (repli_timestamp_t × counted_t datum_t)))
    (hpre : X ++ l.flatMap (entry_chunks hasher region start_timestamp) <+: total) :
    hoare (sent_so_far q X)
      (for_each (send_backfill_entry_at nap_among_writers send_chunk_among_writers hasher
        region start_timestamp) l)
      (fun _ => sent_so_far q (X ++ l.flatMap (entry_chunks hasher region start_timestamp)))
      (sent_start_of q total) (fun _ => False) := by
  have h := hoare_for_each_indexed
    (I := fun done => sent_so_far q
      (X ++ done.flatMap (entry_chunks hasher region start_timestamp)))
    (E := sent_start_of q total) (C := fun _ => False)
    (b := send_backfill_entry_at nap_among_writers send_chunk_among_writers hasher
        region start_timestamp) l ?_
  · simpa using h
  · intro done x rest hl
    have hpre' : (X ++ done.flatMap (entry_chunks hasher region start_timestamp)) ++
        entry_chunks hasher region start_timestamp x <+: total := by
      refine List.IsPrefix.trans ?_ hpre
      rw [hl]
      simp only [List.flatMap_append, List.flatMap_cons, List.append_assoc]
      exact ⟨rest.flatMap (entry_chunks hasher region start_timestamp),
        by simp only [List.append_assoc]⟩
    have h1 := among_send_backfill_entry q _ total hasher region start_timestamp x hpre'
    simpa [List.flatMap_append, List.append_assoc] using h1

theorem among_send_backfill_regions [LinearOrder K] (q : Prop) (hasher : K → Nat)
    (start_point : region_map_t K state_timestamp_t)
    (T : List (K × (repli_timestamp_t × counted_t datum_t))) :
    hoare (sent_so_far q [])
      (for_each (fun (r_it : hash_region_t K × state_timestamp_t) =>
        for_each (send_backfill_entry_at nap_among_writers send_chunk_among_writers hasher
            r_it.1 r_it.2.to_repli_timestamp)
          (send_backfill_range r_it.1 T))
        start_point.regions_and_values)
      (fun _ => sent_so_far q (backfill_chunks hasher start_point T))
      (sent_start_of q (backfill_chunks hasher start_point T)) (fun _ => False) := by
  have h := hoare_for_each_indexed
    (I := fun done => sent_so_far q
      (done.flatMap (fun (r_it : hash_region_t K × state_timestamp_t) =>
        (send_backfill_range r_it.1 T).flatMap
          (entry_chunks hasher r_it.1 r_it.2.to_repli_timestamp))))
    (E := sent_start_of q (backfill_chunks hasher start_point T)) (C := fun _ => False)
    (b := fun (r_it : hash_region_t K × state_timestamp_t) =>
        for_each (send_backfill_entry_at nap_among_writers send_chunk_among_writers hasher
            r_it.1 r_it.2.to_repli_timestamp)
          (send_backfill_range r_it.1 T))
    start_point.regions_and_values ?_
  · exact h
  · intro done x rest hl
    have hpre : done.flatMap (fun (r_it : hash_region_t K × state_timestamp_t) =>
          (send_backfill_range r_it.1 T).flatMap
            (entry_chunks hasher r_it.1 r_it.2.to_repli_timestamp)) ++
        (send_backfill_range x.1 T).flatMap
          (entry_chunks hasher x.1 x.2.to_repli_timestamp) <+:
        backfill_chunks hasher start_point T := by
      unfold backfill_chunks
      rw [hl]
      simp only [List.flatMap_append, List.flatMap_cons]
      exact ⟨rest.flatMap (fun (r_it : hash_region_t K × state_timestamp_t) =>
          (send_backfill_range r_it.1 T).flatMap
            (entry_chunks hasher r_it.1 r_it.2.to_repli_timestamp)),
        by simp only [List.append_assoc]⟩
    have h1 := among_send_backfill_region q _ _ hasher x.1 x.2.to_repli_timestamp
      (send_backfill_range x.1 T) hpre
    simpa [List.flatMap_append] using h1

theorem among_wait (q : Prop) (R : mock_store_t K datum_t → Prop)
    (X : List (backfill_chunk_t K)) :
    hoare (fun s => R (store_after_wait s) ∧ sent_so_far q X s) blocking_point_among_writers
      (fun _ s => R s.self ∧ sent_so_far q X s)
      (fun s => ¬ q ∧ s.out.1 = X) (fun _ => False) := by
  rintro ⟨st, tk, i, o1, o2⟩ ⟨h0, h1, h2⟩
  cases o2 with
  | nil =>
    cases i with
    | none => exact ⟨h0, h1, h2⟩
    | some n =>
      have hq : ¬ q := fun hq => by cases h2 hq
      cases n with
      | zero => exact ⟨hq, h1⟩
      | succ n => exact ⟨h0, h1, fun h => absurd h hq⟩
  | cons g rest =>
    cases i with
    | none => exact ⟨h0, h1, h2⟩
    | some n =>
      have hq : ¬ q := fun hq => by cases h2 hq
      cases n with
      | zero => exact ⟨hq, h1⟩
      | succ n => exact ⟨h0, h1, fun h => absurd h hq⟩

theorem among_send_backfill [LinearOrder K] [OrderBot K] (q : Prop) (hasher : K → Nat)
    (start_point : region_map_t K state_timestamp_t) (cb : send_backfill_callback_t K)
    (T : List (K × (repli_timestamp_t × counted_t datum_t)))
    (M : region_map_t K binary_blob_t) :
    hoare
      (fun s => ((store_after_wait s).table_ = T ∧ (store_after_wait s).metainfo_ = M) ∧
        sent_so_far q [] s)
      (mock_store_t.send_backfill_at blocking_point_among_writers nap_among_writers
        send_chunk_among_writers hasher start_point cb)
      (fun b s => b = cb.should_backfill (M.mask start_point.get_domain) ∧
        s.out.1 = if b then backfill_chunks hasher start_point T else [])
      (fun s => ¬ q ∧ s.out.1 <+: backfill_chunks hasher start_point T ∧
        (cb.should_backfill (M.mask start_point.get_domain) = false → s.out.1 = []))
      (fun _ => False) := by
  unfold mock_store_t.send_backfill_at
  refine hoare_sentinel
    (S := fun b s => b = cb.should_backfill (M.mask start_point.get_domain) ∧
        s.out.1 = if b then backfill_chunks hasher start_point T else [])
    (F := fun s => ¬ q ∧ s.out.1 <+: backfill_chunks hasher start_point T ∧
        (cb.should_backfill (M.mask start_point.get_domain) = false → s.out.1 = [])) ?_
    (fun _ _ h => h) (fun _ h => h)
  refine hoare_bind
    (Q := fun _ s => (s.self.table_ = T ∧ s.self.metainfo_ = M) ∧ sent_so_far q [] s)
    ?_ (fun _ => ?_)
  · exact hoare_weaken (among_wait q (fun st => st.table_ = T ∧ st.metainfo_ = M) [])
      (fun _ h => h) (fun _ _ h => h)
      (fun s h => ⟨h.1, h.2 ▸ List.nil_prefix, fun _ => h.2⟩) (fun _ h => h)
  refine hoare_bind
    (Q := fun (a : mock_store_t K datum_t) s =>
      sent_so_far q [] s ∧ (a.table_ = T ∧ a.metainfo_ = M))
    (hoare_get_self (fun s h => ⟨h.2, h.1.1, h.1.2⟩)) (fun self => ?_)
  refine hoare_assume (fun hself => ?_)
  rw [hself.1, hself.2]
  refine hoare_ite (fun hyes => ?_) (fun hno => ?_)
  · have hE : ∀ s : frame K datum_t
          (List (backfill_chunk_t K) ×
            List (mock_store_t K datum_t → mock_store_t K datum_t)),
        (¬ q ∧ s.out.1 = ([] : List (backfill_chunk_t K))) →
        ¬ q ∧ s.out.1 <+: backfill_chunks hasher start_point T ∧
        (cb.should_backfill (M.mask start_point.get_domain) = false → s.out.1 = []) :=
      fun s h => ⟨h.1, h.2 ▸ List.nil_prefix, fun _ => h.2⟩
    refine hoare_bind (Q := fun _ => sent_so_far q [])
      (hoare_weaken (among_maybe_nap q []) (fun _ h => h) (fun _ _ h => h) hE (fun _ h => h))
      (fun _ => ?_)
    refine hoare_bind (Q := fun _ => sent_so_far q []) ?_ (fun _ => ?_)
    · intro s hs
      exact hs
    refine hoare_bind (Q := fun _ => sent_so_far q [])
      (hoare_weaken (among_maybe_nap q []) (fun _ h => h) (fun _ _ h => h) hE (fun _ h => h))
      (fun _ => ?_)
    refine hoare_bind
      (Q := fun _ => sent_so_far q (backfill_chunks hasher start_point T))
      (hoare_weaken (among_send_backfill_regions q hasher start_point T)
        (fun _ h => h) (fun _ _ h => h)
        (fun s h => ⟨h.1, h.2, fun hf => by rw [hyes] at hf; cases hf⟩) (fun _ h => h))
      (fun _ => ?_)
    exact hoare_pure (fun s h => ⟨hyes.symm, by simpa using h.1⟩)
  · refine hoare_pure (fun s h => ⟨?_, by simpa using h.1⟩)
    simpa using hno

end snapshot

/-- C16: the chunks `send_backfill` sends are computed from the copy of the table
taken when the token wait is over. Among writers that change the store at every
blocking point of the run (the naps and the sends), a run that is not interrupted
returns, every run that returns true has sent exactly the chunks computed from
the table at snapshot time and `start_point`, so two such runs with the same table
at snapshot time have sent the same atoms whatever the writers, the generators
and the metainfo were, and every run, however it ends, has sent the first chunks
of that list. With no writers the run is the member `send_backfill`. -/
theorem send_backfill_sends_snapshot {K : Type} [LinearOrder K] [OrderBot K]
    (hasher : K → Nat) (start_point : region_map_t K state_timestamp_t)
    (cb : send_backfill_callback_t K) :
    mock_store_t.send_backfill_at wait_interruptible nap send_chunk hasher start_point cb =
      mock_store_t.send_backfill hasher start_point cb ∧
    (∀ f : frame K datum_t
        (List (backfill_chunk_t K) × List (mock_store_t K datum_t → mock_store_t K datum_t)),
      f.out.1 = [] →
      (f.interruptor = none →
        cb.should_backfill ((store_after_wait f).metainfo_.mask start_point.get_domain) = true →
        (mock_store_t.send_backfill_at blocking_point_among_writers nap_among_writers
          send_chunk_among_writers hasher start_point cb f).1 = exit_t.returned true) ∧
      ((mock_store_t.send_backfill_at blocking_point_among_writers nap_among_writers
          send_chunk_among_writers hasher start_point cb f).1 = exit_t.returned true →
        (mock_store_t.send_backfill_at blocking_point_among_writers nap_among_writers
          send_chunk_among_writers hasher start_point cb f).2.out.1 =
            backfill_chunks hasher start_point (store_after_wait f).table_) ∧
      (mock_store_t.send_backfill_at blocking_point_among_writers nap_among_writers
          send_chunk_among_writers hasher start_point cb f).2.out.1 <+:
        backfill_chunks hasher start_point (store_after_wait f).table_) ∧
    (∀ f1 f2 : frame K datum_t
        (List (backfill_chunk_t K) × List (mock_store_t K datum_t → mock_store_t K datum_t)),
      f1.out.1 = [] → f2.out.1 = [] →
      (store_after_wait f1).table_ = (store_after_wait f2).table_ →
      (mock_store_t.send_backfill_at blocking_point_among_writers nap_among_writers
          send_chunk_among_writers hasher start_point cb f1).1 = exit_t.returned true →
      (mock_store_t.send_backfill_at blocking_point_among_writers nap_among_writers
          send_chunk_among_writers hasher start_point cb f2).1 = exit_t.returned true →
      sent_atoms (mock_store_t.send_backfill_at blocking_point_among_writers nap_among_writers
          send_chunk_among_writers hasher start_point cb f1).2.out.1 =
        sent_atoms (mock_store_t.send_backfill_at blocking_point_among_writers
          nap_among_writers send_chunk_among_writers hasher start_point cb f2).2.out.1) := by
  have hret : ∀ f : frame K datum_t
        (List (backfill_chunk_t K) × List (mock_store_t K datum_t → mock_store_t K datum_t)),
      f.out.1 = [] →
      (mock_store_t.send_backfill_at blocking_point_among_writers nap_among_writers
          send_chunk_among_writers hasher start_point cb f).1 = exit_t.returned true →
        (mock_store_t.send_backfill_at blocking_point_among_writers nap_among_writers
          send_chunk_among_writers hasher start_point cb f).2.out.1 =
            backfill_chunks hasher start_point (store_after_wait f).table_ := by
    intro f hout hr
    have h := (exit_post_of_hoare
      (among_send_backfill False hasher start_point cb (store_after_wait f).table_
        (store_after_wait f).metainfo_) f ⟨⟨rfl, rfl⟩, hout, fun h => h.elim⟩).1 true hr
    simpa using h.2
  refine ⟨rfl, ?_, ?_⟩
  · intro f hout
    refine ⟨?_, hret f hout, ?_⟩
    · intro hq hacc
      have h := exit_post_of_hoare
        (among_send_backfill True hasher start_point cb (store_after_wait f).table_
          (store_after_wait f).metainfo_) f ⟨⟨rfl, rfl⟩, hout, fun _ => hq⟩
      rcases hm : (mock_store_t.send_backfill_at blocking_point_among_writers
          nap_among_writers send_chunk_among_writers hasher start_point cb f).1 with b | _ | _
      · rw [(h.1 b hm).1, hacc]
      · exact absurd trivial (h.2.1 hm).1
      · exact (h.2.2 hm).elim
    · refine hoare_any
        (among_send_backfill False hasher start_point cb (store_after_wait f).table_
          (store_after_wait f).metainfo_)
        (R := fun s => s.out.1 <+: backfill_chunks hasher start_point
          (store_after_wait f).table_) ?_ ?_ ?_ f ⟨⟨rfl, rfl⟩, hout, fun h => h.elim⟩
      · rintro b s ⟨_, h⟩
        rw [h]
        cases b
        · exact List.nil_prefix
        · exact List.prefix_refl _
      · rintro s ⟨_, h, _⟩
        exact h
      · intro s h
        exact h.elim
  · intro f1 f2 h1 h2 hT hr1 hr2
    rw [hret f1 h1 hr1, hret f2 h2 hr2, hT]

/-- Witness of C16: the source holds key 1; a writer empties the table at the
second blocking point, after the copy has been taken; the run returns and has
sent the chunk of key 1. -/
theorem send_backfill_sends_snapshot_witness :
    (mock_store_t.send_backfill_at blocking_point_among_writers nap_among_writers
      send_chunk_among_writers (fun k => k % 8)
      (⟨[(⟨0, 8, ⟨0, none⟩⟩, ⟨3⟩)]⟩ : region_map_t Nat state_timestamp_t) ⟨fun _ => true⟩
      ⟨⟨[(1, (5, some (datum_t.R_STR "a")))], ⟨[]⟩, [0, 3, 1]⟩, ⟨true⟩, none,
        ([], [id, fun st => { st with table_ := [] }])⟩).2.out.1 =
    [backfill_chunk_t.key_value_pairs [⟨1, some (datum_t.R_STR "a"), 5⟩]] :=
  ((send_backfill_sends_snapshot (fun k => k % 8)
      (⟨[(⟨0, 8, ⟨0, none⟩⟩, ⟨3⟩)]⟩ : region_map_t Nat state_timestamp_t)
      ⟨fun _ => true⟩).2.1
    ⟨⟨[(1, (5, some (datum_t.R_STR "a")))], ⟨[]⟩, [0, 3, 1]⟩, ⟨true⟩, none,
      ([], [id, fun st => { st with table_ := [] }])⟩ rfl).2.1
    (((send_backfill_sends_snapshot (fun k => k % 8)
      (⟨[(⟨0, 8, ⟨0, none⟩⟩, ⟨3⟩)]⟩ : region_map_t Nat state_timestamp_t)
      ⟨fun _ => true⟩).2.1
    ⟨⟨[(1, (5, some (datum_t.R_STR "a")))], ⟨[]⟩, [0, 3, 1]⟩, ⟨true⟩, none,
      ([], [id, fun st => { st with table_ := [] }])⟩ rfl).1 rfl rfl)

end unittest

/-! ## The token wait of the operations (C17) -/

namespace unittest

/-- C17, on the code: the operations are admitted at their token wait
`wait_interruptible(token->get(), interruptor)`, which also raises
`interrupted_exc_t` when the interruptor is pulsed. Under a pulsed interruptor
`write`, `set_metainfo`, `reset_data`, `read`, `do_get_metainfo` and `send_backfill`
raise there, before anything else has run: the out-parameter, the table, the
metainfo and the generator are as before. `receive_backfill` holds a write token
and has no token wait: under the same interruptor, when the generator chooses no
nap, it returns with the atom assigned to the table. -/
theorem receive_backfill_no_token_wait {K : Type} [LinearOrder K] [OrderBot K] :
    (∀ (chk : metainfo_checker_t K) (nm : region_map_t K binary_blob_t) (w : write_t K)
        (ts : transition_timestamp_t) (f : frame K datum_t write_response_t),
      f.interruptor = some 0 →
      mock_store_t.write chk nm w ts f =
        (exit_t.interrupted_exc_t, { f with token := ⟨false⟩ })) ∧
    (∀ (nm : region_map_t K binary_blob_t) (f : frame K datum_t Unit),
      f.interruptor = some 0 →
      mock_store_t.set_metainfo nm f =
        (exit_t.interrupted_exc_t, { f with token := ⟨false⟩ })) ∧
    (∀ (hasher : K → Nat) (subregion : hash_region_t K) (f : frame K datum_t Unit),
      f.interruptor = some 0 →
      mock_store_t.reset_data hasher subregion f =
        (exit_t.interrupted_exc_t, { f with token := ⟨false⟩ })) ∧
    (∀ (chk : metainfo_checker_t K) (r : read_t K) (f : frame K datum_t read_response_t),
      f.interruptor = some 0 →
      mock_store_t.read chk r f =
        (exit_t.interrupted_exc_t, { f with token := ⟨false⟩ })) ∧
    (∀ f : frame K datum_t (region_map_t K binary_blob_t),
      f.interruptor = some 0 →
      mock_store_t.do_get_metainfo f =
        (exit_t.interrupted_exc_t, { f with token := ⟨false⟩ })) ∧
    (∀ (hasher : K → Nat) (start_point : region_map_t K state_timestamp_t)
        (cb : send_backfill_callback_t K) (f : frame K datum_t (List (backfill_chunk_t K))),
      f.interruptor = some 0 →
      mock_store_t.send_backfill hasher start_point cb f =
        (exit_t.interrupted_exc_t, { f with token := ⟨false⟩ })) ∧
    (∀ (atom : backfill_atom_t K) (f : frame K datum_t Unit),
      f.interruptor = some 0 →
      f.self.rng_.headD 0 % 2 ≠ 0 → f.self.rng_.tail.headD 0 % 2 ≠ 0 →
      mock_store_t.receive_backfill (backfill_chunk_t.key_value_pairs [atom]) f =
        (exit_t.returned (),
          { self :=
              { table_ := std_map.assign f.self.table_ atom.key (atom.recency, atom.value)
                metainfo_ := f.self.metainfo_
                rng_ := f.self.rng_.tail.tail }
            token := ⟨false⟩
            interruptor := some 0
            out := f.out })) := by
  refine ⟨?_, ?_, ?_, ?_, ?_, ?_, ?_⟩
  · intro chk nm w ts f hq
    simp only [mock_store_t.write, mock_store_t.write_block, with_destruction_sentinel,
      coro_bind_apply, coro_t.bind, wait_interruptible, blocking_point, hq, coro_t.bind_step,
      destruction_sentinel_exit, sentinel_token]
  · intro nm f hq
    simp only [mock_store_t.set_metainfo, with_destruction_sentinel,
      coro_bind_apply, coro_t.bind, wait_interruptible, blocking_point, hq, coro_t.bind_step,
      destruction_sentinel_exit, sentinel_token]
  · intro hasher subregion f hq
    simp only [mock_store_t.reset_data, new_write_token_pair, with_destruction_sentinel,
      coro_bind_apply, coro_t.bind, wait_interruptible, blocking_point, hq, coro_t.bind_step,
      destruction_sentinel_exit, sentinel_token]
    rfl
  · intro chk r f hq
    simp only [mock_store_t.read, mock_store_t.read_block, with_destruction_sentinel,
      coro_bind_apply, coro_t.bind, wait_interruptible, blocking_point, hq, coro_t.bind_step,
      destruction_sentinel_exit, sentinel_token]
  · intro f hq
    simp only [mock_store_t.do_get_metainfo, with_destruction_sentinel,
      coro_bind_apply, coro_t.bind, wait_interruptible, blocking_point, hq, coro_t.bind_step,
      destruction_sentinel_exit, sentinel_token]
  · intro hasher start_point cb f hq
    simp only [mock_store_t.send_backfill, with_destruction_sentinel,
      coro_bind_apply, coro_t.bind, wait_interruptible, blocking_point, hq, coro_t.bind_step,
      destruction_sentinel_exit, sentinel_token]
  · intro atom f hq h1 h2
    unfold mock_store_t.receive_backfill
    simp only [with_destruction_sentinel, coro_bind_apply, coro_t.bind, coro_t.bind_step,
      maybe_nap, randint_apply, h1, h2, if_false, coro_pure_apply, modify_self,
      destruction_sentinel_exit, sentinel_token, hq]

/-- Witness of C17: on an empty store, under a pulsed interruptor and with a
generator that chooses no nap, `receive_backfill` assigns key 1 although it was
never admitted. The write without overwrite of key 1 that holds the earlier
token, run after it, finds the key and reports DUPLICATE; run on the store as
it was, it stores the key. -/
theorem receive_backfill_no_token_wait_witness :
    mock_store_t.receive_backfill
        (backfill_chunk_t.key_value_pairs
          [(⟨1, some (datum_t.R_STR "b"), 9⟩ : backfill_atom_t Nat)])
        ⟨⟨[], ⟨[]⟩, [1, 1]⟩, ⟨true⟩, some 0, ()⟩ =
      (exit_t.returned (),
        ⟨⟨[(1, (9, some (datum_t.R_STR "b")))], ⟨[]⟩, []⟩, ⟨false⟩, some 0, ()⟩) ∧
    (mock_store_t.write (⟨⟨0, 8, ⟨0, none⟩⟩, fun _ => true⟩ : metainfo_checker_t Nat) ⟨[]⟩
        (write_t.point_write ⟨1, some (datum_t.R_STR "a"), false⟩) ⟨⟨7⟩⟩
        ⟨⟨[(1, (9, some (datum_t.R_STR "b")))], ⟨[]⟩, []⟩, ⟨true⟩, none,
          ⟨0, write_response_variant_t.other_response⟩⟩).2.out.response =
      write_response_variant_t.point_write_response ⟨some point_write_result_t.DUPLICATE⟩ ∧
    (mock_store_t.write (⟨⟨0, 8, ⟨0, none⟩⟩, fun _ => true⟩ : metainfo_checker_t Nat) ⟨[]⟩
        (write_t.point_write ⟨1, some (datum_t.R_STR "a"), false⟩) ⟨⟨7⟩⟩
        ⟨⟨[], ⟨[]⟩, []⟩, ⟨true⟩, none,
          ⟨0, write_response_variant_t.other_response⟩⟩).2.out.response =
      write_response_variant_t.point_write_response ⟨some point_write_result_t.STORED⟩ :=
  ⟨receive_backfill_no_token_wait.2.2.2.2.2.2
      (⟨1, some (datum_t.R_STR "b"), 9⟩ : backfill_atom_t Nat)
      ⟨⟨[], ⟨[]⟩, [1, 1]⟩, ⟨true⟩, some 0, ()⟩ rfl (by decide) (by decide),
    rfl, rfl⟩

end unittest

/-! ## Serialization of `grouped_t` (C18, C19) -/

namespace std_map

variable {K V : Type} [LinearOrder K]

theorem find_eq_none_of_lt (m : List (K × V)) (k : K) (h : ∀ e ∈ m, e.1 < k) :
    find m k = none := by
  induction m with
  | nil => rfl
  | cons e m ih =>
    obtain ⟨k0, v0⟩ := e
    have h0 : k0 < k := h (k0, v0) (List.mem_cons_self _ _)
    simp only [find, ne_of_lt h0, if_false]
    exact ih (fun e he => h e (List.mem_cons_of_mem _ he))

theorem assign_last (m : List (K × V)) (k : K) (v : V) (h : ∀ e ∈ m, e.1 < k) :
    assign m k v = m ++ [(k, v)] := by
  induction m with
  | nil => rfl
  | cons e m ih =>
    obtain ⟨k0, v0⟩ := e
    have h0 : k0 < k := h (k0, v0) (List.mem_cons_self _ _)
    simp only [assign, not_lt_of_lt h0, (ne_of_lt h0).symm, if_false, List.cons_append]
    rw [ih (fun e he => h e (List.mem_cons_of_mem _ he))]

theorem insert_last (m : List (K × V)) (k : K) (v : V) (h : ∀ e ∈ m, e.1 < k) :
    insert m k v = m ++ [(k, v)] := by
  unfold insert
  rw [find_eq_none_of_lt m k h]
  exact assign_last m k v h

theorem ordered_insert {m : List (K × V)} (hm : ordered m) (k : K) (v : V) :
    ordered (insert m k v) := by
  unfold insert
  split_ifs
  · exact hm
  · exact ordered_assign hm k v

end std_map

namespace ql

section round_trips

variable {S D double : Type}

theorem bad_SUCCESS : bad archive_result_t.SUCCESS = false := rfl

theorem grouped_datum_round_trips (A : archives_t S D double) (hA : A.round_trip)
    (d : counted_t D) (rest : List Nat) :
    deserialize_grouped_datum A (serialize_grouped_datum A d ++ rest) none =
      (archive_result_t.SUCCESS, d, rest) := by
  obtain ⟨hb, hd, _⟩ := hA
  unfold deserialize_grouped_datum serialize_grouped_datum
  cases d with
  | none =>
    have h := hb false false rest trivial
    simp only [counted_t.has, Option.isSome_none, Bool.false_eq_true, if_false,
      List.append_nil, h, bad_SUCCESS]
  | some x =>
    have h := hb false true (A.datum.serialize (some x) ++ rest) trivial
    have h2 := hd (some x) rest rfl
    simp only [counted_t.has, Option.isSome_some, if_true, List.append_assoc, h, bad_SUCCESS,
      Bool.false_eq_true, if_false, h2]

theorem grouped_pair_round_trips (A : archives_t S D double) (hA : A.round_trip)
    (p old : double × Nat) (hp : p.2 < 2 ^ 64) (rest : List Nat) :
    deserialize_grouped_pair A (serialize_grouped_pair A p ++ rest) old =
      (archive_result_t.SUCCESS, p, rest) := by
  obtain ⟨_, _, hv, hdb, _⟩ := hA
  unfold deserialize_grouped_pair serialize_grouped_pair
  have h1 := hdb old.1 p.1 (A.varint_uint64.serialize p.2 ++ rest) trivial
  have h2 := hv old.2 p.2 rest hp
  simp only [List.append_assoc, h1, bad_SUCCESS, Bool.false_eq_true, if_false, h2]

theorem rdb_deserialize_loop_round_trip {T : Type} [LinearOrder (counted_t D)]
    (A : archives_t S D double) (hA : A.round_trip) (V : archive_t T) (valid : T → Prop)
    (T0 : T) (hV : V.round_trips valid T0) (l : List (counted_t D × T)) :
    ∀ (acc : List (counted_t D × T)) (rest : List Nat),
      std_map.ordered (acc ++ l) → (∀ e ∈ l, valid e.2) →
      grouped_t.rdb_deserialize_loop A V.deserialize T0 l.length
        (l.flatMap (fun it => serialize_grouped_datum A it.1 ++ V.serialize it.2) ++ rest)
        acc = (archive_result_t.SUCCESS, acc ++ l, rest) := by
  induction l with
  | nil =>
    intro acc rest _ _
    simp [grouped_t.rdb_deserialize_loop]
  | cons e l ih =>
    intro acc rest hord hvalid
    obtain ⟨k, v⟩ := e
    have hk := grouped_datum_round_trips A hA k
      (V.serialize v ++ (l.flatMap
        (fun it => serialize_grouped_datum A it.1 ++ V.serialize it.2) ++ rest))
    have hv := hV v (l.flatMap
        (fun it => serialize_grouped_datum A it.1 ++ V.serialize it.2) ++ rest)
      (hvalid (k, v) (List.mem_cons_self _ _))
    have hlast : std_map.insert acc k v = acc ++ [(k, v)] := by
      refine std_map.insert_last acc k v ?_
      intro e he
      unfold std_map.ordered at hord
      rw [List.pairwise_append] at hord
      exact hord.2.2 e he (k, v) (List.mem_cons_self _ _)
    have hord' : std_map.ordered ((acc ++ [(k, v)]) ++ l) := by
      rw [List.append_assoc]
      exact hord
    have h := ih (acc ++ [(k, v)]) rest hord'
      (fun e he => hvalid e (List.mem_cons_of_mem _ he))
    simp only [List.length_cons, List.flatMap_cons, List.append_assoc,
      grouped_t.rdb_deserialize_loop, hk, bad_SUCCESS, Bool.false_eq_true, if_false, hv, hlast]
    simpa [List.append_assoc] using h

theorem rdb_round_trip {T : Type} [LinearOrder (counted_t D)]
    (A : archives_t S D double) (hA : A.round_trip) (V : archive_t T) (valid : T → Prop)
    (T0 : T) (hV : V.round_trips valid T0) (size_max : Nat) (hmax : size_max < 2 ^ 64)
    (g : grouped_t D T) (hord : std_map.ordered g.m) (hvalid : ∀ e ∈ g.m, valid e.2)
    (hsize : g.m.length ≤ size_max) (rest : List Nat) :
    grouped_t.rdb_deserialize A V.deserialize T0 size_max
      (g.rdb_serialize A V.serialize ++ rest) ⟨[]⟩ =
        some (archive_result_t.SUCCESS, g, rest) := by
  have hsz := hA.2.2.1 0 g.m.length
    (g.m.flatMap (fun it => serialize_grouped_datum A it.1 ++ V.serialize it.2) ++ rest)
    (Nat.lt_of_le_of_lt hsize hmax)
  have hloop := rdb_deserialize_loop_round_trip A hA V valid T0 hV g.m [] rest
    (by simpa using hord) hvalid
  unfold grouped_t.rdb_deserialize grouped_t.rdb_serialize
  simp only [List.isEmpty_nil, if_true, List.append_assoc, hsz, bad_SUCCESS,
    Bool.false_eq_true, if_false, gt_iff_lt, Nat.not_lt.mpr hsize, hloop, List.nil_append]

end round_trips

end ql

namespace ql

section examples

theorem cell_archive_round_trips {α : Type} (encode : α → Nat) (decode : Nat → Option α)
    (h : ∀ x, decode (encode x) = some x) (valid : α → Prop) (fresh : α) :
    (cell_archive encode decode).round_trips valid fresh := by
  intro x rest _
  simp [cell_archive, h]

theorem cell_archives_round_trip : cell_archives.round_trip := by
  refine ⟨fun old => ?_, ?_, fun old => ?_, fun old => ?_, ?_, ?_⟩
  · exact cell_archive_round_trips _ _ Encodable.encodek _ _
  · exact cell_archive_round_trips _ _ Encodable.encodek _ _
  · exact cell_archive_round_trips _ _ Encodable.encodek _ _
  · exact cell_archive_round_trips _ _ Encodable.encodek _ _
  · refine cell_archive_round_trips _ _ ?_ _ _
    intro x
    simp [Encodable.encodek, List.map_map, Function.comp_def]
  · exact cell_archive_round_trips _ _ Encodable.encodek _ _

end examples

/-- C18: for every `grouped_t<T>` with `T` a count, a sum, an avg pair, a stream or
a reduce value that may be absent, reading the output of `rdb_serialize` into an
empty `grouped_t<T>` returns SUCCESS, yields the map that was written and leaves
what follows the output in the stream, given that the archive primitives
round-trip. -/
theorem grouped_round_trip {S D double : Type} [LinearOrder (counted_t D)]
    (A : archives_t S D double) (hA : A.round_trip) (size_max : Nat)
    (hmax : size_max < 2 ^ 64) (zero : double) (rest : List Nat) :
    (∀ g : grouped_t D Nat, std_map.ordered g.m → (∀ e ∈ g.m, e.2 < 2 ^ 64) →
      g.m.length ≤ size_max →
      grouped_t.rdb_deserialize A (deserialize_grouped_uint64 A) 0 size_max
        (g.rdb_serialize A (serialize_grouped_uint64 A) ++ rest) ⟨[]⟩ =
          some (archive_result_t.SUCCESS, g, rest)) ∧
    (∀ g : grouped_t D double, std_map.ordered g.m → g.m.length ≤ size_max →
      grouped_t.rdb_deserialize A (deserialize_grouped_double A) zero size_max
        (g.rdb_serialize A (serialize_grouped_double A) ++ rest) ⟨[]⟩ =
          some (archive_result_t.SUCCESS, g, rest)) ∧
    (∀ g : grouped_t D (double × Nat), std_map.ordered g.m →
      (∀ e ∈ g.m, e.2.2 < 2 ^ 64) → g.m.length ≤ size_max →
      grouped_t.rdb_deserialize A (deserialize_grouped_pair A) (zero, 0) size_max
        (g.rdb_serialize A (serialize_grouped_pair A) ++ rest) ⟨[]⟩ =
          some (archive_result_t.SUCCESS, g, rest)) ∧
    (∀ g : grouped_t D (stream_t S D), std_map.ordered g.m → g.m.length ≤ size_max →
      grouped_t.rdb_deserialize A (deserialize_grouped_stream A) [] size_max
        (g.rdb_serialize A (serialize_grouped_stream A) ++ rest) ⟨[]⟩ =
          some (archive_result_t.SUCCESS, g, rest)) ∧
    (∀ g : grouped_t D (counted_t D), std_map.ordered g.m → g.m.length ≤ size_max →
      grouped_t.rdb_deserialize A (deserialize_grouped_datum A) none size_max
        (g.rdb_serialize A (serialize_grouped_datum A) ++ rest) ⟨[]⟩ =
          some (archive_result_t.SUCCESS, g, rest)) := by
  refine ⟨?_, ?_, ?_, ?_, ?_⟩
  · intro g hord hvalid hsize
    exact rdb_round_trip A hA ⟨serialize_grouped_uint64 A, deserialize_grouped_uint64 A⟩
      (fun n => n < 2 ^ 64) 0 (hA.2.2.1 0) size_max hmax g hord hvalid hsize rest
  · intro g hord hsize
    exact rdb_round_trip A hA ⟨serialize_grouped_double A, deserialize_grouped_double A⟩
      (fun _ => True) zero (hA.2.2.2.1 zero) size_max hmax g hord (fun _ _ => trivial)
      hsize rest
  · intro g hord hvalid hsize
    exact rdb_round_trip A hA ⟨serialize_grouped_pair A, deserialize_grouped_pair A⟩
      (fun p => p.2 < 2 ^ 64) (zero, 0)
      (fun p rest' hp => grouped_pair_round_trips A hA p (zero, 0) hp rest')
      size_max hmax g hord hvalid hsize rest
  · intro g hord hsize
    exact rdb_round_trip A hA ⟨serialize_grouped_stream A, deserialize_grouped_stream A⟩
      (fun _ => True) [] hA.2.2.2.2.1 size_max hmax g hord (fun _ _ => trivial) hsize rest
  · intro g hord hsize
    exact rdb_round_trip A hA ⟨serialize_grouped_datum A, deserialize_grouped_datum A⟩
      (fun _ => True) none
      (fun d rest' _ => grouped_datum_round_trips A hA d rest')
      size_max hmax g hord (fun _ _ => trivial) hsize rest

/-- Witness of C18: a map of reduce values with the keys 1 and 2, the value of key
2 absent, is written and read back, with the cells 9 and 9 left in the stream. -/
theorem grouped_round_trip_witness :
    @grouped_t.rdb_deserialize Nat Nat Nat (counted_t Nat)
      (inferInstanceAs (LinearOrder (WithBot Nat))) cell_archives
      (deserialize_grouped_datum cell_archives) none (2 ^ 32 - 1)
      ((⟨[(some 1, some 5), (some 2, none)]⟩ : grouped_t Nat (counted_t Nat)).rdb_serialize
        cell_archives (serialize_grouped_datum cell_archives) ++ [9, 9]) ⟨[]⟩ =
      some (archive_result_t.SUCCESS, ⟨[(some 1, some 5), (some 2, none)]⟩, [9, 9]) :=
  (@grouped_round_trip Nat Nat Nat (inferInstanceAs (LinearOrder (WithBot Nat)))
    cell_archives cell_archives_round_trip (2 ^ 32 - 1) (by decide) 0 [9, 9]).2.2.2.2
    ⟨[(some 1, some 5), (some 2, none)]⟩
    (List.pairwise_pair.mpr (WithBot.coe_lt_coe.mpr (by decide)))
    (by decide)

end ql

namespace std_map

variable {K V : Type} [LinearOrder K]

theorem find_insert_other (m : List (K × V)) (k k' : K) (v : V) (h : k' ≠ k) :
    find (insert m k v) k' = find m k' := by
  unfold insert
  split_ifs
  · rfl
  · exact find_assign_other m k k' v h

theorem find_insert_absent (m : List (K × V)) (k : K) (v : V) (h : find m k = none) :
    find (insert m k v) k = some v := by
  unfold insert
  rw [h]
  exact find_assign_same m k v

end std_map

namespace ql

section building

variable {D T : Type} [LinearOrder (counted_t D)]

/-- One entry put into a map, by `insert` or through `operator[]`. -/
theorem build_snoc (entries : List (Bool × counted_t D × T)) (e : Bool × counted_t D × T) :
    grouped_t.build (entries ++ [e]) =
      if e.1 then (grouped_t.build entries).assign e.2.1 e.2.2
      else (grouped_t.build entries).insert (e.2.1, e.2.2) := by
  unfold grouped_t.build
  rw [List.foldl_append]
  rfl

theorem ordered_build (entries : List (Bool × counted_t D × T)) :
    std_map.ordered (grouped_t.build entries).m := by
  induction entries using List.reverseRecOn with
  | nil => exact List.Pairwise.nil
  | append_singleton entries e ih =>
    rw [build_snoc]
    split_ifs
    · exact std_map.ordered_assign ih _ _
    · exact std_map.ordered_insert ih _ _

theorem find_build_other (entries : List (Bool × counted_t D × T)) (k : counted_t D)
    (h : ∀ e ∈ entries, e.2.1 ≠ k) :
    std_map.find (grouped_t.build entries).m k = none := by
  induction entries using List.reverseRecOn with
  | nil => rfl
  | append_singleton entries e ih =>
    have hk : k ≠ e.2.1 := fun hk => h e (by simp) hk.symm
    have ih' := ih (fun x hx => h x (by simp [hx]))
    rw [build_snoc]
    split_ifs
    · show std_map.find (std_map.assign _ _ _) k = none
      rw [std_map.find_assign_other _ _ _ _ hk, ih']
    · show std_map.find (std_map.insert _ _ _) k = none
      rw [std_map.find_insert_other _ _ _ _ hk, ih']

theorem find_build_mem (entries : List (Bool × counted_t D × T))
    (hnd : (entries.map (fun e => e.2.1)).Nodup) (e : Bool × counted_t D × T)
    (he : e ∈ entries) :
    std_map.find (grouped_t.build entries).m e.2.1 = some e.2.2 := by
  induction entries using List.reverseRecOn with
  | nil => cases he
  | append_singleton entries x ih =>
    rw [List.map_append, List.nodup_append] at hnd
    obtain ⟨hnd1, _, hdis⟩ := hnd
    rw [build_snoc]
    rcases List.mem_append.mp he with h1 | h1
    · have hne : e.2.1 ≠ x.2.1 := by
        intro heq
        exact hdis (List.mem_map.mpr ⟨e, h1, rfl⟩) (by simp [heq])
      split_ifs
      · show std_map.find (std_map.assign _ _ _) e.2.1 = _
        rw [std_map.find_assign_other _ _ _ _ hne]
        exact ih hnd1 h1
      · show std_map.find (std_map.insert _ _ _) e.2.1 = _
        rw [std_map.find_insert_other _ _ _ _ hne]
        exact ih hnd1 h1
    · rw [List.mem_singleton] at h1
      subst h1
      have habs : std_map.find (grouped_t.build entries).m e.2.1 = none := by
        refine find_build_other entries e.2.1 ?_
        intro y hy heq
        exact hdis (List.mem_map.mpr ⟨y, hy, heq⟩) (by simp)
      split_ifs
      · exact std_map.find_assign_same _ _ _
      · exact std_map.find_insert_absent _ _ _ habs

end building

/-- C19: `rdb_serialize` writes the number of entries and then the entries in the
order of the map, each as its key followed by its value; the keys of a map, however
it was built by `insert` and `operator[]`, are strictly ascending, so each key is
written once; hence two maps with the same value at every key serialize to the
same output, and so do two maps built from the same entries with distinct keys
put in in different orders. -/
theorem rdb_serialize_canonical {S D double T : Type} [LinearOrder (counted_t D)]
    (A : archives_t S D double) (grouped : T → List Nat) :
    (∀ g : grouped_t D T, g.rdb_serialize A grouped =
      A.varint_uint64.serialize g.m.length ++
        (g.m.map (fun it => serialize_grouped_datum A it.1 ++ grouped it.2)).flatten) ∧
    (∀ entries : List (Bool × counted_t D × T),
      (grouped_t.build entries).m.Pairwise (fun a b => a.1 < b.1) ∧
      ((grouped_t.build entries).m.map Prod.fst).Nodup) ∧
    (∀ e1 e2 : List (Bool × counted_t D × T),
      (∀ k, std_map.find (grouped_t.build e1).m k = std_map.find (grouped_t.build e2).m k) →
      (grouped_t.build e1).rdb_serialize A grouped =
        (grouped_t.build e2).rdb_serialize A grouped) ∧
    (∀ e1 e2 : List (Bool × counted_t D × T), e1.Perm e2 →
      (e1.map (fun e => e.2.1)).Nodup →
      (grouped_t.build e1).rdb_serialize A grouped =
        (grouped_t.build e2).rdb_serialize A grouped) := by
  have hext : ∀ e1 e2 : List (Bool × counted_t D × T),
      (∀ k, std_map.find (grouped_t.build e1).m k = std_map.find (grouped_t.build e2).m k) →
      (grouped_t.build e1).rdb_serialize A grouped =
        (grouped_t.build e2).rdb_serialize A grouped := by
    intro e1 e2 h
    unfold grouped_t.rdb_serialize
    rw [std_map.ordered_ext (ordered_build e1) (ordered_build e2) h]
  refine ⟨?_, ?_, hext, ?_⟩
  · intro g
    unfold grouped_t.rdb_serialize
    rw [List.flatMap_def]
  · intro entries
    exact ⟨ordered_build entries, std_map.nodup_keys_of_ordered (ordered_build entries)⟩
  · intro e1 e2 hperm hnd
    have hnd2 : (e2.map (fun e => e.2.1)).Nodup := (hperm.map _).nodup_iff.mp hnd
    refine hext e1 e2 ?_
    intro k
    by_cases hk : ∃ e ∈ e1, e.2.1 = k
    · obtain ⟨e, he, rfl⟩ := hk
      rw [find_build_mem e1 hnd e he, find_build_mem e2 hnd2 e (hperm.mem_iff.mp he)]
    · rw [find_build_other e1 k (fun e he heq => hk ⟨e, he, heq⟩),
        find_build_other e2 k (fun e he heq => hk ⟨e, hperm.mem_iff.mpr he, heq⟩)]

/-- Witness of C19: the entries of the keys 1 and 2 are put in in both orders, one by
`insert` and one through `operator[]`; the two maps serialize to the same
output. -/
theorem rdb_serialize_canonical_witness :
    (@grouped_t.build Nat Nat (inferInstanceAs (LinearOrder (WithBot Nat)))
      [(false, some 1, 5), (true, some 2, 7)]).rdb_serialize cell_archives
        (serialize_grouped_uint64 cell_archives) =
    (@grouped_t.build Nat Nat (inferInstanceAs (LinearOrder (WithBot Nat)))
      [(true, some 2, 7), (false, some 1, 5)]).rdb_serialize cell_archives
        (serialize_grouped_uint64 cell_archives) :=
  (@rdb_serialize_canonical Nat Nat Nat Nat (inferInstanceAs (LinearOrder (WithBot Nat)))
    cell_archives (serialize_grouped_uint64 cell_archives)).2.2.2
    [(false, some 1, 5), (true, some 2, 7)] [(true, some 2, 7), (false, some 1, 5)]
    (List.Perm.swap _ _ _) (by simp)

end ql

/-! ## The reference form of `get` on a `union_t` (C20) -/

namespace containers

namespace union_details

variable {C : Type} [DecidableEq C] {El : C → Type}

theorem type_index_t_range (I : Int) (T : C) (Args : List C) :
    type_index_t I T Args = -1 ∨ I ≤ type_index_t I T Args := by
  induction Args generalizing I with
  | nil => exact Or.inl rfl
  | cons First Rest ih =>
    unfold type_index_t
    split_ifs
    · exact Or.inr (le_refl I)
    · rcases ih (I + 1) with h | h
      · exact Or.inl h
      · exact Or.inr (by omega)

theorem held_mem {κ : Type} {F : κ → Type} {Args : List κ} (u : wrap_t F Args) :
    u.held.1 ∈ Args := by
  induction u with
  | first x => exact List.mem_cons_self _ _
  | rest r ih => exact List.mem_cons_of_mem _ ih

theorem type_index_t_active {Args : List C} (hdiff : Args.Nodup) (u : wrap_t El Args)
    (T : C) (I : Int) (hI : 0 ≤ I) :
    type_index_t I T Args = I + (u.active : Int) ↔ u.held.1 = T := by
  induction u generalizing I with
  | @first First Rest x =>
    unfold type_index_t
    simp only [wrap_t.active, wrap_t.held]
    split_ifs with h
    · simp [h]
    · constructor
      · intro heq
        rcases type_index_t_range (I + 1) T Rest with h1 | h1 <;> omega
      · intro heq
        exact absurd heq.symm h
  | @rest First Rest r ih =>
    rw [List.nodup_cons] at hdiff
    unfold type_index_t
    simp only [wrap_t.active, wrap_t.held]
    split_ifs with h
    · constructor
      · intro heq
        push_cast at heq
        omega
      · intro heq
        exact absurd (heq ▸ held_mem r) (h ▸ hdiff.1)
    · rw [← ih hdiff.2 (I + 1) (by omega)]
      push_cast
      constructor <;> intro h' <;> omega

theorem get_t_held {Args : List C} (hdiff : Args.Nodup) (u : wrap_t El Args) (T : C)
    (v : El T) (h : u.held = ⟨T, v⟩) : get_t T Args u = pointer_t.object v := by
  induction u with
  | @first First Rest x =>
    obtain ⟨h1, h2⟩ := Sigma.mk.inj_iff.mp h
    subst h1
    simp only [get_t, dif_pos]
    rw [eq_of_heq h2]
  | @rest First Rest r ih =>
    rw [List.nodup_cons] at hdiff
    have hne : T ≠ First := by
      intro heq
      have hm := held_mem r
      simp only [wrap_t.held] at h
      rw [h] at hm
      exact hdiff.1 (heq ▸ hm)
    simp only [get_t, if_neg hne]
    exact ih hdiff.2 h

end union_details

/-- C20: the reference form `get<T>(u)` returns the held value when the active
alternative is `T`, and fails the `guarantee` of `do_get`, returning no value,
when the active alternative is any other type. -/
theorem get_reference {C : Type} [DecidableEq C] {El : C → Type} {Args : List C}
    (hdiff : Args.Nodup) (u : union_t El Args) (hu : u.well_formed) (T : C) :
    (∀ v : El T, u.u_.held = ⟨T, v⟩ → get T u = access_t.value v) ∧
    (u.u_.held.1 ≠ T → get T u = access_t.guarantee_failed) := by
  have hidx := union_details.type_index_t_active hdiff u.u_ T 0 (le_refl 0)
  rw [Int.zero_add, ← hu] at hidx
  constructor
  · intro v hv
    have htag : u.tag_ = union_details.type_index_t 0 T Args :=
      (hidx.mpr (by rw [hv])).symm
    unfold get union_t.do_get union_t.try_get
    simp only [if_pos htag, union_details.get_t_held hdiff u.u_ T v hv, pointer_t.is_null,
      Bool.false_eq_true, if_false, pointer_t.deref]
  · intro hne
    have htag : ¬ u.tag_ = union_details.type_index_t 0 T Args :=
      fun h => hne (hidx.mp h.symm)
    unfold get union_t.do_get union_t.try_get
    simp only [if_neg htag, pointer_t.is_null, if_true]

/-- Witness of C20: a union of the alternatives 0 and 1 holds 7 as its alternative
1; `get<1>` returns 7. -/
theorem get_reference_witness :
    get 1 (⟨1, union_details.wrap_t.rest (union_details.wrap_t.first 7)⟩ :
      union_t (fun _ : Nat => Nat) [0, 1]) = access_t.value 7 :=
  (get_reference (by decide)
    (⟨1, union_details.wrap_t.rest (union_details.wrap_t.first 7)⟩ :
      union_t (fun _ : Nat => Nat) [0, 1]) rfl 1).1 7 rfl

end containers

/-! ## Constructing a `union_t` and reading it (C21, C22) -/

namespace containers

namespace union_details

variable {C : Type} [DecidableEq C] {El : C → Type}

theorem get_active {κ : Type} {F : κ → Type} {Args : List κ} (u : wrap_t F Args) :
    Args.get? u.active = some u.held.1 := by
  induction u with
  | first x => rfl
  | rest r ih => exact ih

theorem active_lt_length {κ : Type} {F : κ → Type} {Args : List κ} (u : wrap_t F Args) :
    u.active < Args.length := by
  induction u with
  | first x => exact Nat.succ_pos _
  | rest r ih => exact Nat.succ_lt_succ ih

theorem held_eta {κ : Type} {F : κ → Type} {Args : List κ} (u : wrap_t F Args) :
    u.held = ⟨u.held.1, u.held.2⟩ := rfl

theorem emplace_t_mem {Args : List C} (T : C) (x : El T) (hT : T ∈ Args) (I : Int) :
    ∃ u, emplace_t T x Args = some u ∧ u.held = ⟨T, x⟩ ∧
      type_index_t I T Args = I + (u.active : Int) := by
  induction Args generalizing I with
  | nil => cases hT
  | cons First Rest ih =>
    unfold emplace_t type_index_t
    by_cases h : T = First
    · subst h
      refine ⟨wrap_t.first x, ?_, rfl, ?_⟩
      · simp only [dif_pos]
      · simp [wrap_t.active]
    · have hT' : T ∈ Rest := by
        rcases List.mem_cons.mp hT with h1 | h1
        · exact absurd h1 h
        · exact h1
      obtain ⟨u, hu, hheld, hidx⟩ := ih hT' (I + 1)
      refine ⟨wrap_t.rest u, ?_, hheld, ?_⟩
      · simp only [dif_neg h, hu, Option.map_some']
      · simp only [if_neg h, hidx, wrap_t.active]
        push_cast
        omega

theorem emplace_t_held {Args : List C} (hdiff : Args.Nodup) (u : wrap_t El Args) (T : C)
    (x : El T) (h : u.held.1 = T) :
    ∃ w, emplace_t T x Args = some w ∧ w.held = ⟨T, x⟩ ∧ w.active = u.active := by
  obtain ⟨w, hw, hheld, hidx⟩ := emplace_t_mem T x (h ▸ held_mem u) 0
  refine ⟨w, hw, hheld, ?_⟩
  have h1 := (type_index_t_active hdiff u T 0 (le_refl 0)).mpr h
  rw [hidx] at h1
  omega

theorem emplace_t_self {Args : List C} (hdiff : Args.Nodup) (u : wrap_t El Args) (T : C)
    (v : El T) (h : u.held = ⟨T, v⟩) : emplace_t T v Args = some u := by
  induction u with
  | @first First Rest x =>
    obtain ⟨h1, h2⟩ := Sigma.mk.inj_iff.mp h
    subst h1
    simp only [emplace_t, dif_pos]
    rw [eq_of_heq h2]
  | @rest First Rest r ih =>
    rw [List.nodup_cons] at hdiff
    have hne : T ≠ First := by
      intro heq
      have hm := held_mem r
      simp only [wrap_t.held] at h
      rw [h] at hm
      exact hdiff.1 (heq ▸ hm)
    simp only [emplace_t, dif_neg hne]
    rw [ih hdiff.2 h]
    rfl

theorem type_constructible_index_t_none {κ : Type} (constructible : κ → Bool)
    (Args : List κ) (h : ∀ c ∈ Args, constructible c = false) (I : Int) :
    type_constructible_index_t constructible I Args = -1 := by
  induction Args generalizing I with
  | nil => rfl
  | cons First Rest ih =>
    unfold type_constructible_index_t
    rw [h First (List.mem_cons_self _ _)]
    simp only [Bool.false_eq_true, if_false]
    exact ih (fun c hc => h c (List.mem_cons_of_mem _ hc)) (I + 1)

theorem type_constructible_unique (constructible : C → Bool) (Args : List C)
    (hdiff : Args.Nodup) (T : C) (hT : T ∈ Args) (hc : constructible T = true)
    (hu : ∀ c ∈ Args, constructible c = true → c = T) (I : Int) :
    type_constructible_index_t constructible I Args = type_index_t I T Args ∧
    type_constructible_type_t constructible I Args = some T := by
  induction Args generalizing I with
  | nil => cases hT
  | cons First Rest ih =>
    rw [List.nodup_cons] at hdiff
    unfold type_constructible_index_t type_constructible_type_t type_index_t
    by_cases h : T = First
    · subst h
      have hnone : ∀ c ∈ Rest, constructible c = false := by
        intro c hcm
        cases hcc : constructible c with
        | false => rfl
        | true =>
          have := hu c (List.mem_cons_of_mem _ hcm) hcc
          exact absurd (this ▸ hcm) hdiff.1
      simp only [hc, if_true, type_constructible_index_t_none constructible Rest hnone]
      exact ⟨trivial, trivial⟩
    · have hF : constructible First = false := by
        cases hcc : constructible First with
        | false => rfl
        | true => exact absurd (hu First (List.mem_cons_self _ _) hcc).symm h
      have hT' : T ∈ Rest := by
        rcases List.mem_cons.mp hT with h1 | h1
        · exact absurd h1 h
        · exact h1
      simp only [hF, Bool.false_eq_true, if_false, if_neg h]
      exact ih hdiff.2 hT' (fun c hcm => hu c (List.mem_cons_of_mem _ hcm)) (I + 1)

end union_details

section reading

variable {C : Type} [DecidableEq C] {El : C → Type} {Args : List C}

theorem alternative_of_well_formed {κ : Type} {F : κ → Type} {L : List κ}
    (u : union_t F L) (hu : u.well_formed) :
    u.alternative = some u.u_.held.1 := by
  unfold union_t.alternative
  rw [hu]
  simp only [Int.natCast_nonneg, if_true, Int.toNat_ofNat]
  exact union_details.get_active u.u_

theorem try_get_of_held (hdiff : Args.Nodup) (u : union_t El Args) (hu : u.well_formed)
    (T : C) (v : El T) (hv : u.u_.held = ⟨T, v⟩) : u.try_get T = pointer_t.object v := by
  have hidx := union_details.type_index_t_active hdiff u.u_ T 0 (le_refl 0)
  rw [Int.zero_add, ← hu] at hidx
  have htag : u.tag_ = union_details.type_index_t 0 T Args :=
    (hidx.mpr (by rw [hv])).symm
  unfold union_t.try_get
  rw [if_pos htag, union_details.get_t_held hdiff u.u_ T v hv]

theorem try_get_of_other (hdiff : Args.Nodup) (u : union_t El Args) (hu : u.well_formed)
    (T : C) (hne : u.u_.held.1 ≠ T) : u.try_get T = pointer_t.nullptr := by
  have hidx := union_details.type_index_t_active hdiff u.u_ T 0 (le_refl 0)
  rw [Int.zero_add, ← hu] at hidx
  have htag : ¬ u.tag_ = union_details.type_index_t 0 T Args :=
    fun h => hne (hidx.mp h.symm)
  unfold union_t.try_get
  rw [if_neg htag]

theorem get_of_held (hdiff : Args.Nodup) (u : union_t El Args) (hu : u.well_formed)
    (T : C) (v : El T) (hv : u.u_.held = ⟨T, v⟩) : get T u = access_t.value v := by
  unfold get union_t.do_get
  simp only [try_get_of_held hdiff u hu T v hv, pointer_t.is_null, Bool.false_eq_true,
    if_false, pointer_t.deref]

end reading

/-- C21: for a value `x` from which exactly one alternative `T` of the union can be
constructed, the constructor `union_t(x)` exists, the object it builds has its tag
equal to the position of `T` in the type list, it holds the value constructed
from `x` as its alternative `T`, and `get<T>` on it returns that value. -/
theorem construct_unique_alternative {C : Type} [DecidableEq C] {El : C → Type}
    {Args : List C} {X : Type} (hdiff : Args.Nodup) (constructible : C → Bool)
    (convert : (R : C) → X → El R) (x : X) (T : C) (hT : T ∈ Args)
    (hc : constructible T = true)
    (hu : ∀ c ∈ Args, constructible c = true → c = T) :
    ∃ u : union_t El Args, union_t.construct constructible convert x = some u ∧
      u.tag_ = union_details.type_index_t 0 T Args ∧
      u.alternative = some T ∧
      u.u_.held = ⟨T, convert T x⟩ ∧
      u.well_formed ∧
      get T u = access_t.value (convert T x) := by
  obtain ⟨hidx, htype⟩ :=
    union_details.type_constructible_unique constructible Args hdiff T hT hc hu 0
  obtain ⟨w, hw, hheld, hact⟩ := union_details.emplace_t_mem T (convert T x) hT 0
  have hwf : (⟨union_details.type_index_t 0 T Args, w⟩ : union_t El Args).well_formed := by
    unfold union_t.well_formed
    simp only [hact, Int.zero_add]
  have hnonneg : 0 ≤ union_details.type_constructible_index_t constructible 0 Args := by
    rw [hidx, hact]
    omega
  refine ⟨⟨union_details.type_index_t 0 T Args, w⟩, ?_, rfl, ?_, hheld, hwf, ?_⟩
  · unfold union_t.construct
    rw [if_pos hnonneg]
    simp only [htype, hw, Option.map_some', hidx]
  · rw [alternative_of_well_formed _ hwf]
    simp only [hheld]
  · exact get_of_held hdiff _ hwf T (convert T x) hheld

/-- Witness of C21: of the alternatives 0, 1 and 2 only alternative 1 can be
constructed from the value; the union built from 7 has tag 1. -/
theorem construct_unique_alternative_witness :
    ∃ u : union_t (fun _ : Nat => Nat) [0, 1, 2],
      union_t.construct (fun c => decide (c = 1)) (fun _ (x : Nat) => x) 7 = some u ∧
      u.tag_ = union_details.type_index_t 0 1 [0, 1, 2] ∧
      u.alternative = some 1 ∧
      u.u_.held = ⟨1, 7⟩ ∧
      u.well_formed ∧
      get 1 u = access_t.value 7 :=
  construct_unique_alternative (by decide) (fun c => decide (c = 1)) (fun _ (x : Nat) => x) 7 1
    (by decide) (by decide) (by decide)

/-- C22: the pointer form `get<T>(&u)` returns a null pointer when the active
alternative is not `T` and a pointer to the held value when it is `T`; it has no
`guarantee` to fail and never points to storage without an object. -/
theorem get_pointer_null_or_held {C : Type} [DecidableEq C] {El : C → Type}
    {Args : List C} (hdiff : Args.Nodup) (u : union_t El Args) (hu : u.well_formed) (T : C) :
    (∀ v : El T, u.u_.held = ⟨T, v⟩ → get_pointer T u = pointer_t.object v) ∧
    (u.u_.held.1 ≠ T → get_pointer T u = pointer_t.nullptr) ∧
    get_pointer T u ≠ pointer_t.storage := by
  refine ⟨fun v hv => try_get_of_held hdiff u hu T v hv,
    fun hne => try_get_of_other hdiff u hu T hne, ?_⟩
  by_cases h : u.u_.held.1 = T
  · subst h
    show u.try_get _ ≠ _
    rw [try_get_of_held hdiff u hu _ u.u_.held.2 rfl]
    intro hc
    cases hc
  · show u.try_get _ ≠ _
    rw [try_get_of_other hdiff u hu T h]
    intro hc
    cases hc

/-- Witness of C22: a union of the alternatives 0, 1 and 2 that holds 7 as its
alternative 2 gives a null pointer for alternative 1. -/
theorem get_pointer_null_or_held_witness :
    get_pointer 1 (⟨2, union_details.wrap_t.rest (union_details.wrap_t.rest
      (union_details.wrap_t.first 7))⟩ : union_t (fun _ : Nat => Nat) [0, 1, 2]) =
      pointer_t.nullptr :=
  (get_pointer_null_or_held (by decide)
    (⟨2, union_details.wrap_t.rest (union_details.wrap_t.rest
      (union_details.wrap_t.first 7))⟩ : union_t (fun _ : Nat => Nat) [0, 1, 2])
    rfl 1).2.1 (by decide)

end containers

/-! ## Copying, moving, default construction and visiting (C23, C24, C25, C26) -/

namespace containers

section copying

variable {C : Type} [DecidableEq C] {El : C → Type} {Args : List C}

theorem destroy_self_of_well_formed (hdiff : Args.Nodup) (u : union_t El Args)
    (hu : u.well_formed) : u.destroy_self = access_t.value () := by
  unfold union_t.destroy_self union_details.destroy
  rw [alternative_of_well_formed u hu]
  simp only [union_details.get_t_held hdiff u.u_ u.u_.held.1 u.u_.held.2 rfl]

theorem init_copy_from_of_held (hdiff : Args.Nodup)
    (copy_constructor : (T : C) → El T → El T) (tag_ : Int) (copyee : union_t El Args)
    (hu : copyee.well_formed) (T : C) (v : El T) (hv : copyee.u_.held = ⟨T, v⟩) :
    ∃ w, union_t.init_copy_from copy_constructor tag_ copyee =
        access_t.value (⟨tag_, w⟩, copyee) ∧
      w.held = ⟨T, copy_constructor T v⟩ ∧ w.active = copyee.u_.active ∧
      (copy_constructor T v = v → w = copyee.u_) := by
  have hT : copyee.u_.held.1 = T := by rw [hv]
  subst hT
  obtain ⟨w, hw, hheld, hact⟩ :=
    union_details.emplace_t_held hdiff copyee.u_ _ (copy_constructor _ v) rfl
  refine ⟨w, ?_, hheld, hact, ?_⟩
  · unfold union_t.init_copy_from union_details.copy
    rw [alternative_of_well_formed copyee hu]
    simp only [union_details.get_t_held hdiff copyee.u_ _ v hv, hw, access_t.bind]
  · intro hcopy
    rw [hcopy, union_details.emplace_t_self hdiff copyee.u_ _ v hv] at hw
    exact (Option.some.inj hw).symm

theorem init_move_from_of_held (hdiff : Args.Nodup)
    (move_constructor : (T : C) → El T → El T × El T) (tag_ : Int) (movee : union_t El Args)
    (hu : movee.well_formed) (T : C) (v : El T) (hv : movee.u_.held = ⟨T, v⟩) :
    ∃ w w', union_t.init_move_from move_constructor tag_ movee =
        access_t.value (⟨tag_, w⟩, ⟨movee.tag_, w'⟩) ∧
      w.held = ⟨T, (move_constructor T v).1⟩ ∧ w.active = movee.u_.active ∧
      w'.held = ⟨T, (move_constructor T v).2⟩ ∧ w'.active = movee.u_.active ∧
      ((move_constructor T v).1 = v → w = movee.u_) := by
  have hT : movee.u_.held.1 = T := by rw [hv]
  subst hT
  obtain ⟨w, hw, hheld, hact⟩ :=
    union_details.emplace_t_held hdiff movee.u_ _ (move_constructor _ v).1 rfl
  obtain ⟨w', hw', hheld', hact'⟩ :=
    union_details.emplace_t_held hdiff movee.u_ _ (move_constructor _ v).2 rfl
  refine ⟨w, w', ?_, hheld, hact, hheld', hact', ?_⟩
  · unfold union_t.init_move_from union_details.move
    rw [alternative_of_well_formed movee hu]
    simp only [union_details.get_t_held hdiff movee.u_ _ v hv, hw, hw', access_t.bind]
  · intro hmove
    rw [hmove, union_details.emplace_t_self hdiff movee.u_ _ v hv] at hw
    exact (Option.some.inj hw).symm

end copying

/-- C23: copy construction and copy assignment give the destination the tag of the
source and, as its object of the same alternative, the copy of the source's
object, whatever alternative the destination held before; the destination is
equal to the source when the copy constructor of the alternative gives an equal
object; the source is left as it was; and self-assignment changes nothing. -/
theorem copy_gives_source {C : Type} [DecidableEq C] {El : C → Type} {Args : List C}
    (hdiff : Args.Nodup) (copy_constructor : (T : C) → El T → El T)
    (source : union_t El Args) (hs : source.well_formed) (T : C) (v : El T)
    (hv : source.u_.held = ⟨T, v⟩) :
    (∃ d, union_t.construct_copy copy_constructor source = access_t.value (d, source) ∧
      d.tag_ = source.tag_ ∧ d.u_.held = ⟨T, copy_constructor T v⟩ ∧ d.well_formed ∧
      (copy_constructor T v = v → d = source)) ∧
    (∀ dest : union_t El Args, dest.well_formed →
      ∃ d, union_t.assign_copy copy_constructor dest (reference_t.to_other source) =
          access_t.value (d, source) ∧
        d.tag_ = source.tag_ ∧ d.u_.held = ⟨T, copy_constructor T v⟩ ∧ d.well_formed ∧
        (copy_constructor T v = v → d = source)) ∧
    union_t.assign_copy copy_constructor source reference_t.to_this =
      access_t.value (source, source) := by
  obtain ⟨w, hw, hheld, hact, hsame⟩ :=
    init_copy_from_of_held hdiff copy_constructor source.tag_ source hs T v hv
  have hwf : (⟨source.tag_, w⟩ : union_t El Args).well_formed := by
    unfold union_t.well_formed
    simp only [hact]
    exact hs
  have hsame' : copy_constructor T v = v → (⟨source.tag_, w⟩ : union_t El Args) = source := by
    intro h
    rw [hsame h]
  refine ⟨⟨⟨source.tag_, w⟩, hw, rfl, hheld, hwf, hsame'⟩, ?_, rfl⟩
  intro dest hd
  refine ⟨⟨source.tag_, w⟩, ?_, rfl, hheld, hwf, hsame'⟩
  unfold union_t.assign_copy
  simp only [destroy_self_of_well_formed hdiff dest hd, access_t.bind, hw]

/-- Witness of C23: the alternatives are a string (`true`) and a counted pointer
(`false`); the destination holds a pointer and the source the string "hey"; after
the copy assignment the destination is equal to the source. -/
theorem copy_gives_source_witness :
    ∃ d, union_t.assign_copy (fun _ x => x)
        (⟨1, union_details.wrap_t.rest (union_details.wrap_t.first (some 3))⟩ :
          union_t (fun b : Bool => match b with | true => String | false => Option Nat)
            [true, false])
        (reference_t.to_other ⟨0, union_details.wrap_t.first "hey"⟩) =
          access_t.value (d, ⟨0, union_details.wrap_t.first "hey"⟩) ∧
      d.tag_ = 0 ∧ d.u_.held = ⟨true, "hey"⟩ ∧ d.well_formed ∧
      ("hey" = "hey" → d = ⟨0, union_details.wrap_t.first "hey"⟩) :=
  (copy_gives_source (by decide) (fun _ x => x)
    (⟨0, union_details.wrap_t.first "hey"⟩ :
      union_t (fun b : Bool => match b with | true => String | false => Option Nat)
        [true, false]) rfl true "hey" rfl).2.1
    ⟨1, union_details.wrap_t.rest (union_details.wrap_t.first (some 3))⟩ rfl

/-- C24: move construction and move assignment give the destination the tag of the
source and, as its object of the same alternative, the object the move
constructor builds from the source's object (the destination is what the source
was when that object is equal to the source's); the source keeps its tag and is
left holding the moved-from object of the same alternative. -/
theorem move_gives_source {C : Type} [DecidableEq C] {El : C → Type} {Args : List C}
    (hdiff : Args.Nodup) (move_constructor : (T : C) → El T → El T × El T)
    (source : union_t El Args) (hs : source.well_formed) (T : C) (v : El T)
    (hv : source.u_.held = ⟨T, v⟩) :
    (∃ d s, union_t.construct_move move_constructor source = access_t.value (d, s) ∧
      d.tag_ = source.tag_ ∧ d.u_.held = ⟨T, (move_constructor T v).1⟩ ∧ d.well_formed ∧
      ((move_constructor T v).1 = v → d = source) ∧
      s.tag_ = source.tag_ ∧ s.u_.held = ⟨T, (move_constructor T v).2⟩ ∧ s.well_formed) ∧
    (∀ dest : union_t El Args, dest.well_formed →
      ∃ d s, union_t.assign_move move_constructor dest (reference_t.to_other source) =
          access_t.value (d, s) ∧
        d.tag_ = source.tag_ ∧ d.u_.held = ⟨T, (move_constructor T v).1⟩ ∧ d.well_formed ∧
        ((move_constructor T v).1 = v → d = source) ∧
        s.tag_ = source.tag_ ∧ s.u_.held = ⟨T, (move_constructor T v).2⟩ ∧
        s.well_formed) := by
  obtain ⟨w, w', hw, hheld, hact, hheld', hact', hsame⟩ :=
    init_move_from_of_held hdiff move_constructor source.tag_ source hs T v hv
  have hwf : (⟨source.tag_, w⟩ : union_t El Args).well_formed := by
    unfold union_t.well_formed
    simp only [hact]
    exact hs
  have hwf' : (⟨source.tag_, w'⟩ : union_t El Args).well_formed := by
    unfold union_t.well_formed
    simp only [hact']
    exact hs
  have hsame' : (move_constructor T v).1 = v →
      (⟨source.tag_, w⟩ : union_t El Args) = source := by
    intro h
    rw [hsame h]
  refine ⟨⟨⟨source.tag_, w⟩, ⟨source.tag_, w'⟩, hw, rfl, hheld, hwf, hsame', rfl, hheld',
    hwf'⟩, ?_⟩
  intro dest hd
  refine ⟨⟨source.tag_, w⟩, ⟨source.tag_, w'⟩, ?_, rfl, hheld, hwf, hsame', rfl, hheld',
    hwf'⟩
  unfold union_t.assign_move
  simp only [destroy_self_of_well_formed hdiff dest hd, access_t.bind, hw]

/-- Witness of C24: the alternatives are a string (`true`) and a counted pointer
(`false`); a moved-from string is empty and a moved-from pointer is null; after the
move construction from a union that holds "hello" the source holds the empty
string. -/
theorem move_gives_source_witness :
    ∃ d s, union_t.construct_move
        (fun b => match b with
          | true => fun (x : String) => (x, "")
          | false => fun (p : Option Nat) => (p, none))
        (⟨0, union_details.wrap_t.first "hello"⟩ :
          union_t (fun b : Bool => match b with | true => String | false => Option Nat)
            [true, false]) = access_t.value (d, s) ∧
      d.tag_ = 0 ∧ d.u_.held = ⟨true, "hello"⟩ ∧ d.well_formed ∧
      ("hello" = "hello" → d = ⟨0, union_details.wrap_t.first "hello"⟩) ∧
      s.tag_ = 0 ∧ s.u_.held = ⟨true, ""⟩ ∧ s.well_formed :=
  (move_gives_source (by decide)
    (fun b => match b with
      | true => fun (x : String) => (x, "")
      | false => fun (p : Option Nat) => (p, none))
    (⟨0, union_details.wrap_t.first "hello"⟩ :
      union_t (fun b : Bool => match b with | true => String | false => Option Nat)
        [true, false]) rfl true "hello" rfl).1

/-- C25: a default-constructed `union_t` has tag 0 and holds the default-constructed
object of its first alternative; `get` of the first alternative returns it. -/
theorem construct_default_first {C : Type} [DecidableEq C] {El : C → Type} {First : C}
    {Rest : List C} (hdiff : (First :: Rest).Nodup) (default_constructor : (T : C) → El T) :
    (union_t.construct_default default_constructor : union_t El (First :: Rest)).tag_ = 0 ∧
    (union_t.construct_default default_constructor : union_t El (First :: Rest)).u_.held =
      ⟨First, default_constructor First⟩ ∧
    (union_t.construct_default default_constructor :
      union_t El (First :: Rest)).alternative = some First ∧
    (union_t.construct_default default_constructor :
      union_t El (First :: Rest)).well_formed ∧
    get First (union_t.construct_default default_constructor : union_t El (First :: Rest)) =
      access_t.value (default_constructor First) :=
  ⟨rfl, rfl, rfl, rfl,
    get_of_held hdiff (union_t.construct_default default_constructor)
      (show ((0 : Int) = ((0 : Nat) : Int)) from rfl) First (default_constructor First) rfl⟩

/-- Witness of C25: the alternatives are a counted pointer (`false`) and a string
(`true`); the default-constructed union holds a null pointer. -/
theorem construct_default_first_witness :
    get false (union_t.construct_default
        ((fun b => match b with | true => "" | false => none) :
          (b : Bool) → (match b with | true => String | false => Option Nat)) :
      union_t (fun b : Bool => match b with | true => String | false => Option Nat)
        [false, true]) = access_t.value none :=
  (construct_default_first (by decide)
    ((fun b => match b with | true => "" | false => none) :
      (b : Bool) → (match b with | true => String | false => Option Nat))).2.2.2.2

/-- C26: `visit` calls the visitor once, on the member of the active alternative, the
overload being the one the tag selects: the result is the visitor's state after
that one call, the object holds what the visitor left in the member, with the same
tag; a visitor that records its calls has recorded the active member and nothing
else; the const `visit` calls the visitor once on the same member and leaves the
object as it is. -/
theorem visit_active_member {C : Type} [DecidableEq C] {El : C → Type} {Args : List C}
    (hdiff : Args.Nodup) (u : union_t El Args) (hu : u.well_formed) (T : C) (v : El T)
    (hv : u.u_.held = ⟨T, v⟩) :
    (∀ (σ : Type) (visitor : (T : C) → El T → σ → El T × σ) (s : σ),
      ∃ w, union_t.visit visitor u s = access_t.value (w, (visitor T v s).2) ∧
        w.tag_ = u.tag_ ∧ w.u_.held = ⟨T, (visitor T v s).1⟩ ∧ w.well_formed) ∧
    union_t.visit (fun R x (calls : List ((R : C) × El R)) => (x, calls ++ [⟨R, x⟩])) u [] =
      access_t.value (u, [⟨T, v⟩]) ∧
    (∀ (σ : Type) (visitor : (T : C) → El T → σ → σ) (s : σ),
      union_t.visit_const visitor u s = access_t.value (visitor T v s)) := by
  have hT : u.u_.held.1 = T := by rw [hv]
  subst hT
  have hvisit : ∀ (σ : Type) (visitor : (T : C) → El T → σ → El T × σ) (s : σ),
      ∃ w, union_t.visit visitor u s = access_t.value (⟨u.tag_, w⟩, (visitor _ v s).2) ∧
        w.held = ⟨_, (visitor _ v s).1⟩ ∧ w.active = u.u_.active ∧
        ((visitor _ v s).1 = v → w = u.u_) := by
    intro σ visitor s
    obtain ⟨w, hw, hheld, hact⟩ :=
      union_details.emplace_t_held hdiff u.u_ _ (visitor _ v s).1 rfl
    refine ⟨w, ?_, hheld, hact, ?_⟩
    · unfold union_t.visit union_details.visit
      rw [alternative_of_well_formed u hu]
      simp only [union_details.get_t_held hdiff u.u_ _ v hv, hw, access_t.bind]
    · intro hsame
      rw [hsame, union_details.emplace_t_self hdiff u.u_ _ v hv] at hw
      exact (Option.some.inj hw).symm
  refine ⟨?_, ?_, ?_⟩
  · intro σ visitor s
    obtain ⟨w, hw, hheld, hact, _⟩ := hvisit σ visitor s
    refine ⟨⟨u.tag_, w⟩, hw, rfl, hheld, ?_⟩
    unfold union_t.well_formed
    simp only [hact]
    exact hu
  · obtain ⟨w, hw, _, _, hsame⟩ := hvisit (List ((R : C) × El R))
      (fun R x calls => (x, calls ++ [⟨R, x⟩])) []
    rw [hw, hsame rfl]
    rfl
  · intro σ visitor s
    unfold union_t.visit_const union_details.visit_const
    rw [alternative_of_well_formed u hu]
    simp only [union_details.get_t_held hdiff u.u_ _ v hv]

/-- Witness of C26: the alternatives are a number (`true`) and a string (`false`); the
union holds 2; the visitor adds one to a number and counts its calls; after the
visit the union holds 3 and one call was counted. -/
theorem visit_active_member_witness :
    ∃ w, union_t.visit
        (fun b => match b with
          | true => fun (d : Nat) (n : Nat) => (d + 1, n + 1)
          | false => fun (x : String) (n : Nat) => (x, n + 1))
        (⟨0, union_details.wrap_t.first 2⟩ :
          union_t (fun b : Bool => match b with | true => Nat | false => String)
            [true, false]) 0 = access_t.value (w, 1) ∧
      w.tag_ = 0 ∧ w.u_.held = ⟨true, 3⟩ ∧ w.well_formed :=
  (visit_active_member (by decide)
    (⟨0, union_details.wrap_t.first 2⟩ :
      union_t (fun b : Bool => match b with | true => Nat | false => String)
        [true, false]) rfl true 2 rfl).1 Nat
    (fun b => match b with
      | true => fun (d : Nat) (n : Nat) => (d + 1, n + 1)
      | false => fun (x : String) (n : Nat) => (x, n + 1)) 0

end containers

/-! ## Merging per-shard results (C27) -/

namespace ql

section merging

variable {D Row T : Type} [LinearOrder (counted_t D)]

theorem find_consume (t : terminal_t Row T) (group : Row → counted_t D)
    (acc : grouped_t D T) (row : Row) (k : counted_t D) :
    std_map.find (accumulator_t.consume t group acc row).m k =
      if group row = k then t.added (std_map.find acc.m k) [t.of_row row]
      else std_map.find acc.m k := by
  unfold accumulator_t.consume grouped_t.assign
  split_ifs with h
  · subst h
    rw [std_map.find_assign_same]
    rfl
  · exact std_map.find_assign_other _ _ _ _ (Ne.symm h)

theorem added_append (t : terminal_t Row T) (o : Option T) (l1 l2 : List T) :
    t.added o (l1 ++ l2) = t.added (t.added o l1) l2 := by
  unfold terminal_t.added
  rw [List.foldl_append]

theorem find_foldl_consume (t : terminal_t Row T) (group : Row → counted_t D)
    (rows : List Row) (acc : grouped_t D T) (k : counted_t D) :
    std_map.find (rows.foldl (accumulator_t.consume t group) acc).m k =
      t.added (std_map.find acc.m k)
        ((rows.filter (fun row => decide (group row = k))).map t.of_row) := by
  induction rows generalizing acc with
  | nil => rfl
  | cons row rows ih =>
    rw [List.foldl_cons, ih, find_consume, List.filter_cons]
    by_cases h : group row = k
    · simp only [h, decide_True, if_true, List.map_cons]
      rfl
    · simp only [h, decide_False, if_false, Bool.false_eq_true]

theorem ordered_foldl_consume (t : terminal_t Row T) (group : Row → counted_t D)
    (rows : List Row) (acc : grouped_t D T) (h : std_map.ordered acc.m) :
    std_map.ordered (rows.foldl (accumulator_t.consume t group) acc).m := by
  induction rows generalizing acc with
  | nil => exact h
  | cons row rows ih => exact ih _ (std_map.ordered_assign h _ _)

theorem find_unshard_impl_entries (t : terminal_t Row T) (l : List (counted_t D × T))
    (hl : std_map.ordered l) (acc : grouped_t D T) (k : counted_t D) :
    std_map.find
      (l.foldl (fun acc kv =>
        acc.assign kv.1 (t.add ((std_map.find acc.m kv.1).getD t.zero) kv.2)) acc).m k =
      match std_map.find l k with
      | none => std_map.find acc.m k
      | some x => t.added (std_map.find acc.m k) [x] := by
  induction l generalizing acc with
  | nil => rfl
  | cons e l ih =>
    obtain ⟨k0, x0⟩ := e
    unfold std_map.ordered at hl
    rw [List.pairwise_cons] at hl
    rw [List.foldl_cons, ih hl.2]
    by_cases h : k0 = k
    · subst h
      have hnone : std_map.find l k0 = none :=
        match hfind : std_map.find l k0 with
        | none => rfl
        | some y => absurd (hl.1 _ (std_map.mem_of_find hfind)) (lt_irrefl _)
      simp only [hnone, std_map.find, if_true]
      show std_map.find (std_map.assign _ _ _) k0 = _
      rw [std_map.find_assign_same]
      rfl
    · simp only [std_map.find, if_neg h]
      have hother : std_map.find (grouped_t.assign acc k0
          (t.add ((std_map.find acc.m k0).getD t.zero) x0)).m k = std_map.find acc.m k :=
        std_map.find_assign_other _ _ _ _ (Ne.symm h)
      rw [hother]

theorem ordered_unshard_impl (t : terminal_t Row T) (acc result : grouped_t D T)
    (h : std_map.ordered acc.m) :
    std_map.ordered (accumulator_t.unshard_impl t acc result).m := by
  unfold accumulator_t.unshard_impl
  generalize result.m = l
  induction l generalizing acc with
  | nil => exact h
  | cons e l ih => exact ih _ (std_map.ordered_assign h _ _)

theorem ordered_foldl_unshard_impl (t : terminal_t Row T) (results : List (grouped_t D T))
    (acc : grouped_t D T) (h : std_map.ordered acc.m) :
    std_map.ordered (results.foldl (accumulator_t.unshard_impl t) acc).m := by
  induction results generalizing acc with
  | nil => exact h
  | cons r results ih => exact ih _ (ordered_unshard_impl t acc r h)

end merging

section sums

variable {Row T : Type}

/-- Adding contributions one by one, or adding their sum at once. -/
theorem foldl_add_eq (t : terminal_t Row T)
    (hassoc : ∀ a b c, t.add (t.add a b) c = t.add a (t.add b c))
    (l : List T) (x : T) (hx : ∀ y ∈ x :: l, t.add t.zero y = y) (a : T) :
    (x :: l).foldl t.add a = t.add a ((x :: l).foldl t.add t.zero) := by
  induction l generalizing x a with
  | nil =>
    simp only [List.foldl_cons, List.foldl_nil]
    rw [hx x (List.mem_cons_self _ _)]
  | cons y l ih =>
    have hy : ∀ z ∈ y :: l, t.add t.zero z = z :=
      fun z hz => hx z (List.mem_cons_of_mem _ hz)
    rw [List.foldl_cons, ih y hy (t.add a x)]
    rw [List.foldl_cons (l := y :: l), ih y hy (t.add t.zero x), hx x (List.mem_cons_self _ _),
      hassoc]

theorem added_some_eq (t : terminal_t Row T) (l : List T) (a : T) :
    t.added (some a) l = some (l.foldl t.add a) := by
  induction l generalizing a with
  | nil => rfl
  | cons x l ih =>
    show t.added (some (t.add a x)) l = _
    rw [ih]
    rfl

theorem added_none_cons (t : terminal_t Row T) (x : T) (l : List T) :
    t.added none (x :: l) = some ((x :: l).foldl t.add t.zero) := by
  show t.added (some (t.add t.zero x)) l = _
  rw [added_some_eq]
  rfl

/-- Merging the value of a shard into the value so far gives the value of the rows
of both. -/
theorem added_merge (t : terminal_t Row T)
    (hassoc : ∀ a b c, t.add (t.add a b) c = t.add a (t.add b c))
    (pre l : List T) (hl : ∀ y ∈ l, t.add t.zero y = y) :
    (match t.added none l with
      | none => t.added none pre
      | some x => t.added (t.added none pre) [x]) = t.added none (pre ++ l) := by
  cases l with
  | nil =>
    rw [List.append_nil]
    rfl
  | cons x l =>
    rw [added_append, added_none_cons t x l]
    cases hpre : t.added none pre with
    | none =>
      rw [added_none_cons t x l]
      show some (t.add t.zero _) = _
      rw [← foldl_add_eq t hassoc l x hl t.zero]
    | some a =>
      rw [added_some_eq]
      show some (t.add a _) = _
      rw [← foldl_add_eq t hassoc l x hl a]

end sums

end ql

namespace ql

section unsharding

variable {D Row T : Type} [LinearOrder (counted_t D)]

theorem find_finish (t : terminal_t Row T) (group : Row → counted_t D) (rows : List Row)
    (k : counted_t D) :
    std_map.find (accumulator_t.finish t group rows).m k =
      t.added none ((rows.filter (fun row => decide (group row = k))).map t.of_row) := by
  unfold accumulator_t.finish
  rw [find_foldl_consume]
  rfl

theorem ordered_finish (t : terminal_t Row T) (group : Row → counted_t D) (rows : List Row) :
    std_map.ordered (accumulator_t.finish t group rows).m :=
  ordered_foldl_consume t group rows ⟨[]⟩ List.Pairwise.nil

theorem find_foldl_unshard_impl (t : terminal_t Row T) (hm : t.mergeable)
    (group : Row → counted_t D) (shards : List (List Row)) (k : counted_t D)
    (acc : grouped_t D T) (pre : List T) (hacc : std_map.find acc.m k = t.added none pre) :
    std_map.find ((shards.map (accumulator_t.finish t group)).foldl
      (accumulator_t.unshard_impl t) acc).m k =
      t.added none (pre ++
        (shards.flatten.filter (fun row => decide (group row = k))).map t.of_row) := by
  induction shards generalizing acc pre with
  | nil =>
    simp only [List.map_nil, List.foldl_nil, List.flatten_nil, List.filter_nil,
      List.append_nil]
    exact hacc
  | cons shard shards ih =>
    rw [List.map_cons, List.foldl_cons]
    have hstep : std_map.find
        (accumulator_t.unshard_impl t acc (accumulator_t.finish t group shard)).m k =
        t.added none (pre ++
          (shard.filter (fun row => decide (group row = k))).map t.of_row) := by
      unfold accumulator_t.unshard_impl
      rw [find_unshard_impl_entries t _ (ordered_finish t group shard), find_finish, hacc]
      refine added_merge t hm.1 pre _ ?_
      intro y hy
      obtain ⟨row, _, rfl⟩ := List.mem_map.mp hy
      exact hm.2.2 row
    rw [ih _ _ hstep]
    simp only [List.flatten_cons, List.filter_append, List.map_append, List.append_assoc]

theorem added_none_perm (t : terminal_t Row T) (hm : t.mergeable) {l1 l2 : List T}
    (h : l1.Perm l2) : t.added none l1 = t.added none l2 := by
  cases l1 with
  | nil =>
    rw [List.Perm.nil_eq h]
  | cons x l1 =>
    cases l2 with
    | nil => exact absurd h.symm (List.not_perm_nil_cons _ _)
    | cons y l2 =>
      rw [added_none_cons, added_none_cons]
      congr 1
      refine List.Perm.foldl_eq' h ?_ t.zero
      intro a _ b _ z
      rw [hm.1, hm.2.1 a b, ← hm.1]

/-- The result of `unshard` on the per-shard results is the result of one shard that
consumed all the rows. -/
theorem unshard_eq_finish (t : terminal_t Row T) (hm : t.mergeable)
    (group : Row → counted_t D) (rows : List Row) (shards : List (List Row))
    (hpart : shards.flatten.Perm rows) :
    accumulator_t.unshard t (shards.map (accumulator_t.finish t group)) =
      accumulator_t.finish t group rows := by
  have hfind : ∀ k, std_map.find
      (accumulator_t.unshard t (shards.map (accumulator_t.finish t group))).m k =
      std_map.find (accumulator_t.finish t group rows).m k := by
    intro k
    unfold accumulator_t.unshard
    rw [find_foldl_unshard_impl t hm group shards k ⟨[]⟩ [] rfl, find_finish, List.nil_append]
    exact added_none_perm t hm ((hpart.filter _).map _)
  have hord : std_map.ordered
      (accumulator_t.unshard t (shards.map (accumulator_t.finish t group))).m :=
    ordered_foldl_unshard_impl t _ ⟨[]⟩ List.Pairwise.nil
  have hm' := std_map.ordered_ext hord (ordered_finish t group rows) hfind
  cases hu : accumulator_t.unshard t (shards.map (accumulator_t.finish t group)) with
  | mk m1 =>
    cases hf : accumulator_t.finish t group rows with
    | mk m2 =>
      rw [hu, hf] at hm'
      exact congrArg grouped_t.mk hm'

theorem count_terminal_mergeable : (count_terminal Row).mergeable := by
  refine ⟨?_, ?_, ?_⟩
  · intro a b c
    show ((a + b) % 2 ^ 64 + c) % 2 ^ 64 = (a + (b + c) % 2 ^ 64) % 2 ^ 64
    omega
  · intro a b
    show (a + b) % 2 ^ 64 = (b + a) % 2 ^ 64
    rw [Nat.add_comm]
  · intro _
    rfl

theorem count_added (n : Nat) (a : Nat) :
    (List.replicate n 1).foldl (count_terminal Row).add a = if n = 0 then a else (a + n) % 2 ^ 64 := by
  induction n generalizing a with
  | zero => rfl
  | succ n ih =>
    rw [List.replicate_succ, List.foldl_cons, ih]
    show (if n = 0 then (a + 1) % 2 ^ 64 else ((a + 1) % 2 ^ 64 + n) % 2 ^ 64) = _
    simp only [Nat.add_one_ne_zero, if_false]
    split_ifs with h
    · subst h
      rfl
    · omega

end unsharding

end ql

namespace ql

section rounding

variable {D Row : Type} [LinearOrder (counted_t D)]

theorem double_add_exact (a b : Int) (h : (a + b).natAbs < 2 ^ 53) :
    double_add a b = a + b := by
  unfold double_add double_round
  simp only
  rw [if_pos h]

/-- Two results with ordered maps that map every key alike are equal. -/
theorem grouped_ext {T : Type} (g1 g2 : grouped_t D T) (h1 : std_map.ordered g1.m)
    (h2 : std_map.ordered g2.m) (h : ∀ k, std_map.find g1.m k = std_map.find g2.m k) :
    g1 = g2 := by
  have hm := std_map.ordered_ext h1 h2 h
  cases g1 with
  | mk m1 =>
    cases g2 with
    | mk m2 => exact congrArg grouped_t.mk hm

/-- The value of a group in the result of `unshard`, for any terminal: the values
the group has in the results of the shards, added in shard order. -/
theorem find_unshard {T : Type} (t : terminal_t Row T) (results : List (grouped_t D T))
    (hord : ∀ r ∈ results, std_map.ordered r.m) (k : counted_t D) :
    ∀ acc : grouped_t D T,
      std_map.find (results.foldl (accumulator_t.unshard_impl t) acc).m k =
        t.added (std_map.find acc.m k) (results.filterMap (fun r => std_map.find r.m k)) := by
  induction results with
  | nil =>
    intro acc
    rfl
  | cons r rs ih =>
    intro acc
    rw [List.foldl_cons, ih (fun r' hr' => hord r' (List.mem_cons_of_mem _ hr'))]
    have hstep : std_map.find (accumulator_t.unshard_impl t acc r).m k =
        match std_map.find r.m k with
        | none => std_map.find acc.m k
        | some x => t.added (std_map.find acc.m k) [x] := by
      unfold accumulator_t.unshard_impl
      exact find_unshard_impl_entries t r.m (hord r (List.mem_cons_self _ _)) acc k
    rw [hstep, List.filterMap_cons]
    cases std_map.find r.m k with
    | none => rfl
    | some x => rfl

theorem sum_filter_le {α : Type} (f : α → Nat) (p : α → Bool) (l : List α) :
    ((l.filter p).map f).sum ≤ (l.map f).sum := by
  induction l with
  | nil => exact Nat.le_refl _
  | cons x l ih =>
    rw [List.filter_cons]
    split_ifs
    · simp only [List.map_cons, List.sum_cons]
      omega
    · simp only [List.map_cons, List.sum_cons]
      omega

/-- Integers added exactly: the size of the sum is at most the sizes added. -/
theorem added_int_bound (number : Row → Int) (l : List Int) :
    ∀ o : Option Int,
      (((sum_terminal 0 (fun a b => a + b) number).added o l).getD 0).natAbs ≤
        (o.getD 0).natAbs + (l.map Int.natAbs).sum := by
  induction l with
  | nil =>
    intro o
    show (o.getD 0).natAbs ≤ _
    simp
  | cons x l ih =>
    intro o
    show (((sum_terminal 0 (fun a b => a + b) number).added (some (o.getD 0 + x)) l).getD
      0).natAbs ≤ _
    have h := ih (some (o.getD 0 + x))
    have htri : (o.getD 0 + x).natAbs ≤ (o.getD 0).natAbs + x.natAbs := Int.natAbs_add_le _ _
    simp only [List.map_cons, List.sum_cons, Option.getD_some] at h ⊢
    omega

/-- While the sizes of the numbers added stay below 2^53 together, no addition of
`double` rounds: the doubles added give the integers added. -/
theorem added_exact (number : Row → Int) (l : List Int) :
    ∀ o : Option Int, (o.getD 0).natAbs + (l.map Int.natAbs).sum < 2 ^ 53 →
      (sum_terminal 0 double_add number).added o l =
        (sum_terminal 0 (fun a b => a + b) number).added o l := by
  induction l with
  | nil =>
    intro o _
    rfl
  | cons x l ih =>
    intro o h
    have htri : (o.getD 0 + x).natAbs ≤ (o.getD 0).natAbs + x.natAbs := Int.natAbs_add_le _ _
    simp only [List.map_cons, List.sum_cons] at h
    show (sum_terminal 0 double_add number).added (some (double_add (o.getD 0) x)) l =
      (sum_terminal 0 (fun a b => a + b) number).added (some (o.getD 0 + x)) l
    rw [double_add_exact _ _ (by omega)]
    exact ih (some (o.getD 0 + x)) (by simp only [Option.getD_some]; omega)

/-- A shard whose numbers stay below 2^53 together is accumulated without
rounding. -/
theorem finish_exact (group : Row → counted_t D) (number : Row → Int) (rows : List Row)
    (h : (rows.map (fun row => (number row).natAbs)).sum < 2 ^ 53) :
    accumulator_t.finish (sum_terminal 0 double_add number) group rows =
      accumulator_t.finish (sum_terminal 0 (fun a b => a + b) number) group rows := by
  refine grouped_ext _ _ (ordered_finish _ group rows) (ordered_finish _ group rows) ?_
  intro k
  rw [find_finish, find_finish]
  refine added_exact number _ none ?_
  have hle := sum_filter_le (fun row => (number row).natAbs)
    (fun row => decide (group row = k)) rows
  show (0 : Int).natAbs + _ < _
  simp only [List.map_map, Int.natAbs_zero, Nat.zero_add]
  exact Nat.lt_of_le_of_lt hle h

/-- The sizes of the values of a group in the results of the shards stay below
the sizes of the numbers of the rows. -/
theorem shard_values_bound (group : Row → counted_t D) (number : Row → Int)
    (k : counted_t D) (shards : List (List Row)) :
    (((shards.map (accumulator_t.finish (sum_terminal 0 (fun a b => a + b) number)
        group)).filterMap (fun r => std_map.find r.m k)).map Int.natAbs).sum ≤
      (shards.flatten.map (fun row => (number row).natAbs)).sum := by
  induction shards with
  | nil => exact Nat.le_refl _
  | cons s ss ih =>
    rw [List.map_cons, List.filterMap_cons, List.flatten_cons, List.map_append,
      List.sum_append]
    have hv : ((std_map.find (accumulator_t.finish
        (sum_terminal 0 (fun a b => a + b) number) group s).m k).getD 0).natAbs ≤
        (s.map (fun row => (number row).natAbs)).sum := by
      rw [find_finish]
      have h1 := added_int_bound number
        ((s.filter (fun row => decide (group row = k))).map number) none
      have h2 := sum_filter_le (fun row => (number row).natAbs)
        (fun row => decide (group row = k)) s
      simp only [List.map_map, Option.getD_none, Int.natAbs_zero, Nat.zero_add] at h1
      exact Nat.le_trans h1 h2
    cases hf : std_map.find (accumulator_t.finish
        (sum_terminal 0 (fun a b => a + b) number) group s).m k with
    | none =>
      simp only
      omega
    | some v =>
      rw [hf] at hv
      simp only [List.map_cons, List.sum_cons, Option.getD_some] at hv ⊢
      omega

/-- Results of shards whose numbers stay below 2^53 together are merged without
rounding. -/
theorem unshard_exact (group : Row → counted_t D) (number : Row → Int)
    (shards : List (List Row))
    (h : (shards.flatten.map (fun row => (number row).natAbs)).sum < 2 ^ 53) :
    accumulator_t.unshard (sum_terminal 0 double_add number)
        (shards.map (accumulator_t.finish (sum_terminal 0 (fun a b => a + b) number) group)) =
      accumulator_t.unshard (sum_terminal 0 (fun a b => a + b) number)
        (shards.map (accumulator_t.finish (sum_terminal 0 (fun a b => a + b) number)
          group)) := by
  have hord : ∀ r ∈ shards.map
      (accumulator_t.finish (sum_terminal 0 (fun a b => a + b) number) group),
      std_map.ordered r.m := by
    intro r hr
    obtain ⟨s, _, rfl⟩ := List.mem_map.mp hr
    exact ordered_finish _ group s
  refine grouped_ext _ _ (ordered_foldl_unshard_impl _ _ ⟨[]⟩ List.Pairwise.nil)
    (ordered_foldl_unshard_impl _ _ ⟨[]⟩ List.Pairwise.nil) ?_
  intro k
  unfold accumulator_t.unshard
  rw [find_unshard _ _ hord k, find_unshard _ _ hord k]
  refine added_exact number _ _ ?_
  have hb := shard_values_bound group number k shards
  show (0 : Int).natAbs + _ < _
  simp only [Int.natAbs_zero, Nat.zero_add]
  exact Nat.lt_of_le_of_lt hb h

theorem int_sum_mergeable (number : Row → Int) :
    (sum_terminal 0 (fun a b => a + b) number).mergeable :=
  ⟨fun a b c => Int.add_assoc a b c, fun a b => Int.add_comm a b,
    fun row => Int.zero_add (number row)⟩

/-- Sum over doubles that hold integers whose sizes stay below 2^53 together:
the merged result of the shards is the result of one shard. -/
theorem double_unshard_eq_finish (group : Row → counted_t D) (number : Row → Int)
    (rows : List Row) (shards : List (List Row)) (hpart : shards.flatten.Perm rows)
    (h : (rows.map (fun row => (number row).natAbs)).sum < 2 ^ 53) :
    accumulator_t.unshard (sum_terminal 0 double_add number)
        (shards.map (accumulator_t.finish (sum_terminal 0 double_add number) group)) =
      accumulator_t.finish (sum_terminal 0 double_add number) group rows := by
  have hflat : (shards.flatten.map (fun row => (number row).natAbs)).sum < 2 ^ 53 := by
    rw [(hpart.map _).sum_eq]
    exact h
  have hshard : ∀ s ∈ shards, (s.map (fun row => (number row).natAbs)).sum < 2 ^ 53 := by
    intro s hs
    refine Nat.lt_of_le_of_lt ?_ hflat
    exact List.Sublist.sum_le_sum ((List.sublist_flatten_of_mem hs).map _)
      (fun _ _ => Nat.zero_le _)
  have hmap : shards.map (accumulator_t.finish (sum_terminal 0 double_add number) group) =
      shards.map (accumulator_t.finish (sum_terminal 0 (fun a b => a + b) number) group) :=
    List.map_congr_left (fun s hs => finish_exact group number s (hshard s hs))
  rw [hmap, unshard_exact group number shards hflat,
    unshard_eq_finish _ (int_sum_mergeable number) group rows shards hpart,
    finish_exact group number rows h]

end rounding

end ql

namespace ql

/-- C27 as stated fails for Sum: the three rows of group 1 carry the doubles 2^53,
1 and 1. One shard that consumes them adds 1 to 2^53 twice, and each sum rounds
back to 2^53. The shard of the first row and the shard of the other two rows
give 2^53 and 2, which `unshard` merges to 2^53 + 2. -/
theorem unshard_sum_rounds :
    ([[(2 ^ 53, 1)], [(1, 1), (1, 1)]] : List (List (Int × Nat))).flatten =
      [(2 ^ 53, 1), (1, 1), (1, 1)] ∧
    double_round (2 ^ 53) = 2 ^ 53 ∧ double_round 1 = 1 ∧
    @std_map.find (WithBot Nat) Int (inferInstanceAs (LinearOrder (WithBot Nat)))
      (@accumulator_t.unshard Nat (Int × Nat) Int
        (inferInstanceAs (LinearOrder (WithBot Nat)))
        (sum_terminal 0 double_add (fun row => row.1))
        ([[(2 ^ 53, 1)], [(1, 1), (1, 1)]].map
          (@accumulator_t.finish Nat (Int × Nat) Int
            (inferInstanceAs (LinearOrder (WithBot Nat)))
            (sum_terminal 0 double_add (fun row => row.1))
            (fun row => some row.2)))).m (some 1) = some (2 ^ 53 + 2) ∧
    @std_map.find (WithBot Nat) Int (inferInstanceAs (LinearOrder (WithBot Nat)))
      (@accumulator_t.finish Nat (Int × Nat) Int
        (inferInstanceAs (LinearOrder (WithBot Nat)))
        (sum_terminal 0 double_add (fun row => row.1))
        (fun row => some row.2) [(2 ^ 53, 1), (1, 1), (1, 1)]).m (some 1) =
      some (2 ^ 53) :=
  ⟨by decide, by decide, by decide, by decide, by decide⟩

/-- C27, amended: for every sequence of rows and every partition of it into
shards, accumulating Count per shard and merging the per-shard results with
`unshard` yields the result of accumulating the whole sequence in one shard: the
same groups, and for every grouping key `k` the same total, the number of rows
of group `k` (as a `uint64_t`). For Sum the same holds when no addition rounds:
over a number type whose addition is associative and commutative with zero as
its unit, and over the doubles that hold integers when the sizes of the numbers
of the rows stay below 2^53 together. -/
theorem unshard_partition {D Row : Type} [LinearOrder (counted_t D)]
    (group : Row → counted_t D) (rows : List Row) (shards : List (List Row))
    (hpart : shards.flatten.Perm rows) :
    accumulator_t.unshard (count_terminal Row)
        (shards.map (accumulator_t.finish (count_terminal Row) group)) =
      accumulator_t.finish (count_terminal Row) group rows ∧
    (∀ k, std_map.find (accumulator_t.unshard (count_terminal Row)
        (shards.map (accumulator_t.finish (count_terminal Row) group))).m k =
      if rows.countP (fun row => decide (group row = k)) = 0 then none
      else some (rows.countP (fun row => decide (group row = k)) % 2 ^ 64)) ∧
    (∀ (double : Type) (zero : double) (add : double → double → double)
        (number : Row → double), (sum_terminal zero add number).mergeable →
      accumulator_t.unshard (sum_terminal zero add number)
          (shards.map (accumulator_t.finish (sum_terminal zero add number) group)) =
        accumulator_t.finish (sum_terminal zero add number) group rows ∧
      ∀ k, std_map.find (accumulator_t.unshard (sum_terminal zero add number)
          (shards.map (accumulator_t.finish (sum_terminal zero add number) group))).m k =
        std_map.find (accumulator_t.finish (sum_terminal zero add number) group rows).m k) ∧
    (∀ number : Row → Int, (rows.map (fun row => (number row).natAbs)).sum < 2 ^ 53 →
      accumulator_t.unshard (sum_terminal 0 double_add number)
          (shards.map (accumulator_t.finish (sum_terminal 0 double_add number) group)) =
        accumulator_t.finish (sum_terminal 0 double_add number) group rows ∧
      ∀ k, std_map.find (accumulator_t.unshard (sum_terminal 0 double_add number)
          (shards.map (accumulator_t.finish (sum_terminal 0 double_add number) group))).m k =
        std_map.find (accumulator_t.finish (sum_terminal 0 double_add number) group rows).m
          k) := by
  have hcount := unshard_eq_finish (count_terminal Row) count_terminal_mergeable group rows
    shards hpart
  refine ⟨hcount, ?_, ?_, ?_⟩
  · intro k
    rw [hcount, find_finish]
    have hrep : (rows.filter (fun row => decide (group row = k))).map (count_terminal Row).of_row =
        List.replicate (rows.countP (fun row => decide (group row = k))) 1 := by
      rw [List.countP_eq_length_filter]
      exact List.eq_replicate_iff.mpr ⟨by simp, fun b hb => by
        obtain ⟨_, _, rfl⟩ := List.mem_map.mp hb
        rfl⟩
    rw [hrep]
    cases hn : rows.countP (fun row => decide (group row = k)) with
    | zero => rfl
    | succ n =>
      rw [List.replicate_succ, added_none_cons, ← List.replicate_succ, count_added]
      simp [count_terminal]
  · intro double zero add number hm
    have hsum := unshard_eq_finish (sum_terminal zero add number) hm group rows shards hpart
    exact ⟨hsum, fun k => by rw [hsum]⟩
  · intro number hbound
    have hsum := double_unshard_eq_finish group number rows shards hpart hbound
    exact ⟨hsum, fun k => by rw [hsum]⟩

/-- Witness of C27: four rows of the groups 1, 2, 1, 1 are split into the shards of
the rows 0 and 3 and of the rows 1 and 2; the merged counts, the merged sums of
the integers 5, 1, 2 and -3 the rows carry, and the merged sums of the same
numbers held as doubles, are those of one shard that consumed the four rows. -/
theorem unshard_partition_witness :
    @accumulator_t.unshard Nat (Int × Nat) Nat
      (inferInstanceAs (LinearOrder (WithBot Nat))) (count_terminal (Int × Nat))
        ([[(5, 1), (-3, 1)], [(1, 2), (2, 1)]].map
          (@accumulator_t.finish Nat (Int × Nat) Nat
            (inferInstanceAs (LinearOrder (WithBot Nat))) (count_terminal (Int × Nat))
            (fun row => some row.2))) =
      @accumulator_t.finish Nat (Int × Nat) Nat
        (inferInstanceAs (LinearOrder (WithBot Nat))) (count_terminal (Int × Nat))
        (fun row => some row.2) [(5, 1), (1, 2), (2, 1), (-3, 1)] ∧
    @accumulator_t.unshard Nat (Int × Nat) Int
      (inferInstanceAs (LinearOrder (WithBot Nat)))
        (sum_terminal 0 (fun a b => a + b) (fun row => row.1))
        ([[(5, 1), (-3, 1)], [(1, 2), (2, 1)]].map
          (@accumulator_t.finish Nat (Int × Nat) Int
            (inferInstanceAs (LinearOrder (WithBot Nat)))
            (sum_terminal 0 (fun a b => a + b) (fun row => row.1))
            (fun row => some row.2))) =
      @accumulator_t.finish Nat (Int × Nat) Int
        (inferInstanceAs (LinearOrder (WithBot Nat)))
        (sum_terminal 0 (fun a b => a + b) (fun row => row.1))
        (fun row => some row.2) [(5, 1), (1, 2), (2, 1), (-3, 1)] ∧
    @accumulator_t.unshard Nat (Int × Nat) Int
      (inferInstanceAs (LinearOrder (WithBot Nat)))
        (sum_terminal 0 double_add (fun row => row.1))
        ([[(5, 1), (-3, 1)], [(1, 2), (2, 1)]].map
          (@accumulator_t.finish Nat (Int × Nat) Int
            (inferInstanceAs (LinearOrder (WithBot Nat)))
            (sum_terminal 0 double_add (fun row => row.1))
            (fun row => some row.2))) =
      @accumulator_t.finish Nat (Int × Nat) Int
        (inferInstanceAs (LinearOrder (WithBot Nat)))
        (sum_terminal 0 double_add (fun row => row.1))
        (fun row => some row.2) [(5, 1), (1, 2), (2, 1), (-3, 1)] :=
  ⟨(@unshard_partition Nat (Int × Nat) (inferInstanceAs (LinearOrder (WithBot Nat)))
      (fun row => some row.2) [(5, 1), (1, 2), (2, 1), (-3, 1)]
      [[(5, 1), (-3, 1)], [(1, 2), (2, 1)]] (by decide)).1,
    ((@unshard_partition Nat (Int × Nat) (inferInstanceAs (LinearOrder (WithBot Nat)))
      (fun row => some row.2) [(5, 1), (1, 2), (2, 1), (-3, 1)]
      [[(5, 1), (-3, 1)], [(1, 2), (2, 1)]] (by decide)).2.2.1 Int 0 (fun a b => a + b)
      (fun row => row.1)
      ⟨fun a b c => Int.add_assoc a b c, fun a b => Int.add_comm a b,
        fun row => Int.zero_add row.1⟩).1,
    ((@unshard_partition Nat (Int × Nat) (inferInstanceAs (LinearOrder (WithBot Nat)))
      (fun row => some row.2) [(5, 1), (1, 2), (2, 1), (-3, 1)]
      [[(5, 1), (-3, 1)], [(1, 2), (2, 1)]] (by decide)).2.2.2 (fun row => row.1)
      (by decide)).1⟩

end ql

/-! ## The tracker of the best row (C28) -/

namespace ql

/-- C28: `swap_if_other_better` replaces the tracker's row and value with those of
the other tracker if the other's value beats the current one under the
comparator, and only then; when neither value beats the other the tracker is
kept; and of trackers merged in the order seen the first is kept when none of
the later ones beats it. -/
theorem swap_only_if_better {D : Type} (self other : optimizer_t D)
    (beats : counted_t D → counted_t D → Bool) :
    (beats other.val self.val = true →
      self.swap_if_other_better other beats = (other, self)) ∧
    (beats other.val self.val = false →
      self.swap_if_other_better other beats = (self, other)) ∧
    ((self.swap_if_other_better other beats).1 ≠ self →
      beats other.val self.val = true ∧ (self.swap_if_other_better other beats).1 = other) ∧
    (beats other.val self.val = false → beats self.val other.val = false →
      (self.swap_if_other_better other beats).1 = self) ∧
    (∀ others : List (optimizer_t D),
      (∀ o ∈ others, beats o.val self.val = false) →
      optimizer_t.merge beats self others = self) := by
  refine ⟨?_, ?_, ?_, ?_, ?_⟩
  · intro h
    unfold optimizer_t.swap_if_other_better
    rw [if_pos h]
  · intro h
    unfold optimizer_t.swap_if_other_better
    rw [h]
    rfl
  · intro h
    unfold optimizer_t.swap_if_other_better at h ⊢
    cases hb : beats other.val self.val with
    | true => exact ⟨rfl, by simp⟩
    | false =>
      rw [hb] at h
      exact absurd rfl h
  · intro h _
    unfold optimizer_t.swap_if_other_better
    rw [h]
    rfl
  · intro others
    induction others with
    | nil => intro _; rfl
    | cons o others ih =>
      intro h
      unfold optimizer_t.merge at ih ⊢
      rw [List.foldl_cons]
      unfold optimizer_t.swap_if_other_better
      rw [h o (List.mem_cons_self _ _)]
      exact ih (fun o' ho' => h o' (List.mem_cons_of_mem _ ho'))

/-- Witness of C28: the comparator is "smaller number wins"; a tracker with the
value 3 meets one with the equal value 3 and is kept. -/
theorem swap_only_if_better_witness :
    ((⟨some 10, some 3⟩ : optimizer_t Nat).swap_if_other_better ⟨some 20, some 3⟩
      (fun a b => decide (a.getD 0 < b.getD 0))).1 = ⟨some 10, some 3⟩ :=
  (swap_only_if_better (⟨some 10, some 3⟩ : optimizer_t Nat) ⟨some 20, some 3⟩
    (fun a b => decide (a.getD 0 < b.getD 0))).2.2.2.1 (by decide) (by decide)

end ql

/-! ## Duplicate global optargs (C29) -/

namespace ql

section optarg_lemmas

variable {Term wire_func_t ε : Type}

theorem isSome_find_insert (m : List (String × wire_func_t)) (k k' : String)
    (f : wire_func_t) (h : (std_map.find m k).isSome = false) :
    (std_map.find (std_map.insert m k f) k').isSome = true ↔
      (k' = k ∨ (std_map.find m k').isSome = true) := by
  by_cases hk : k' = k
  · subst hk
    have hnone : std_map.find m k' = none := by
      cases hf : std_map.find m k' with
      | none => rfl
      | some x => rw [hf] at h; cases h
    rw [std_map.find_insert_absent m k' f hnone]
    simp
  · rw [std_map.find_insert_other m k k' f hk]
    simp [hk]

end optarg_lemmas

end ql

namespace ql

end ql

/-! ## The JSON text of a response (C30) -/

namespace json_shim

theorem intercalate_go_eq (sep : String) (l : List String) (acc : String) :
    String.intercalate.go acc sep l = l.foldl (fun acc x => acc ++ sep ++ x) acc := by
  induction l generalizing acc with
  | nil => rfl
  | cons a l ih =>
    show String.intercalate.go (acc ++ sep ++ a) sep l = _
    rw [ih]
    rfl

theorem foldl_append_left (sep : String) (l : List String) (s acc : String) :
    l.foldl (fun acc x => acc ++ sep ++ x) (s ++ acc) =
      s ++ l.foldl (fun acc x => acc ++ sep ++ x) acc := by
  induction l generalizing acc with
  | nil => rfl
  | cons a l ih =>
    rw [List.foldl_cons, List.foldl_cons, String.append_assoc, String.append_assoc, ih,
      String.append_assoc]

theorem write_response_rest (P : cJSON → String) (l : List Datum)
    (hl : ∀ d ∈ l, d.type = DatumType.R_JSON ∨ d.type = DatumType.R_STR) (i : Nat)
    (s : String) :
    write_response P l (i + 1) s =
      some ((l.map (datum_text P)).foldl (fun acc x => acc ++ "," ++ x) s) := by
  induction l generalizing i s with
  | nil => rfl
  | cons d l ih =>
    have hl' : ∀ d' ∈ l, d'.type = DatumType.R_JSON ∨ d'.type = DatumType.R_STR :=
      fun d' h => hl d' (List.mem_cons_of_mem _ h)
    unfold write_response
    simp only [Nat.add_one_ne_zero, if_false, List.map_cons, List.foldl_cons]
    rcases hl d (List.mem_cons_self _ _) with h | h
    · rw [if_pos h, ih hl']
      simp only [datum_text, if_pos h]
    · have hne : d.type ≠ DatumType.R_JSON := by
        rw [h]
        intro hc
        cases hc
      rw [if_neg hne, if_pos h, ih hl']
      simp only [datum_text, if_neg hne]

theorem write_response_all (P : cJSON → String) (l : List Datum)
    (hl : ∀ d ∈ l, d.type = DatumType.R_JSON ∨ d.type = DatumType.R_STR) (s : String) :
    write_response P l 0 s = some (s ++ String.intercalate "," (l.map (datum_text P))) := by
  cases l with
  | nil =>
    show some s = some (s ++ "")
    rw [String.append_empty]
  | cons d l =>
    have hl' : ∀ d' ∈ l, d'.type = DatumType.R_JSON ∨ d'.type = DatumType.R_STR :=
      fun d' h => hl d' (List.mem_cons_of_mem _ h)
    have hfirst : write_response P (d :: l) 0 s =
        write_response P l 1 (s ++ datum_text P d) := by
      rcases hl d (List.mem_cons_self _ _) with h | h
      · simp only [write_response, if_true, String.append_empty, if_pos h, datum_text]
      · have hne : d.type ≠ DatumType.R_JSON := by
          rw [h]
          intro hc
          cases hc
        simp only [write_response, if_true, String.append_empty, if_neg hne, if_pos h,
          datum_text]
    rw [hfirst, write_response_rest P l hl' 0, foldl_append_left]
    show _ = some (s ++ String.intercalate.go (datum_text P d) "," (l.map (datum_text P)))
    rw [intercalate_go_eq]

/-- C30, as stated, fails: the one datum of the response is of type R_JSON, and the
profile of the response is present and of type R_STR; `write_json_pb` fails the
`guarantee` of line 279 and returns no token. -/
theorem write_json_pb_profile_not_json :
    (∀ d ∈ [(⟨DatumType.R_JSON, "1"⟩ : Datum)],
      d.type = DatumType.R_JSON ∨ d.type = DatumType.R_STR) ∧
    write_json_pb (fun _ => "\"\"")
      ⟨1, 5, [⟨DatumType.R_JSON, "1"⟩], none, some ⟨DatumType.R_STR, "p"⟩⟩ "" = none :=
  ⟨by decide, by decide⟩

/-- C30, amended: for a response whose data are of type R_JSON or R_STR and whose
profile, if present, is of type R_JSON, `write_json_pb` appends to the output
string, after what it held, the fields `t`, `k` and `r`, then `b` only if a backtrace
is present, then `p` only if a profile is present; the array `r` holds the data in
response order separated by commas, the string of an R_JSON datum as it is and an
R_STR datum printed as a JSON string; and it returns the token of the response.
A present profile of another type fails a fatal `guarantee`. -/
theorem write_json_pb_text (P : cJSON → String) (r : Response) (s : String)
    (hdata : ∀ d ∈ r.response, d.type = DatumType.R_JSON ∨ d.type = DatumType.R_STR) :
    (∀ d, r.profile = some d → d.type ≠ DatumType.R_JSON → write_json_pb P r s = none) ∧
    ((∀ d, r.profile = some d → d.type = DatumType.R_JSON) →
      write_json_pb P r s = some (r.token,
        s ++ ("\x7b\"t\":" ++ toString r.type ++ ",\"k\":" ++ toString r.token ++ ",\"r\":[") ++
          String.intercalate "," (r.response.map (datum_text P)) ++ "]" ++
          (match r.backtrace with
            | some bt => ",\"b\":" ++ P (cJSON.Array (bt.map frame_item))
            | none => "") ++
          (match r.profile with
            | some d => ",\"p\":" ++ d.r_str
            | none => "") ++ "\x7d")) := by
  constructor
  · intro d hd hne
    unfold write_json_pb
    simp only [write_response_all P r.response hdata, hd, if_neg hne]
  · intro hprofile
    unfold write_json_pb
    simp only [write_response_all P r.response hdata]
    cases hb : r.backtrace with
    | none =>
      cases hp : r.profile with
      | none => simp only [String.append_empty]
      | some d =>
        simp only [if_pos (hprofile d hp), String.append_empty, String.append_assoc]
    | some bt =>
      cases hp : r.profile with
      | none => simp only [String.append_empty, String.append_assoc]
      | some d =>
        simp only [if_pos (hprofile d hp), String.append_assoc]

/-- Witness of C30, amended: a response of type 1 with token 5, the data `[1,2]` of
type R_JSON and `hi` of type R_STR, no backtrace and no profile. -/
theorem write_json_pb_text_witness :
    write_json_pb (fun _ => "\"hi\"")
      ⟨1, 5, [⟨DatumType.R_JSON, "[1,2]"⟩, ⟨DatumType.R_STR, "hi"⟩], none, none⟩ "x" =
    some (5, "x\x7b\"t\":1,\"k\":5,\"r\":[[1,2],\"hi\"]\x7d") :=
  ((write_json_pb_text (fun _ => "\"hi\"")
    ⟨1, 5, [⟨DatumType.R_JSON, "[1,2]"⟩, ⟨DatumType.R_STR, "hi"⟩], none, none⟩ "x"
    (by decide)).2 (fun d hd => by cases hd)).trans (by decide)

end json_shim

/-! ## The invariant of `union_t` (C31) -/

namespace containers

namespace union_details

variable {C : Type} [DecidableEq C] {El : C → Type}

theorem type_constructible_index_t_range {κ : Type} (constructible : κ → Bool) (I : Int)
    (Args : List κ) :
    type_constructible_index_t constructible I Args = -1 ∨
      type_constructible_index_t constructible I Args = -2 ∨
      I ≤ type_constructible_index_t constructible I Args := by
  induction Args generalizing I with
  | nil => exact Or.inl rfl
  | cons First Rest ih =>
    unfold type_constructible_index_t
    split_ifs
    · exact Or.inr (Or.inr (le_refl I))
    · exact Or.inr (Or.inl rfl)
    · rcases ih (I + 1) with h | h | h
      · exact Or.inl h
      · exact Or.inr (Or.inl h)
      · exact Or.inr (Or.inr (by omega))

theorem type_constructible_index_t_absent {κ : Type} (constructible : κ → Bool) (I : Int)
    (hI : 0 ≤ I) (Args : List κ) (h : type_constructible_index_t constructible I Args = -1) :
    ∀ c ∈ Args, constructible c = false := by
  induction Args generalizing I with
  | nil => intro c hc; cases hc
  | cons First Rest ih =>
    unfold type_constructible_index_t at h
    split_ifs at h with h1 h2
    · omega
    · omega
    · have hF' : constructible First = false := by simpa using h1
      intro c hc
      rcases List.mem_cons.mp hc with rfl | hc'
      · exact hF'
      · exact ih (I + 1) (by omega) h c hc'

theorem type_constructible_index_t_one {κ : Type} (constructible : κ → Bool) (I : Int)
    (hI : 0 ≤ I) (Args : List κ)
    (h : 0 ≤ type_constructible_index_t constructible I Args) :
    ∃ R ∈ Args, constructible R = true ∧ ∀ c ∈ Args, constructible c = true → c = R := by
  induction Args generalizing I with
  | nil =>
    unfold type_constructible_index_t at h
    omega
  | cons First Rest ih =>
    unfold type_constructible_index_t at h
    split_ifs at h with h1 h2
    · have hnone := type_constructible_index_t_absent constructible (I + 1) (by omega) Rest h2
      refine ⟨First, List.mem_cons_self _ _, h1, ?_⟩
      intro c hc hcc
      rcases List.mem_cons.mp hc with rfl | hc'
      · rfl
      · rw [hnone c hc'] at hcc
        cases hcc
    · omega
    · obtain ⟨R, hR, hcR, huniq⟩ := ih (I + 1) (by omega) h
      refine ⟨R, List.mem_cons_of_mem _ hR, hcR, ?_⟩
      intro c hc hcc
      rcases List.mem_cons.mp hc with rfl | hc'
      · rw [hcc] at h1
        exact absurd rfl h1
      · exact huniq c hc' hcc

end union_details

section invariant

variable {C : Type} [DecidableEq C] {El : C → Type} {Args : List C}

theorem well_formed_of_construct {X : Type} (hdiff : Args.Nodup) (constructible : C → Bool)
    (convert : (R : C) → X → El R) (x : X) (u : union_t El Args)
    (h : union_t.construct constructible convert x = some u) : u.well_formed := by
  unfold union_t.construct at h
  split_ifs at h with hnn
  obtain ⟨R, hR, hcR, huniq⟩ :=
    union_details.type_constructible_index_t_one constructible 0 (le_refl 0) Args hnn
  obtain ⟨hidx, htype⟩ :=
    union_details.type_constructible_unique constructible Args hdiff R hR hcR huniq 0
  obtain ⟨w, hw, _, hact⟩ := union_details.emplace_t_mem R (convert R x) hR 0
  rw [htype] at h
  simp only [hw, Option.map_some', Option.some.injEq] at h
  subst h
  unfold union_t.well_formed
  simp only [hidx, hact, Int.zero_add]

theorem one_active_of_well_formed (hdiff : Args.Nodup) (u : union_t El Args)
    (hu : u.well_formed) : u.one_active := by
  have hlt := union_details.active_lt_length u.u_
  have hget := union_details.get_active u.u_
  refine ⟨by rw [hu]; exact Int.natCast_nonneg _, by rw [hu]; exact_mod_cast hlt, ?_⟩
  intro T
  have htag : u.tag_.toNat = u.u_.active := by
    rw [hu]
    exact Int.toNat_ofNat _
  rw [htag, hget]
  by_cases h : u.u_.held.1 = T
  · subst h
    show (u.try_get _).is_null = false ↔ _
    rw [try_get_of_held hdiff u hu _ u.u_.held.2 rfl]
    simp [pointer_t.is_null]
  · show (u.try_get _).is_null = false ↔ _
    rw [try_get_of_other hdiff u hu T h]
    simp [pointer_t.is_null, h]

theorem well_formed_of_init_copy_from (hdiff : Args.Nodup)
    (copy_constructor : (T : C) → El T → El T) (copyee : union_t El Args)
    (hu : copyee.well_formed) (d s : union_t El Args)
    (h : union_t.init_copy_from copy_constructor copyee.tag_ copyee = access_t.value (d, s)) :
    d.well_formed ∧ s.well_formed := by
  obtain ⟨w, hw, _, hact, _⟩ := init_copy_from_of_held hdiff copy_constructor copyee.tag_
    copyee hu copyee.u_.held.1 copyee.u_.held.2 rfl
  rw [hw] at h
  simp only [access_t.value.injEq, Prod.mk.injEq] at h
  obtain ⟨h1, h2⟩ := h
  subst h1
  subst h2
  refine ⟨?_, hu⟩
  unfold union_t.well_formed
  simp only [hact]
  exact hu

theorem well_formed_of_init_move_from (hdiff : Args.Nodup)
    (move_constructor : (T : C) → El T → El T × El T) (movee : union_t El Args)
    (hu : movee.well_formed) (d s : union_t El Args)
    (h : union_t.init_move_from move_constructor movee.tag_ movee = access_t.value (d, s)) :
    d.well_formed ∧ s.well_formed := by
  obtain ⟨w, w', hw, _, hact, _, hact', _⟩ := init_move_from_of_held hdiff move_constructor
    movee.tag_ movee hu movee.u_.held.1 movee.u_.held.2 rfl
  rw [hw] at h
  simp only [access_t.value.injEq, Prod.mk.injEq] at h
  obtain ⟨h1, h2⟩ := h
  subst h1
  subst h2
  constructor
  · unfold union_t.well_formed
    simp only [hact]
    exact hu
  · unfold union_t.well_formed
    simp only [hact']
    exact hu

end invariant

/-- C31: every `union_t` that a constructor or an assignment produces, from operands
that were produced so, has a tag that is a position of the type list, and exactly
one alternative active: the pointer form of `get` is non-null for the alternative
at position `tag_` and for no other type. This holds of the default-constructed
object, of the object built from a value, of both objects after a copy or move
construction, and of both after a copy or move assignment: each of them has
its tag at the member that holds the object, which is what the operations
need of their operands. -/
theorem union_one_active {C : Type} [DecidableEq C] {El : C → Type} {First : C}
    {Rest : List C} (hdiff : (First :: Rest).Nodup) :
    (∀ default_constructor : (T : C) → El T,
      (union_t.construct_default default_constructor :
        union_t El (First :: Rest)).well_formed ∧
      (union_t.construct_default default_constructor :
        union_t El (First :: Rest)).one_active) ∧
    (∀ (X : Type) (constructible : C → Bool) (convert : (R : C) → X → El R) (x : X)
        (u : union_t El (First :: Rest)),
      union_t.construct constructible convert x = some u → u.well_formed ∧ u.one_active) ∧
    (∀ (copy_constructor : (T : C) → El T → El T) (source d s : union_t El (First :: Rest)),
      source.well_formed →
      union_t.construct_copy copy_constructor source = access_t.value (d, s) →
      (d.well_formed ∧ d.one_active) ∧ (s.well_formed ∧ s.one_active)) ∧
    (∀ (move_constructor : (T : C) → El T → El T × El T)
        (source d s : union_t El (First :: Rest)),
      source.well_formed →
      union_t.construct_move move_constructor source = access_t.value (d, s) →
      (d.well_formed ∧ d.one_active) ∧ (s.well_formed ∧ s.one_active)) ∧
    (∀ (copy_constructor : (T : C) → El T → El T) (dest source d s : union_t El (First :: Rest)),
      dest.well_formed → source.well_formed →
      union_t.assign_copy copy_constructor dest (reference_t.to_other source) =
        access_t.value (d, s) →
      (d.well_formed ∧ d.one_active) ∧ (s.well_formed ∧ s.one_active)) ∧
    (∀ (move_constructor : (T : C) → El T → El T × El T)
        (dest source d s : union_t El (First :: Rest)),
      dest.well_formed → source.well_formed →
      union_t.assign_move move_constructor dest (reference_t.to_other source) =
        access_t.value (d, s) →
      (d.well_formed ∧ d.one_active) ∧ (s.well_formed ∧ s.one_active)) ∧
    (∀ u : union_t El (First :: Rest), u.well_formed → u.one_active) := by
  have both : ∀ d s : union_t El (First :: Rest), d.well_formed ∧ s.well_formed →
      (d.well_formed ∧ d.one_active) ∧ (s.well_formed ∧ s.one_active) :=
    fun d s h => ⟨⟨h.1, one_active_of_well_formed hdiff d h.1⟩,
      ⟨h.2, one_active_of_well_formed hdiff s h.2⟩⟩
  refine ⟨?_, ?_, ?_, ?_, ?_, ?_, fun u hu => one_active_of_well_formed hdiff u hu⟩
  · intro dc
    have hwf : (union_t.construct_default dc : union_t El (First :: Rest)).well_formed :=
      show ((0 : Int) = ((0 : Nat) : Int)) from rfl
    exact ⟨hwf, one_active_of_well_formed hdiff _ hwf⟩
  · intro X constructible convert x u h
    have hwf := well_formed_of_construct hdiff constructible convert x u h
    exact ⟨hwf, one_active_of_well_formed hdiff u hwf⟩
  · intro cc source d s hs h
    exact both d s (well_formed_of_init_copy_from hdiff cc source hs d s h)
  · intro mc source d s hs h
    exact both d s (well_formed_of_init_move_from hdiff mc source hs d s h)
  · intro cc dest source d s hd hs h
    unfold union_t.assign_copy at h
    simp only [destroy_self_of_well_formed hdiff dest hd, access_t.bind] at h
    exact both d s (well_formed_of_init_copy_from hdiff cc source hs d s h)
  · intro mc dest source d s hd hs h
    unfold union_t.assign_move at h
    simp only [destroy_self_of_well_formed hdiff dest hd, access_t.bind] at h
    exact both d s (well_formed_of_init_move_from hdiff mc source hs d s h)

/-- Witness of C31: of the alternatives 0, 1 and 2 only alternative 1 can be
constructed from the value; the union built from 7 has exactly alternative 1
active. -/
theorem union_one_active_witness :
    union_t.construct (fun c => decide (c = 1)) (fun _ (x : Nat) => x) 7 =
      some (⟨1, union_details.wrap_t.rest (union_details.wrap_t.first 7)⟩ :
        union_t (fun _ : Nat => Nat) [0, 1, 2]) ∧
    (⟨1, union_details.wrap_t.rest (union_details.wrap_t.first 7)⟩ :
      union_t (fun _ : Nat => Nat) [0, 1, 2]).well_formed ∧
    (⟨1, union_details.wrap_t.rest (union_details.wrap_t.first 7)⟩ :
      union_t (fun _ : Nat => Nat) [0, 1, 2]).one_active :=
  ⟨rfl, (union_one_active (by decide)).2.1 Nat (fun c => decide (c = 1))
    (fun _ (x : Nat) => x) 7 ⟨1, union_details.wrap_t.rest (union_details.wrap_t.first 7)⟩
    (by rfl)⟩

end containers

/-! ## The period of `maybe_yield` (C32) -/

namespace ql

/-- After `n` calls on a fresh environment the counter is `n` modulo
`EVALS_BEFORE_YIELD + 1`, when the counter's type can hold
`EVALS_BEFORE_YIELD + 1`. -/
theorem after_calls_counter (E w : Nat) (h : E + 1 < 2 ^ w) (n : Nat) :
    (env_t.after_calls E w n env_t.create).evals_since_yield = n % (E + 1) := by
  induction n with
  | zero => simp [env_t.after_calls, env_t.create]
  | succ n ih =>
    have hlt : n % (E + 1) < E + 1 := Nat.mod_lt _ (Nat.succ_pos E)
    have hsmall : (n % (E + 1) + 1) % 2 ^ w = n % (E + 1) + 1 :=
      Nat.mod_eq_of_lt (by omega)
    simp only [env_t.after_calls, env_t.maybe_yield, ih, hsmall]
    by_cases hc : n % (E + 1) + 1 > E
    · rw [if_pos hc]
      have he : n % (E + 1) = E := by omega
      show 0 = (n + 1) % (E + 1)
      rw [Nat.add_mod, he]
      simp
    · rw [if_neg hc]
      show n % (E + 1) + 1 = (n + 1) % (E + 1)
      rw [Nat.add_mod n 1 (E + 1)]
      have h1 : 1 % (E + 1) = 1 := Nat.mod_eq_of_lt (by omega)
      rw [h1]
      exact (Nat.mod_eq_of_lt (by omega)).symm

/-- Call number `n + 1` on a fresh environment yields exactly when
`EVALS_BEFORE_YIELD + 1` divides `n + 1`. -/
theorem nth_call_yields_succ (E w : Nat) (h : E + 1 < 2 ^ w) (n : Nat) :
    env_t.nth_call_yields E w env_t.create (n + 1) = true ↔ (E + 1) ∣ (n + 1) := by
  have hlt : n % (E + 1) < E + 1 := Nat.mod_lt _ (Nat.succ_pos E)
  have hsmall : (n % (E + 1) + 1) % 2 ^ w = n % (E + 1) + 1 :=
    Nat.mod_eq_of_lt (by omega)
  simp only [env_t.nth_call_yields, env_t.maybe_yield, after_calls_counter E w h n, hsmall]
  rw [Nat.dvd_iff_mod_eq_zero, Nat.add_mod n 1 (E + 1)]
  by_cases hc : n % (E + 1) + 1 > E
  · rw [if_pos hc]
    have he : n % (E + 1) = E := by omega
    rw [he]
    simp
  · rw [if_neg hc]
    have h1 : 1 % (E + 1) = 1 := Nat.mod_eq_of_lt (by omega)
    rw [h1, Nat.mod_eq_of_lt (by omega : n % (E + 1) + 1 < E + 1)]
    simp

/-- C32: starting from a fresh `env_t`, whose counter is 0, the `n`-th call of
`maybe_yield` (calls counted from 1) yields exactly when `n` is a multiple of
`EVALS_BEFORE_YIELD + 1`; after every call `evals_since_yield` lies between 0 and
`EVALS_BEFORE_YIELD`; and among any `EVALS_BEFORE_YIELD + 1` consecutive calls one
yields, so at most `EVALS_BEFORE_YIELD` calls pass between two yields. The
counter's type holds `EVALS_BEFORE_YIELD + 1`. -/
theorem maybe_yield_period (EVALS_BEFORE_YIELD w : Nat)
    (h : EVALS_BEFORE_YIELD + 1 < 2 ^ w) (n : Nat) (hn : 0 < n) :
    (env_t.nth_call_yields EVALS_BEFORE_YIELD w env_t.create n = true ↔
      (EVALS_BEFORE_YIELD + 1) ∣ n) ∧
    0 ≤ (env_t.after_calls EVALS_BEFORE_YIELD w n env_t.create).evals_since_yield ∧
    (env_t.after_calls EVALS_BEFORE_YIELD w n env_t.create).evals_since_yield ≤
      EVALS_BEFORE_YIELD ∧
    ∃ k, k ≤ EVALS_BEFORE_YIELD ∧
      env_t.nth_call_yields EVALS_BEFORE_YIELD w env_t.create (n + k) = true := by
  obtain ⟨m, rfl⟩ : ∃ m, n = m + 1 := ⟨n - 1, by omega⟩
  refine ⟨nth_call_yields_succ _ w h m, Nat.zero_le _, ?_, ?_⟩
  · rw [after_calls_counter _ w h]
    exact Nat.lt_succ_iff.mp (Nat.mod_lt (m + 1) (Nat.succ_pos EVALS_BEFORE_YIELD))
  · have hlt : m % (EVALS_BEFORE_YIELD + 1) < EVALS_BEFORE_YIELD + 1 :=
      Nat.mod_lt m (Nat.succ_pos EVALS_BEFORE_YIELD)
    refine ⟨EVALS_BEFORE_YIELD - m % (EVALS_BEFORE_YIELD + 1), Nat.sub_le _ _, ?_⟩
    have hform : m + 1 + (EVALS_BEFORE_YIELD - m % (EVALS_BEFORE_YIELD + 1)) =
        (m + (EVALS_BEFORE_YIELD - m % (EVALS_BEFORE_YIELD + 1))) + 1 := by omega
    rw [hform, nth_call_yields_succ _ w h]
    have hdiv := Nat.div_add_mod m (EVALS_BEFORE_YIELD + 1)
    refine ⟨m / (EVALS_BEFORE_YIELD + 1) + 1, ?_⟩
    rw [Nat.mul_add, Nat.mul_one]
    omega

/-- Witness of C32: with `EVALS_BEFORE_YIELD = 2` and an 8-bit counter, the third
call yields. -/
theorem maybe_yield_period_witness :
    2 + 1 < 2 ^ 8 ∧ 0 < 3 ∧
    ((env_t.nth_call_yields 2 8 env_t.create 3 = true ↔ (2 + 1) ∣ 3) ∧
    0 ≤ (env_t.after_calls 2 8 3 env_t.create).evals_since_yield ∧
    (env_t.after_calls 2 8 3 env_t.create).evals_since_yield ≤ 2 ∧
    ∃ k, k ≤ 2 ∧ env_t.nth_call_yields 2 8 env_t.create (3 + k) = true) :=
  ⟨by decide, by decide, maybe_yield_period 2 8 (by decide) 3 (by decide)⟩

end ql

/-! ## The keys of the global optargs (C33) -/

namespace ql

section optarg_keys

variable {Term wire_func_t ε : Type}

/-- What the loop returns holds the keys it started with and the keys of the
entries it visited, keeps the entries it started with, and maps the key of
every entry it visited to the function built from the entry's term. -/
theorem loop_result (r : minidriver_t Term wire_func_t ε) (l : List (String × Term)) :
    ∀ (optargs result : List (String × wire_func_t)),
      global_optargs_loop r l optargs = Except.ok result →
      (∀ k, (std_map.find result k).isSome = true ↔
        ((std_map.find optargs k).isSome = true ∨ k ∈ l.map Prod.fst)) ∧
      (∀ k v, std_map.find optargs k = some v → std_map.find result k = some v) ∧
      (∀ ap ∈ l, ∃ f, construct_optarg_wire_func r ap.2 = Except.ok f ∧
        std_map.find result ap.1 = some f) := by
  induction l with
  | nil =>
    intro optargs result h
    cases h
    exact ⟨fun k => by simp, fun k v hv => hv, fun ap hap => absurd hap (List.not_mem_nil _)⟩
  | cons ap rest ih =>
    intro optargs result h
    unfold global_optargs_loop at h
    cases hc : construct_optarg_wire_func r ap.2 with
    | error e =>
      rw [hc] at h
      cases h
    | ok f =>
      rw [hc] at h
      simp only at h
      split_ifs at h with hdup
      have hnone : std_map.find optargs ap.1 = none := by
        cases hf : std_map.find optargs ap.1 with
        | none => rfl
        | some x => rw [hf] at hdup; exact absurd rfl hdup
      obtain ⟨hkeys, hkeep, hvis⟩ := ih _ result h
      refine ⟨?_, ?_, ?_⟩
      · intro k
        rw [hkeys k, isSome_find_insert optargs ap.1 k f (by simpa using hdup)]
        simp only [List.map_cons, List.mem_cons]
        tauto
      · intro k v hv
        apply hkeep
        have hk : k ≠ ap.1 := by
          intro hk
          rw [hk, hnone] at hv
          cases hv
        rw [std_map.find_insert_other optargs ap.1 k f hk]
        exact hv
      · intro ap' hap'
        rcases List.mem_cons.mp hap' with h1 | h1
        · subst h1
          exact ⟨f, hc, hkeep _ f (std_map.find_insert_absent optargs _ f hnone)⟩
        · exact hvis ap' h1

end optarg_keys

/-- C33: when `global_optargs` succeeds, the keys of the returned map are exactly
the keys of the query's global optargs together with "db"; every optarg of the
query, a "db" optarg among them, is kept: its key is mapped to the function
built from its term; and when the query supplies no "db" optarg the "db" entry
is the function built from the term for the default database "test". -/
theorem global_optargs_keys {Term wire_func_t ε : Type}
    (r : minidriver_t Term wire_func_t ε) (q : Query Term)
    (optargs : List (String × wire_func_t))
    (h : global_optargs r q = Except.ok optargs) :
    (∀ k, (std_map.find optargs k).isSome = true ↔
      (k ∈ q.global_optargs.map Prod.fst ∨ k = "db")) ∧
    (∀ ap ∈ q.global_optargs, ∃ f, construct_optarg_wire_func r ap.2 = Except.ok f ∧
      std_map.find optargs ap.1 = some f) ∧
    ("db" ∉ q.global_optargs.map Prod.fst →
      ∃ t f, r.preprocess_term q.query = Except.ok t ∧
        construct_optarg_wire_func r (r.db_test t) = Except.ok f ∧
        std_map.find optargs "db" = some f) := by
  unfold global_optargs at h
  cases hp : r.preprocess_term q.query with
  | error e =>
    rw [hp] at h
    cases h
  | ok t =>
    rw [hp] at h
    simp only at h
    cases hl : global_optargs_loop r q.global_optargs [] with
    | error e =>
      rw [hl] at h
      cases h
    | ok result =>
      rw [hl] at h
      simp only at h
      obtain ⟨hkeys, _, hvis⟩ := loop_result r q.global_optargs [] result hl
      have hquery : ∀ k, (std_map.find result k).isSome = true ↔
          k ∈ q.global_optargs.map Prod.fst := by
        intro k
        rw [hkeys k]
        simp [std_map.find]
      split_ifs at h with hdb
      · cases h
        refine ⟨?_, hvis, ?_⟩
        · intro k
          rw [hquery k]
          constructor
          · exact Or.inl
          · rintro (hk | hk)
            · exact hk
            · rw [hk]
              exact (hquery "db").mp hdb
        · intro hno
          exact absurd ((hquery "db").mp hdb) hno
      · cases hc : construct_optarg_wire_func r (r.db_test t) with
        | error e =>
          rw [hc] at h
          cases h
        | ok f =>
          rw [hc] at h
          cases h
          refine ⟨?_, ?_, ?_⟩
          · intro k
            by_cases hk : k = "db"
            · rw [hk, std_map.find_assign_same]
              simp
            · rw [std_map.find_assign_other _ _ _ _ hk, hquery k]
              simp [hk]
          · intro ap hap
            obtain ⟨g, hg, hfind⟩ := hvis ap hap
            refine ⟨g, hg, ?_⟩
            have hk : ap.1 ≠ "db" := by
              intro hk
              rw [hk] at hfind
              rw [hfind] at hdb
              exact hdb rfl
            rw [std_map.find_assign_other _ _ _ _ hk]
            exact hfind
          · intro _
            exact ⟨t, f, rfl, hc, std_map.find_assign_same _ _ _⟩

/-- Witness of C33: a query with the global optargs "a" and "db"; terms are
numbers, the function built from a term is the term plus 100, and the term of
the default database is 999. The map holds "a" and the "db" of the query. -/
theorem global_optargs_keys_witness :
    global_optargs (⟨fun t => Except.ok t, fun t => t, fun t => Except.ok (t + 100),
        fun _ => 999⟩ : minidriver_t Nat Nat Unit) ⟨0, [("db", 1), ("a", 2)]⟩ =
      Except.ok [("a", 102), ("db", 101)] ∧
    ((∀ k, (std_map.find [("a", 102), ("db", 101)] k).isSome = true ↔
      (k ∈ ([("db", 1), ("a", 2)] : List (String × Nat)).map Prod.fst ∨ k = "db")) ∧
    (∀ ap ∈ ([("db", 1), ("a", 2)] : List (String × Nat)),
      ∃ f, construct_optarg_wire_func (⟨fun t => Except.ok t, fun t => t,
          fun t => Except.ok (t + 100), fun _ => 999⟩ : minidriver_t Nat Nat Unit) ap.2 =
          Except.ok f ∧
        std_map.find [("a", 102), ("db", 101)] ap.1 = some f) ∧
    ("db" ∉ ([("db", 1), ("a", 2)] : List (String × Nat)).map Prod.fst →
      ∃ t f, (Except.ok 0 : Except Unit Nat) = Except.ok t ∧
        construct_optarg_wire_func (⟨fun t => Except.ok t, fun t => t,
          fun t => Except.ok (t + 100), fun _ => 999⟩ : minidriver_t Nat Nat Unit) 999 =
          Except.ok f ∧
        std_map.find [("a", 102), ("db", 101)] "db" = some f)) :=
  ⟨by
      simp [global_optargs, global_optargs_loop, construct_optarg_wire_func, std_map.find,
        std_map.insert, std_map.assign]
      decide,
    global_optargs_keys (⟨fun t => Except.ok t, fun t => t,
      fun t => Except.ok (t + 100), fun _ => 999⟩ : minidriver_t Nat Nat Unit)
    ⟨0, [("db", 1), ("a", 2)]⟩ [("a", 102), ("db", 101)] (by
      simp [global_optargs, global_optargs_loop, construct_optarg_wire_func, std_map.find,
        std_map.insert, std_map.assign]
      decide)⟩

end ql

/-! ## The key order of the atoms of a region (C34) -/

namespace unittest

section ascending

variable {K : Type} [LinearOrder K]

/-- The atoms sent for one region: the entries of the range that the region holds
and that are newer than the start timestamp, in the order of the range. -/
theorem sent_atoms_region (hasher : K → Nat) (e : hash_region_t K × state_timestamp_t)
    (T : List (K × (repli_timestamp_t × counted_t datum_t))) :
    sent_atoms ((send_backfill_range e.1 T).flatMap
        (entry_chunks hasher e.1 e.2.to_repli_timestamp)) =
      ((send_backfill_range e.1 T).filter (fun it =>
        region_contains_key hasher e.1 it.1 && decide (e.2.to_repli_timestamp < it.2.1))).map
        (fun it => (⟨it.1, it.2.2, it.2.1⟩ : backfill_atom_t K)) := by
  unfold sent_atoms
  rw [List.flatMap_assoc]
  induction send_backfill_range e.1 T with
  | nil => rfl
  | cons it l ih =>
    rw [List.flatMap_cons, ih, List.filter_cons]
    unfold entry_chunks
    split_ifs with h
    · simp
    · simp

/-- The atoms sent for one region of an ordered table have strictly ascending
keys. -/
theorem region_atoms_ascending (hasher : K → Nat) (e : hash_region_t K × state_timestamp_t)
    (T : List (K × (repli_timestamp_t × counted_t datum_t))) (hT : std_map.ordered T) :
    (sent_atoms ((send_backfill_range e.1 T).flatMap
        (entry_chunks hasher e.1 e.2.to_repli_timestamp))).Pairwise
      (fun a b => a.key < b.key) := by
  rw [sent_atoms_region, List.pairwise_map]
  exact List.Pairwise.sublist
    (List.Sublist.trans (List.filter_sublist _) (send_backfill_range_sublist e.1 T)) hT

theorem sent_atoms_of_start {κ : Type} {p l : List (backfill_chunk_t κ)} (h : p <+: l) :
    sent_atoms p <+: sent_atoms l := by
  obtain ⟨t, rfl⟩ := h
  unfold sent_atoms
  rw [List.flatMap_append]
  exact List.prefix_append _ _

/-- The first part of a list made of one block for each element splits into the
first parts of the blocks. -/
theorem prefix_flatMap_split {α β : Type} (g : α → List β) (rs : List α) :
    ∀ p : List β, p <+: rs.flatMap g →
      ∃ blocks : List (List β), p = blocks.flatten ∧
        List.Forall₂ (fun block r => block <+: g r) blocks rs := by
  induction rs with
  | nil =>
    intro p hp
    refine ⟨[], ?_, List.Forall₂.nil⟩
    simpa using hp
  | cons r rs ih =>
    intro p hp
    rw [List.flatMap_cons] at hp
    obtain ⟨t, ht⟩ := hp
    rcases List.append_eq_append_iff.mp ht with ⟨a', h1, h2⟩ | ⟨c', h1, h2⟩
    · obtain ⟨blocks, hb, hall⟩ := ih [] List.nil_prefix
      refine ⟨p :: blocks, ?_, List.Forall₂.cons ⟨a', h1.symm⟩ hall⟩
      rw [List.flatten_cons, ← hb, List.append_nil]
    · obtain ⟨blocks, hb, hall⟩ := ih c' ⟨t, h2.symm⟩
      refine ⟨g r :: blocks, ?_, List.Forall₂.cons (List.prefix_refl _) hall⟩
      rw [List.flatten_cons, ← hb, h1]

end ascending

/-- C34: within each region of `start_point`, `send_backfill` sends its atoms in
strictly ascending key order. The chunks of a run, among writers that change the
store at every blocking point and however the run ends, are one block for each
region of `start_point`, in the order of the regions; the block of a region is
the first part of the chunks computed for that region from the table at snapshot
time, all of them when the run returns true; and the keys of the atoms of each
block are strictly ascending. The table is a `std::map`: its keys are ordered. -/
theorem send_backfill_ascending {K : Type} [LinearOrder K] [OrderBot K]
    (hasher : K → Nat) (start_point : region_map_t K state_timestamp_t)
    (cb : send_backfill_callback_t K)
    (f : frame K datum_t
      (List (backfill_chunk_t K) × List (mock_store_t K datum_t → mock_store_t K datum_t)))
    (hout : f.out.1 = []) (hT : std_map.ordered (store_after_wait f).table_) :
    ∃ blocks : List (List (backfill_chunk_t K)),
      (mock_store_t.send_backfill_at blocking_point_among_writers nap_among_writers
        send_chunk_among_writers hasher start_point cb f).2.out.1 = blocks.flatten ∧
      List.Forall₂ (fun block r_it =>
          block <+: (send_backfill_range r_it.1 (store_after_wait f).table_).flatMap
            (entry_chunks hasher r_it.1 r_it.2.to_repli_timestamp) ∧
          ((mock_store_t.send_backfill_at blocking_point_among_writers nap_among_writers
              send_chunk_among_writers hasher start_point cb f).1 = exit_t.returned true →
            block = (send_backfill_range r_it.1 (store_after_wait f).table_).flatMap
              (entry_chunks hasher r_it.1 r_it.2.to_repli_timestamp)) ∧
          (sent_atoms block).Pairwise (fun a b => a.key < b.key))
        blocks start_point.regions_and_values := by
  have hasc : ∀ (r_it : hash_region_t K × state_timestamp_t)
      (block : List (backfill_chunk_t K)),
      block <+: (send_backfill_range r_it.1 (store_after_wait f).table_).flatMap
        (entry_chunks hasher r_it.1 r_it.2.to_repli_timestamp) →
      (sent_atoms block).Pairwise (fun a b => a.key < b.key) :=
    fun r_it block hb => List.Pairwise.sublist (sent_atoms_of_start hb).sublist
      (region_atoms_ascending hasher r_it _ hT)
  have hpost := exit_post_of_hoare
    (among_send_backfill False hasher start_point cb (store_after_wait f).table_
      (store_after_wait f).metainfo_) f ⟨⟨rfl, rfl⟩, hout, fun h => h.elim⟩
  by_cases hr : (mock_store_t.send_backfill_at blocking_point_among_writers
      nap_among_writers send_chunk_among_writers hasher start_point cb f).1 =
        exit_t.returned true
  · refine ⟨start_point.regions_and_values.map (fun r_it =>
      (send_backfill_range r_it.1 (store_after_wait f).table_).flatMap
        (entry_chunks hasher r_it.1 r_it.2.to_repli_timestamp)), ?_, ?_⟩
    · have h := (hpost.1 true hr).2
      rw [if_pos rfl] at h
      rw [h]
      unfold backfill_chunks
      rw [List.flatMap_def]
    · rw [List.forall₂_map_left_iff]
      exact List.forall₂_same.mpr (fun r_it _ =>
        ⟨List.prefix_refl _, fun _ => rfl, hasc r_it _ (List.prefix_refl _)⟩)
  · have hpre : (mock_store_t.send_backfill_at blocking_point_among_writers
        nap_among_writers send_chunk_among_writers hasher start_point cb f).2.out.1 <+:
        backfill_chunks hasher start_point (store_after_wait f).table_ := by
      refine hoare_any
        (among_send_backfill False hasher start_point cb (store_after_wait f).table_
          (store_after_wait f).metainfo_)
        (R := fun s => s.out.1 <+: backfill_chunks hasher start_point
          (store_after_wait f).table_) ?_ ?_ ?_ f ⟨⟨rfl, rfl⟩, hout, fun h => h.elim⟩
      · rintro b s ⟨_, h⟩
        rw [h]
        cases b
        · exact List.nil_prefix
        · exact List.prefix_refl _
      · rintro s ⟨_, h, _⟩
        exact h
      · intro s h
        exact h.elim
    obtain ⟨blocks, hb, hall⟩ := prefix_flatMap_split
      (fun (r_it : hash_region_t K × state_timestamp_t) =>
        (send_backfill_range r_it.1 (store_after_wait f).table_).flatMap
          (entry_chunks hasher r_it.1 r_it.2.to_repli_timestamp))
      start_point.regions_and_values _ hpre
    exact ⟨blocks, hb, List.Forall₂.imp
      (fun {block} {r_it} h => ⟨h, fun h' => absurd h' hr, hasc r_it block h⟩) hall⟩

/-- Witness of C34: the table holds the keys 1 and 2, both newer than the start
timestamp of the one region; there are no writers. -/
theorem send_backfill_ascending_witness :
    ∃ blocks : List (List (backfill_chunk_t Nat)),
      (mock_store_t.send_backfill_at blocking_point_among_writers nap_among_writers
        send_chunk_among_writers (fun k => k % 8)
        (⟨[(⟨0, 8, ⟨0, none⟩⟩, ⟨3⟩)]⟩ : region_map_t Nat state_timestamp_t)
        ⟨fun _ => true⟩
        ⟨⟨[(1, (5, some (datum_t.R_STR "a"))), (2, (6, some (datum_t.R_STR "b")))], ⟨[]⟩,
          [0, 3, 1]⟩, ⟨true⟩, none, ([], [])⟩).2.out.1 = blocks.flatten ∧
      List.Forall₂ (fun block r_it =>
          block <+: (send_backfill_range r_it.1
              [(1, (5, some (datum_t.R_STR "a"))), (2, (6, some (datum_t.R_STR "b")))]).flatMap
            (entry_chunks (fun k => k % 8) r_it.1 r_it.2.to_repli_timestamp) ∧
          ((mock_store_t.send_backfill_at blocking_point_among_writers nap_among_writers
              send_chunk_among_writers (fun k => k % 8)
              (⟨[(⟨0, 8, ⟨0, none⟩⟩, ⟨3⟩)]⟩ : region_map_t Nat state_timestamp_t)
              ⟨fun _ => true⟩
              ⟨⟨[(1, (5, some (datum_t.R_STR "a"))), (2, (6, some (datum_t.R_STR "b")))],
                ⟨[]⟩, [0, 3, 1]⟩, ⟨true⟩, none, ([], [])⟩).1 = exit_t.returned true →
            block = (send_backfill_range r_it.1
                [(1, (5, some (datum_t.R_STR "a"))),
                  (2, (6, some (datum_t.R_STR "b")))]).flatMap
              (entry_chunks (fun k => k % 8) r_it.1 r_it.2.to_repli_timestamp)) ∧
          (sent_atoms block).Pairwise (fun a b => a.key < b.key))
        blocks [(⟨0, 8, ⟨0, none⟩⟩, (⟨3⟩ : state_timestamp_t))] :=
  send_backfill_ascending (fun k => k % 8)
    (⟨[(⟨0, 8, ⟨0, none⟩⟩, ⟨3⟩)]⟩ : region_map_t Nat state_timestamp_t) ⟨fun _ => true⟩
    ⟨⟨[(1, (5, some (datum_t.R_STR "a"))), (2, (6, some (datum_t.R_STR "b")))], ⟨[]⟩,
      [0, 3, 1]⟩, ⟨true⟩, none, ([], [])⟩ rfl (by simp [std_map.ordered, store_after_wait])

end unittest

/-! ## What `reset_data` erases (C35) -/

namespace unittest

section reset_lemmas

variable {K : Type} [LinearOrder K]

theorem contains_key_of_region_contains_key (hasher : K → Nat) (r : hash_region_t K) (k : K)
    (h : region_contains_key hasher r k = true) : r.inner.contains_key k = true := by
  unfold region_contains_key region_contains_point at h
  simp only [Bool.and_eq_true] at h
  exact h.2

theorem reset_data_loop_sublist (hasher : K → Nat) (subregion : hash_region_t K)
    (l : List (K × (repli_timestamp_t × counted_t datum_t))) :
    (reset_data_loop hasher subregion l).Sublist l := by
  induction l with
  | nil => exact List.Sublist.refl _
  | cons jt it ih =>
    unfold reset_data_loop
    split_ifs
    · exact List.Sublist.cons _ ih
    · exact List.Sublist.cons₂ _ ih
    · exact List.Sublist.refl _

/-- On ordered entries with keys not below the left bound, the loop leaves the
entries whose key the subregion does not hold. -/
theorem mem_reset_data_loop (hasher : K → Nat) (subregion : hash_region_t K)
    (l : List (K × (repli_timestamp_t × counted_t datum_t))) (hl : std_map.ordered l)
    (hleft : ∀ e ∈ l, subregion.inner.left ≤ e.1)
    (e : K × (repli_timestamp_t × counted_t datum_t)) :
    e ∈ reset_data_loop hasher subregion l ↔
      e ∈ l ∧ region_contains_key hasher subregion e.1 = false := by
  induction l with
  | nil => simp [reset_data_loop]
  | cons jt it ih =>
    unfold std_map.ordered at hl ih
    rw [List.pairwise_cons] at hl
    have ih' := ih hl.2 (fun e he => hleft e (List.mem_cons_of_mem _ he))
    unfold reset_data_loop
    split_ifs with hc hr
    · rw [ih', List.mem_cons]
      constructor
      · rintro ⟨h1, h2⟩
        exact ⟨Or.inr h1, h2⟩
      · rintro ⟨h1 | h1, h2⟩
        · rw [h1, hr] at h2
          cases h2
        · exact ⟨h1, h2⟩
    · rw [List.mem_cons, ih', List.mem_cons]
      constructor
      · rintro (h1 | ⟨h1, h2⟩)
        · exact ⟨Or.inl h1, by rw [h1]; simpa using hr⟩
        · exact ⟨Or.inr h1, h2⟩
      · rintro ⟨h1 | h1, h2⟩
        · exact Or.inl h1
        · exact Or.inr ⟨h1, h2⟩
    · constructor
      · intro h1
        refine ⟨h1, ?_⟩
        cases hrc : region_contains_key hasher subregion e.1 with
        | false => rfl
        | true =>
          exfalso
          have hck := contains_key_of_region_contains_key hasher subregion e.1 hrc
          rcases List.mem_cons.mp h1 with h3 | h3
          · rw [h3] at hck
            exact hc hck
          · apply hc
            rw [contains_key_iff] at hck ⊢
            refine ⟨hleft jt (List.mem_cons_self _ _), fun y hy => ?_⟩
            exact lt_trans (hl.1 e h3) (hck.2 y hy)
      · exact fun h1 => h1.1

/-- The table `reset_data` leaves: the entries of the table whose key the
subregion does not hold. -/
theorem mem_reset_table (hasher : K → Nat) (subregion : hash_region_t K)
    (T : List (K × (repli_timestamp_t × counted_t datum_t))) (hT : std_map.ordered T)
    (e : K × (repli_timestamp_t × counted_t datum_t)) :
    e ∈ T.takeWhile (fun e => decide (e.1 < subregion.inner.left)) ++
        reset_data_loop hasher subregion (std_map.lower_bound T subregion.inner.left) ↔
      e ∈ T ∧ region_contains_key hasher subregion e.1 = false := by
  have hlow : std_map.ordered (std_map.lower_bound T subregion.inner.left) :=
    std_map.ordered_of_sublist (List.dropWhile_sublist _) hT
  rw [List.mem_append, mem_reset_data_loop hasher subregion
    (std_map.lower_bound T subregion.inner.left) hlow
    (fun e he => ((std_map.mem_lower_bound hT _ e).mp he).2)]
  have hsplit : e ∈ T ↔ e ∈ T.takeWhile (fun e => decide (e.1 < subregion.inner.left)) ∨
      e ∈ std_map.lower_bound T subregion.inner.left := by
    unfold std_map.lower_bound
    rw [← List.mem_append, List.takeWhile_append_dropWhile]
  have hbelow : e ∈ T.takeWhile (fun e => decide (e.1 < subregion.inner.left)) →
      region_contains_key hasher subregion e.1 = false := by
    intro he
    have hlt : e.1 < subregion.inner.left := by
      simpa using List.mem_takeWhile_imp he
    cases hrc : region_contains_key hasher subregion e.1 with
    | false => rfl
    | true =>
      have hck := contains_key_of_region_contains_key hasher subregion e.1 hrc
      rw [contains_key_iff] at hck
      exact absurd hlt (not_lt.mpr hck.1)
  rw [hsplit]
  constructor
  · rintro (h | ⟨h1, h2⟩)
    · exact ⟨Or.inl h, hbelow h⟩
    · exact ⟨Or.inr h1, h2⟩
  · rintro ⟨h1 | h1, h2⟩
    · exact Or.inl h1
    · exact Or.inr ⟨h1, h2⟩

theorem reset_table_sublist (hasher : K → Nat) (subregion : hash_region_t K)
    (T : List (K × (repli_timestamp_t × counted_t datum_t))) :
    (T.takeWhile (fun e => decide (e.1 < subregion.inner.left)) ++
      reset_data_loop hasher subregion (std_map.lower_bound T subregion.inner.left)).Sublist
      T := by
  have h := List.Sublist.append (List.Sublist.refl
      (T.takeWhile (fun e => decide (e.1 < subregion.inner.left))))
    (reset_data_loop_sublist hasher subregion (std_map.lower_bound T subregion.inner.left))
  unfold std_map.lower_bound at h ⊢
  rwa [List.takeWhile_append_dropWhile] at h

/-- What `find` gives in the table `reset_data` leaves. -/
theorem find_reset_table (hasher : K → Nat) (subregion : hash_region_t K)
    (T : List (K × (repli_timestamp_t × counted_t datum_t))) (hT : std_map.ordered T)
    (k : K) :
    std_map.find (T.takeWhile (fun e => decide (e.1 < subregion.inner.left)) ++
        reset_data_loop hasher subregion (std_map.lower_bound T subregion.inner.left)) k =
      if region_contains_key hasher subregion k = true then none else std_map.find T k := by
  have hord := std_map.ordered_of_sublist (reset_table_sublist hasher subregion T) hT
  cases hnew : std_map.find (T.takeWhile (fun e => decide (e.1 < subregion.inner.left)) ++
      reset_data_loop hasher subregion (std_map.lower_bound T subregion.inner.left)) k with
  | some v =>
    have hm := (mem_reset_table hasher subregion T hT (k, v)).mp (std_map.mem_of_find hnew)
    have hrc : ¬ region_contains_key hasher subregion k = true := by
      simpa using hm.2
    rw [if_neg hrc, std_map.find_of_mem hT hm.1]
  | none =>
    split_ifs with hrc
    · rfl
    · cases hold : std_map.find T k with
      | none => rfl
      | some v =>
        have hm := (mem_reset_table hasher subregion T hT (k, v)).mpr
          ⟨std_map.mem_of_find hold, by simpa using hrc⟩
        rw [std_map.find_of_mem hord hm] at hnew
        cases hnew

/-- The three ways a call of `reset_data` goes, by the interruptor. -/
theorem reset_data_apply (hasher : K → Nat) (subregion : hash_region_t K)
    (f : frame K datum_t Unit) :
    mock_store_t.reset_data hasher subregion f =
      match f.interruptor with
      | some 0 => (exit_t.interrupted_exc_t, { f with token := ⟨false⟩ })
      | i =>
        (exit_t.returned (),
          { self := { f.self with table_ :=
              (f.self.table_.takeWhile (fun e => decide (e.1 < subregion.inner.left)) ++
                reset_data_loop hasher subregion
                  (std_map.lower_bound f.self.table_ subregion.inner.left)) }
            token := ⟨false⟩
            interruptor := i.map Nat.pred
            out := f.out }) := by
  obtain ⟨self, token, i, out⟩ := f
  unfold mock_store_t.reset_data
  simp only [coro_bind_apply, coro_t.bind, coro_t.bind_step, new_write_token_pair,
    with_destruction_sentinel, wait_interruptible, blocking_point]
  rcases i with _ | _ | n <;> rfl

end reset_lemmas

/-- C35: after `reset_data(subregion)` a key is in the table if and only if it was
in the table before and the subregion does not hold it, by key range and hash
range; the entries of the keys that remain, and the metainfo, are unchanged.
The call returns unless the interruptor is pulsed at its token wait, and then
nothing has been erased. The table is a `std::map`: its keys are ordered. -/
theorem reset_data_erases_subregion {K : Type} [LinearOrder K] (hasher : K → Nat)
    (subregion : hash_region_t K) (f : frame K datum_t Unit)
    (hT : std_map.ordered f.self.table_) :
    (f.interruptor ≠ some 0 →
      (mock_store_t.reset_data hasher subregion f).1 = exit_t.returned ()) ∧
    ((mock_store_t.reset_data hasher subregion f).1 = exit_t.returned () →
      (∀ k, (std_map.find (mock_store_t.reset_data hasher subregion f).2.self.table_ k).isSome
          = true ↔
        ((std_map.find f.self.table_ k).isSome = true ∧
          region_contains_key hasher subregion k = false)) ∧
      (∀ k, region_contains_key hasher subregion k = false →
        std_map.find (mock_store_t.reset_data hasher subregion f).2.self.table_ k =
          std_map.find f.self.table_ k) ∧
      (mock_store_t.reset_data hasher subregion f).2.self.metainfo_ = f.self.metainfo_) ∧
    ((mock_store_t.reset_data hasher subregion f).1 ≠ exit_t.returned () →
      (mock_store_t.reset_data hasher subregion f).2.self.table_ = f.self.table_ ∧
      (mock_store_t.reset_data hasher subregion f).2.self.metainfo_ = f.self.metainfo_) := by
  rw [reset_data_apply]
  rcases hi : f.interruptor with _ | _ | n
  · refine ⟨fun _ => rfl, fun _ => ⟨fun k => ?_, fun k hk => ?_, rfl⟩, fun h => absurd rfl h⟩
    · show (std_map.find (_ ++ _) k).isSome = true ↔ _
      rw [find_reset_table hasher subregion _ hT k]
      cases region_contains_key hasher subregion k <;> simp
    · show std_map.find (_ ++ _) k = _
      rw [find_reset_table hasher subregion _ hT k, hk]
      simp
  · refine ⟨fun h => absurd rfl h, ?_, fun _ => ⟨rfl, rfl⟩⟩
    intro h
    cases h
  · refine ⟨fun _ => rfl, fun _ => ⟨fun k => ?_, fun k hk => ?_, rfl⟩, fun h => absurd rfl h⟩
    · show (std_map.find (_ ++ _) k).isSome = true ↔ _
      rw [find_reset_table hasher subregion _ hT k]
      cases region_contains_key hasher subregion k <;> simp
    · show std_map.find (_ ++ _) k = _
      rw [find_reset_table hasher subregion _ hT k, hk]
      simp

/-- Witness of C35: the table holds the keys 1, 2 and 9; the subregion is the
hash band from 0 to 2 of the keys from 1 to 5, and the hash of a key is the
key modulo 8: key 1 is erased, key 2 is outside by its hash and key 9 by the
key range. -/
theorem reset_data_erases_subregion_witness :
    (mock_store_t.reset_data (fun k => k % 8) (⟨0, 2, ⟨1, some 5⟩⟩ : hash_region_t Nat)
      ⟨⟨[(1, (5, some (datum_t.R_STR "a"))), (2, (6, some (datum_t.R_STR "b"))),
        (9, (7, some (datum_t.R_STR "c")))], ⟨[]⟩, []⟩, ⟨false⟩, none, ()⟩).2.self.table_ =
      [(2, (6, some (datum_t.R_STR "b"))), (9, (7, some (datum_t.R_STR "c")))] ∧
    (mock_store_t.reset_data (fun k => k % 8) (⟨0, 2, ⟨1, some 5⟩⟩ : hash_region_t Nat)
      ⟨⟨[(1, (5, some (datum_t.R_STR "a"))), (2, (6, some (datum_t.R_STR "b"))),
        (9, (7, some (datum_t.R_STR "c")))], ⟨[]⟩, []⟩, ⟨false⟩, none, ()⟩).1 =
      exit_t.returned () :=
  ⟨rfl,
    (reset_data_erases_subregion (fun k => k % 8) (⟨0, 2, ⟨1, some 5⟩⟩ : hash_region_t Nat)
      ⟨⟨[(1, (5, some (datum_t.R_STR "a"))), (2, (6, some (datum_t.R_STR "b"))),
        (9, (7, some (datum_t.R_STR "c")))], ⟨[]⟩, []⟩, ⟨false⟩, none, ()⟩
      (by simp [std_map.ordered])).1 (by decide)⟩

end unittest

/-! ## What a point read returns (C36) -/

namespace unittest

/-- C36: a point read of a key that is absent from the table returns the null
datum `R_NULL`, for which `mock_parse_read_response` returns the empty string; a
point read of a key that is present returns the stored datum; and a read,
however it ends, changes neither the table nor the metainfo. A read that is not
interrupted and whose metainfo check passes returns. -/
theorem read_returns_stored {K : Type} [LinearOrder K] (chk : metainfo_checker_t K)
    (pr : point_read_t K) (f : frame K datum_t read_response_t) :
    ((mock_store_t.read chk (read_t.point_read pr) f).1 = exit_t.returned () →
      (std_map.find f.self.table_ pr.key = none →
        (mock_store_t.read chk (read_t.point_read pr) f).2.out.response =
          read_response_variant_t.point_read_response ⟨some datum_t.R_NULL⟩ ∧
        mock_parse_read_response (mock_store_t.read chk (read_t.point_read pr) f).2.out =
          some "") ∧
      (∀ it, std_map.find f.self.table_ pr.key = some it →
        (mock_store_t.read chk (read_t.point_read pr) f).2.out.response =
          read_response_variant_t.point_read_response ⟨it.2⟩)) ∧
    ((mock_store_t.read chk (read_t.point_read pr) f).2.self.table_ = f.self.table_ ∧
      (mock_store_t.read chk (read_t.point_read pr) f).2.self.metainfo_ = f.self.metainfo_) ∧
    (f.interruptor = none →
      chk.check_metainfo (f.self.metainfo_.mask chk.get_domain) = true →
      (mock_store_t.read chk (read_t.point_read pr) f).1 = exit_t.returned ()) := by
  refine ⟨?_, ?_, ?_⟩
  · intro hret
    obtain ⟨pr', hpr, hout⟩ := (exit_post_of_hoare
      (read_response_triple chk (read_t.point_read pr) f.self.table_) f rfl).1 () hret
    cases hpr
    refine ⟨fun hnone => ?_, fun it hit => ?_⟩
    · rw [hnone] at hout
      rw [hout]
      exact ⟨rfl, rfl⟩
    · rw [hit] at hout
      rw [hout]
  · exact hoare_any (read_triple chk (read_t.point_read pr) f.self.table_ f.self.metainfo_)
      (R := fun s => s.self.table_ = f.self.table_ ∧ s.self.metainfo_ = f.self.metainfo_)
      (fun _ _ h => h) (fun _ h => h) (fun _ h => h) f ⟨rfl, rfl⟩
  · intro hq hc
    rw [read_point_quiet chk pr f hq hc]

/-- Witness of C36: the table holds key 1 only; the read of key 2 returns, with
the null datum. -/
theorem read_returns_stored_witness :
    (mock_store_t.read (⟨hash_region_t.universe, fun _ => true⟩ : metainfo_checker_t Nat)
      (read_t.point_read ⟨2⟩)
      ⟨⟨[(1, (5, some (datum_t.R_STR "a")))], ⟨[]⟩, [0, 3, 1]⟩, ⟨true⟩, none,
        ⟨0, read_response_variant_t.other_response⟩⟩).2.out.response =
      read_response_variant_t.point_read_response ⟨some datum_t.R_NULL⟩ ∧
    mock_parse_read_response
      (mock_store_t.read (⟨hash_region_t.universe, fun _ => true⟩ : metainfo_checker_t Nat)
        (read_t.point_read ⟨2⟩)
        ⟨⟨[(1, (5, some (datum_t.R_STR "a")))], ⟨[]⟩, [0, 3, 1]⟩, ⟨true⟩, none,
          ⟨0, read_response_variant_t.other_response⟩⟩).2.out = some "" :=
  (read_returns_stored (⟨hash_region_t.universe, fun _ => true⟩ : metainfo_checker_t Nat)
    ⟨2⟩ ⟨⟨[(1, (5, some (datum_t.R_STR "a")))], ⟨[]⟩, [0, 3, 1]⟩, ⟨true⟩, none,
      ⟨0, read_response_variant_t.other_response⟩⟩).1
    ((read_returns_stored (⟨hash_region_t.universe, fun _ => true⟩ : metainfo_checker_t Nat)
      ⟨2⟩ ⟨⟨[(1, (5, some (datum_t.R_STR "a")))], ⟨[]⟩, [0, 3, 1]⟩, ⟨true⟩, none,
        ⟨0, read_response_variant_t.other_response⟩⟩).2.2 rfl rfl) |>.1 rfl

end unittest

/-! ## The first error of `rdb_deserialize` (C37) -/

namespace ql

section first_error

variable {S D double : Type}

theorem stream_after_cons (a : archive_result_t × read_stream_t)
    (t : List (archive_result_t × read_stream_t)) (s : read_stream_t) :
    stream_after (a :: t) s = stream_after t a.2 := by
  unfold stream_after
  cases t with
  | nil => rfl
  | cons b t =>
    rw [List.getLast?_cons_cons]
    cases h : (b :: t).getLast? with
    | none => simp at h
    | some x => rfl

theorem bad_eq_false_iff (res : archive_result_t) :
    bad res = false ↔ res = archive_result_t.SUCCESS := by
  unfold bad
  simp

/-- The loop and its reads: the loop returns SUCCESS after two successful reads
for each round; any other result is that of its last read, before which every
read succeeded; and the stream it leaves is the one its last read left. -/
theorem rdb_deserialize_loop_reads_spec {T : Type} [LinearOrder (counted_t D)]
    (A : archives_t S D double)
    (grouped : read_stream_t → T → archive_result_t × T × read_stream_t) (T0 : T) :
    ∀ (n : Nat) (s : read_stream_t) (m : List (counted_t D × T)),
      (grouped_t.rdb_deserialize_loop A grouped T0 n s m).2.2 =
        stream_after (grouped_t.rdb_deserialize_loop_reads A grouped T0 n s) s ∧
      ((grouped_t.rdb_deserialize_loop A grouped T0 n s m).1 = archive_result_t.SUCCESS →
        (∀ x ∈ grouped_t.rdb_deserialize_loop_reads A grouped T0 n s,
          x.1 = archive_result_t.SUCCESS) ∧
        (grouped_t.rdb_deserialize_loop_reads A grouped T0 n s).length = 2 * n) ∧
      ((grouped_t.rdb_deserialize_loop A grouped T0 n s m).1 ≠ archive_result_t.SUCCESS →
        ∃ pre last, grouped_t.rdb_deserialize_loop_reads A grouped T0 n s = pre ++ [last] ∧
          (∀ x ∈ pre, x.1 = archive_result_t.SUCCESS) ∧
          last.1 = (grouped_t.rdb_deserialize_loop A grouped T0 n s m).1) := by
  intro n
  induction n with
  | zero =>
    intro s m
    refine ⟨rfl, fun _ => ⟨fun x hx => absurd hx (List.not_mem_nil _), rfl⟩,
      fun h => absurd rfl h⟩
  | succ n ih =>
    intro s m
    unfold grouped_t.rdb_deserialize_loop grouped_t.rdb_deserialize_loop_reads
    by_cases h1 : bad (deserialize_grouped_datum A s none).1 = true
    · simp only [h1, if_true]
      have hne : (deserialize_grouped_datum A s none).1 ≠ archive_result_t.SUCCESS := by
        simpa [bad] using h1
      refine ⟨rfl, fun h => absurd h hne, fun _ => ⟨[], _, rfl, ?_, rfl⟩⟩
      exact fun x hx => absurd hx (List.not_mem_nil _)
    · have h1s : (deserialize_grouped_datum A s none).1 = archive_result_t.SUCCESS :=
        (bad_eq_false_iff _).mp (by simpa using h1)
      simp only [h1, if_false, Bool.false_eq_true]
      by_cases h2 : bad (grouped (deserialize_grouped_datum A s none).2.2 T0).1 = true
      · simp only [h2, if_true]
        have hne : (grouped (deserialize_grouped_datum A s none).2.2 T0).1 ≠
            archive_result_t.SUCCESS := by
          simpa [bad] using h2
        refine ⟨rfl, fun h => absurd h hne, fun _ => ⟨[_], _, rfl, ?_, rfl⟩⟩
        intro x hx
        rw [List.mem_singleton] at hx
        rw [hx]
        exact h1s
      · have h2s : (grouped (deserialize_grouped_datum A s none).2.2 T0).1 =
            archive_result_t.SUCCESS :=
          (bad_eq_false_iff _).mp (by simpa using h2)
        simp only [h2, if_false, Bool.false_eq_true]
        obtain ⟨hs, hok, hbad⟩ := ih (grouped (deserialize_grouped_datum A s none).2.2 T0).2.2
          (std_map.insert m (deserialize_grouped_datum A s none).2.1
            (grouped (deserialize_grouped_datum A s none).2.2 T0).2.1)
        refine ⟨?_, fun h => ?_, fun h => ?_⟩
        · rw [stream_after_cons, stream_after_cons]
          exact hs
        · obtain ⟨hall, hlen⟩ := hok h
          refine ⟨?_, ?_⟩
          · intro x hx
            rcases List.mem_cons.mp hx with hx | hx
            · rw [hx]
              exact h1s
            rcases List.mem_cons.mp hx with hx | hx
            · rw [hx]
              exact h2s
            · exact hall x hx
          · simp only [List.length_cons, hlen]
            omega
        · obtain ⟨pre, last, hreads, hall, hlast⟩ := hbad h
          refine ⟨_ :: _ :: pre, last, by rw [hreads]; rfl, ?_, hlast⟩
          intro x hx
          rcases List.mem_cons.mp hx with hx | hx
          · rw [hx]
            exact h1s
          rcases List.mem_cons.mp hx with hx | hx
          · rw [hx]
            exact h2s
          · exact hall x hx

end first_error

/-- C37: `grouped_t::rdb_deserialize`, called on an empty map, returns. It returns
SUCCESS only if the read of the size prefix and the read of every key and of
every value succeeded, two reads for each of the `sz` entries after the one of
the prefix. Otherwise it returns the first error met and reads no further:
every read before its last read succeeded, the result is the error of the last
read, or RANGE_ERROR after a size prefix read successfully, and the stream is
left as the last read left it. It returns RANGE_ERROR when the size prefix
exceeds `size_max`, the largest `size_t`. -/
theorem rdb_deserialize_first_error {S D double T : Type} [LinearOrder (counted_t D)]
    (A : archives_t S D double)
    (grouped : read_stream_t → T → archive_result_t × T × read_stream_t) (T0 : T)
    (size_max : Nat) (s : read_stream_t) :
    ∃ res g rest,
      grouped_t.rdb_deserialize A grouped T0 size_max s ⟨[]⟩ = some (res, g, rest) ∧
      rest = stream_after (grouped_t.rdb_deserialize_reads A grouped T0 size_max s) s ∧
      (res = archive_result_t.SUCCESS →
        (∀ x ∈ grouped_t.rdb_deserialize_reads A grouped T0 size_max s,
          x.1 = archive_result_t.SUCCESS) ∧
        (grouped_t.rdb_deserialize_reads A grouped T0 size_max s).length =
          1 + 2 * (A.varint_uint64.deserialize s 0).2.1 ∧
        (A.varint_uint64.deserialize s 0).2.1 ≤ size_max) ∧
      (res ≠ archive_result_t.SUCCESS →
        ∃ pre last, grouped_t.rdb_deserialize_reads A grouped T0 size_max s = pre ++ [last] ∧
          (∀ x ∈ pre, x.1 = archive_result_t.SUCCESS) ∧
          (last.1 = res ∨
            (pre = [] ∧ last.1 = archive_result_t.SUCCESS ∧
              (A.varint_uint64.deserialize s 0).2.1 > size_max ∧
              res = archive_result_t.RANGE_ERROR))) ∧
      ((A.varint_uint64.deserialize s 0).1 = archive_result_t.SUCCESS →
        (A.varint_uint64.deserialize s 0).2.1 > size_max →
        res = archive_result_t.RANGE_ERROR ∧ g.m = [] ∧
          rest = (A.varint_uint64.deserialize s 0).2.2) := by
  unfold grouped_t.rdb_deserialize grouped_t.rdb_deserialize_reads
  simp only [List.isEmpty_nil, if_true]
  by_cases h1 : bad (A.varint_uint64.deserialize s 0).1 = true
  · simp only [h1, if_true]
    have hne : (A.varint_uint64.deserialize s 0).1 ≠ archive_result_t.SUCCESS := by
      simpa [bad] using h1
    refine ⟨_, _, _, rfl, rfl, fun h => absurd h hne,
      fun _ => ⟨[], _, rfl, fun x hx => absurd hx (List.not_mem_nil _), Or.inl rfl⟩,
      fun h => absurd h hne⟩
  · have h1s : (A.varint_uint64.deserialize s 0).1 = archive_result_t.SUCCESS :=
      (bad_eq_false_iff _).mp (by simpa using h1)
    simp only [h1, if_false, Bool.false_eq_true]
    by_cases h2 : (A.varint_uint64.deserialize s 0).2.1 > size_max
    · simp only [if_pos h2]
      refine ⟨_, _, _, rfl, rfl, fun h => absurd h (by decide),
        fun _ => ⟨[], _, rfl, fun x hx => absurd hx (List.not_mem_nil _),
          Or.inr ⟨rfl, h1s, h2, rfl⟩⟩,
        fun _ _ => ⟨rfl, rfl, rfl⟩⟩
    · simp only [if_neg h2]
      obtain ⟨hs, hok, hbad⟩ := rdb_deserialize_loop_reads_spec A grouped T0
        (A.varint_uint64.deserialize s 0).2.1 (A.varint_uint64.deserialize s 0).2.2 []
      refine ⟨_, _, _, rfl, ?_, fun h => ?_, fun h => ?_, fun _ h => absurd h h2⟩
      · rw [stream_after_cons]
        exact hs
      · obtain ⟨hall, hlen⟩ := hok h
        refine ⟨?_, ?_, not_lt.mp h2⟩
        · intro x hx
          rcases List.mem_cons.mp hx with hx | hx
          · rw [hx]
            exact h1s
          · exact hall x hx
        · simp only [List.length_cons, hlen]
          omega
      · obtain ⟨pre, last, hreads, hall, hlast⟩ := hbad h
        refine ⟨_ :: pre, last, by rw [hreads]; rfl, ?_, Or.inl hlast⟩
        intro x hx
        rcases List.mem_cons.mp hx with hx | hx
        · rw [hx]
          exact h1s
        · exact hall x hx

/-- Witness of C37: a stream of cells that announces two entries of a map of
counts and ends in the second entry. -/
theorem rdb_deserialize_first_error_witness :
    ∃ res g rest,
      @grouped_t.rdb_deserialize Nat Nat Nat Nat
        (inferInstanceAs (LinearOrder (WithBot Nat))) cell_archives
        (deserialize_grouped_uint64 cell_archives) 0 (2 ^ 32 - 1) [2, 1, 6, 7, 1] ⟨[]⟩ =
        some (res, g, rest) ∧
      rest = stream_after (grouped_t.rdb_deserialize_reads cell_archives
        (deserialize_grouped_uint64 cell_archives) 0 (2 ^ 32 - 1) [2, 1, 6, 7, 1])
        [2, 1, 6, 7, 1] ∧
      (res = archive_result_t.SUCCESS →
        (∀ x ∈ grouped_t.rdb_deserialize_reads cell_archives
            (deserialize_grouped_uint64 cell_archives) 0 (2 ^ 32 - 1) [2, 1, 6, 7, 1],
          x.1 = archive_result_t.SUCCESS) ∧
        (grouped_t.rdb_deserialize_reads cell_archives
            (deserialize_grouped_uint64 cell_archives) 0 (2 ^ 32 - 1)
            [2, 1, 6, 7, 1]).length =
          1 + 2 * (cell_archives.varint_uint64.deserialize [2, 1, 6, 7, 1] 0).2.1 ∧
        (cell_archives.varint_uint64.deserialize [2, 1, 6, 7, 1] 0).2.1 ≤ 2 ^ 32 - 1) ∧
      (res ≠ archive_result_t.SUCCESS →
        ∃ pre last, grouped_t.rdb_deserialize_reads cell_archives
            (deserialize_grouped_uint64 cell_archives) 0 (2 ^ 32 - 1) [2, 1, 6, 7, 1] =
            pre ++ [last] ∧
          (∀ x ∈ pre, x.1 = archive_result_t.SUCCESS) ∧
          (last.1 = res ∨
            (pre = [] ∧ last.1 = archive_result_t.SUCCESS ∧
              (cell_archives.varint_uint64.deserialize [2, 1, 6, 7, 1] 0).2.1 > 2 ^ 32 - 1 ∧
              res = archive_result_t.RANGE_ERROR))) ∧
      ((cell_archives.varint_uint64.deserialize [2, 1, 6, 7, 1] 0).1 =
          archive_result_t.SUCCESS →
        (cell_archives.varint_uint64.deserialize [2, 1, 6, 7, 1] 0).2.1 > 2 ^ 32 - 1 →
        res = archive_result_t.RANGE_ERROR ∧ g.m = [] ∧
          rest = (cell_archives.varint_uint64.deserialize [2, 1, 6, 7, 1] 0).2.2) :=
  @rdb_deserialize_first_error Nat Nat Nat Nat (inferInstanceAs (LinearOrder (WithBot Nat)))
    cell_archives (deserialize_grouped_uint64 cell_archives) 0 (2 ^ 32 - 1) [2, 1, 6, 7, 1]

end ql

/-! ## The round trip of `optimizer_t` (C38) -/

namespace ql

/-- C38: for every `optimizer_t` `o` in which `row` and `val` are both present or
both absent, `serialize_grouped(o)` writes its bytes, and `deserialize_grouped`
of these bytes into a default-constructed `optimizer_t` succeeds, consumes the
bytes and yields `row` and `val` equal to those of `o`. When the flag read from
the stream says that the row is absent, as it does in the bytes of an `o`
without a row, `deserialize_grouped` succeeds and leaves `row` and `val` of the
target as they were. -/
theorem optimizer_round_trip {S D double : Type} (A : archives_t S D double)
    (hA : A.round_trip) (o : optimizer_t D) (rest : List Nat) :
    (o.row.has = o.val.has →
      ∃ bytes, serialize_grouped_optimizer A o = some bytes ∧
        deserialize_grouped_optimizer A (bytes ++ rest) optimizer_t.create =
          (archive_result_t.SUCCESS, o, rest)) ∧
    (∀ (s : read_stream_t) (target : optimizer_t D),
      (A.bool_.deserialize s false).1 = archive_result_t.SUCCESS →
      (A.bool_.deserialize s false).2.1 = false →
      deserialize_grouped_optimizer A s target =
        (archive_result_t.SUCCESS, target, (A.bool_.deserialize s false).2.2)) ∧
    (o.row.has = false → ∀ target : optimizer_t D,
      ∃ bytes, serialize_grouped_optimizer A o = some bytes ∧
        deserialize_grouped_optimizer A (bytes ++ rest) target =
          (archive_result_t.SUCCESS, target, rest)) := by
  obtain ⟨hb, hd, _⟩ := hA
  have hflag : ∀ (s : read_stream_t) (target : optimizer_t D),
      (A.bool_.deserialize s false).1 = archive_result_t.SUCCESS →
      (A.bool_.deserialize s false).2.1 = false →
      deserialize_grouped_optimizer A s target =
        (archive_result_t.SUCCESS, target, (A.bool_.deserialize s false).2.2) := by
    intro s target h1 h2
    unfold deserialize_grouped_optimizer
    simp only [h1, h2, bad_SUCCESS, Bool.false_eq_true, if_false]
  have habsent : o.row.has = false → ∀ target : optimizer_t D,
      ∃ bytes, serialize_grouped_optimizer A o = some bytes ∧
        deserialize_grouped_optimizer A (bytes ++ rest) target =
          (archive_result_t.SUCCESS, target, rest) := by
    intro hrow target
    have h := hb false false rest trivial
    refine ⟨A.bool_.serialize false, ?_, ?_⟩
    · unfold serialize_grouped_optimizer
      simp only [hrow, Bool.false_eq_true, if_false]
    · rw [hflag _ target (by rw [h]) (by rw [h]), h]
  refine ⟨?_, hflag, habsent⟩
  intro hboth
  obtain ⟨row, val⟩ := o
  cases row with
  | none =>
    cases val with
    | some v => cases hboth
    | none => exact habsent rfl optimizer_t.create
  | some r =>
    cases val with
    | none => cases hboth
    | some v =>
      have h1 := hb false true (A.datum.serialize (some r) ++ A.datum.serialize (some v) ++ rest)
        trivial
      have h2 := hd (some r) (A.datum.serialize (some v) ++ rest) rfl
      have h3 := hd (some v) rest rfl
      refine ⟨_, rfl, ?_⟩
      unfold deserialize_grouped_optimizer optimizer_t.create
      simp only [counted_t.has, Option.isSome_some, List.append_assoc] at h1 h2 h3 ⊢
      simp only [h1, h2, h3, bad_SUCCESS, Bool.false_eq_true, if_false, if_true]

/-- Witness of C38: with one cell for each value, the tracker of row 4 with value
7 is read back from its bytes, followed by the cell 9, into a default-constructed
tracker. -/
theorem optimizer_round_trip_witness :
    ∃ bytes, serialize_grouped_optimizer cell_archives (⟨some 4, some 7⟩ : optimizer_t Nat) =
        some bytes ∧
      deserialize_grouped_optimizer cell_archives (bytes ++ [9]) optimizer_t.create =
        (archive_result_t.SUCCESS, ⟨some 4, some 7⟩, [9]) :=
  (optimizer_round_trip cell_archives cell_archives_round_trip
    (⟨some 4, some 7⟩ : optimizer_t Nat) [9]).1 rfl

end ql

/-! ## What `parse_json_pb` returns (C39) -/

namespace json_shim

namespace parse

section results

variable {α β : Type}

theorem bind_returned_iff (r : result_t α) (g : α → result_t β) :
    (∃ b, r.bind g = result_t.returned b) ↔
      ∃ a, r = result_t.returned a ∧ ∃ b, g a = result_t.returned b := by
  cases r with
  | returned a =>
    constructor
    · rintro ⟨b, hb⟩
      exact ⟨a, rfl, b, hb⟩
    · rintro ⟨a', ha', b, hb⟩
      cases ha'
      exact ⟨b, hb⟩
  | raised e =>
    constructor
    · rintro ⟨b, hb⟩
      cases hb
    · rintro ⟨a', ha', _⟩
      cases ha'
  | undefined =>
    constructor
    · rintro ⟨b, hb⟩
      cases hb
    · rintro ⟨a', ha', _⟩
      cases ha'

/-- A step whose return does not depend on where it writes, after another step. -/
theorem bind_returned_of_uniform (r : result_t α) (g : α → result_t β) (P : Prop)
    (hg : ∀ a, (∃ b, g a = result_t.returned b) ↔ P) :
    (∃ b, r.bind g = result_t.returned b) ↔ (∃ a, r = result_t.returned a) ∧ P := by
  rw [bind_returned_iff]
  constructor
  · rintro ⟨a, ha, hb⟩
    exact ⟨⟨a, ha⟩, (hg a).mp hb⟩
  · rintro ⟨⟨a, ha⟩, hP⟩
    exact ⟨a, ha, (hg a).mpr hP⟩

theorem bind_undefined_iff (r : result_t α) (g : α → result_t β) :
    r.bind g = result_t.undefined ↔
      r = result_t.undefined ∨ ∃ a, r = result_t.returned a ∧ g a = result_t.undefined := by
  cases r with
  | returned a =>
    constructor
    · intro h
      exact Or.inr ⟨a, rfl, h⟩
    · rintro (h | ⟨a', ha', h⟩)
      · cases h
      · cases ha'
        exact h
  | raised e =>
    constructor
    · intro h
      cases h
    · rintro (h | ⟨a', ha', _⟩)
      · cases h
      · cases ha'
  | undefined =>
    constructor
    · intro _
      exact Or.inl rfl
    · intro _
      rfl

/-- A call that neither returns nor has undefined behaviour raises. -/
theorem raised_of_not (r : result_t α) (h1 : ¬ ∃ a, r = result_t.returned a)
    (h2 : r ≠ result_t.undefined) : ∃ e, r = result_t.raised e := by
  cases r with
  | returned a => exact absurd ⟨a, rfl⟩ h1
  | raised e => exact ⟨e, rfl⟩
  | undefined => exact absurd rfl h2

end results

section sizes

variable {double : Type}

theorem size_pos (c : cJSON double) : 1 ≤ c.size := by
  cases c <;> simp only [cJSON.size] <;> omega

theorem size_items_elements (l : List (cJSON double)) :
    size_items (l.map (fun c => ((none : Option String), c))) = size_elements l := by
  induction l with
  | nil => simp [size_items, size_elements]
  | cons c rest ih => simp [size_items, size_elements, ih]

theorem size_items_members (l : List (String × cJSON double)) :
    size_items (l.map (fun c => (some c.1, c.2))) = size_members l := by
  induction l with
  | nil => simp [size_items, size_members]
  | cons c rest ih => simp [size_items, size_members, ih]

theorem size_items_child_items (arr : cJSON double) :
    size_items arr.child_items < arr.size := by
  cases arr with
  | cJSON_Array child =>
    simp only [cJSON.child_items, cJSON.size, size_items_elements]
    omega
  | cJSON_Object child =>
    simp only [cJSON.child_items, cJSON.size, size_items_members]
    omega
  | _ => simp [cJSON.child_items, cJSON.size, size_items]

theorem size_le_size_items (items : List (Option String × cJSON double))
    (el : Option String × cJSON double) (h : el ∈ items) : el.2.size ≤ size_items items := by
  induction items with
  | nil => cases h
  | cons x rest ih =>
    rcases List.mem_cons.mp h with hx | hx
    · subst hx
      simp only [size_items]
      omega
    · have := ih hx
      simp only [size_items]
      omega

theorem size_le_size_members (l : List (String × cJSON double)) (c : String × cJSON double)
    (h : c ∈ l) : c.2.size ≤ size_members l := by
  induction l with
  | nil => cases h
  | cons x rest ih =>
    rcases List.mem_cons.mp h with hx | hx
    · subst hx
      simp only [size_members]
      omega
    · have := ih hx
      simp only [size_members]
      omega

/-- The item `cJSON_GetObjectItem` gives lies below the object. -/
theorem size_GetObjectItem (json arr : cJSON double) (name : String)
    (h : cJSON_GetObjectItem json name = some arr) : arr.size < json.size := by
  cases json with
  | cJSON_Object child =>
    simp only [cJSON_GetObjectItem, Option.map_eq_some'] at h
    obtain ⟨c, hc, rfl⟩ := h
    have := size_le_size_members child c (List.mem_of_find?_eq_some hc)
    simp only [cJSON.size]
    omega
  | _ => simp [cJSON_GetObjectItem] at h

/-- An element of a list field lies below the item that has the field. -/
theorem size_element (json arr : cJSON double) (name : String)
    (h : cJSON_GetObjectItem json name = some arr) (el : Option String × cJSON double)
    (hel : el ∈ arr.child_items) : el.2.size < json.size := by
  have h1 := size_GetObjectItem json arr name h
  have h2 := size_items_child_items arr
  have h3 := size_le_size_items _ el hel
  omega

end sizes

end parse

end json_shim

namespace json_shim

namespace parse

section steps

variable {double : Type} [DecidableEq double]

theorem extractor_number_returned (sc : static_cast_t double) (cast : double → Int)
    (field : cJSON double) :
    (∃ t, extractor_number sc cast field = result_t.returned t) ↔
      number_fits sc cast field := by
  unfold extractor_number number_fits
  cases field with
  | cJSON_Number d =>
    simp only [cJSON.cJSON_Number.injEq, exists_eq_left', ne_eq, ite_not]
    split_ifs with h
    · exact ⟨fun _ => h, fun _ => ⟨_, rfl⟩⟩
    · constructor
      · rintro ⟨t, ht⟩
        cases ht
      · intro h'
        exact absurd h' h
  | cJSON_False => simp
  | cJSON_True => simp
  | cJSON_NULL => simp
  | cJSON_String s => simp
  | cJSON_Array c => simp
  | cJSON_Object c => simp

theorem extractor_number_defined (sc : static_cast_t double) (cast : double → Int)
    (field : cJSON double) : extractor_number sc cast field ≠ result_t.undefined := by
  unfold extractor_number
  cases field with
  | cJSON_Number d =>
    simp only
    split_ifs <;> exact fun h => by cases h
  | cJSON_False => exact fun h => by cases h
  | cJSON_True => exact fun h => by cases h
  | cJSON_NULL => exact fun h => by cases h
  | cJSON_String s => exact fun h => by cases h
  | cJSON_Array c => exact fun h => by cases h
  | cJSON_Object c => exact fun h => by cases h

/-- An item that is not a number, or a number that the type does not hold exactly,
makes the extractor of a number raise. -/
theorem extractor_number_raised (sc : static_cast_t double) (cast : double → Int)
    (field : cJSON double) (h : ¬ number_fits sc cast field) :
    extractor_number sc cast field = result_t.raised exc_t.create := by
  unfold extractor_number
  cases field with
  | cJSON_Number d =>
    simp only
    rw [if_pos]
    intro h'
    exact h ⟨d, rfl, h'⟩
  | cJSON_False => rfl
  | cJSON_True => rfl
  | cJSON_NULL => rfl
  | cJSON_String s => rfl
  | cJSON_Array c => rfl
  | cJSON_Object c => rfl

theorem check_array_returned {δ : Type} (arr : cJSON δ) :
    (∃ u, check_array arr = result_t.returned u) ↔ is_list arr := by
  unfold check_array is_list
  cases arr <;> simp

theorem check_array_defined {δ : Type} (arr : cJSON δ) :
    check_array arr ≠ result_t.undefined := by
  unfold check_array
  cases arr <;> exact fun h => by cases h

theorem transfer_type_Term_returned (sc : static_cast_t double) (json : cJSON double)
    (dest : Term double) :
    (∃ t, transfer_type_Term sc json dest = result_t.returned t) ↔
      ∀ item, cJSON_GetObjectItem json "t" = some item →
        number_fits sc sc.TermType item := by
  unfold transfer_type_Term
  cases cJSON_GetObjectItem json "t" with
  | none => simp
  | some item =>
    simp only [Option.some.injEq, forall_eq']
    rw [bind_returned_of_uniform _ _ True (fun a => ⟨fun _ => trivial, fun _ => ⟨_, rfl⟩⟩),
      extractor_number_returned]
    simp

theorem transfer_type_Term_defined (sc : static_cast_t double) (json : cJSON double)
    (dest : Term double) : transfer_type_Term sc json dest ≠ result_t.undefined := by
  unfold transfer_type_Term
  cases cJSON_GetObjectItem json "t" with
  | none => exact fun h => by cases h
  | some item =>
    simp only
    rw [ne_eq, bind_undefined_iff]
    rintro (h | ⟨a, _, h⟩)
    · exact extractor_number_defined sc _ item h
    · cases h

theorem transfer_args_none (sc : static_cast_t double) (json : cJSON double)
    (dest : Term double) (h : cJSON_GetObjectItem json "s" = none) :
    transfer_args sc json dest = result_t.returned dest := by
  rw [transfer_args]
  split
  · rfl
  · rename_i arr h'
    rw [h] at h'
    cases h'

theorem transfer_args_some (sc : static_cast_t double) (json : cJSON double)
    (dest : Term double) (arr : cJSON double) (h : cJSON_GetObjectItem json "s" = some arr) :
    transfer_args sc json dest =
      (check_array arr).bind (fun _ => transfer_args_loop sc arr.child_items dest) := by
  rw [transfer_args]
  split
  · rename_i h'
    rw [h] at h'
    cases h'
  · rename_i arr' h'
    rw [h] at h'
    cases h'
    rfl

theorem transfer_optargs_none (sc : static_cast_t double) (json : cJSON double)
    (dest : Term double) (h : cJSON_GetObjectItem json "o" = none) :
    transfer_optargs sc json dest = result_t.returned dest := by
  rw [transfer_optargs]
  split
  · rfl
  · rename_i arr h'
    rw [h] at h'
    cases h'

theorem transfer_optargs_some (sc : static_cast_t double) (json : cJSON double)
    (dest : Term double) (arr : cJSON double) (h : cJSON_GetObjectItem json "o" = some arr) :
    transfer_optargs sc json dest =
      (check_array arr).bind (fun _ => transfer_optargs_loop sc arr.child_items dest) := by
  rw [transfer_optargs]
  split
  · rename_i h'
    rw [h] at h'
    cases h'
  · rename_i arr' h'
    rw [h] at h'
    cases h'
    rfl

theorem extractor_Term_AssocPair_returned (sc : static_cast_t double)
    (json : Option String × cJSON double) :
    (∃ ap, extractor_Term_AssocPair sc json = result_t.returned ap) ↔
      json.1.isSome = true ∧ ∃ t, extractor_Term sc json.2 Term.Clear = result_t.returned t := by
  rw [extractor_Term_AssocPair]
  cases json.1 with
  | none => simp
  | some key =>
    simp only [Option.isSome_some, true_and]
    rw [bind_returned_of_uniform _ _ True (fun a => ⟨fun _ => trivial, fun _ => ⟨_, rfl⟩⟩)]
    simp

theorem extractor_Term_AssocPair_undefined (sc : static_cast_t double)
    (json : Option String × cJSON double) :
    extractor_Term_AssocPair sc json = result_t.undefined ↔
      json.1 = none ∨ extractor_Term sc json.2 Term.Clear = result_t.undefined := by
  rw [extractor_Term_AssocPair]
  cases json.1 with
  | none => simp
  | some key =>
    simp only [bind_undefined_iff]
    constructor
    · rintro (h | ⟨a, _, h⟩)
      · exact Or.inr h
      · cases h
    · rintro (h | h)
      · cases h
      · exact Or.inl h

/-- The loop of `transfer_args` returns when the extractor of `Term` returns on
every element. -/
theorem transfer_args_loop_returned (sc : static_cast_t double) (P : cJSON double → Prop)
    (items : List (Option String × cJSON double))
    (H : ∀ el ∈ items, ∀ t, (∃ t', extractor_Term sc el.2 t = result_t.returned t') ↔ P el.2) :
    ∀ dest, (∃ t', transfer_args_loop sc items dest = result_t.returned t') ↔
      ∀ el ∈ items, P el.2 := by
  induction items with
  | nil =>
    intro dest
    rw [transfer_args_loop]
    simp
  | cons item rest ih =>
    intro dest
    rw [transfer_args_loop, bind_returned_of_uniform _ _ (∀ el ∈ rest, P el.2)
      (fun a => ih (fun el hel => H el (List.mem_cons_of_mem _ hel)) _),
      H item (List.mem_cons_self _ _)]
    simp

theorem transfer_args_loop_defined (sc : static_cast_t double)
    (items : List (Option String × cJSON double))
    (H : ∀ el ∈ items, ∀ t, extractor_Term sc el.2 t ≠ result_t.undefined) :
    ∀ dest, transfer_args_loop sc items dest ≠ result_t.undefined := by
  induction items with
  | nil =>
    intro dest
    rw [transfer_args_loop]
    exact fun h => by cases h
  | cons item rest ih =>
    intro dest
    rw [transfer_args_loop, ne_eq, bind_undefined_iff]
    rintro (h | ⟨a, _, h⟩)
    · exact H item (List.mem_cons_self _ _) _ h
    · exact ih (fun el hel => H el (List.mem_cons_of_mem _ hel)) _ h

/-- The loop of `transfer_optargs` returns when every element has a name and the
extractor of `Term` returns on it. -/
theorem transfer_optargs_loop_returned (sc : static_cast_t double) (P : cJSON double → Prop)
    (items : List (Option String × cJSON double))
    (H : ∀ el ∈ items, ∀ t, (∃ t', extractor_Term sc el.2 t = result_t.returned t') ↔ P el.2) :
    ∀ dest, (∃ t', transfer_optargs_loop sc items dest = result_t.returned t') ↔
      ∀ el ∈ items, el.1.isSome = true ∧ P el.2 := by
  induction items with
  | nil =>
    intro dest
    rw [transfer_optargs_loop]
    simp
  | cons item rest ih =>
    intro dest
    rw [transfer_optargs_loop, bind_returned_of_uniform _ _
      (∀ el ∈ rest, el.1.isSome = true ∧ P el.2)
      (fun a => ih (fun el hel => H el (List.mem_cons_of_mem _ hel)) _),
      extractor_Term_AssocPair_returned, H item (List.mem_cons_self _ _)]
    simp

theorem transfer_optargs_loop_defined (sc : static_cast_t double)
    (items : List (Option String × cJSON double))
    (H : ∀ el ∈ items, el.1.isSome = true ∧
      ∀ t, extractor_Term sc el.2 t ≠ result_t.undefined) :
    ∀ dest, transfer_optargs_loop sc items dest ≠ result_t.undefined := by
  induction items with
  | nil =>
    intro dest
    rw [transfer_optargs_loop]
    exact fun h => by cases h
  | cons item rest ih =>
    intro dest
    rw [transfer_optargs_loop, ne_eq, bind_undefined_iff]
    rintro (h | ⟨a, _, h⟩)
    · rw [extractor_Term_AssocPair_undefined] at h
      obtain ⟨hname, hdef⟩ := H item (List.mem_cons_self _ _)
      rcases h with h | h
      · rw [h] at hname
        cases hname
      · exact hdef _ h
    · exact ih (fun el hel => H el (List.mem_cons_of_mem _ hel)) _ h

end steps

end parse

end json_shim

namespace json_shim

namespace parse

section terms

variable {double : Type} [DecidableEq double]

/-- The extractor of `Term` returns exactly on the items whose fields, as far as it
reads them, have the JSON types and values it accepts. -/
theorem extractor_Term_returned (sc : static_cast_t double) :
    ∀ (n : Nat) (json : cJSON double), json.size ≤ n → ∀ t,
      (∃ t', extractor_Term sc json t = result_t.returned t') ↔ Term_fits sc json := by
  intro n
  induction n with
  | zero =>
    intro json h
    have := size_pos json
    omega
  | succ n ih =>
    intro json hsize t
    have Hs : ∀ arr, cJSON_GetObjectItem json "s" = some arr → ∀ el ∈ arr.child_items,
        ∀ t, (∃ t', extractor_Term sc el.2 t = result_t.returned t') ↔ Term_fits sc el.2 :=
      fun arr harr el hel t => ih el.2
        (by have := size_element json arr "s" harr el hel; omega) t
    have Ho : ∀ arr, cJSON_GetObjectItem json "o" = some arr → ∀ el ∈ arr.child_items,
        ∀ t, (∃ t', extractor_Term sc el.2 t = result_t.returned t') ↔ Term_fits sc el.2 :=
      fun arr harr el hel t => ih el.2
        (by have := size_element json arr "o" harr el hel; omega) t
    have hargs : ∀ dest, (∃ t', transfer_args sc json dest = result_t.returned t') ↔
        ∀ arr, cJSON_GetObjectItem json "s" = some arr →
          is_list arr ∧ ∀ el ∈ arr.child_items, Term_fits sc el.2 := by
      intro dest
      cases hg : cJSON_GetObjectItem json "s" with
      | none =>
        rw [transfer_args_none sc json dest hg]
        simp
      | some arr =>
        rw [transfer_args_some sc json dest arr hg,
          bind_returned_of_uniform _ _ (∀ el ∈ arr.child_items, Term_fits sc el.2)
            (fun _ => transfer_args_loop_returned sc _ _ (Hs arr hg) _),
          check_array_returned]
        simp
    have hoptargs : ∀ dest, (∃ t', transfer_optargs sc json dest = result_t.returned t') ↔
        ∀ arr, cJSON_GetObjectItem json "o" = some arr →
          is_list arr ∧ ∀ el ∈ arr.child_items, el.1.isSome = true ∧ Term_fits sc el.2 := by
      intro dest
      cases hg : cJSON_GetObjectItem json "o" with
      | none =>
        rw [transfer_optargs_none sc json dest hg]
        simp
      | some arr =>
        rw [transfer_optargs_some sc json dest arr hg,
          bind_returned_of_uniform _ _
            (∀ el ∈ arr.child_items, el.1.isSome = true ∧ Term_fits sc el.2)
            (fun _ => transfer_optargs_loop_returned sc _ _ (Ho arr hg) _),
          check_array_returned]
        simp
    rw [extractor_Term, bind_returned_of_uniform _ _ _
      (fun a => (bind_returned_of_uniform _ _ _ (fun b => hoptargs b)).trans
        (and_congr_left (fun _ => hargs _))),
      transfer_type_Term_returned]
    constructor
    · rintro ⟨h1, h2, h3⟩
      exact Term_fits.intro json h1 (fun arr h => (h2 arr h).1) (fun arr h => (h2 arr h).2)
        (fun arr h => (h3 arr h).1) (fun arr h el hel => ((h3 arr h).2 el hel).1)
        (fun arr h el hel => ((h3 arr h).2 el hel).2)
    · intro h
      cases h with
      | intro _ h1 h2 h3 h4 h5 h6 =>
        exact ⟨h1, fun arr h => ⟨h2 arr h, h3 arr h⟩,
          fun arr h => ⟨h4 arr h, fun el hel => ⟨h5 arr h el hel, h6 arr h el hel⟩⟩⟩

/-- The behaviour of the extractor of `Term` is defined on the items in which every
optarg it reads has a name. -/
theorem extractor_Term_defined (sc : static_cast_t double) :
    ∀ (n : Nat) (json : cJSON double), json.size ≤ n → Term_named json → ∀ t,
      extractor_Term sc json t ≠ result_t.undefined := by
  intro n
  induction n with
  | zero =>
    intro json h
    have := size_pos json
    omega
  | succ n ih =>
    intro json hsize hnamed t
    cases hnamed with
    | intro _ hs ho1 ho2 =>
      have hargs : ∀ dest, transfer_args sc json dest ≠ result_t.undefined := by
        intro dest
        cases hg : cJSON_GetObjectItem json "s" with
        | none =>
          rw [transfer_args_none sc json dest hg]
          exact fun h => by cases h
        | some arr =>
          rw [transfer_args_some sc json dest arr hg, ne_eq, bind_undefined_iff]
          rintro (h | ⟨_, _, h⟩)
          · exact check_array_defined arr h
          · exact transfer_args_loop_defined sc _
              (fun el hel t => ih el.2
                (by have := size_element json arr "s" hg el hel; omega)
                (hs arr hg el hel) t) _ h
      have hoptargs : ∀ dest, transfer_optargs sc json dest ≠ result_t.undefined := by
        intro dest
        cases hg : cJSON_GetObjectItem json "o" with
        | none =>
          rw [transfer_optargs_none sc json dest hg]
          exact fun h => by cases h
        | some arr =>
          rw [transfer_optargs_some sc json dest arr hg, ne_eq, bind_undefined_iff]
          rintro (h | ⟨_, _, h⟩)
          · exact check_array_defined arr h
          · exact transfer_optargs_loop_defined sc _
              (fun el hel => ⟨ho1 arr hg el hel, fun t => ih el.2
                (by have := size_element json arr "o" hg el hel; omega)
                (ho2 arr hg el hel) t⟩) _ h
      rw [extractor_Term, ne_eq, bind_undefined_iff]
      rintro (h | ⟨a, _, h⟩)
      · exact transfer_type_Term_defined sc json t h
      · rw [bind_undefined_iff] at h
        rcases h with h | ⟨b, _, h⟩
        · exact hargs _ h
        · exact hoptargs _ h

end terms

end parse

end json_shim

namespace json_shim

namespace parse

section queries

variable {double : Type} [DecidableEq double]

theorem extractor_Query_AssocPair_returned (sc : static_cast_t double)
    (json : Option String × cJSON double) :
    (∃ ap, extractor_Query_AssocPair sc json = result_t.returned ap) ↔
      json.1.isSome = true ∧ Term_fits sc json.2 := by
  unfold extractor_Query_AssocPair
  cases json.1 with
  | none => simp
  | some key =>
    simp only [Option.isSome_some, true_and]
    rw [bind_returned_of_uniform _ _ True (fun a => ⟨fun _ => trivial, fun _ => ⟨_, rfl⟩⟩),
      extractor_Term_returned sc json.2.size json.2 (le_refl _)]
    simp

theorem extractor_Query_AssocPair_defined (sc : static_cast_t double)
    (json : Option String × cJSON double) (hname : json.1.isSome = true)
    (hnamed : Term_named json.2) :
    extractor_Query_AssocPair sc json ≠ result_t.undefined := by
  unfold extractor_Query_AssocPair
  cases hkey : json.1 with
  | none =>
    rw [hkey] at hname
    cases hname
  | some key =>
    simp only
    rw [ne_eq, bind_undefined_iff]
    rintro (h | ⟨a, _, h⟩)
    · exact extractor_Term_defined sc json.2.size json.2 (le_refl _) hnamed _ h
    · cases h

theorem transfer_global_optargs_loop_returned (sc : static_cast_t double)
    (items : List (Option String × cJSON double)) :
    ∀ dest, (∃ q, transfer_global_optargs_loop sc items dest = result_t.returned q) ↔
      ∀ el ∈ items, el.1.isSome = true ∧ Term_fits sc el.2 := by
  induction items with
  | nil =>
    intro dest
    simp [transfer_global_optargs_loop]
  | cons item rest ih =>
    intro dest
    unfold transfer_global_optargs_loop
    rw [bind_returned_of_uniform _ _ (∀ el ∈ rest, el.1.isSome = true ∧ Term_fits sc el.2)
      (fun a => ih _), extractor_Query_AssocPair_returned]
    simp

theorem transfer_global_optargs_loop_defined (sc : static_cast_t double)
    (items : List (Option String × cJSON double))
    (H : ∀ el ∈ items, el.1.isSome = true ∧ Term_named el.2) :
    ∀ dest, transfer_global_optargs_loop sc items dest ≠ result_t.undefined := by
  induction items with
  | nil =>
    intro dest
    unfold transfer_global_optargs_loop
    exact fun h => by cases h
  | cons item rest ih =>
    intro dest
    unfold transfer_global_optargs_loop
    rw [ne_eq, bind_undefined_iff]
    rintro (h | ⟨a, _, h⟩)
    · exact extractor_Query_AssocPair_defined sc item (H item (List.mem_cons_self _ _)).1
        (H item (List.mem_cons_self _ _)).2 h
    · exact ih (fun el hel => H el (List.mem_cons_of_mem _ hel)) _ h

/-- The loop of `transfer_global_optargs` leaves `accepts_r_json` as it is. -/
theorem transfer_global_optargs_loop_flag (sc : static_cast_t double)
    (items : List (Option String × cJSON double)) :
    ∀ dest q, transfer_global_optargs_loop sc items dest = result_t.returned q →
      q.accepts_r_json = dest.accepts_r_json := by
  induction items with
  | nil =>
    intro dest q h
    unfold transfer_global_optargs_loop at h
    cases h
    rfl
  | cons item rest ih =>
    intro dest q h
    unfold transfer_global_optargs_loop at h
    cases hap : extractor_Query_AssocPair sc item with
    | returned el =>
      rw [hap] at h
      exact ih { dest with global_optargs := dest.global_optargs ++ [el] } q h
    | raised e =>
      rw [hap] at h
      cases h
    | undefined =>
      rw [hap] at h
      cases h

theorem transfer_global_optargs_flag (sc : static_cast_t double) (json : cJSON double)
    (dest q : Query double)
    (h : transfer_global_optargs sc json dest = result_t.returned q) :
    q.accepts_r_json = dest.accepts_r_json := by
  unfold transfer_global_optargs at h
  cases hg : cJSON_GetObjectItem json "g" with
  | none =>
    rw [hg] at h
    cases h
    rfl
  | some arr =>
    rw [hg] at h
    simp only at h
    cases hc : check_array arr with
    | returned u =>
      rw [hc] at h
      exact transfer_global_optargs_loop_flag sc _ _ _ h
    | raised e =>
      rw [hc] at h
      cases h
    | undefined =>
      rw [hc] at h
      cases h

theorem transfer_type_Query_returned (sc : static_cast_t double) (json : cJSON double)
    (dest : Query double) :
    (∃ q, transfer_type_Query sc json dest = result_t.returned q) ↔
      ∀ item, cJSON_GetObjectItem json "t" = some item →
        number_fits sc sc.QueryType item := by
  unfold transfer_type_Query
  cases cJSON_GetObjectItem json "t" with
  | none => simp
  | some item =>
    simp only [Option.some.injEq, forall_eq']
    rw [bind_returned_of_uniform _ _ True (fun a => ⟨fun _ => trivial, fun _ => ⟨_, rfl⟩⟩),
      extractor_number_returned]
    simp

theorem transfer_type_Query_defined (sc : static_cast_t double) (json : cJSON double)
    (dest : Query double) : transfer_type_Query sc json dest ≠ result_t.undefined := by
  unfold transfer_type_Query
  cases cJSON_GetObjectItem json "t" with
  | none => exact fun h => by cases h
  | some item =>
    simp only
    rw [ne_eq, bind_undefined_iff]
    rintro (h | ⟨a, _, h⟩)
    · exact extractor_number_defined sc _ item h
    · cases h

/-- A `t` that is not a number, or is a number that `QueryType` does not hold
exactly, makes `transfer_type` raise. -/
theorem transfer_type_Query_raised (sc : static_cast_t double) (json : cJSON double)
    (dest : Query double) (item : cJSON double)
    (hitem : cJSON_GetObjectItem json "t" = some item)
    (h : ¬ number_fits sc sc.QueryType item) :
    transfer_type_Query sc json dest = result_t.raised exc_t.create := by
  unfold transfer_type_Query
  rw [hitem]
  simp only
  rw [extractor_number_raised sc _ item h]
  rfl

theorem transfer_token_returned (sc : static_cast_t double) (json : cJSON double)
    (dest : Query double) :
    (∃ q, transfer_token sc json dest = result_t.returned q) ↔
      ∀ item, cJSON_GetObjectItem json "k" = some item →
        number_fits sc sc.int64_t item := by
  unfold transfer_token
  cases cJSON_GetObjectItem json "k" with
  | none => simp
  | some item =>
    simp only [Option.some.injEq, forall_eq']
    rw [bind_returned_of_uniform _ _ True (fun a => ⟨fun _ => trivial, fun _ => ⟨_, rfl⟩⟩),
      extractor_number_returned]
    simp

theorem transfer_token_defined (sc : static_cast_t double) (json : cJSON double)
    (dest : Query double) : transfer_token sc json dest ≠ result_t.undefined := by
  unfold transfer_token
  cases cJSON_GetObjectItem json "k" with
  | none => exact fun h => by cases h
  | some item =>
    simp only
    rw [ne_eq, bind_undefined_iff]
    rintro (h | ⟨a, _, h⟩)
    · exact extractor_number_defined sc _ item h
    · cases h

theorem transfer_query_returned (sc : static_cast_t double) (json : cJSON double)
    (dest : Query double) :
    (∃ q, transfer_query sc json dest = result_t.returned q) ↔
      ∀ item, cJSON_GetObjectItem json "q" = some item → Term_fits sc item := by
  unfold transfer_query
  cases cJSON_GetObjectItem json "q" with
  | none => simp
  | some item =>
    simp only [Option.some.injEq, forall_eq']
    rw [bind_returned_of_uniform _ _ True (fun a => ⟨fun _ => trivial, fun _ => ⟨_, rfl⟩⟩),
      extractor_Term_returned sc item.size item (le_refl _)]
    simp

theorem transfer_query_defined (sc : static_cast_t double) (json : cJSON double)
    (dest : Query double)
    (hnamed : ∀ item, cJSON_GetObjectItem json "q" = some item → Term_named item) :
    transfer_query sc json dest ≠ result_t.undefined := by
  unfold transfer_query
  cases hg : cJSON_GetObjectItem json "q" with
  | none => exact fun h => by cases h
  | some item =>
    simp only
    rw [ne_eq, bind_undefined_iff]
    rintro (h | ⟨a, _, h⟩)
    · exact extractor_Term_defined sc item.size item (le_refl _) (hnamed item hg) _ h
    · cases h

theorem transfer_global_optargs_returned (sc : static_cast_t double) (json : cJSON double)
    (dest : Query double) :
    (∃ q, transfer_global_optargs sc json dest = result_t.returned q) ↔
      ∀ arr, cJSON_GetObjectItem json "g" = some arr →
        is_list arr ∧ ∀ el ∈ arr.child_items, el.1.isSome = true ∧ Term_fits sc el.2 := by
  unfold transfer_global_optargs
  cases cJSON_GetObjectItem json "g" with
  | none => simp
  | some arr =>
    simp only [Option.some.injEq, forall_eq']
    rw [bind_returned_of_uniform _ _
      (∀ el ∈ arr.child_items, el.1.isSome = true ∧ Term_fits sc el.2)
      (fun _ => transfer_global_optargs_loop_returned sc _ _), check_array_returned]

theorem transfer_global_optargs_defined (sc : static_cast_t double) (json : cJSON double)
    (dest : Query double)
    (hnamed : ∀ arr, cJSON_GetObjectItem json "g" = some arr →
      ∀ el ∈ arr.child_items, el.1.isSome = true ∧ Term_named el.2) :
    transfer_global_optargs sc json dest ≠ result_t.undefined := by
  unfold transfer_global_optargs
  cases hg : cJSON_GetObjectItem json "g" with
  | none => exact fun h => by cases h
  | some arr =>
    simp only
    rw [ne_eq, bind_undefined_iff]
    rintro (h | ⟨_, _, h⟩)
    · exact check_array_defined arr h
    · exact transfer_global_optargs_loop_defined sc _ (hnamed arr hg) _ h

/-- The extractor of `Query` returns exactly on the items whose fields, as far as
it reads them, have the JSON types and values it accepts. -/
theorem extractor_Query_returned (sc : static_cast_t double) (json : cJSON double)
    (q : Query double) :
    (∃ q', extractor_Query sc json q = result_t.returned q') ↔ Query_fits sc json := by
  unfold extractor_Query Query_fits
  rw [bind_returned_of_uniform _ _ _
    (fun a => (bind_returned_of_uniform _ _ _
      (fun b => (bind_returned_of_uniform _ _ _
        (fun c => transfer_global_optargs_returned sc json _)).trans
          (and_congr_left (fun _ => transfer_token_returned sc json _)))).trans
        (and_congr_left (fun _ => transfer_query_returned sc json _))),
    transfer_type_Query_returned]

theorem extractor_Query_defined (sc : static_cast_t double) (json : cJSON double)
    (q : Query double) (hnamed : Query_named json) :
    extractor_Query sc json q ≠ result_t.undefined := by
  unfold extractor_Query
  rw [ne_eq, bind_undefined_iff]
  rintro (h | ⟨a, _, h⟩)
  · exact transfer_type_Query_defined sc json q h
  · rw [bind_undefined_iff] at h
    rcases h with h | ⟨b, _, h⟩
    · exact transfer_query_defined sc json _ hnamed.1 h
    · rw [bind_undefined_iff] at h
      rcases h with h | ⟨c, _, h⟩
      · exact transfer_token_defined sc json _ h
      · exact transfer_global_optargs_defined sc json _ hnamed.2 h

/-- The query that the extractor of `Query` returns has `accepts_r_json` set. -/
theorem extractor_Query_flag (sc : static_cast_t double) (json : cJSON double)
    (q q' : Query double) (h : extractor_Query sc json q = result_t.returned q') :
    q'.accepts_r_json = some true := by
  unfold extractor_Query at h
  cases h1 : transfer_type_Query sc json q with
  | returned a =>
    rw [h1] at h
    simp only [result_t.bind] at h
    cases h2 : transfer_query sc json a with
    | returned b =>
      rw [h2] at h
      simp only at h
      cases h3 : transfer_token sc json b with
      | returned c =>
        rw [h3] at h
        simp only at h
        exact transfer_global_optargs_flag sc json _ q' h
      | raised e =>
        rw [h3] at h
        cases h
      | undefined =>
        rw [h3] at h
        cases h
    | raised e =>
      rw [h2] at h
      cases h
    | undefined =>
      rw [h2] at h
      cases h
  | raised e =>
    rw [h1] at h
    cases h
  | undefined =>
    rw [h1] at h
    cases h

end queries

end parse

end json_shim

namespace json_shim

namespace parse

/-- C39 as stated fails: the text `{"t":1.5}` is JSON, and its one field `t` is
of the JSON type number, but `parse_json_pb` does not return true: the
extractor of the number raises, because `QueryType` does not hold 1.5. -/
theorem parse_json_pb_fraction_raises :
    parse_text "\x7b\"t\":1.5\x7d" (cJSON.cJSON_Object [("t", cJSON.cJSON_Number (3 / 2))])
      "\x7b\"t\":1.5\x7d" =
      some (cJSON.cJSON_Object [("t", cJSON.cJSON_Number (3 / 2))]) ∧
    parse_json_pb
      (parse_text "\x7b\"t\":1.5\x7d" (cJSON.cJSON_Object [("t", cJSON.cJSON_Number (3 / 2))]))
      fraction_cast Query.Clear "\x7b\"t\":1.5\x7d" = result_t.raised exc_t.create := by
  refine ⟨by simp [parse_text], ?_⟩
  simp [parse_json_pb, parse_text, fraction_cast, extractor_Query, transfer_type_Query,
    cJSON_GetObjectItem, cJSON_strcasecmp, extractor_number, result_t.bind]
  norm_num [Int.tdiv]

/-- C39, amended: `parse_json_pb` returns false if and only if the text is not
parseable as JSON, and then the query is left cleared. For parseable JSON it
returns true, with `accepts_r_json` set, exactly when the fields it reads have
the JSON types and values it accepts: every `t` and `k` is a number that the type
of the field holds exactly, every `s`, `o` and `g` is an array or an object, and
every optarg has a name. Otherwise it does not return false either: when every
optarg it reads has a name it raises, and a `t` of the query that is not a number,
or is a number such as 1.5 that `QueryType` does not hold exactly, makes it
raise. -/
theorem parse_json_pb_outcome {double : Type} [DecidableEq double]
    (cJSON_Parse : String → Option (cJSON double)) (sc : static_cast_t double)
    (q : Query double) (str : String) :
    ((∃ q', parse_json_pb cJSON_Parse sc q str = result_t.returned (false, q')) ↔
      cJSON_Parse str = none) ∧
    (cJSON_Parse str = none →
      parse_json_pb cJSON_Parse sc q str = result_t.returned (false, Query.Clear)) ∧
    (∀ json, cJSON_Parse str = some json →
      ((∃ q', parse_json_pb cJSON_Parse sc q str = result_t.returned (true, q')) ↔
        Query_fits sc json) ∧
      (∀ b q', parse_json_pb cJSON_Parse sc q str = result_t.returned (b, q') →
        b = true ∧ q'.accepts_r_json = some true) ∧
      (¬ Query_fits sc json → Query_named json →
        ∃ e, parse_json_pb cJSON_Parse sc q str = result_t.raised e) ∧
      (∀ item, cJSON_GetObjectItem json "t" = some item →
        ¬ number_fits sc sc.QueryType item →
        parse_json_pb cJSON_Parse sc q str = result_t.raised exc_t.create)) := by
  have hsome : ∀ json, cJSON_Parse str = some json →
      parse_json_pb cJSON_Parse sc q str =
        (extractor_Query sc json Query.Clear).bind (fun q => result_t.returned (true, q)) := by
    intro json hjson
    unfold parse_json_pb
    rw [hjson]
  have htrue : ∀ json, cJSON_Parse str = some json → ∀ b q',
      parse_json_pb cJSON_Parse sc q str = result_t.returned (b, q') →
        b = true ∧ extractor_Query sc json Query.Clear = result_t.returned q' := by
    intro json hjson b q' h
    rw [hsome json hjson] at h
    cases hq : extractor_Query sc json Query.Clear with
    | returned a =>
      rw [hq] at h
      simp only [result_t.bind, result_t.returned.injEq, Prod.mk.injEq] at h
      exact ⟨h.1.symm, by rw [h.2]⟩
    | raised e =>
      rw [hq] at h
      cases h
    | undefined =>
      rw [hq] at h
      cases h
  refine ⟨⟨?_, ?_⟩, ?_, ?_⟩
  · rintro ⟨q', h⟩
    cases hp : cJSON_Parse str with
    | none => rfl
    | some json =>
      have := (htrue json hp false q' h).1
      cases this
  · intro hp
    refine ⟨Query.Clear, ?_⟩
    unfold parse_json_pb
    rw [hp]
  · intro hp
    unfold parse_json_pb
    rw [hp]
  · intro json hjson
    have hiff : (∃ q', parse_json_pb cJSON_Parse sc q str = result_t.returned (true, q')) ↔
        Query_fits sc json := by
      rw [← extractor_Query_returned sc json Query.Clear]
      constructor
      · rintro ⟨q', h⟩
        exact ⟨q', (htrue json hjson true q' h).2⟩
      · rintro ⟨q', h⟩
        refine ⟨q', ?_⟩
        rw [hsome json hjson, h]
        rfl
    refine ⟨hiff, ?_, ?_, ?_⟩
    · intro b q' h
      obtain ⟨hb, hq⟩ := htrue json hjson b q' h
      exact ⟨hb, extractor_Query_flag sc json _ q' hq⟩
    · intro hfits hnamed
      apply raised_of_not
      · rintro ⟨⟨b, q'⟩, h⟩
        obtain ⟨hb, _⟩ := htrue json hjson b q' h
        subst hb
        exact hfits (hiff.mp ⟨q', h⟩)
      · rw [hsome json hjson, ne_eq, bind_undefined_iff]
        rintro (h | ⟨_, _, h⟩)
        · exact extractor_Query_defined sc json _ hnamed h
        · cases h
    · intro item hitem hfit
      rw [hsome json hjson]
      unfold extractor_Query
      rw [transfer_type_Query_raised sc json _ item hitem hfit]
      rfl

/-- Witness of C39: the text `{"t":"x"}` is JSON whose `t` is a string;
`parse_json_pb` raises. -/
theorem parse_json_pb_outcome_witness :
    parse_json_pb
      (parse_text "\x7b\"t\":\"x\"\x7d"
        (cJSON.cJSON_Object [("t", cJSON.cJSON_String "x")]))
      fraction_cast Query.Clear "\x7b\"t\":\"x\"\x7d" = result_t.raised exc_t.create :=
  ((parse_json_pb_outcome
      (parse_text "\x7b\"t\":\"x\"\x7d" (cJSON.cJSON_Object [("t", cJSON.cJSON_String "x")]))
      fraction_cast Query.Clear "\x7b\"t\":\"x\"\x7d").2.2
    (cJSON.cJSON_Object [("t", cJSON.cJSON_String "x")]) (by simp [parse_text])).2.2.2
    (cJSON.cJSON_String "x") (by simp [cJSON_GetObjectItem, cJSON_strcasecmp])
    (fun h => by
      obtain ⟨d, hd, _⟩ := h
      cases hd)

end parse

end json_shim
